import Mathlib

/-! Statistics engine of the proxy (`src/nc_stats.c`).

A shallow embedding of the statistics subsystem: the three metric generations
`current`, `shadow` and `sum`, the instrumentation entry points, the
swap/aggregate protocol, the topology mapping and the serializer that renders
`sum` into the pre-sized response buffer.

Conventions of the embedding.

* `int64_t` values are integers kept in range by `wrap64` (two's complement
  wrap-around) at every arithmetic step of the source.
* A `struct string` is the list of its bytes; `array` is a list.
* Functions return `Option`: `none` stands for the process being stopped by a
  failed `ASSERT` (when assertions panic) or by an access outside an array.
* What the source takes from headers that are not part of `nc_stats.c`
  (the metric codecs, the assertion mode, the alignment, the version string,
  the compile-time switch `stats_enabled`) is collected in `Build`.
-/

namespace NcStats

/-! ## Machine integers -/

/-- Two's complement wrap-around of an integer into the `int64_t` range. -/
def wrap64 (x : Int) : Int := (x + 2 ^ 63) % 2 ^ 64 - 2 ^ 63

/-- The integer is representable as an `int64_t`. -/
def int64_ok (x : Int) : Prop := -(2 ^ 63) ≤ x ∧ x < 2 ^ 63

instance (x : Int) : Decidable (int64_ok x) := by
  unfold int64_ok; exact inferInstance

/-! ## Data model -/

/-- The `struct string` of the source: a byte sequence with its length. -/
abbrev string := List Nat

/-- The bytes of an ASCII literal, as `string_set_text` stores them. -/
def string_set_text (s : String) : string := s.toList.map Char.toNat

/-- Return status of the fallible operations. -/
inductive rstatus_t where
  | NC_OK
  | NC_ERROR
  | NC_ENOMEM
  deriving DecidableEq, Repr

/-- Kind tag of a metric. `STATS_INVALID` stands for every tag value outside
the three kinds, the one the `default:` branches of the source handle. -/
inductive stats_type_t where
  | STATS_INVALID
  | STATS_COUNTER
  | STATS_GAUGE
  | STATS_TIMESTAMP
  deriving DecidableEq, Repr

open stats_type_t rstatus_t

/-- A metric: kind, name and the `int64_t` of its value union. -/
structure stats_metric where
  type : stats_type_t
  name : string
  value : Int
  deriving DecidableEq, Repr

/-- Metrics of one upstream server. -/
structure stats_server where
  name : string
  metric : List stats_metric
  deriving DecidableEq, Repr

/-- Metrics of one pool and of its servers. -/
structure stats_pool where
  name : string
  metric : List stats_metric
  server : List stats_server
  deriving DecidableEq, Repr

/-- The response buffer. `data` is the memory starting at `buf.data`; it is
`size` bytes long as long as no write went past the allocation. -/
structure stats_buffer where
  len : Nat
  data : List Nat
  size : Nat
  deriving DecidableEq, Repr

/-- The fields of `struct stats` that `nc_stats.c` reads or writes. -/
structure stats where
  start_ts : Int
  buf : stats_buffer
  current : List stats_pool
  shadow : List stats_pool
  sum : List stats_pool
  service_str : string
  service : string
  source_str : string
  source : string
  version_str : string
  version : string
  uptime_str : string
  timestamp_str : string
  ntotal_conn_str : string
  ncurr_conn_str : string
  ncurr_conn_str_a : string
  updated : Int
  aggregate : Int
  reload_thread : Int
  pause : Int
  deriving DecidableEq, Repr

/-- A server connection of the topology; only `connected` is read. -/
structure conn where
  connected : Bool
  deriving DecidableEq, Repr

/-- An upstream server of the topology (`struct server`). `owner_idx` is
`server->owner->idx`. -/
structure server where
  idx : Nat
  owner_idx : Nat
  name : string
  s_conn_q : List conn
  deriving DecidableEq, Repr

/-- A pool of the topology (`struct server_pool`). -/
structure server_pool where
  idx : Nat
  name : string
  server : List server
  nc_conn_q : Int
  deriving DecidableEq, Repr

/-- What `nc_stats.c` takes from headers outside the file: the compile-time
switch `stats_enabled`, whether a failed `ASSERT` panics, the two codec tables
generated by `STATS_POOL_CODEC` and `STATS_SERVER_CODEC`, `NC_ALIGNMENT` and
`NC_VERSION_STRING`. -/
structure Build where
  stats_enabled : Bool
  assert_panic : Bool
  stats_pool_codec : List stats_metric
  stats_server_codec : List stats_metric
  NC_ALIGNMENT : Nat
  NC_VERSION_STRING : string

/-- Number of pool fields: the codec table has one entry per field. -/
def STATS_POOL_NFIELD (B : Build) : Nat := B.stats_pool_codec.length

/-- Number of server fields: the codec table has one entry per field. -/
def STATS_SERVER_NFIELD (B : Build) : Nat := B.stats_server_codec.length

/-- `ASSERT(c)` stops the process exactly when assertions panic and `c` fails. -/
def assert_fails (B : Build) (c : Bool) : Bool := B.assert_panic && !c

/-! ## Metric initialisation and reset -/

/-- `stats_metric_init`: zero the value; `default: NOT_REACHED()`. -/
def stats_metric_init (B : Build) (stm : stats_metric) : Option stats_metric :=
  match stm.type with
  | STATS_COUNTER => some { stm with value := 0 }
  | STATS_GAUGE => some { stm with value := 0 }
  | STATS_TIMESTAMP => some { stm with value := 0 }
  | STATS_INVALID => if assert_fails B false then none else some stm

/-- The loop of `stats_metric_reset` over the elements of a metric array. -/
def stats_metric_reset_loop (B : Build) : List stats_metric → Option (List stats_metric)
  | [] => some []
  | stm :: rest =>
    match stats_metric_init B stm with
    | none => none
    | some stm1 =>
      match stats_metric_reset_loop B rest with
      | none => none
      | some rest1 => some (stm1 :: rest1)

/-- `stats_metric_reset`: assert the array size, then initialise every metric. -/
def stats_metric_reset (B : Build) (metric : List stats_metric) :
    Option (List stats_metric) :=
  if assert_fails B (metric.length == STATS_POOL_NFIELD B
      || metric.length == STATS_SERVER_NFIELD B) then none
  else stats_metric_reset_loop B metric

/-- The inner loop of `stats_pool_reset` over the servers of a pool. -/
def stats_server_reset_loop (B : Build) : List stats_server → Option (List stats_server)
  | [] => some []
  | sts :: rest =>
    match stats_metric_reset B sts.metric with
    | none => none
    | some m =>
      match stats_server_reset_loop B rest with
      | none => none
      | some rest1 => some ({ sts with metric := m } :: rest1)

/-- `stats_pool_reset`: reset the metrics of every pool and of every server. -/
def stats_pool_reset (B : Build) : List stats_pool → Option (List stats_pool)
  | [] => some []
  | stp :: rest =>
    match stats_metric_reset B stp.metric with
    | none => none
    | some m =>
      match stats_server_reset_loop B stp.server with
      | none => none
      | some srv =>
        match stats_pool_reset B rest with
        | none => none
        | some rest1 => some ({ stp with metric := m, server := srv } :: rest1)

/-! ## Aggregation of `shadow` into `sum` -/

/-- One iteration of the loop of `stats_aggregate_metric`: fold the source
metric `stm1` into the destination metric `stm2`. -/
def stats_aggregate_one (B : Build) (stm2 stm1 : stats_metric) : Option stats_metric :=
  if assert_fails B (stm1.type == stm2.type) then none
  else
    match stm1.type with
    | STATS_COUNTER => some { stm2 with value := wrap64 (stm2.value + stm1.value) }
    | STATS_GAUGE =>
      let v := wrap64 (stm2.value + stm1.value)
      some { stm2 with value := if v ≤ 0 then 0 else v }
    | STATS_TIMESTAMP =>
      if stm1.value ≠ 0 then some { stm2 with value := stm1.value } else some stm2
    | STATS_INVALID => if assert_fails B false then none else some stm2

/-- `stats_aggregate_metric`: positional fold of `src` into `dst`. Reading
`dst` past its last element is an access outside the array. -/
def stats_aggregate_metric (B : Build) :
    List stats_metric → List stats_metric → Option (List stats_metric)
  | dst, [] => some dst
  | [], _ :: _ => none
  | stm2 :: dst, stm1 :: src =>
    match stats_aggregate_one B stm2 stm1 with
    | none => none
    | some m =>
      match stats_aggregate_metric B dst src with
      | none => none
      | some rest => some (m :: rest)

/-- The inner loop of `stats_aggregate` over the servers of one pool. -/
def stats_aggregate_server (B : Build) :
    List stats_server → List stats_server → Option (List stats_server)
  | dst, [] => some dst
  | [], _ :: _ => none
  | sts2 :: dst, sts1 :: src =>
    match stats_aggregate_metric B sts2.metric sts1.metric with
    | none => none
    | some m =>
      match stats_aggregate_server B dst src with
      | none => none
      | some rest => some ({ sts2 with metric := m } :: rest)

/-- The outer loop of `stats_aggregate` over the pools of `shadow`. -/
def stats_aggregate_pool (B : Build) :
    List stats_pool → List stats_pool → Option (List stats_pool)
  | dst, [] => some dst
  | [], _ :: _ => none
  | stp2 :: dst, stp1 :: src =>
    match stats_aggregate_metric B stp2.metric stp1.metric with
    | none => none
    | some m =>
      match stats_aggregate_server B stp2.server stp1.server with
      | none => none
      | some srv =>
        match stats_aggregate_pool B dst src with
        | none => none
        | some rest => some ({ stp2 with metric := m, server := srv } :: rest)

/-- `stats_aggregate`: skip when `aggregate == 0`, otherwise fold `shadow`
into `sum` and clear `aggregate`. -/
def stats_aggregate (B : Build) (st : stats) : Option stats :=
  if st.aggregate = 0 then some st
  else
    match stats_aggregate_pool B st.sum st.shadow with
    | none => none
    | some sum1 => some { st with sum := sum1, aggregate := 0 }

/-! ## Swap of `current` and `shadow` -/

/-- `stats_swap`. -/
def stats_swap (B : Build) (st : stats) : Option stats :=
  if !B.stats_enabled then some st
  else if st.pause ≠ 0 then some st
  else if st.aggregate = 1 then some st
  else if st.updated = 0 then some st
  else
    match stats_pool_reset B st.shadow with
    | none => none
    | some cur => some { st with current := cur, shadow := st.current, updated := 0,
                                 aggregate := 1 }

/-! ## Instrumentation entry points -/

/-- `stats_pool_to_metric`: the addressed metric of `current`, with `updated`
set. An index outside an array is an invalid access. -/
def stats_pool_to_metric (st : stats) (pool : server_pool) (fidx : Nat) :
    Option (stats × stats_metric) :=
  match st.current[pool.idx]? with
  | none => none
  | some stp =>
    match stp.metric[fidx]? with
    | none => none
    | some stm => some ({ st with updated := 1 }, stm)

/-- Store through the pointer returned by `stats_pool_to_metric`. -/
def stats_pool_store (st : stats) (pool : server_pool) (fidx : Nat) (stm : stats_metric) :
    stats :=
  match st.current[pool.idx]? with
  | none => st
  | some stp =>
    let stp1 : stats_pool := { stp with metric := stp.metric.set fidx stm }
    { st with current := st.current.set pool.idx stp1 }

/-- `stats_server_to_metric`. -/
def stats_server_to_metric (st : stats) (server : server) (fidx : Nat) :
    Option (stats × stats_metric) :=
  match st.current[server.owner_idx]? with
  | none => none
  | some stp =>
    match stp.server[server.idx]? with
    | none => none
    | some sts =>
      match sts.metric[fidx]? with
      | none => none
      | some stm => some ({ st with updated := 1 }, stm)

/-- Store through the pointer returned by `stats_server_to_metric`. -/
def stats_server_store (st : stats) (server : server) (fidx : Nat) (stm : stats_metric) :
    stats :=
  match st.current[server.owner_idx]? with
  | none => st
  | some stp =>
    match stp.server[server.idx]? with
    | none => st
    | some sts =>
      let sts1 : stats_server := { sts with metric := sts.metric.set fidx stm }
      let stp1 : stats_pool := { stp with server := stp.server.set server.idx sts1 }
      { st with current := st.current.set server.owner_idx stp1 }

/-- The kind test of the increment entry points. -/
def is_counter_or_gauge (stm : stats_metric) : Bool :=
  stm.type == STATS_COUNTER || stm.type == STATS_GAUGE

/-- `_stats_pool_incr`. -/
def _stats_pool_incr (B : Build) (st : stats) (pool : server_pool) (fidx : Nat) :
    Option stats :=
  if st.pause ≠ 0 then some st
  else
    match stats_pool_to_metric st pool fidx with
    | none => none
    | some (st1, stm) =>
      if assert_fails B (is_counter_or_gauge stm) then none
      else some (stats_pool_store st1 pool fidx { stm with value := wrap64 (stm.value + 1) })

/-- `_stats_pool_decr`. -/
def _stats_pool_decr (B : Build) (st : stats) (pool : server_pool) (fidx : Nat) :
    Option stats :=
  if st.pause ≠ 0 then some st
  else
    match stats_pool_to_metric st pool fidx with
    | none => none
    | some (st1, stm) =>
      if assert_fails B (stm.type == STATS_GAUGE) then none
      else some (stats_pool_store st1 pool fidx { stm with value := wrap64 (stm.value - 1) })

/-- `_stats_pool_incr_by`. -/
def _stats_pool_incr_by (B : Build) (st : stats) (pool : server_pool) (fidx : Nat)
    (val : Int) : Option stats :=
  if st.pause ≠ 0 then some st
  else
    match stats_pool_to_metric st pool fidx with
    | none => none
    | some (st1, stm) =>
      if assert_fails B (is_counter_or_gauge stm) then none
      else some (stats_pool_store st1 pool fidx
                  { stm with value := wrap64 (stm.value + val) })

/-- `_stats_pool_decr_by`. -/
def _stats_pool_decr_by (B : Build) (st : stats) (pool : server_pool) (fidx : Nat)
    (val : Int) : Option stats :=
  if st.pause ≠ 0 then some st
  else
    match stats_pool_to_metric st pool fidx with
    | none => none
    | some (st1, stm) =>
      if assert_fails B (stm.type == STATS_GAUGE) then none
      else some (stats_pool_store st1 pool fidx
                  { stm with value := wrap64 (stm.value - val) })

/-- `_stats_pool_set_ts`. -/
def _stats_pool_set_ts (B : Build) (st : stats) (pool : server_pool) (fidx : Nat)
    (val : Int) : Option stats :=
  if st.pause ≠ 0 then some st
  else
    match stats_pool_to_metric st pool fidx with
    | none => none
    | some (st1, stm) =>
      if assert_fails B (stm.type == STATS_TIMESTAMP) then none
      else some (stats_pool_store st1 pool fidx { stm with value := val })

/-- `_stats_server_incr`. -/
def _stats_server_incr (B : Build) (st : stats) (server : server) (fidx : Nat) :
    Option stats :=
  if st.pause ≠ 0 then some st
  else
    match stats_server_to_metric st server fidx with
    | none => none
    | some (st1, stm) =>
      if assert_fails B (is_counter_or_gauge stm) then none
      else some (stats_server_store st1 server fidx
                  { stm with value := wrap64 (stm.value + 1) })

/-- `_stats_server_decr`. -/
def _stats_server_decr (B : Build) (st : stats) (server : server) (fidx : Nat) :
    Option stats :=
  if st.pause ≠ 0 then some st
  else
    match stats_server_to_metric st server fidx with
    | none => none
    | some (st1, stm) =>
      if assert_fails B (stm.type == STATS_GAUGE) then none
      else some (stats_server_store st1 server fidx
                  { stm with value := wrap64 (stm.value - 1) })

/-- `_stats_server_incr_by`. -/
def _stats_server_incr_by (B : Build) (st : stats) (server : server) (fidx : Nat)
    (val : Int) : Option stats :=
  if st.pause ≠ 0 then some st
  else
    match stats_server_to_metric st server fidx with
    | none => none
    | some (st1, stm) =>
      if assert_fails B (is_counter_or_gauge stm) then none
      else some (stats_server_store st1 server fidx
                  { stm with value := wrap64 (stm.value + val) })

/-- `_stats_server_decr_by`. -/
def _stats_server_decr_by (B : Build) (st : stats) (server : server) (fidx : Nat)
    (val : Int) : Option stats :=
  if st.pause ≠ 0 then some st
  else
    match stats_server_to_metric st server fidx with
    | none => none
    | some (st1, stm) =>
      if assert_fails B (stm.type == STATS_GAUGE) then none
      else some (stats_server_store st1 server fidx
                  { stm with value := wrap64 (stm.value - val) })

/-- `_stats_server_set_ts`. -/
def _stats_server_set_ts (B : Build) (st : stats) (server : server) (fidx : Nat)
    (val : Int) : Option stats :=
  if st.pause ≠ 0 then some st
  else
    match stats_server_to_metric st server fidx with
    | none => none
    | some (st1, stm) =>
      if assert_fails B (stm.type == STATS_TIMESTAMP) then none
      else some (stats_server_store st1 server fidx { stm with value := val })

/-- `_stats_pool_incr_by_anyway`: no pause test. -/
def _stats_pool_incr_by_anyway (B : Build) (st : stats) (pool : server_pool) (fidx : Nat)
    (val : Int) : Option stats :=
  match stats_pool_to_metric st pool fidx with
  | none => none
  | some (st1, stm) =>
    if assert_fails B (is_counter_or_gauge stm) then none
    else some (stats_pool_store st1 pool fidx { stm with value := wrap64 (stm.value + val) })

/-- `_stats_server_incr_by_anyway`: no pause test. -/
def _stats_server_incr_by_anyway (B : Build) (st : stats) (server : server) (fidx : Nat)
    (val : Int) : Option stats :=
  match stats_server_to_metric st server fidx with
  | none => none
  | some (st1, stm) =>
    if assert_fails B (is_counter_or_gauge stm) then none
    else some (stats_server_store st1 server fidx
                { stm with value := wrap64 (stm.value + val) })

/-! ## Positions, shapes and the well-formedness of a generation -/

/-- A metric position of a generation: a field of a pool, or a field of a
server of a pool. -/
inductive field_pos where
  | pool (pidx fidx : Nat)
  | server (pidx sidx fidx : Nat)
  deriving DecidableEq, Repr

/-- The metric stored at a position, when the position exists. -/
def metric_at (g : List stats_pool) : field_pos → Option stats_metric
  | .pool pidx fidx =>
    match g[pidx]? with
    | none => none
    | some stp => stp.metric[fidx]?
  | .server pidx sidx fidx =>
    match g[pidx]? with
    | none => none
    | some stp =>
      match stp.server[sidx]? with
      | none => none
      | some sts => sts.metric[fidx]?

/-- The kinds of a metric array, in order. -/
def metric_kinds (m : List stats_metric) : List stats_type_t := m.map (fun stm => stm.type)

/-- The shape of a generation: per pool the kinds of its metrics and, per
server, the kinds of the server's metrics. -/
def gen_shape (g : List stats_pool) : List (List stats_type_t × List (List stats_type_t)) :=
  g.map (fun stp => (metric_kinds stp.metric,
                     stp.server.map (fun sts => metric_kinds sts.metric)))

/-- Every kind of the metric array is one of counter, gauge, timestamp. -/
def metric_valid (m : List stats_metric) : Bool :=
  m.all (fun stm => stm.type != STATS_INVALID)

/-- Every metric of the generation has one of the three kinds. -/
def kinds_valid (g : List stats_pool) : Bool :=
  g.all (fun stp => metric_valid stp.metric
                    && stp.server.all (fun sts => metric_valid sts.metric))

/-- The metric array passes the size assertion of `stats_metric_reset` and
holds valid kinds only. -/
def metric_ok (B : Build) (m : List stats_metric) : Bool :=
  (m.length == STATS_POOL_NFIELD B || m.length == STATS_SERVER_NFIELD B) && metric_valid m

/-- Every metric array of the generation is `metric_ok`. -/
def gen_ok (B : Build) (g : List stats_pool) : Bool :=
  g.all (fun stp => metric_ok B stp.metric
                    && stp.server.all (fun sts => metric_ok B sts.metric))

/-- The metric array with every value set to zero. -/
def zero_metric (m : List stats_metric) : List stats_metric :=
  m.map (fun stm => { stm with value := 0 })

/-- The generation with every metric value set to zero; names, kinds and
shape are kept. -/
def zero_gen (g : List stats_pool) : List stats_pool :=
  g.map (fun stp => { stp with
    metric := zero_metric stp.metric
    server := stp.server.map (fun sts => { sts with metric := zero_metric sts.metric }) })

/-- The result of folding one metric of `shadow` into one of `sum`, as a total
function (kinds are taken from the shadow metric, as the source does). -/
def fold_metric (stm2 stm1 : stats_metric) : stats_metric :=
  match stm1.type with
  | STATS_COUNTER => { stm2 with value := wrap64 (stm2.value + stm1.value) }
  | STATS_GAUGE => { stm2 with value := max 0 (wrap64 (stm2.value + stm1.value)) }
  | STATS_TIMESTAMP => { stm2 with value := if stm1.value = 0 then stm2.value else stm1.value }
  | STATS_INVALID => stm2

/-- Positional fold of the servers of one pool. -/
def fold_server (sts2 sts1 : stats_server) : stats_server :=
  { sts2 with metric := List.zipWith fold_metric sts2.metric sts1.metric }

/-- Positional fold of one pool. -/
def fold_pool (stp2 stp1 : stats_pool) : stats_pool :=
  { stp2 with
    metric := List.zipWith fold_metric stp2.metric stp1.metric
    server := List.zipWith fold_server stp2.server stp1.server }

/-! ## Sample values -/

/-- A small build: assertions panic, two pool fields, three server fields. -/
def demo_build : Build where
  stats_enabled := true
  assert_panic := true
  stats_pool_codec :=
    [⟨STATS_COUNTER, string_set_text "client_eof", 0⟩,
     ⟨STATS_GAUGE, string_set_text "client_connections", 0⟩]
  stats_server_codec :=
    [⟨STATS_COUNTER, string_set_text "requests", 0⟩,
     ⟨STATS_GAUGE, string_set_text "server_connections", 0⟩,
     ⟨STATS_TIMESTAMP, string_set_text "server_ejected_at", 0⟩]
  NC_ALIGNMENT := 8
  NC_VERSION_STRING := string_set_text "0.4.1"

/-- A generation over one pool with one server, with the given values. -/
def demo_gen (a b c d e : Int) : List stats_pool :=
  [{ name := string_set_text "p0"
     metric := [⟨STATS_COUNTER, string_set_text "client_eof", a⟩,
                ⟨STATS_GAUGE, string_set_text "client_connections", b⟩]
     server := [{ name := string_set_text "s0"
                  metric := [⟨STATS_COUNTER, string_set_text "requests", c⟩,
                             ⟨STATS_GAUGE, string_set_text "server_connections", d⟩,
                             ⟨STATS_TIMESTAMP, string_set_text "server_ejected_at", e⟩] }] }]

/-- An engine state over `demo_gen` with an empty buffer. -/
def demo_stats (cur shd sm : List stats_pool) (updated aggregate pause : Int) : stats where
  start_ts := 1000
  buf := ⟨0, [], 0⟩
  current := cur
  shadow := shd
  sum := sm
  service_str := string_set_text "service"
  service := string_set_text "nutcracker"
  source_str := string_set_text "source"
  source := string_set_text "host"
  version_str := string_set_text "version"
  version := string_set_text "0.4.1"
  uptime_str := string_set_text "uptime"
  timestamp_str := string_set_text "timestamp"
  ntotal_conn_str := string_set_text "total_connections"
  ncurr_conn_str := string_set_text "curr_connections"
  ncurr_conn_str_a := string_set_text "curr_connections_a"
  updated := updated
  aggregate := aggregate
  reload_thread := 0
  pause := pause

/-- The pool of the sample topology. -/
def demo_pool : server_pool := ⟨0, string_set_text "p0", [⟨0, 0, string_set_text "s0", []⟩], 0⟩

/-- The server of the sample topology. -/
def demo_server : server := ⟨0, 0, string_set_text "s0", []⟩

/-- The kind recorded in a shape at a position. -/
def kind_at (sh : List (List stats_type_t × List (List stats_type_t))) :
    field_pos → Option stats_type_t
  | .pool pidx fidx =>
    match sh[pidx]? with
    | none => none
    | some x => x.1[fidx]?
  | .server pidx sidx fidx =>
    match sh[pidx]? with
    | none => none
    | some x =>
      match x.2[sidx]? with
      | none => none
      | some y => y[fidx]?

/-- The names of a generation: per pool its name and the names of its servers. -/
def gen_names (g : List stats_pool) : List (string × List string) :=
  g.map (fun stp => (stp.name, stp.server.map (fun sts => sts.name)))

/-- The generation with the metric at a position replaced (the store through
the pointer returned by `stats_pool_to_metric` or `stats_server_to_metric`). -/
def put_at (g : List stats_pool) (p : field_pos) (m : stats_metric) : List stats_pool :=
  match p with
  | .pool pidx fidx =>
    match g[pidx]? with
    | none => g
    | some stp => g.set pidx { stp with metric := stp.metric.set fidx m }
  | .server pidx sidx fidx =>
    match g[pidx]? with
    | none => g
    | some stp =>
      match stp.server[sidx]? with
      | none => g
      | some sts =>
        g.set pidx { stp with server := stp.server.set sidx
                                { sts with metric := sts.metric.set fidx m } }

/-- The three generations have one shape and pass the assertions of reset. -/
def stats_wf (B : Build) (st : stats) : Prop :=
  gen_shape st.current = gen_shape st.shadow ∧ gen_shape st.shadow = gen_shape st.sum ∧
    gen_ok B st.shadow = true

instance (B : Build) (st : stats) : Decidable (stats_wf B st) := by
  unfold stats_wf; exact inferInstance

/-- A fallible step repeated `n` times. -/
def repeat_step (f : stats → Option stats) : Nat → stats → Option stats
  | 0, st => some st
  | n + 1, st =>
    match f st with
    | none => none
    | some st1 => repeat_step f n st1

/-- One flush cycle: `N` calls of an instrumentation entry point `f`, then
`stats_swap`, then `stats_aggregate`. -/
def incr_swap_aggregate (B : Build) (f : stats → Option stats) (N : Nat) (st : stats) :
    Option stats :=
  match repeat_step f N st with
  | none => none
  | some st1 =>
    match stats_swap B st1 with
    | none => none
    | some st2 => stats_aggregate B st2

/-- The metric an increment is aimed at: a field of a pool or of a server. -/
inductive incr_target where
  | pool (pool : server_pool) (fidx : Nat)
  | server (server : server) (fidx : Nat)

/-- The position in `current` that the entry points address for a target. -/
def incr_target.pos : incr_target → field_pos
  | .pool p fidx => .pool p.idx fidx
  | .server s fidx => .server s.owner_idx s.idx fidx

/-- The increment entry point for a target: `_stats_pool_incr` or
`_stats_server_incr`. -/
def stats_incr (B : Build) (t : incr_target) (st : stats) : Option stats :=
  match t with
  | .pool p fidx => _stats_pool_incr B st p fidx
  | .server s fidx => _stats_server_incr B st s fidx

/-- One flush cycle on a target: `N` increments, `stats_swap`, `stats_aggregate`. -/
def flush_cycle (B : Build) (t : incr_target) (N : Nat) (st : stats) : Option stats :=
  incr_swap_aggregate B (stats_incr B t) N st

/-! ## Topology mapping -/

/-- The allocator seen from `nc_stats.c`: the outcomes of the coming
allocations (`nc_alloc`, `array_init`), in order; `true` is success. Once the
list is used up every allocation succeeds. -/
abbrev Alloc := List Bool

/-- The outcome of the next allocation and the allocator after it. -/
def alloc_next (a : Alloc) : Bool × Alloc :=
  match a with
  | [] => (true, [])
  | b :: rest => (b, rest)

/-- `stats_pool_metric_init` and the body of `stats_server_metric_init`:
`array_init`, then one metric per codec entry, copied from the codec and
initialised by `stats_metric_init` (the loop of `stats_metric_reset` run over
the codec table). On a failed `array_init` the array stays empty. -/
def stats_codec_metric_init (B : Build) (codec : List stats_metric) (a : Alloc) :
    Option (rstatus_t × List stats_metric × Alloc) :=
  match alloc_next a with
  | (false, a1) => some (NC_ENOMEM, [], a1)
  | (true, a1) =>
    match stats_metric_reset_loop B codec with
    | none => none
    | some m => some (NC_OK, m, a1)

/-- `stats_pool_metric_init`. -/
def stats_pool_metric_init (B : Build) (a : Alloc) :
    Option (rstatus_t × List stats_metric × Alloc) :=
  stats_codec_metric_init B B.stats_pool_codec a

/-- `stats_server_metric_init`, returning the metric array of the server. -/
def stats_server_metric_init (B : Build) (a : Alloc) :
    Option (rstatus_t × List stats_metric × Alloc) :=
  stats_codec_metric_init B B.stats_server_codec a

/-- `stats_server_init`: the name is set before the metrics are allocated. -/
def stats_server_init (B : Build) (s : server) (a : Alloc) :
    Option (rstatus_t × stats_server × Alloc) :=
  match stats_server_metric_init B a with
  | none => none
  | some (status, m, a1) => some (status, { name := s.name, metric := m }, a1)

/-- The loop of `stats_server_map`: the elements pushed so far are kept when
an initialisation fails. -/
def stats_server_map_loop (B : Build) :
    List server → Alloc → Option (rstatus_t × List stats_server × Alloc)
  | [], a => some (NC_OK, [], a)
  | s :: rest, a =>
    match stats_server_init B s a with
    | none => none
    | some (NC_OK, sts, a1) =>
      match stats_server_map_loop B rest a1 with
      | none => none
      | some (status, more, a2) => some (status, sts :: more, a2)
    | some (status, sts, a1) => some (status, [sts], a1)

/-- `stats_server_map`. -/
def stats_server_map (B : Build) (server : List server) (a : Alloc) :
    Option (rstatus_t × List stats_server × Alloc) :=
  if assert_fails B (server.length != 0) then none
  else
    match alloc_next a with
    | (false, a1) => some (NC_ENOMEM, [], a1)
    | (true, a1) => stats_server_map_loop B server a1

/-- `stats_pool_init`: on a failure of `stats_server_map` the pool metrics are
released (`stats_metric_deinit`) and the servers mapped so far stay. -/
def stats_pool_init (B : Build) (sp : server_pool) (a : Alloc) :
    Option (rstatus_t × stats_pool × Alloc) :=
  match stats_pool_metric_init B a with
  | none => none
  | some (NC_OK, m, a1) =>
    match stats_server_map B sp.server a1 with
    | none => none
    | some (NC_OK, srv, a2) => some (NC_OK, { name := sp.name, metric := m, server := srv }, a2)
    | some (status, srv, a2) => some (status, { name := sp.name, metric := [], server := srv }, a2)
  | some (status, m, a1) => some (status, { name := sp.name, metric := m, server := [] }, a1)

/-- The loop of `stats_pool_map`. -/
def stats_pool_map_loop (B : Build) :
    List server_pool → Alloc → Option (rstatus_t × List stats_pool × Alloc)
  | [], a => some (NC_OK, [], a)
  | sp :: rest, a =>
    match stats_pool_init B sp a with
    | none => none
    | some (NC_OK, stp, a1) =>
      match stats_pool_map_loop B rest a1 with
      | none => none
      | some (status, more, a2) => some (status, stp :: more, a2)
    | some (status, stp, a1) => some (status, [stp], a1)

/-- `stats_pool_map`: the generation built for a topology, together with the
status. The destination array is empty when the call starts. -/
def stats_pool_map (B : Build) (server_pool : List server_pool) (a : Alloc) :
    Option (rstatus_t × List stats_pool × Alloc) :=
  if assert_fails B (server_pool.length != 0) then none
  else
    match alloc_next a with
    | (false, a1) => some (NC_ENOMEM, [], a1)
    | (true, a1) => stats_pool_map_loop B server_pool a1

/-- The generation that mirrors a topology: one pool entry per pool, in
order, with the pool's name and the zero-valued pool codec; one server entry
per server, in order, with the server's name and the zero-valued server codec. -/
def mirror_gen (B : Build) (server_pool : List server_pool) : List stats_pool :=
  server_pool.map (fun sp =>
    { name := sp.name
      metric := zero_metric B.stats_pool_codec
      server := sp.server.map (fun s =>
        { name := s.name, metric := zero_metric B.stats_server_codec }) })

/-- No pool list and no server list of the topology is empty. -/
def topology_ok (server_pool : List server_pool) : Bool :=
  server_pool.length != 0 && server_pool.all (fun sp => sp.server.length != 0)

/-! ## The response buffer -/

/-- A value reduced to `size_t` (64 bits). -/
def size_t_wrap (n : Int) : Nat := (n % 2 ^ 64).toNat

/-- The conversion `(int)room` of a `size_t` to a 32-bit `int`. -/
def int_of_size_t (n : Nat) : Int := ((n : Int) + 2 ^ 31) % 2 ^ 32 - 2 ^ 31

/-- Modelled from the spec: `NC_ALIGN`, a macro of `nc_util.h` that is not
part of `nc_stats.c`; the computed size is "rounded up to an alignment
boundary", the next multiple of the alignment. -/
def NC_ALIGN (d n : Nat) : Nat := (d + (n - 1)) / n * n

/-- The size budget of the metrics of one array: name, 20 digits, 8 extra. -/
def metric_need (m : List stats_metric) : Nat :=
  (m.map (fun stm => stm.name.length + 20 + 8)).sum

/-- The size budget of the servers of one pool. -/
def server_need (l : List stats_server) : Nat :=
  (l.map (fun sts => sts.name.length + 8 + metric_need sts.metric)).sum

/-- The size budget of the pools of a generation. -/
def pool_need (g : List stats_pool) : Nat :=
  (g.map (fun stp => stp.name.length + 8 + metric_need stp.metric + server_need stp.server)).sum

/-- The size budget of the header (built without `NC_DEBUG_LOG`). -/
def header_need (st : stats) : Nat :=
  1 + (st.service_str.length + st.service.length + 8)
    + (st.source_str.length + st.source.length + 8)
    + (st.version_str.length + st.version.length + 8)
    + (st.uptime_str.length + 20 + 8)
    + (st.timestamp_str.length + 20 + 8)
    + (st.ntotal_conn_str.length + 20 + 8)
    + (st.ncurr_conn_str.length + 20 + 8)
    + (st.ncurr_conn_str_a.length + 20 + 8)

/-- The sum that `stats_create_buf` and `stats_recreate_buf` accumulate in
`size` before aligning it: header, pools of `sum`, footer. -/
def stats_buf_need (st : stats) : Nat := header_need st + pool_need st.sum + 2

/-- The buffer size both functions compute, in `size_t` arithmetic. -/
def stats_buf_size (B : Build) (st : stats) : Nat :=
  size_t_wrap (NC_ALIGN (size_t_wrap (stats_buf_need st)) B.NC_ALIGNMENT)

/-- `stats_create_buf`: a failed `nc_alloc` leaves `data` null and `size` 0;
fresh memory is taken as zero-filled. -/
def stats_create_buf (B : Build) (st : stats) (a : Alloc) : Option (rstatus_t × stats × Alloc) :=
  if assert_fails B (st.buf.data.isEmpty && st.buf.size == 0) then none
  else
    let size := stats_buf_size B st
    match alloc_next a with
    | (false, a1) => some (NC_ENOMEM, { st with buf := { st.buf with data := [] } }, a1)
    | (true, a1) =>
      some (NC_OK, { st with buf := { st.buf with data := List.replicate size 0, size := size } },
            a1)

/-- `stats_destroy_buf`: the memory is released and `size` cleared; the
pointer and `len` are left as they are. -/
def stats_destroy_buf (B : Build) (st : stats) : Option stats :=
  if st.buf.size ≠ 0 then
    if assert_fails B (!st.buf.data.isEmpty) then none
    else some { st with buf := { st.buf with size := 0 } }
  else some st

/-! ## Engine creation -/

/-- What the engine reads from its surroundings: the clock, the connection
counters of the connection module, and whether the listener and the
aggregator thread can be started. -/
structure Env where
  now : Int
  ntotal_conn : Int
  ncurr_conn : Int
  ncurr_conn_a : Int
  aggregator_ok : Bool

/-- `stats_start_aggregator`: nothing to start when statistics are disabled. -/
def stats_start_aggregator (B : Build) (env : Env) : rstatus_t :=
  if !B.stats_enabled then NC_OK
  else if env.aggregator_ok then NC_OK else NC_ERROR

/-- The engine as `stats_create` fills it in before mapping the topology. -/
def stats_create_init (B : Build) (env : Env) (source : string) : stats where
  start_ts := env.now
  buf := ⟨0, [], 0⟩
  current := []
  shadow := []
  sum := []
  service_str := string_set_text "service"
  service := string_set_text "nutcracker"
  source_str := string_set_text "source"
  source := source
  version_str := string_set_text "version"
  version := B.NC_VERSION_STRING
  uptime_str := string_set_text "uptime"
  timestamp_str := string_set_text "timestamp"
  ntotal_conn_str := string_set_text "total_connections"
  ncurr_conn_str := string_set_text "curr_connections"
  ncurr_conn_str_a := string_set_text "curr_connections_a"
  updated := 0
  aggregate := 0
  reload_thread := 0
  pause := 0

/-- `stats_create`: the inner `none` is the `NULL` returned after a failure
(the engine is destroyed). -/
def stats_create (B : Build) (env : Env) (source : string) (server_pool : List server_pool)
    (a : Alloc) : Option (Option stats × Alloc) :=
  match alloc_next a with
  | (false, a0) => some (none, a0)
  | (true, a0) =>
    match stats_pool_map B server_pool a0 with
    | none => none
    | some (NC_OK, cur, a1) =>
      match stats_pool_map B server_pool a1 with
      | none => none
      | some (NC_OK, shd, a2) =>
        match stats_pool_map B server_pool a2 with
        | none => none
        | some (NC_OK, sm, a3) =>
          match stats_create_buf B
              { stats_create_init B env source with current := cur, shadow := shd, sum := sm }
              a3 with
          | none => none
          | some (NC_OK, st1, a4) =>
            if stats_start_aggregator B env = NC_OK then
              some (some { st1 with reload_thread := 0, pause := 0 }, a4)
            else some (none, a4)
          | some (_, _, a4) => some (none, a4)
        | some (_, _, a3) => some (none, a3)
      | some (_, _, a2) => some (none, a2)
    | some (_, _, a1) => some (none, a1)

/-- A sample environment. -/
def demo_env : Env := ⟨1500, 7, 2, 1, true⟩

/-! ## Formatted writes into the buffer -/

/-- The bytes `%.*s` prints for a `struct string`: its bytes up to the first
NUL (the precision `len` is taken to be below 2^31). -/
def cstr (s : string) : List Nat := s.takeWhile (fun b => b != 0)

/-- The decimal digits of a number, least significant first; `fuel` bounds the
number of digits. -/
def dec_rev : Nat → Nat → List Nat
  | 0, _ => []
  | fuel + 1, n => (48 + n % 10) :: (if n < 10 then [] else dec_rev fuel (n / 10))

/-- The decimal digits of a number below 10^20, most significant first. -/
def fmt_nat (n : Nat) : List Nat := (dec_rev 20 n).reverse

/-- The bytes `%PRId64` prints: a minus sign for negatives, then the digits. -/
def fmt_int64 (v : Int) : List Nat :=
  if v < 0 then 45 :: fmt_nat v.natAbs else fmt_nat v.natAbs

/-- Bytes stored at an offset of the memory at `buf.data`. A store past the
end of the list makes the list longer: the memory was written outside. -/
def mem_write (data : List Nat) (pos : Nat) (bs : List Nat) : List Nat :=
  data.take pos ++ List.replicate (pos - data.length) 0 ++ bs ++ data.drop (pos + bs.length)

/-- Modelled from the spec: `nc_snprintf`, a macro of `nc_util.h` over the C
library's `snprintf`, is the "bounds-checked formatted write": of the
formatted `text` it stores at `data + len` at most `room - 1` bytes followed
by a NUL (nothing when `room` is 0), and returns the length of the whole text
(negative when that exceeds `INT_MAX`). -/
def nc_snprintf (buf : stats_buffer) (room : Nat) (text : List Nat) : stats_buffer × Int :=
  let data1 := if room = 0 then buf.data
               else mem_write buf.data buf.len (text.take (room - 1) ++ [0])
  ({ buf with data := data1 }, if text.length ≤ 2147483647 then (text.length : Int) else -1)

/-- The text of a string pair: `"key":"value", `. -/
def string_pair (key val : string) : List Nat :=
  [34] ++ cstr key ++ [34, 58, 34] ++ cstr val ++ [34, 44, 32]

/-- The text of a numeric pair: `"key":value, `. -/
def num_pair (key : string) (val : Int) : List Nat :=
  [34] ++ cstr key ++ [34, 58] ++ fmt_int64 val ++ [44, 32]

/-- The text that opens a nested object: `"key": ` and an opening brace. -/
def nest_open (key : string) : List Nat := [34] ++ cstr key ++ [34, 58, 32, 123]

/-- The common body of `stats_add_string`, `stats_add_num` and
`stats_begin_nesting`: format into the room left, fail when the text does not
fit, advance `len` otherwise. -/
def stats_add_text (st : stats) (text : List Nat) : rstatus_t × stats :=
  let room := size_t_wrap ((st.buf.size : Int) - st.buf.len - 1)
  let r := nc_snprintf st.buf room text
  if r.2 < 0 ∨ r.2 ≥ int_of_size_t room then (NC_ERROR, { st with buf := r.1 })
  else (NC_OK, { st with buf := { r.1 with len := size_t_wrap (st.buf.len + r.2) } })

/-- `stats_add_string`. -/
def stats_add_string (st : stats) (key val : string) : rstatus_t × stats :=
  stats_add_text st (string_pair key val)

/-- `stats_add_num`. -/
def stats_add_num (st : stats) (key : string) (val : Int) : rstatus_t × stats :=
  stats_add_text st (num_pair key val)

/-- `stats_begin_nesting`. -/
def stats_begin_nesting (st : stats) (key : string) : rstatus_t × stats :=
  stats_add_text st (nest_open key)

/-- Continue with `k` after a step that returned `NC_OK`; any other status is
returned at once (`if (status != NC_OK) return status;`). -/
def and_then (r : rstatus_t × stats) (k : stats → rstatus_t × stats) : rstatus_t × stats :=
  match r with
  | (NC_OK, st) => k st
  | (status, st) => (status, st)

/-- The same for steps that can stop the process. -/
def and_then_opt (r : Option (rstatus_t × stats)) (k : stats → Option (rstatus_t × stats)) :
    Option (rstatus_t × stats) :=
  match r with
  | none => none
  | some (NC_OK, st) => k st
  | some (status, st) => some (status, st)

/-- `stats_add_header` (built without `NC_DEBUG_LOG`): the opening brace, then
the eight header pairs. The clock and the connection counters come from the
environment, converted to `int64_t`. -/
def stats_add_header (st : stats) (env : Env) : rstatus_t × stats :=
  let st0 : stats := { st with buf := { st.buf with data := mem_write st.buf.data 0 [123],
                                                    len := 1 } }
  let cur_ts := wrap64 env.now
  let uptime := wrap64 (cur_ts - st.start_ts)
  and_then (stats_add_string st0 st.service_str st.service) fun st1 =>
  and_then (stats_add_string st1 st.source_str st.source) fun st2 =>
  and_then (stats_add_string st2 st.version_str st.version) fun st3 =>
  and_then (stats_add_num st3 st.uptime_str uptime) fun st4 =>
  and_then (stats_add_num st4 st.timestamp_str cur_ts) fun st5 =>
  and_then (stats_add_num st5 st.ntotal_conn_str (wrap64 env.ntotal_conn)) fun st6 =>
  and_then (stats_add_num st6 st.ncurr_conn_str (wrap64 env.ncurr_conn)) fun st7 =>
  stats_add_num st7 st.ncurr_conn_str_a (wrap64 env.ncurr_conn_a)

/-- `stats_add_footer`: overwrite the last byte with the closing brace and add
a newline. With `len == 0` the store would go before the buffer. -/
def stats_add_footer (st : stats) : Option (rstatus_t × stats) :=
  if st.buf.len = st.buf.size then some (NC_ERROR, st)
  else if st.buf.len = 0 then none
  else some (NC_OK, { st with buf := { st.buf with
                        data := mem_write st.buf.data (st.buf.len - 1) [125, 10]
                        len := size_t_wrap (st.buf.len + 1) } })

/-- `stats_end_nesting`: look at the byte two before the end; a comma starts
the pair separator, which becomes a closing brace and a comma; a closing brace
gets one more closing brace before its comma. -/
def stats_end_nesting (B : Build) (st : stats) : Option (rstatus_t × stats) :=
  if st.buf.len < 2 then none
  else
    match st.buf.data[st.buf.len - 2]? with
    | none => none
    | some c =>
      if c = 44 then
        if assert_fails B (st.buf.data[st.buf.len - 1]? == some 32) then none
        else some (NC_OK, { st with buf := { st.buf with
                              data := mem_write st.buf.data (st.buf.len - 2) [125, 44] } })
      else if c = 125 then
        if st.buf.len = st.buf.size then some (NC_ERROR, st)
        else if assert_fails B (st.buf.data[st.buf.len - 1]? == some 44) then none
        else some (NC_OK, { st with buf := { st.buf with
                              data := mem_write st.buf.data (st.buf.len - 1) [125, 44]
                              len := size_t_wrap (st.buf.len + 1) } })
      else if assert_fails B false then none
      else some (NC_OK, st)

/-- `stats_copy_metric`: one numeric pair per metric. -/
def stats_copy_metric (st : stats) : List stats_metric → rstatus_t × stats
  | [] => (NC_OK, st)
  | stm :: rest => and_then (stats_add_num st stm.name stm.value) fun st1 =>
      stats_copy_metric st1 rest

/-- The server loop of `stats_make_rsp` for one pool. -/
def stats_make_rsp_servers (B : Build) (st : stats) : List stats_server → Option (rstatus_t × stats)
  | [] => some (NC_OK, st)
  | sts :: rest =>
    and_then_opt (some (stats_begin_nesting st sts.name)) fun st1 =>
    and_then_opt (some (stats_copy_metric st1 sts.metric)) fun st2 =>
    and_then_opt (stats_end_nesting B st2) fun st3 =>
    stats_make_rsp_servers B st3 rest

/-- The pool loop of `stats_make_rsp`. -/
def stats_make_rsp_pools (B : Build) (st : stats) : List stats_pool → Option (rstatus_t × stats)
  | [] => some (NC_OK, st)
  | stp :: rest =>
    and_then_opt (some (stats_begin_nesting st stp.name)) fun st1 =>
    and_then_opt (some (stats_copy_metric st1 stp.metric)) fun st2 =>
    and_then_opt (stats_make_rsp_servers B st2 stp.server) fun st3 =>
    and_then_opt (stats_end_nesting B st3) fun st4 =>
    stats_make_rsp_pools B st4 rest

/-- `stats_make_rsp`: header, the pools of `sum` with their servers, footer. -/
def stats_make_rsp (B : Build) (env : Env) (st : stats) : Option (rstatus_t × stats) :=
  and_then_opt (some (stats_add_header st env)) fun st1 =>
  and_then_opt (stats_make_rsp_pools B st1 st1.sum) fun st2 =>
  stats_add_footer st2

/-- The document held by the buffer: its first `len` bytes. -/
def buf_doc (b : stats_buffer) : List Nat := b.data.take b.len

/-- `stats_recreate_buf`: release the buffer, size and allocate it anew, and
render once; the status of that render is ignored. -/
def stats_recreate_buf (B : Build) (env : Env) (st : stats) (a : Alloc) :
    Option (rstatus_t × stats × Alloc) :=
  if assert_fails B (!st.buf.data.isEmpty && st.buf.size != 0) then none
  else
    match stats_destroy_buf B st with
    | none => none
    | some st0 =>
      let size := stats_buf_size B st0
      match alloc_next a with
      | (false, a1) => some (NC_ENOMEM, { st0 with buf := { st0.buf with data := [] } }, a1)
      | (true, a1) =>
        let st1 : stats :=
          { st0 with buf := { st0.buf with data := List.replicate size 0, size := size } }
        match stats_make_rsp B env st1 with
        | none => none
        | some (_, st2) => some (NC_OK, st2, a1)

/-! ## The document, as text -/

/-- A numeric member without its separator: `"key":value`. -/
def num_item (key : string) (val : Int) : List Nat :=
  [34] ++ cstr key ++ [34, 58] ++ fmt_int64 val

/-- A string member without its separator: `"key":"value"`. -/
def string_item (key val : string) : List Nat :=
  [34] ++ cstr key ++ [34, 58, 34] ++ cstr val ++ [34]

/-- The pairs of a metric array, each followed by the separator `, `. -/
def metrics_text : List stats_metric → List Nat
  | [] => []
  | stm :: rest => num_pair stm.name stm.value ++ metrics_text rest

/-- The pairs of a metric array, separated by `, `. -/
def metrics_body : List stats_metric → List Nat
  | [] => []
  | [stm] => num_item stm.name stm.value
  | stm :: rest => num_item stm.name stm.value ++ [44, 32] ++ metrics_body rest

/-- The object of one server: `"name": ` and its metrics between braces. -/
def server_obj (sts : stats_server) : List Nat :=
  nest_open sts.name ++ metrics_body sts.metric ++ [125]

/-- The server objects of a pool, each followed by a comma. -/
def servers_text : List stats_server → List Nat
  | [] => []
  | sts :: rest => server_obj sts ++ [44] ++ servers_text rest

/-- The server objects of a pool, separated by commas. -/
def servers_body : List stats_server → List Nat
  | [] => []
  | [sts] => server_obj sts
  | sts :: rest => server_obj sts ++ [44] ++ servers_body rest

/-- The members of a pool object: its metrics, then its server objects. -/
def pool_members (stp : stats_pool) : List Nat :=
  match stp.server with
  | [] => metrics_body stp.metric
  | _ :: _ => metrics_text stp.metric ++ servers_body stp.server

/-- The object of one pool. -/
def pool_obj (stp : stats_pool) : List Nat :=
  nest_open stp.name ++ pool_members stp ++ [125]

/-- The pool objects, each followed by a comma. -/
def pools_text : List stats_pool → List Nat
  | [] => []
  | stp :: rest => pool_obj stp ++ [44] ++ pools_text rest

/-- The pool objects, separated by commas. -/
def pools_body : List stats_pool → List Nat
  | [] => []
  | [stp] => pool_obj stp
  | stp :: rest => pool_obj stp ++ [44] ++ pools_body rest

/-- The eight header members, separated by `, `. -/
def header_body (st : stats) (env : Env) : List Nat :=
  string_item st.service_str st.service ++ [44, 32]
    ++ string_item st.source_str st.source ++ [44, 32]
    ++ string_item st.version_str st.version ++ [44, 32]
    ++ num_item st.uptime_str (wrap64 (wrap64 env.now - st.start_ts)) ++ [44, 32]
    ++ num_item st.timestamp_str (wrap64 env.now) ++ [44, 32]
    ++ num_item st.ntotal_conn_str (wrap64 env.ntotal_conn) ++ [44, 32]
    ++ num_item st.ncurr_conn_str (wrap64 env.ncurr_conn) ++ [44, 32]
    ++ num_item st.ncurr_conn_str_a (wrap64 env.ncurr_conn_a)

/-- The document of the wire format: an opening brace, the header members,
the pool objects, a closing brace and a newline. Members are separated by `, `
after a pair and by `,` after an object; when there is no pool the last header
pair is followed by a comma. -/
def document (st : stats) (env : Env) : List Nat :=
  match st.sum with
  | [] => [123] ++ header_body st env ++ [44, 125, 10]
  | _ :: _ => [123] ++ header_body st env ++ [44, 32] ++ pools_body st.sum ++ [125, 10]

/-- The buffer has capacity `size`, lies within its allocation and holds the
document `doc`. -/
def buf_holds (b : stats_buffer) (size : Nat) (doc : List Nat) : Prop :=
  b.size = size ∧ b.data.length = size ∧ b.len = doc.length ∧ b.data.take b.len = doc

/-- No metric array of the generation is empty. -/
def metrics_nonempty (g : List stats_pool) : Bool :=
  g.all (fun stp => stp.metric.length != 0 && stp.server.all (fun sts => sts.metric.length != 0))

/-- Every metric value of the array is an `int64_t`. -/
def metric_values_ok (m : List stats_metric) : Prop := ∀ stm ∈ m, int64_ok stm.value

/-- Every metric value of the generation is an `int64_t`. -/
def values_ok (g : List stats_pool) : Prop :=
  ∀ stp ∈ g, metric_values_ok stp.metric ∧ ∀ sts ∈ stp.server, metric_values_ok sts.metric

/-- The sample engine with a given source label and one pool of a given name
(one counter, no server), with the buffer that `stats_create_buf` allocates
for it. -/
def sized_stats (source pname : string) : stats :=
  let st : stats :=
    { demo_stats [] [] [⟨pname, [⟨STATS_COUNTER, string_set_text "client_eof", 0⟩], []⟩] 0 0 0
      with source := source }
  { st with buf := ⟨0, List.replicate (stats_buf_size demo_build st) 0,
                    stats_buf_size demo_build st⟩ }

/-- An engine whose source label and only pool name are 2^30 bytes long each. -/
def big_stats : stats := sized_stats (List.replicate (2 ^ 30) 97) (List.replicate (2 ^ 30) 97)

/-- The sample engine with the buffer that `stats_create_buf` allocates for it. -/
def demo_sized (sm : List stats_pool) : stats :=
  let st := demo_stats (demo_gen 0 0 0 0 0) (demo_gen 0 0 0 0 0) sm 0 0 0
  { st with buf := ⟨0, List.replicate (stats_buf_size demo_build st) 0,
                    stats_buf_size demo_build st⟩ }

/-! ## A checker for the shape of a document -/

/-- Where the checker stands: outside any string; inside a key, with the bytes
read so far; just after the closing quote of a key; after the colon of a key;
after the colon and a blank; inside a string value. -/
inductive scan_mode where
  | out
  | key (acc : List Nat)
  | after (k : List Nat)
  | colon (k : List Nat)
  | colon_sp (k : List Nat)
  | val
  deriving DecidableEq, Repr

/-- The state of the checker: mode, current brace depth, and the nested
objects opened so far, each with the depth it was opened at and its key. -/
structure scan_state where
  mode : scan_mode
  depth : Nat
  objs : List (Nat × List Nat)
  deriving DecidableEq, Repr

/-- The byte is a brace. -/
def is_brace (c : Nat) : Bool := c == 123 || c == 125

/-- The byte can start or continue a decimal number. -/
def is_num_byte (c : Nat) : Bool := c == 45 || (48 ≤ c && c ≤ 57)

/-- One byte of the check. It fails on a closing brace at depth 0, on a colon
that does not follow a quoted key, on a key that is not followed by a colon,
on a brace inside a string, and on a value that is neither a number, a string
nor a nested object. -/
def scan_step (s : scan_state) (c : Nat) : Option scan_state :=
  match s.mode with
  | .out =>
    if c = 34 then some { s with mode := .key [] }
    else if c = 123 then some { s with depth := s.depth + 1 }
    else if c = 125 then (if s.depth = 0 then none else some { s with depth := s.depth - 1 })
    else if c = 58 then none
    else some s
  | .key acc =>
    if c = 34 then some { s with mode := .after acc }
    else if is_brace c then none
    else some { s with mode := .key (acc ++ [c]) }
  | .after k => if c = 58 then some { s with mode := .colon k } else none
  | .colon k =>
    if c = 34 then some { s with mode := .val }
    else if c = 32 then some { s with mode := .colon_sp k }
    else if is_num_byte c then some { s with mode := .out }
    else none
  | .colon_sp k =>
    if c = 123 then
      some { mode := .out, depth := s.depth + 1, objs := s.objs ++ [(s.depth, k)] }
    else none
  | .val =>
    if c = 34 then some { s with mode := .out }
    else if is_brace c then none
    else some s

/-- The check run over a text. -/
def scan_run (s : scan_state) : List Nat → Option scan_state
  | [] => some s
  | c :: rest =>
    match scan_step s c with
    | none => none
    | some s1 => scan_run s1 rest

/-- The check of a whole document: braces balanced, every key quoted, and the
nested objects in order of appearance, each with its depth and key. -/
def doc_scan (doc : List Nat) : Option (List (Nat × List Nat)) :=
  match scan_run ⟨.out, 0, []⟩ doc with
  | some ⟨.out, 0, objs⟩ => some objs
  | _ => none

/-- The nested objects a generation must show: every pool at depth 1, followed
by its servers at depth 2. -/
def pool_keys : List stats_pool → List (Nat × List Nat)
  | [] => []
  | stp :: rest =>
    (1, cstr stp.name) :: stp.server.map (fun sts => (2, cstr sts.name)) ++ pool_keys rest

/-- The printed bytes of the string hold no double quote and no brace. -/
def clean (s : string) : Bool := (cstr s).all (fun c => c != 34 && !is_brace c)

/-- The names of the metrics of the array are clean. -/
def metric_clean (m : List stats_metric) : Bool := m.all (fun stm => clean stm.name)

/-- Every name of the generation is clean. -/
def gen_clean (g : List stats_pool) : Bool :=
  g.all (fun stp => clean stp.name && metric_clean stp.metric
    && stp.server.all (fun sts => clean sts.name && metric_clean sts.metric))

/-- Every header string and every name of `sum` is clean. -/
def stats_clean (st : stats) : Bool :=
  clean st.service_str && clean st.service && clean st.source_str && clean st.source
    && clean st.version_str && clean st.version && clean st.uptime_str
    && clean st.timestamp_str && clean st.ntotal_conn_str && clean st.ncurr_conn_str
    && clean st.ncurr_conn_str_a && gen_clean st.sum

/-- A generation with three pools: one with one server, one with no server,
one with two servers. -/
def demo_many : List stats_pool :=
  demo_gen 1 2 3 4 5 ++
  [{ name := string_set_text "p1"
     metric := [⟨STATS_COUNTER, string_set_text "client_eof", 7⟩,
                ⟨STATS_GAUGE, string_set_text "client_connections", 0⟩]
     server := [] },
   { name := string_set_text "p2"
     metric := [⟨STATS_COUNTER, string_set_text "client_eof", 0⟩,
                ⟨STATS_GAUGE, string_set_text "client_connections", 1⟩]
     server := [⟨string_set_text "a", [⟨STATS_COUNTER, string_set_text "requests", 9⟩,
                                       ⟨STATS_GAUGE, string_set_text "server_connections", 1⟩,
                                       ⟨STATS_TIMESTAMP, string_set_text "server_ejected_at", 0⟩]⟩,
                ⟨string_set_text "b", [⟨STATS_COUNTER, string_set_text "requests", 0⟩,
                                       ⟨STATS_GAUGE, string_set_text "server_connections", 0⟩,
                                       ⟨STATS_TIMESTAMP, string_set_text "server_ejected_at", 0⟩]⟩] }]

/-- A generation of one pool whose name holds a double quote: `p"0`. -/
def demo_quote : List stats_pool :=
  [{ name := [112, 34, 48]
     metric := [⟨STATS_COUNTER, string_set_text "client_eof", 0⟩,
                ⟨STATS_GAUGE, string_set_text "client_connections", 0⟩]
     server := [] }]

/-! ## The end-to-end scenario -/

/-- The engine `stats_create` returns when nothing fails: the three
generations mirror the topology and the buffer has the computed capacity. -/
def stats_created (B : Build) (env : Env) (source : string) (server_pool : List server_pool) :
    stats :=
  let st : stats :=
    { stats_create_init B env source with
      current := mirror_gen B server_pool
      shadow := mirror_gen B server_pool
      sum := mirror_gen B server_pool }
  { st with buf := { st.buf with data := List.replicate (stats_buf_size B st) 0,
                                 size := stats_buf_size B st } }

/-- The scenario over the topology of one pool `p0` with one server `s0`:
create the engine, increment the pool field `fp` five times and the server
field `fs` three times, swap, aggregate, render. -/
def end_to_end (B : Build) (env0 env : Env) (source : string) (a : Alloc) (fp fs : Nat) :
    Option (rstatus_t × stats) :=
  match stats_create B env0 source [demo_pool] a with
  | none => none
  | some (none, _) => none
  | some (some st0, _) =>
    match repeat_step (stats_incr B (.pool demo_pool fp)) 5 st0 with
    | none => none
    | some st1 =>
      match repeat_step (stats_incr B (.server demo_server fs)) 3 st1 with
      | none => none
      | some st2 =>
        match stats_swap B st2 with
        | none => none
        | some st3 =>
          match stats_aggregate B st3 with
          | none => none
          | some st4 => stats_make_rsp B env st4

/-- No byte of the text is a brace. -/
def brace_free (l : List Nat) : Bool := l.all (fun c => !is_brace c)

/-! ## Rebuild after a configuration reload, and the aggregator callback -/

/-- The enum constants `STATS_POOL_client_connections` and
`STATS_SERVER_server_connections` that the codec tables of `nc_stats.h`
generate: the field indices of the two connection gauges. -/
structure Fields where
  client_connections : Nat
  server_connections : Nat

/-- The part of `struct context` that the aggregator reads: which of the two
pool arrays is the live one. `ctx->stats` is the engine itself. -/
structure context where
  which_pool : Int
  pool : List server_pool
  pool_swap : List server_pool

/-- What the listening socket does at one event: whether `accept` gives a
connection and whether `nc_sendn` gets the bytes out. -/
structure Net where
  accept_ok : Bool
  send_ok : Bool

/-- `stats_pool_unmap`: every pool is popped and released; the array ends
with no element. -/
def stats_pool_unmap : List stats_pool → List stats_pool
  | [] => []
  | _ :: rest => stats_pool_unmap rest

/-- The `TAILQ_FOREACH` loop of `stats_recreate`: the number of connections of
the queue that are marked connected. -/
def count_connected (s_conn_q : List conn) : Int :=
  s_conn_q.foldl (fun count conn_s => if conn_s.connected then count + 1 else count) 0

/-- The inner loop of the seeding in `stats_recreate`: one
`stats_server_incr_by_anyway` per server of the pool. -/
def stats_recreate_seed_servers (B : Build) (F : Fields) : List server → stats → Option stats
  | [], st => some st
  | ser :: rest, st =>
    match _stats_server_incr_by_anyway B st ser F.server_connections
        (count_connected ser.s_conn_q) with
    | none => none
    | some st1 => stats_recreate_seed_servers B F rest st1

/-- The outer loop of the seeding in `stats_recreate`: per pool one
`stats_pool_incr_by_anyway` with the pool's `nc_conn_q`, then its servers. -/
def stats_recreate_seed (B : Build) (F : Fields) : List server_pool → stats → Option stats
  | [], st => some st
  | sp :: rest, st =>
    match _stats_pool_incr_by_anyway B st sp F.client_connections sp.nc_conn_q with
    | none => none
    | some st1 =>
      match stats_recreate_seed_servers B F sp.server st1 with
      | none => none
      | some st2 => stats_recreate_seed B F rest st2

/-- `stats_recreate`: reset the start time and the two flags, release the
three generations, map the topology into `current`, `shadow` and `sum`, and
seed the connection gauges of `current`. The error path returns the status
and leaves the engine as it is at that point (`stats_destroy` is commented
out there). -/
def stats_recreate (B : Build) (F : Fields) (env : Env) (st : stats)
    (server_pool : List server_pool) (a : Alloc) : Option (rstatus_t × stats × Alloc) :=
  let st0 : stats := { st with start_ts := env.now, updated := 0, aggregate := 0,
                               sum := stats_pool_unmap st.sum,
                               shadow := stats_pool_unmap st.shadow,
                               current := stats_pool_unmap st.current }
  match stats_pool_map B server_pool a with
  | none => none
  | some (NC_OK, cur, a1) =>
    match stats_pool_map B server_pool a1 with
    | none => none
    | some (NC_OK, shd, a2) =>
      match stats_pool_map B server_pool a2 with
      | none => none
      | some (NC_OK, sm, a3) =>
        match stats_recreate_seed B F server_pool
            { st0 with current := cur, shadow := shd, sum := sm } with
        | none => none
        | some st1 => some (NC_OK, st1, a3)
      | some (status, sm, a3) =>
        some (status, { st0 with current := cur, shadow := shd, sum := sm }, a3)
    | some (status, shd, a2) => some (status, { st0 with current := cur, shadow := shd }, a2)
  | some (status, cur, a1) => some (status, { st0 with current := cur }, a1)

/-- `stats_send_rsp`: render, accept, send. The third component is the
argument of `nc_sendn`, the bytes `buf.data[0 .. buf.len)`, when it is called. -/
def stats_send_rsp (B : Build) (env : Env) (net : Net) (st : stats) :
    Option (rstatus_t × stats × Option (List Nat)) :=
  match stats_make_rsp B env st with
  | none => none
  | some (NC_OK, st1) =>
    if !net.accept_ok then some (NC_ERROR, st1, none)
    else if !net.send_ok then some (NC_ERROR, st1, some (buf_doc st1.buf))
    else some (NC_OK, st1, some (buf_doc st1.buf))
  | some (status, st1) => some (status, st1, none)

/-- `stats_loop_callback` for one event of the aggregator; `n` is the number
of ready connections (0 for a timer tick), `env0` the surroundings when
`stats_recreate` runs and `env` when a document is rendered. The result is the
engine, the bytes handed to `nc_sendn` if it was called, and the allocator. -/
def stats_loop_callback (B : Build) (F : Fields) (env0 env : Env) (net : Net) (ctx : context)
    (st : stats) (n : Int) (a : Alloc) : Option (stats × Option (List Nat) × Alloc) :=
  if st.pause ≠ 0 then
    let serve : stats → Alloc → Option (stats × Option (List Nat) × Alloc) := fun st1 a1 =>
      if n = 0 then some (st1, none, a1)
      else if !net.accept_ok then some (st1, none, a1)
      else some (st1, some (buf_doc st1.buf), a1)
    if st.reload_thread ≠ 0 then
      let pools_curr := if ctx.which_pool ≠ 0 then ctx.pool_swap else ctx.pool
      match stats_recreate B F env0 st pools_curr a with
      | none => none
      | some (NC_OK, st1, a1) =>
        match stats_recreate_buf B env st1 a1 with
        | none => none
        | some (_, st2, a2) => serve { st2 with reload_thread := 0, pause := 0 } a2
      | some (_, st1, a1) => some (st1, none, a1)
    else serve st a
  else
    match stats_aggregate B st with
    | none => none
    | some st1 =>
      if n = 0 then some (st1, none, a)
      else
        match stats_send_rsp B env net st1 with
        | none => none
        | some (_, st2, sent) => some (st2, sent, a)

/-! ## The instrumentation interface as a whole -/

/-- The five operations of the instrumentation interface. -/
inductive stats_op where
  | incr
  | decr
  | incr_by (val : Int)
  | decr_by (val : Int)
  | set_ts (val : Int)
  deriving DecidableEq, Repr

/-- The entry point that an operation on a target stands for. -/
def stats_apply (B : Build) (op : stats_op) (t : incr_target) (st : stats) : Option stats :=
  match op, t with
  | .incr, .pool p fidx => _stats_pool_incr B st p fidx
  | .decr, .pool p fidx => _stats_pool_decr B st p fidx
  | .incr_by val, .pool p fidx => _stats_pool_incr_by B st p fidx val
  | .decr_by val, .pool p fidx => _stats_pool_decr_by B st p fidx val
  | .set_ts val, .pool p fidx => _stats_pool_set_ts B st p fidx val
  | .incr, .server s fidx => _stats_server_incr B st s fidx
  | .decr, .server s fidx => _stats_server_decr B st s fidx
  | .incr_by val, .server s fidx => _stats_server_incr_by B st s fidx val
  | .decr_by val, .server s fidx => _stats_server_decr_by B st s fidx val
  | .set_ts val, .server s fidx => _stats_server_set_ts B st s fidx val

/-- The "anyway" entry point for a target. -/
def stats_incr_by_anyway (B : Build) (t : incr_target) (val : Int) (st : stats) :
    Option stats :=
  match t with
  | .pool p fidx => _stats_pool_incr_by_anyway B st p fidx val
  | .server s fidx => _stats_server_incr_by_anyway B st s fidx val

/-- The condition of the `ASSERT` in the entry points of an operation. -/
def stats_op.assertion : stats_op → stats_metric → Bool
  | .incr, stm => is_counter_or_gauge stm
  | .decr, stm => stm.type == STATS_GAUGE
  | .incr_by _, stm => is_counter_or_gauge stm
  | .decr_by _, stm => stm.type == STATS_GAUGE
  | .set_ts _, stm => stm.type == STATS_TIMESTAMP

/-- The value the entry points of an operation store, in `int64_t`
arithmetic. -/
def stats_op.stored : stats_op → Int → Int
  | .incr, v => wrap64 (v + 1)
  | .decr, v => wrap64 (v - 1)
  | .incr_by val, v => wrap64 (v + val)
  | .decr_by val, v => wrap64 (v - val)
  | .set_ts val, _ => val

/-- The value the interface describes for an operation: one more, one less,
the delta more, the delta less, the given timestamp. -/
def stats_op.described : stats_op → Int → Int
  | .incr, v => v + 1
  | .decr, v => v - 1
  | .incr_by val, v => v + val
  | .decr_by val, v => v - val
  | .set_ts val, _ => val

/-- The small build with statistics switched off. -/
def demo_disabled : Build := { demo_build with stats_enabled := false }

/-- The second engine is the first one with another buffer content: every
field but `buf` is the same and the capacity `buf.size` is the same. -/
def buf_only (st st1 : stats) : Prop :=
  st1 = { st with buf := st1.buf } ∧ st1.buf.size = st.buf.size

/-- The field indices of the two connection gauges in the codecs of
`demo_build`. -/
def demo_fields : Fields := ⟨1, 1⟩

/-- A context whose live pool array is the sample topology. -/
def demo_ctx : context := ⟨0, [demo_pool], []⟩

/-- A socket on which `accept` and the send succeed. -/
def demo_net : Net := ⟨true, true⟩

/-- The sample engine with `sum` as given, the two reload flags as given, and
a buffer of the computed capacity that holds the document rendered from that
`sum` in `demo_env`. -/
def demo_served (sm : List stats_pool) (reload_thread pause : Int) : stats :=
  let st : stats :=
    { demo_stats (demo_gen 0 0 0 0 0) (demo_gen 0 0 0 0 0) sm 0 0 pause
      with reload_thread := reload_thread }
  let doc := document st demo_env
  { st with buf := ⟨doc.length,
                    doc ++ List.replicate (stats_buf_size demo_build st - doc.length) 0,
                    stats_buf_size demo_build st⟩ }

/-- The header keys are the ones `stats_create` sets. -/
def header_keys (st : stats) : Prop :=
  st.service_str = string_set_text "service" ∧ st.source_str = string_set_text "source" ∧
  st.version_str = string_set_text "version" ∧ st.uptime_str = string_set_text "uptime" ∧
  st.timestamp_str = string_set_text "timestamp" ∧
  st.ntotal_conn_str = string_set_text "total_connections" ∧
  st.ncurr_conn_str = string_set_text "curr_connections" ∧
  st.ncurr_conn_str_a = string_set_text "curr_connections_a"

instance (st : stats) : Decidable (header_keys st) := by
  unfold header_keys; exact inferInstance

/-- The start of a document as the wire format describes it: the opening
brace, seven pairs from `service` to `curr_connections`, and right after them
the opening of the first pool object. -/
def seven_pair_start (st : stats) (env : Env) (first : string) : List Nat :=
  [123] ++ string_item (string_set_text "service") st.service ++ [44, 32]
    ++ string_item (string_set_text "source") st.source ++ [44, 32]
    ++ string_item (string_set_text "version") st.version ++ [44, 32]
    ++ num_item (string_set_text "uptime") (wrap64 (wrap64 env.now - st.start_ts)) ++ [44, 32]
    ++ num_item (string_set_text "timestamp") (wrap64 env.now) ++ [44, 32]
    ++ num_item (string_set_text "total_connections") (wrap64 env.ntotal_conn) ++ [44, 32]
    ++ num_item (string_set_text "curr_connections") (wrap64 env.ncurr_conn) ++ [44, 32]
    ++ nest_open first

/-- The start of a document as `stats_add_header` writes it: the seven pairs
are followed by an eighth, `curr_connections_a`, and the first pool object
comes after that one. -/
def eight_pair_start (st : stats) (env : Env) (first : string) : List Nat :=
  [123] ++ string_item (string_set_text "service") st.service ++ [44, 32]
    ++ string_item (string_set_text "source") st.source ++ [44, 32]
    ++ string_item (string_set_text "version") st.version ++ [44, 32]
    ++ num_item (string_set_text "uptime") (wrap64 (wrap64 env.now - st.start_ts)) ++ [44, 32]
    ++ num_item (string_set_text "timestamp") (wrap64 env.now) ++ [44, 32]
    ++ num_item (string_set_text "total_connections") (wrap64 env.ntotal_conn) ++ [44, 32]
    ++ num_item (string_set_text "curr_connections") (wrap64 env.ncurr_conn) ++ [44, 32]
    ++ num_item (string_set_text "curr_connections_a") (wrap64 env.ncurr_conn_a) ++ [44, 32]
    ++ nest_open first

/-- The number of allocations `stats_pool_init` makes for a pool when none
fails: the pool metrics, the server array, the metrics of each server. -/
def pool_allocs (sp : server_pool) : Nat := 2 + sp.server.length

/-- The number of allocations `stats_pool_map` makes for a topology when none
fails: the pool array and the allocations of each pool. -/
def map_allocs (server_pool : List server_pool) : Nat :=
  1 + (server_pool.map pool_allocs).sum

/-- The first `n` allocations all succeed. -/
def allocs_ok (a : Alloc) (n : Nat) : Bool := (a.take n).all id

/-- What a failed mapping leaves in the destination: the complete entries of
the first `k` pools and, after them, the entry of the pool in which the
allocation failed, with its name set and its pool metrics empty. -/
def partial_gen (B : Build) (server_pool : List server_pool) (g : List stats_pool) : Prop :=
  ∃ k last, k < server_pool.length ∧ g = mirror_gen B (server_pool.take k) ++ [last] ∧
    (server_pool[k]?).map (fun sp => sp.name) = some last.name ∧ last.metric = []

/-- The test of `stats_add_string`, `stats_add_num` and `stats_begin_nesting`
for a text of the given length: `n >= 0 && n < (int)room` with
`room = buf.size - buf.len - 1`. -/
def pair_fits (st : stats) (text : List Nat) : Prop :=
  text.length ≤ 2147483647 ∧
  (text.length : Int) < int_of_size_t (size_t_wrap ((st.buf.size : Int) - st.buf.len - 1))

instance (st : stats) (text : List Nat) : Decidable (pair_fits st text) := by
  unfold pair_fits; exact inferInstance

/-- The number that a string of decimal digits denotes. -/
def dec_value (digits : List Nat) : Nat := digits.foldl (fun acc d => 10 * acc + (d - 48)) 0

/-! ## Runs of operations -/

/-- An operation on the engine: an instrumentation entry point, an "anyway"
entry point, `stats_swap`, `stats_aggregate` or `stats_make_rsp`. -/
inductive engine_op where
  | apply (op : stats_op) (t : incr_target)
  | anyway (t : incr_target) (val : Int)
  | swap
  | aggregate
  | make_rsp (env : Env)

/-- The engine after one operation; the status of a render is dropped. -/
def engine_op.run (B : Build) : engine_op → stats → Option stats
  | .apply op t, st => stats_apply B op t st
  | .anyway t val, st => stats_incr_by_anyway B t val st
  | .swap, st => stats_swap B st
  | .aggregate, st => stats_aggregate B st
  | .make_rsp env, st => (stats_make_rsp B env st).map (fun r => r.2)

/-- The engine after a sequence of operations, in order. -/
def run_ops (B : Build) : List engine_op → stats → Option stats
  | [], st => some st
  | o :: rest, st =>
    match o.run B st with
    | none => none
    | some st1 => run_ops B rest st1

/-- The three generations have the layout `L`: with the values set aside,
each of them is `L` (same pools, servers, metric sets, names and kinds). -/
def same_layout (L : List stats_pool) (st : stats) : Prop :=
  zero_gen st.current = L ∧ zero_gen st.shadow = L ∧ zero_gen st.sum = L

/-! ## The seeding of a rebuilt engine -/

/-- The servers, from position `j` on, carry their position as `idx` and the
position of their pool as `owner->idx`. -/
def servers_indexed (owner : Nat) : Nat → List server → Bool
  | _, [] => true
  | j, s :: rest => s.idx == j && s.owner_idx == owner && servers_indexed owner (j + 1) rest

/-- The pools, from position `i` on, carry their position as `idx`, and so do
their servers. -/
def pools_indexed : Nat → List server_pool → Bool
  | _, [] => true
  | i, sp :: rest => sp.idx == i && servers_indexed i 0 sp.server && pools_indexed (i + 1) rest

/-- Every pool and server of the topology carries its position in its array
as `idx`, as the configuration module numbers them. -/
def topology_indexed (server_pool : List server_pool) : Bool := pools_indexed 0 server_pool

/-- The connection counts that the seeding reads are `int64_t` values. -/
def seeds_ok (server_pool : List server_pool) : Prop :=
  ∀ sp ∈ server_pool, int64_ok sp.nc_conn_q ∧
    ∀ s ∈ sp.server, int64_ok (count_connected s.s_conn_q)

/-- A metric array with the value of one field replaced. -/
def seed_metric (m : List stats_metric) (fidx : Nat) (v : Int) : List stats_metric :=
  match m[fidx]? with
  | none => m
  | some stm => m.set fidx { stm with value := v }

/-- The mirror of the servers of a pool with the gauge `server_connections`
of each server holding the number of its connected connections. -/
def seeded_servers (B : Build) (F : Fields) (l : List server) : List stats_server :=
  l.map (fun s =>
    { name := s.name
      metric := seed_metric (zero_metric B.stats_server_codec) F.server_connections
                  (count_connected s.s_conn_q) })

/-- The mirror of a topology with the gauge `client_connections` of each pool
holding the pool's `nc_conn_q` and the gauge `server_connections` of each
server holding the number of its connected connections; every other value 0. -/
def seeded_gen (B : Build) (F : Fields) (server_pool : List server_pool) : List stats_pool :=
  server_pool.map (fun sp =>
    { name := sp.name
      metric := seed_metric (zero_metric B.stats_pool_codec) F.client_connections sp.nc_conn_q
      server := seeded_servers B F sp.server })

/-- The mirror of the servers of a pool. -/
def mirror_servers (B : Build) (l : List server) : List stats_server :=
  l.map (fun s => { name := s.name, metric := zero_metric B.stats_server_codec })

/-- A sample pool with three client connections and a server whose queue holds
three connections, two of them connected. -/
def demo_live_pool : server_pool :=
  ⟨0, string_set_text "p0",
   [⟨0, 0, string_set_text "s0", [⟨true⟩, ⟨false⟩, ⟨true⟩]⟩], 3⟩

/-- An allocator under which the twelve allocations of `stats_recreate` over
the sample topology succeed and the next one, the response buffer of
`stats_recreate_buf`, fails. -/
def demo_alloc_buf_fails : Alloc := List.replicate 12 true ++ [false]

/-- The sample engine with `pause` and `reload_thread` set, after the
aggregator has run once while the allocation of the new response buffer
fails: `stats_recreate_buf` returns `NC_ENOMEM`, which the callback ignores. -/
def demo_no_buf : Option stats :=
  (stats_loop_callback demo_build demo_fields demo_env demo_env demo_net demo_ctx
    (demo_served (demo_gen 1 2 3 4 5) 1 1) 0 demo_alloc_buf_fails).map (fun r => r.1)

/-! ## Stores within the buffer -/

/-- The memory at `buf.data` is exactly the `S` bytes of the capacity, so no
store went outside the buffer, and `len` leaves at least `k` of them free. -/
def buf_within (b : stats_buffer) (S k : Nat) : Prop :=
  b.size = S ∧ b.data.length = S ∧ b.len + k ≤ S

/-- The last two bytes of the document in the buffer are `x` and `y`. -/
def buf_ends (b : stats_buffer) (x y : Nat) : Prop :=
  2 ≤ b.len ∧ b.data[b.len - 2]? = some x ∧ b.data[b.len - 1]? = some y

/-- The buffer right after a pair or an opening of a nested object: two bytes
are free and the document ends with `, ` or with a blank and a brace. -/
def after_add (S : Nat) (st : stats) : Prop :=
  buf_within st.buf S 2 ∧ (buf_ends st.buf 44 32 ∨ buf_ends st.buf 32 123)

/-- The buffer between the servers of a pool: as after a pair, or the
document ends with a closing brace and a comma. -/
def after_server (S : Nat) (st : stats) : Prop :=
  buf_within st.buf S 2 ∧
    (buf_ends st.buf 44 32 ∨ buf_ends st.buf 32 123 ∨ buf_ends st.buf 125 44)

/-- The buffer between the pools: one byte is free. -/
def after_pool (S : Nat) (st : stats) : Prop := buf_within st.buf S 1

/-- The outcome of a writing step: the stores stayed within the buffer, and
when the status is `NC_OK` the engine satisfies `Q`. -/
def step_within (S : Nat) (Q : stats → Prop) (r : rstatus_t × stats) : Prop :=
  buf_within r.2.buf S 0 ∧ (r.1 = NC_OK → Q r.2)

/-! ## Runs over the whole life of an engine -/

/-- A decrement of the gauge `server_connections` of the sample server,
flushed by a first `stats_swap` and `stats_aggregate`, then an increment of
the same gauge, flushed by a second `stats_swap` and `stats_aggregate`. -/
def demo_drift_ops : List engine_op :=
  [.apply .decr (.server demo_server 1), .swap, .aggregate,
   .apply .incr (.server demo_server 1), .swap, .aggregate]

/-- A step in the life of an engine: an operation on the running engine, or a
`stats_recreate` over a topology, with the allocator it meets. -/
inductive life_op where
  | run (o : engine_op)
  | recreate (F : Fields) (env : Env) (server_pool : List server_pool) (a : Alloc)

/-- The engine after one step. Only a `stats_recreate` that returns `NC_OK`
is a step of the lives considered: with any other status there is no next
engine. -/
def life_op.step (B : Build) : life_op → stats → Option stats
  | .run o, st => o.run B st
  | .recreate F env server_pool a, st =>
    match stats_recreate B F env st server_pool a with
    | some (NC_OK, st1, _) => some st1
    | _ => none

/-- The engine after a sequence of steps, in order. -/
def run_life (B : Build) : List life_op → stats → Option stats
  | [], st => some st
  | o :: rest, st =>
    match o.step B st with
    | none => none
    | some st1 => run_life B rest st1

/-- The dirty flag tells the truth: `current` and `shadow` hold valid kinds
only, and when `updated` is 0 every value of `current` is zero. -/
def dirty_flag_ok (st : stats) : Prop :=
  kinds_valid st.current = true ∧ kinds_valid st.shadow = true ∧
    (st.updated = 0 → zero_gen st.current = st.current)

/-- A life of the sample engine: an increment, a swap, an aggregation, a
rebuild over the sample pool with live connections, and a swap. -/
def demo_life : List life_op :=
  [.run (.apply .incr (.pool demo_pool 0)), .run .swap, .run .aggregate,
   .recreate demo_fields demo_env [demo_live_pool] [], .run .swap]

/-! ## Conservation of counters -/

/-- The amount an operation adds to the metric at position `p`: 1 for an
increment aimed at `p`, the delta for an increment by a delta aimed at `p`
(the "anyway" variant included), nothing otherwise. -/
def engine_op.added (p : field_pos) : engine_op → Int
  | .apply .incr t => if t.pos = p then 1 else 0
  | .apply (.incr_by val) t => if t.pos = p then val else 0
  | .anyway t val => if t.pos = p then val else 0
  | _ => 0

/-- The operation is not a decrement or a timestamp store aimed at `p`: on `p`
it is one of the entry points whose assertion admits a counter. -/
def engine_op.counter_use (p : field_pos) : engine_op → Bool
  | .apply .decr t => t.pos != p
  | .apply (.decr_by _) t => t.pos != p
  | .apply (.set_ts _) t => t.pos != p
  | _ => true

/-- The total amount a sequence of operations adds to position `p`. -/
def total_added (p : field_pos) (ops : List engine_op) : Int :=
  (ops.map (engine_op.added p)).sum

/-- The sum of the magnitudes of the amounts added to position `p`; below 2^63
no addition of the run can overflow. -/
def total_weight (p : field_pos) (ops : List engine_op) : Nat :=
  (ops.map (fun o => (o.added p).natAbs)).sum

/-- The value of the metric at a position (0 where there is none). -/
def val_at (g : List stats_pool) (p : field_pos) : Int :=
  match metric_at g p with
  | none => 0
  | some m => m.value

/-- The engine is running and at position `p` the value in `sum`, plus the
value in `shadow` while it waits to be aggregated, plus the value in `current`
is `A`; the magnitudes of these values sum to at most `N`. -/
def conserved (p : field_pos) (A : Int) (N : Nat) (st : stats) : Prop :=
  st.pause = 0 ∧ (st.aggregate = 0 ∨ st.aggregate = 1) ∧
  val_at st.sum p + (if st.aggregate = 1 then val_at st.shadow p else 0)
    + val_at st.current p = A ∧
  (val_at st.sum p).natAbs + (if st.aggregate = 1 then (val_at st.shadow p).natAbs else 0)
    + (val_at st.current p).natAbs ≤ N

/-- A run on the sample engine: two increments of the counter `client_eof`,
a swap, an increment, a swap that is skipped because the aggregator is busy,
an aggregation, an increment by 5 and a render. -/
def demo_counter_ops : List engine_op :=
  [.apply .incr (.pool demo_pool 0), .apply .incr (.pool demo_pool 0), .swap,
   .apply .incr (.pool demo_pool 0), .swap, .aggregate,
   .apply (.incr_by 5) (.pool demo_pool 0), .make_rsp demo_env]

/-- The sample build with assertions compiled not to panic. -/
def demo_no_panic : Build := { demo_build with assert_panic := false }

/-! # Theorems -/

/-! ## Arithmetic -/

theorem wrap64_of_ok {x : Int} (h : int64_ok x) : wrap64 x = x := by
  unfold int64_ok at h
  unfold wrap64
  omega

theorem wrap64_ok (x : Int) : int64_ok (wrap64 x) := by
  unfold int64_ok wrap64
  omega

/-! ## Aggregation in closed form -/

theorem aggregate_one_eq (B : Build) (stm2 stm1 : stats_metric)
    (ht : stm2.type = stm1.type) (hv : stm1.type ≠ STATS_INVALID) :
    stats_aggregate_one B stm2 stm1 = some (fold_metric stm2 stm1) := by
  unfold stats_aggregate_one fold_metric assert_fails
  rcases stm1 with ⟨t1, n1, v1⟩
  rcases stm2 with ⟨t2, n2, v2⟩
  simp only at ht hv
  subst ht
  cases t2
  · exact absurd rfl hv
  · simp
  · by_cases h : wrap64 (v2 + v1) ≤ 0
    · simp [h]
    · have h2 : 0 ≤ wrap64 (v2 + v1) := by omega
      simp [h, max_eq_right h2]
  · by_cases h : v1 = 0 <;> simp [h]

theorem aggregate_metric_eq (B : Build) :
    ∀ (dst src : List stats_metric), metric_kinds dst = metric_kinds src →
      metric_valid src = true →
      stats_aggregate_metric B dst src = some (List.zipWith fold_metric dst src)
  | [], [], _, _ => by simp [stats_aggregate_metric]
  | [], _ :: _, h, _ => by simp [metric_kinds] at h
  | _ :: _, [], h, _ => by simp [metric_kinds] at h
  | stm2 :: dst, stm1 :: src, h, hv => by
    simp only [metric_kinds, List.map_cons, List.cons.injEq] at h
    simp only [metric_valid, List.all_cons, Bool.and_eq_true, bne_iff_ne, ne_eq] at hv
    have ih := aggregate_metric_eq B dst src h.2 hv.2
    simp [stats_aggregate_metric, aggregate_one_eq B stm2 stm1 h.1 hv.1, ih]

theorem aggregate_server_eq (B : Build) :
    ∀ (dst src : List stats_server),
      dst.map (fun sts => metric_kinds sts.metric) = src.map (fun sts => metric_kinds sts.metric) →
      src.all (fun sts => metric_valid sts.metric) = true →
      stats_aggregate_server B dst src = some (List.zipWith fold_server dst src)
  | [], [], _, _ => by simp [stats_aggregate_server]
  | [], _ :: _, h, _ => by simp at h
  | _ :: _, [], h, _ => by simp at h
  | sts2 :: dst, sts1 :: src, h, hv => by
    simp only [List.map_cons, List.cons.injEq] at h
    simp only [List.all_cons, Bool.and_eq_true] at hv
    have ih := aggregate_server_eq B dst src h.2 hv.2
    simp [stats_aggregate_server, aggregate_metric_eq B _ _ h.1 hv.1, ih, fold_server]

theorem aggregate_pool_eq (B : Build) :
    ∀ (dst src : List stats_pool), gen_shape dst = gen_shape src → kinds_valid src = true →
      stats_aggregate_pool B dst src = some (List.zipWith fold_pool dst src)
  | [], [], _, _ => by simp [stats_aggregate_pool]
  | [], _ :: _, h, _ => by simp [gen_shape] at h
  | _ :: _, [], h, _ => by simp [gen_shape] at h
  | stp2 :: dst, stp1 :: src, h, hv => by
    simp only [gen_shape, List.map_cons, List.cons.injEq, Prod.mk.injEq] at h
    simp only [kinds_valid, List.all_cons, Bool.and_eq_true] at hv
    have ih := aggregate_pool_eq B dst src h.2 hv.2
    simp [stats_aggregate_pool, aggregate_metric_eq B _ _ h.1.1 hv.1.1,
      aggregate_server_eq B _ _ h.1.2 hv.1.2, ih, fold_pool]

theorem kind_at_gen_shape (g : List stats_pool) (p : field_pos) :
    kind_at (gen_shape g) p = (metric_at g p).map (fun stm => stm.type) := by
  cases p with
  | pool pidx fidx =>
    simp only [kind_at, metric_at, gen_shape, List.getElem?_map]
    cases g[pidx]? <;> simp [metric_kinds]
  | server pidx sidx fidx =>
    simp only [kind_at, metric_at, gen_shape, List.getElem?_map]
    cases g[pidx]? with
    | none => simp
    | some stp =>
      simp only [Option.map_some', List.getElem?_map]
      cases stp.server[sidx]? <;> simp [metric_kinds]

theorem metric_at_fold (dst src : List stats_pool) (p : field_pos) (m1 m2 : stats_metric)
    (h1 : metric_at src p = some m1) (h2 : metric_at dst p = some m2) :
    metric_at (List.zipWith fold_pool dst src) p = some (fold_metric m2 m1) := by
  cases p with
  | pool pidx fidx =>
    simp only [metric_at, List.getElem?_zipWith] at *
    cases hd : dst[pidx]? with
    | none => simp [hd] at h2
    | some stp2 =>
      cases hs : src[pidx]? with
      | none => simp [hs] at h1
      | some stp1 =>
        simp only [hd, hs] at h1 h2 ⊢
        simp [fold_pool, List.getElem?_zipWith, h1, h2]
  | server pidx sidx fidx =>
    simp only [metric_at, List.getElem?_zipWith] at *
    cases hd : dst[pidx]? with
    | none => simp [hd] at h2
    | some stp2 =>
      cases hs : src[pidx]? with
      | none => simp [hs] at h1
      | some stp1 =>
        simp only [hd, hs] at h1 h2 ⊢
        cases hd2 : stp2.server[sidx]? with
        | none => simp [hd2] at h2
        | some sts2 =>
          cases hs2 : stp1.server[sidx]? with
          | none => simp [hs2] at h1
          | some sts1 =>
            simp only [hd2, hs2] at h1 h2 ⊢
            simp [fold_pool, fold_server, List.getElem?_zipWith, h1, h2, hd2, hs2]

theorem metric_at_fold_inv (dst src : List stats_pool) (p : field_pos) (m : stats_metric)
    (h : metric_at (List.zipWith fold_pool dst src) p = some m) :
    ∃ m1 m2, metric_at src p = some m1 ∧ metric_at dst p = some m2 ∧ m = fold_metric m2 m1 := by
  cases p with
  | pool pidx fidx =>
    simp only [metric_at, List.getElem?_zipWith] at *
    cases hd : dst[pidx]? with
    | none => simp [hd] at h
    | some stp2 =>
      cases hs : src[pidx]? with
      | none => simp [hd, hs] at h
      | some stp1 =>
        simp only [hd, hs, fold_pool, List.getElem?_zipWith] at h ⊢
        cases hd2 : stp2.metric[fidx]? with
        | none => simp [hd2] at h
        | some a =>
          cases hs2 : stp1.metric[fidx]? with
          | none => simp [hd2, hs2] at h
          | some b =>
            simp only [hd2, hs2, Option.some.injEq] at h
            exact ⟨b, a, rfl, rfl, h.symm⟩
  | server pidx sidx fidx =>
    simp only [metric_at, List.getElem?_zipWith] at *
    cases hd : dst[pidx]? with
    | none => simp [hd] at h
    | some stp2 =>
      cases hs : src[pidx]? with
      | none => simp [hd, hs] at h
      | some stp1 =>
        simp only [hd, hs, fold_pool, List.getElem?_zipWith] at h ⊢
        cases hd2 : stp2.server[sidx]? with
        | none => simp [hd2] at h
        | some sts2 =>
          cases hs2 : stp1.server[sidx]? with
          | none => simp [hd2, hs2] at h
          | some sts1 =>
            simp only [hd2, hs2, fold_server, List.getElem?_zipWith] at h ⊢
            cases hd3 : sts2.metric[fidx]? with
            | none => simp [hd3] at h
            | some a =>
              cases hs3 : sts1.metric[fidx]? with
              | none => simp [hd3, hs3] at h
              | some b =>
                simp only [hd3, hs3, Option.some.injEq] at h
                exact ⟨b, a, rfl, rfl, h.symm⟩

theorem kind_eq_of_shape (dst src : List stats_pool) (hs : gen_shape dst = gen_shape src)
    (p : field_pos) (m1 m2 : stats_metric)
    (h1 : metric_at src p = some m1) (h2 : metric_at dst p = some m2) : m2.type = m1.type := by
  have a := kind_at_gen_shape dst p
  have b := kind_at_gen_shape src p
  rw [hs, b, h1, h2] at a
  simpa using a.symm

theorem fold_metric_type (m2 m1 : stats_metric) : (fold_metric m2 m1).type = m2.type := by
  unfold fold_metric
  cases m1.type <;> rfl

/-! ## Aggregation: gauges and timestamps -/

theorem stats_aggregate_eq (B : Build) (st : stats) (hbusy : st.aggregate ≠ 0)
    (hshape : gen_shape st.sum = gen_shape st.shadow) (hvalid : kinds_valid st.shadow = true) :
    stats_aggregate B st
      = some { st with sum := List.zipWith fold_pool st.sum st.shadow, aggregate := 0 } := by
  simp [stats_aggregate, hbusy, aggregate_pool_eq B _ _ hshape hvalid]

/-- C2 (gauge floor). When the aggregator is busy and `sum` and `shadow` have
the same shape, `stats_aggregate` returns, and at every gauge position the new
value in `sum` is `max 0` of the `int64_t` sum of the old `sum` value and the
`shadow` value (which is `max 0 (old + shadow)` whenever that sum is
representable); hence no gauge of `sum` is negative afterwards. -/
theorem gauge_floor_after_aggregate (B : Build) (st : stats)
    (hbusy : st.aggregate ≠ 0)
    (hshape : gen_shape st.sum = gen_shape st.shadow)
    (hvalid : kinds_valid st.shadow = true) :
    ∃ st1, stats_aggregate B st = some st1 ∧
      (∀ p m1 m2, metric_at st.shadow p = some m1 → metric_at st.sum p = some m2 →
        m1.type = STATS_GAUGE →
        ∃ m, metric_at st1.sum p = some m ∧
          m.value = max 0 (wrap64 (m2.value + m1.value)) ∧
          (int64_ok (m2.value + m1.value) → m.value = max 0 (m2.value + m1.value))) ∧
      (∀ p m, metric_at st1.sum p = some m → m.type = STATS_GAUGE → 0 ≤ m.value) := by
  refine ⟨_, stats_aggregate_eq B st hbusy hshape hvalid, ?_, ?_⟩
  · intro p m1 m2 h1 h2 hk
    refine ⟨fold_metric m2 m1, metric_at_fold _ _ p m1 m2 h1 h2, ?_, ?_⟩
    · simp [fold_metric, hk]
    · intro hok
      simp [fold_metric, hk, wrap64_of_ok hok]
  · intro p m hm hk
    obtain ⟨m1, m2, h1, h2, rfl⟩ := metric_at_fold_inv _ _ p m hm
    have ht : m2.type = m1.type := kind_eq_of_shape _ _ hshape p m1 m2 h1 h2
    rw [fold_metric_type, ht] at hk
    simp [fold_metric, hk]

/-- Witness of C2: a gauge holding 2 in `sum` and -5 in `shadow` is 0 after
the aggregation, and a gauge holding 4 and -9 likewise. -/
theorem gauge_floor_after_aggregate_witness :
    ∃ st1, stats_aggregate demo_build
        (demo_stats (demo_gen 0 0 0 0 0) (demo_gen 1 (-5) 3 (-9) 0) (demo_gen 10 2 3 4 77) 0 1 0)
        = some st1 ∧
      (∃ m, metric_at st1.sum (.pool 0 1) = some m ∧ m.value = 0) ∧
      (∀ p m, metric_at st1.sum p = some m → m.type = STATS_GAUGE → 0 ≤ m.value) := by
  obtain ⟨st1, h, hpos, hnn⟩ := gauge_floor_after_aggregate demo_build
    (demo_stats (demo_gen 0 0 0 0 0) (demo_gen 1 (-5) 3 (-9) 0) (demo_gen 10 2 3 4 77) 0 1 0)
    (by decide) (by decide) (by decide)
  refine ⟨st1, h, ?_, hnn⟩
  obtain ⟨m, hm, hv, _⟩ := hpos (.pool 0 1)
    ⟨STATS_GAUGE, string_set_text "client_connections", -5⟩
    ⟨STATS_GAUGE, string_set_text "client_connections", 2⟩ (by decide) (by decide) rfl
  exact ⟨m, hm, by rw [hv]; decide⟩

/-- C3 (timestamp, latest non-zero wins). When the aggregator is busy and
`sum` and `shadow` have the same shape, `stats_aggregate` returns, and at every
timestamp position the metric of `sum` is unchanged when the `shadow` value is
zero and takes the `shadow` value when that value is non-zero. -/
theorem timestamp_latest_nonzero_wins (B : Build) (st : stats)
    (hbusy : st.aggregate ≠ 0)
    (hshape : gen_shape st.sum = gen_shape st.shadow)
    (hvalid : kinds_valid st.shadow = true) :
    ∃ st1, stats_aggregate B st = some st1 ∧
      ∀ p m1 m2, metric_at st.shadow p = some m1 → metric_at st.sum p = some m2 →
        m1.type = STATS_TIMESTAMP →
        (m1.value = 0 → metric_at st1.sum p = some m2) ∧
        (m1.value ≠ 0 → metric_at st1.sum p = some { m2 with value := m1.value }) := by
  refine ⟨_, stats_aggregate_eq B st hbusy hshape hvalid, ?_⟩
  intro p m1 m2 h1 h2 hk
  have h := metric_at_fold st.sum st.shadow p m1 m2 h1 h2
  constructor
  · intro hz
    simpa [fold_metric, hk, hz] using h
  · intro hz
    simpa [fold_metric, hk, hz] using h

/-- Witness of C3: the timestamp 77 of `sum` survives a zero timestamp in
`shadow`. -/
theorem timestamp_latest_nonzero_wins_witness :
    ∃ st1, stats_aggregate demo_build
        (demo_stats (demo_gen 0 0 0 0 0) (demo_gen 1 (-5) 3 (-9) 0) (demo_gen 10 2 3 4 77) 0 1 0)
        = some st1 ∧
      metric_at st1.sum (.server 0 0 2)
        = some ⟨STATS_TIMESTAMP, string_set_text "server_ejected_at", 77⟩ := by
  obtain ⟨st1, h, hpos⟩ := timestamp_latest_nonzero_wins demo_build
    (demo_stats (demo_gen 0 0 0 0 0) (demo_gen 1 (-5) 3 (-9) 0) (demo_gen 10 2 3 4 77) 0 1 0)
    (by decide) (by decide) (by decide)
  exact ⟨st1, h, (hpos (.server 0 0 2)
    ⟨STATS_TIMESTAMP, string_set_text "server_ejected_at", 0⟩
    ⟨STATS_TIMESTAMP, string_set_text "server_ejected_at", 77⟩ (by decide) (by decide) rfl).1 rfl⟩

/-! ## Reset and swap -/

theorem metric_init_eq (B : Build) (stm : stats_metric) (h : stm.type ≠ STATS_INVALID) :
    stats_metric_init B stm = some { stm with value := 0 } := by
  unfold stats_metric_init
  rcases stm with ⟨t, n, v⟩
  cases t
  · exact absurd rfl h
  all_goals rfl

theorem metric_reset_loop_eq (B : Build) :
    ∀ (m : List stats_metric), metric_valid m = true →
      stats_metric_reset_loop B m = some (zero_metric m)
  | [], _ => rfl
  | stm :: rest, h => by
    simp only [metric_valid, List.all_cons, Bool.and_eq_true, bne_iff_ne, ne_eq] at h
    have ih := metric_reset_loop_eq B rest h.2
    simp [stats_metric_reset_loop, metric_init_eq B stm h.1, ih, zero_metric]

theorem metric_reset_eq (B : Build) (m : List stats_metric) (h : metric_ok B m = true) :
    stats_metric_reset B m = some (zero_metric m) := by
  simp only [metric_ok, Bool.and_eq_true] at h
  simp [stats_metric_reset, assert_fails, h.1, metric_reset_loop_eq B m h.2]

theorem server_reset_loop_eq (B : Build) :
    ∀ (l : List stats_server), l.all (fun sts => metric_ok B sts.metric) = true →
      stats_server_reset_loop B l
        = some (l.map (fun sts => { sts with metric := zero_metric sts.metric }))
  | [], _ => rfl
  | sts :: rest, h => by
    simp only [List.all_cons, Bool.and_eq_true] at h
    have ih := server_reset_loop_eq B rest h.2
    simp [stats_server_reset_loop, metric_reset_eq B _ h.1, ih]

theorem pool_reset_eq (B : Build) :
    ∀ (g : List stats_pool), gen_ok B g = true → stats_pool_reset B g = some (zero_gen g)
  | [], _ => rfl
  | stp :: rest, h => by
    simp only [gen_ok, List.all_cons, Bool.and_eq_true] at h
    have ih := pool_reset_eq B rest h.2
    simp [stats_pool_reset, metric_reset_eq B _ h.1.1, server_reset_loop_eq B _ h.1.2, ih,
      zero_gen]

theorem gen_shape_zero_gen (g : List stats_pool) : gen_shape (zero_gen g) = gen_shape g := by
  simp [gen_shape, zero_gen, zero_metric, metric_kinds, Function.comp_def]

theorem gen_names_zero_gen (g : List stats_pool) : gen_names (zero_gen g) = gen_names g := by
  simp [gen_names, zero_gen, Function.comp_def]

theorem metric_at_zero_gen (g : List stats_pool) (p : field_pos) :
    metric_at (zero_gen g) p = (metric_at g p).map (fun m => { m with value := 0 }) := by
  cases p with
  | pool pidx fidx =>
    simp only [metric_at, zero_gen, List.getElem?_map]
    cases g[pidx]? <;> simp [zero_metric]
  | server pidx sidx fidx =>
    simp only [metric_at, zero_gen, List.getElem?_map]
    cases g[pidx]? with
    | none => simp
    | some stp =>
      simp only [Option.map_some', List.getElem?_map]
      cases stp.server[sidx]? <;> simp [zero_metric]

theorem stats_swap_eq (B : Build) (st : stats)
    (hen : B.stats_enabled = true) (hp : st.pause = 0) (ha : st.aggregate ≠ 1)
    (hu : st.updated ≠ 0) (hok : gen_ok B st.shadow = true) :
    stats_swap B st = some { st with current := zero_gen st.shadow, shadow := st.current,
                                     updated := 0, aggregate := 1 } := by
  simp [stats_swap, hen, hp, ha, hu, pool_reset_eq B _ hok]

/-- C4 (swap effect). In an enabled, un-paused engine with `aggregate == 0`
and `updated == 1` whose shadow generation is well formed, `stats_swap` returns
the state in which `shadow` is the old `current` (values included), `current`
is the old `shadow` with every value zero and the same names, kinds and shape,
`updated` is 0, `aggregate` is 1, and everything else, `sum` included, is as
before. -/
theorem stats_swap_effect (B : Build) (st : stats)
    (hen : B.stats_enabled = true) (hp : st.pause = 0) (ha : st.aggregate = 0)
    (hu : st.updated = 1) (hok : gen_ok B st.shadow = true) :
    stats_swap B st = some { st with current := zero_gen st.shadow, shadow := st.current,
                                     updated := 0, aggregate := 1 } ∧
      gen_shape (zero_gen st.shadow) = gen_shape st.shadow ∧
      gen_names (zero_gen st.shadow) = gen_names st.shadow ∧
      (∀ p, metric_at (zero_gen st.shadow) p
          = (metric_at st.shadow p).map (fun m => { m with value := 0 })) := by
  refine ⟨stats_swap_eq B st hen hp ?_ ?_ hok, gen_shape_zero_gen _, gen_names_zero_gen _,
    metric_at_zero_gen _⟩
  · rw [ha]; decide
  · rw [hu]; decide

/-- Witness of C4 on the sample engine. -/
theorem stats_swap_effect_witness :
    stats_swap demo_build
        (demo_stats (demo_gen 1 2 3 4 5) (demo_gen 6 7 8 9 10) (demo_gen 11 12 13 14 15) 1 0 0)
      = some (demo_stats (demo_gen 0 0 0 0 0) (demo_gen 1 2 3 4 5) (demo_gen 11 12 13 14 15)
                0 1 0) :=
  (stats_swap_effect demo_build
    (demo_stats (demo_gen 1 2 3 4 5) (demo_gen 6 7 8 9 10) (demo_gen 11 12 13 14 15) 1 0 0)
    rfl rfl rfl rfl (by decide)).1

/-- C5 (swap no-op). `stats_swap` returns the state unchanged - generations
and flags alike - when the engine is disabled, when it is paused, when
`aggregate == 1`, or when `updated == 0`. -/
theorem stats_swap_noop (B : Build) (st : stats)
    (h : B.stats_enabled = false ∨ st.pause ≠ 0 ∨ st.aggregate = 1 ∨ st.updated = 0) :
    stats_swap B st = some st := by
  unfold stats_swap
  rcases h with h | h | h | h
  · simp [h]
  · simp [h]
  · by_cases h1 : B.stats_enabled = true <;> by_cases h2 : st.pause = 0 <;> simp [h, h1, h2]
  · by_cases h1 : B.stats_enabled = true <;> by_cases h2 : st.pause = 0 <;>
      by_cases h3 : st.aggregate = 1 <;> simp [h, h1, h2, h3]

/-- Witness of C5: a swap of a clean (not updated) sample engine. -/
theorem stats_swap_noop_witness :
    stats_swap demo_build
        (demo_stats (demo_gen 1 2 3 4 5) (demo_gen 6 7 8 9 10) (demo_gen 11 12 13 14 15) 0 0 0)
      = some (demo_stats (demo_gen 1 2 3 4 5) (demo_gen 6 7 8 9 10) (demo_gen 11 12 13 14 15)
                0 0 0) :=
  stats_swap_noop demo_build _ (Or.inr (Or.inr (Or.inr rfl)))

/-- C10 (pause drops writes). While `pause` is set, each of the ten
instrumentation entry points that test it returns the state unchanged: no
metric of `current`, `shadow` or `sum` changes and `updated` is not set. -/
theorem pause_drops_writes (B : Build) (st : stats) (pool : server_pool) (server : server)
    (fidx : Nat) (val : Int) (hp : st.pause ≠ 0) :
    _stats_pool_incr B st pool fidx = some st ∧
    _stats_pool_decr B st pool fidx = some st ∧
    _stats_pool_incr_by B st pool fidx val = some st ∧
    _stats_pool_decr_by B st pool fidx val = some st ∧
    _stats_pool_set_ts B st pool fidx val = some st ∧
    _stats_server_incr B st server fidx = some st ∧
    _stats_server_decr B st server fidx = some st ∧
    _stats_server_incr_by B st server fidx val = some st ∧
    _stats_server_decr_by B st server fidx val = some st ∧
    _stats_server_set_ts B st server fidx val = some st := by
  simp [_stats_pool_incr, _stats_pool_decr, _stats_pool_incr_by, _stats_pool_decr_by,
    _stats_pool_set_ts, _stats_server_incr, _stats_server_decr, _stats_server_incr_by,
    _stats_server_decr_by, _stats_server_set_ts, hp]

/-- Witness of C10: an increment on the paused sample engine changes nothing. -/
theorem pause_drops_writes_witness :
    _stats_pool_incr demo_build
        (demo_stats (demo_gen 1 2 3 4 5) (demo_gen 6 7 8 9 10) (demo_gen 11 12 13 14 15) 0 0 1)
        demo_pool 0
      = some (demo_stats (demo_gen 1 2 3 4 5) (demo_gen 6 7 8 9 10) (demo_gen 11 12 13 14 15)
                0 0 1) :=
  (pause_drops_writes demo_build _ demo_pool demo_server 0 0 (by decide)).1

/-! ## Stores into `current` -/

theorem set_same {α : Type} : ∀ (l : List α) (i : Nat) (x : α), l[i]? = some x → l.set i x = l
  | [], _, _, _ => rfl
  | a :: l, 0, x, h => by
    simp only [List.getElem?_cons_zero, Option.some.injEq] at h
    simp [h]
  | a :: l, i + 1, x, h => by
    simp only [List.getElem?_cons_succ] at h
    simp [set_same l i x h]

theorem pool_store_eq (st : stats) (pool : server_pool) (fidx : Nat) (m : stats_metric) :
    stats_pool_store st pool fidx m
      = { st with current := put_at st.current (.pool pool.idx fidx) m } := by
  cases h : st.current[pool.idx]? <;> simp [stats_pool_store, put_at, h]

theorem server_store_eq (st : stats) (server : server) (fidx : Nat) (m : stats_metric) :
    stats_server_store st server fidx m
      = { st with current := put_at st.current (.server server.owner_idx server.idx fidx) m } := by
  cases h : st.current[server.owner_idx]? with
  | none => simp [stats_server_store, put_at, h]
  | some stp => cases h1 : stp.server[server.idx]? <;> simp [stats_server_store, put_at, h, h1]

theorem metric_at_put_at_self (g : List stats_pool) (p : field_pos) (m m0 : stats_metric)
    (h : metric_at g p = some m0) : metric_at (put_at g p m) p = some m := by
  cases p with
  | pool pidx fidx =>
    simp only [metric_at, put_at] at *
    cases hg : g[pidx]? with
    | none => simp [hg] at h
    | some stp =>
      simp only [hg] at h ⊢
      have hlt : pidx < g.length := (List.getElem?_eq_some.1 hg).1
      have hlt2 : fidx < stp.metric.length := (List.getElem?_eq_some.1 h).1
      simp [List.getElem?_set_self hlt, List.getElem?_set_self hlt2]
  | server pidx sidx fidx =>
    simp only [metric_at, put_at] at *
    cases hg : g[pidx]? with
    | none => simp [hg] at h
    | some stp =>
      simp only [hg] at h ⊢
      cases hs : stp.server[sidx]? with
      | none => simp [hs] at h
      | some sts =>
        simp only [hs] at h ⊢
        have hlt : pidx < g.length := (List.getElem?_eq_some.1 hg).1
        have hlt1 : sidx < stp.server.length := (List.getElem?_eq_some.1 hs).1
        have hlt2 : fidx < sts.metric.length := (List.getElem?_eq_some.1 h).1
        simp [List.getElem?_set_self hlt, List.getElem?_set_self hlt1,
          List.getElem?_set_self hlt2]

theorem gen_shape_put_at (g : List stats_pool) (p : field_pos) (m m0 : stats_metric)
    (h : metric_at g p = some m0) (ht : m.type = m0.type) :
    gen_shape (put_at g p m) = gen_shape g := by
  cases p with
  | pool pidx fidx =>
    simp only [metric_at, put_at] at *
    cases hg : g[pidx]? with
    | none => simp [hg] at h
    | some stp =>
      simp only [hg] at h ⊢
      simp only [gen_shape, List.map_set, metric_kinds]
      apply set_same
      simp only [List.getElem?_map, hg, Option.map_some', Option.some.injEq, Prod.mk.injEq,
        and_true]
      symm
      apply set_same
      simp [h, ht]
  | server pidx sidx fidx =>
    simp only [metric_at, put_at] at *
    cases hg : g[pidx]? with
    | none => simp [hg] at h
    | some stp =>
      simp only [hg] at h ⊢
      cases hs : stp.server[sidx]? with
      | none => simp [hs] at h
      | some sts =>
        simp only [hs] at h ⊢
        simp only [gen_shape, List.map_set, metric_kinds]
        apply set_same
        simp only [List.getElem?_map, hg, Option.map_some', Option.some.injEq, Prod.mk.injEq,
          true_and]
        symm
        apply set_same
        simp only [List.getElem?_map, hs, Option.map_some', Option.some.injEq]
        symm
        apply set_same
        simp [h, ht]

theorem pool_incr_eq (B : Build) (st : stats) (pool : server_pool) (fidx : Nat)
    (mc : stats_metric) (hp : st.pause = 0)
    (hm : metric_at st.current (.pool pool.idx fidx) = some mc)
    (hk : is_counter_or_gauge mc = true) :
    _stats_pool_incr B st pool fidx
      = some { st with updated := 1, current := put_at st.current (.pool pool.idx fidx)
                                      { mc with value := wrap64 (mc.value + 1) } } := by
  simp only [metric_at] at hm
  cases hg : st.current[pool.idx]? with
  | none => simp [hg] at hm
  | some stp =>
    simp only [hg] at hm
    simp [_stats_pool_incr, hp, stats_pool_to_metric, hg, hm, assert_fails, hk, pool_store_eq]

theorem server_incr_eq (B : Build) (st : stats) (server : server) (fidx : Nat)
    (mc : stats_metric) (hp : st.pause = 0)
    (hm : metric_at st.current (.server server.owner_idx server.idx fidx) = some mc)
    (hk : is_counter_or_gauge mc = true) :
    _stats_server_incr B st server fidx
      = some { st with updated := 1,
                       current := put_at st.current (.server server.owner_idx server.idx fidx)
                                      { mc with value := wrap64 (mc.value + 1) } } := by
  simp only [metric_at] at hm
  cases hg : st.current[server.owner_idx]? with
  | none => simp [hg] at hm
  | some stp =>
    simp only [hg] at hm
    cases hs : stp.server[server.idx]? with
    | none => simp [hs] at hm
    | some sts =>
      simp only [hs] at hm
      simp [_stats_server_incr, hp, stats_server_to_metric, hg, hs, hm, assert_fails, hk,
        server_store_eq]

/-! ## Shapes are preserved -/

theorem metric_ok_congr (B : Build) (a b : List stats_metric)
    (h : metric_kinds a = metric_kinds b) : metric_ok B a = metric_ok B b := by
  have hl : a.length = b.length := by
    have := congrArg List.length h
    simpa [metric_kinds] using this
  have hv : metric_valid a = metric_valid b := by
    have e : ∀ m : List stats_metric,
        metric_valid m = (metric_kinds m).all (fun t => t != STATS_INVALID) := by
      intro m
      induction m with
      | nil => rfl
      | cons x m ih =>
        simp only [metric_valid, metric_kinds, List.all_cons, List.map_cons] at ih ⊢
        rw [ih]
    rw [e a, e b, h]
  simp [metric_ok, hl, hv]

theorem server_ok_congr (B : Build) :
    ∀ (a b : List stats_server),
      a.map (fun sts => metric_kinds sts.metric) = b.map (fun sts => metric_kinds sts.metric) →
      a.all (fun sts => metric_ok B sts.metric) = b.all (fun sts => metric_ok B sts.metric)
  | [], [], _ => rfl
  | [], _ :: _, h => by simp at h
  | _ :: _, [], h => by simp at h
  | x :: a, y :: b, h => by
    simp only [List.map_cons, List.cons.injEq] at h
    simp [List.all_cons, metric_ok_congr B _ _ h.1, server_ok_congr B a b h.2]

theorem gen_ok_congr (B : Build) :
    ∀ (a b : List stats_pool), gen_shape a = gen_shape b → gen_ok B a = gen_ok B b
  | [], [], _ => rfl
  | [], _ :: _, h => by simp [gen_shape] at h
  | _ :: _, [], h => by simp [gen_shape] at h
  | x :: a, y :: b, h => by
    simp only [gen_shape, List.map_cons, List.cons.injEq, Prod.mk.injEq] at h
    have ih := gen_ok_congr B a b h.2
    simp only [gen_ok] at ih ⊢
    simp [List.all_cons, metric_ok_congr B _ _ h.1.1, server_ok_congr B _ _ h.1.2, ih]

theorem kinds_valid_of_gen_ok (B : Build) :
    ∀ (g : List stats_pool), gen_ok B g = true → kinds_valid g = true
  | [], _ => rfl
  | x :: g, h => by
    simp only [gen_ok, List.all_cons, Bool.and_eq_true, metric_ok, List.all_eq_true] at h
    have ih := kinds_valid_of_gen_ok B g (by simpa [gen_ok, metric_ok] using h.2)
    simp only [kinds_valid] at ih ⊢
    simp only [List.all_cons, Bool.and_eq_true, List.all_eq_true]
    exact ⟨⟨h.1.1.2, fun s hs => (h.1.2 s hs).2⟩, by simpa using ih⟩

theorem metric_kinds_fold (d s : List stats_metric) (h : metric_kinds d = metric_kinds s) :
    metric_kinds (List.zipWith fold_metric d s) = metric_kinds d := by
  induction d generalizing s with
  | nil => simp [metric_kinds]
  | cons x d ih =>
    cases s with
    | nil => simp [metric_kinds] at h
    | cons y s =>
      simp only [metric_kinds, List.map_cons, List.cons.injEq] at h
      have := ih s h.2
      simp only [metric_kinds] at this
      simp [metric_kinds, fold_metric_type, this]

theorem server_kinds_fold :
    ∀ (d s : List stats_server),
      d.map (fun sts => metric_kinds sts.metric) = s.map (fun sts => metric_kinds sts.metric) →
      (List.zipWith fold_server d s).map (fun sts => metric_kinds sts.metric)
        = d.map (fun sts => metric_kinds sts.metric)
  | [], _, _ => by simp
  | _ :: _, [], h => by simp at h
  | x :: d, y :: s, h => by
    simp only [List.map_cons, List.cons.injEq] at h
    simp [fold_server, metric_kinds_fold _ _ h.1, server_kinds_fold d s h.2]

theorem gen_shape_fold :
    ∀ (d s : List stats_pool), gen_shape d = gen_shape s →
      gen_shape (List.zipWith fold_pool d s) = gen_shape d
  | [], _, _ => by simp [gen_shape]
  | _ :: _, [], h => by simp [gen_shape] at h
  | x :: d, y :: s, h => by
    simp only [gen_shape, List.map_cons, List.cons.injEq, Prod.mk.injEq] at h
    have ih := gen_shape_fold d s h.2
    simp only [gen_shape] at ih ⊢
    simp [fold_pool, metric_kinds_fold _ _ h.1.1, server_kinds_fold _ _ h.1.2, ih]

/-! ## The flush cycle -/

theorem stats_incr_eq (B : Build) (t : incr_target) (st : stats) (mc : stats_metric)
    (hp : st.pause = 0) (hm : metric_at st.current t.pos = some mc)
    (hk : is_counter_or_gauge mc = true) :
    stats_incr B t st
      = some { st with updated := 1, current := put_at st.current t.pos
                                      { mc with value := wrap64 (mc.value + 1) } } := by
  cases t with
  | pool p fidx => exact pool_incr_eq B st p fidx mc hp hm hk
  | server s fidx => exact server_incr_eq B st s fidx mc hp hm hk

theorem repeat_incr (B : Build) (t : incr_target) :
    ∀ (N : Nat) (st : stats) (mc : stats_metric), st.pause = 0 →
      metric_at st.current t.pos = some mc → is_counter_or_gauge mc = true →
      int64_ok mc.value → int64_ok (mc.value + N) →
      ∃ st1, repeat_step (stats_incr B t) N st = some st1 ∧
        metric_at st1.current t.pos = some { mc with value := mc.value + N } ∧
        gen_shape st1.current = gen_shape st.current ∧
        st1.shadow = st.shadow ∧ st1.sum = st.sum ∧ st1.pause = 0 ∧
        st1.aggregate = st.aggregate ∧ (0 < N → st1.updated = 1) ∧ (N = 0 → st1 = st)
  | 0, st, mc, hp, hm, _, _, _ => by
    refine ⟨st, rfl, ?_, rfl, rfl, rfl, hp, rfl, fun h => absurd h (lt_irrefl 0), fun _ => rfl⟩
    simpa using hm
  | N + 1, st, mc, hp, hm, hk, hv, hv1 => by
    have hstep := stats_incr_eq B t st mc hp hm hk
    have hw : wrap64 (mc.value + 1) = mc.value + 1 := by
      apply wrap64_of_ok
      unfold int64_ok at *
      push_cast at hv1
      omega
    rw [hw] at hstep
    have hm1 := metric_at_put_at_self st.current t.pos { mc with value := mc.value + 1 } mc hm
    have hsh := gen_shape_put_at st.current t.pos { mc with value := mc.value + 1 } mc hm rfl
    obtain ⟨st1, h1, h2, h3, h4, h5, h6, h7, h8, _⟩ :=
      repeat_incr B t N
        { st with updated := 1, current := put_at st.current t.pos
                                    { mc with value := mc.value + 1 } }
        { mc with value := mc.value + 1 } hp hm1 hk
        (by unfold int64_ok at *; push_cast at hv1; simp only; omega)
        (by unfold int64_ok at *; push_cast at hv1; simp only; omega)
    refine ⟨st1, ?_, ?_, ?_, h4, h5, h6, h7, ?_, ?_⟩
    · simp only [repeat_step, hstep, h1]
    · rw [h2]
      simp only [Nat.cast_add, Nat.cast_one, Option.some.injEq, stats_metric.mk.injEq, true_and]
      omega
    · rw [h3]; exact hsh
    · intro _
      rcases Nat.eq_zero_or_pos N with h0 | h0
      · subst h0
        simp only [repeat_step, Option.some.injEq] at h1
        rw [← h1]
      · exact h8 h0
    · intro h; omega

theorem kind_of_shape_eq (a b : List stats_pool) (hs : gen_shape a = gen_shape b)
    (p : field_pos) (m : stats_metric) (h : metric_at a p = some m) :
    ∃ m1, metric_at b p = some m1 ∧ m1.type = m.type := by
  have ha := kind_at_gen_shape a p
  have hb := kind_at_gen_shape b p
  rw [hs, hb, h] at ha
  cases hm : metric_at b p with
  | none => simp [hm] at ha
  | some m1 =>
    refine ⟨m1, rfl, ?_⟩
    simpa [hm] using ha

theorem flush_cycle_step (B : Build) (t : incr_target) (N : Nat) (st : stats)
    (mc ms : stats_metric)
    (hen : B.stats_enabled = true) (hp : st.pause = 0) (ha : st.aggregate = 0)
    (hwf : stats_wf B st)
    (hc : metric_at st.current t.pos = some mc) (hk : mc.type = STATS_COUNTER)
    (hz : mc.value = 0) (hs : metric_at st.sum t.pos = some ms)
    (hN : (N : Int) < 2 ^ 63) (hsum : int64_ok (ms.value + N)) :
    ∃ st1, flush_cycle B t N st = some st1 ∧ st1.pause = 0 ∧ st1.aggregate = 0 ∧
      stats_wf B st1 ∧
      (∃ mc1, metric_at st1.current t.pos = some mc1 ∧ mc1.type = STATS_COUNTER ∧
        mc1.value = 0) ∧
      metric_at st1.sum t.pos = some { ms with value := ms.value + N } := by
  obtain ⟨hw1, hw2, hw3⟩ := hwf
  have hkk : is_counter_or_gauge mc = true := by simp [is_counter_or_gauge, hk]
  obtain ⟨s1, h1, h2, h3, h4, h5, h6, h7, h8, h9⟩ :=
    repeat_incr B t N st mc hp hc hkk (by rw [hz]; unfold int64_ok; omega)
      (by rw [hz]; unfold int64_ok; omega)
  by_cases hu : s1.updated = 0
  · have hN0 : N = 0 := by
      rcases Nat.eq_zero_or_pos N with h0 | h0
      · exact h0
      · rw [h8 h0] at hu; exact absurd hu (by decide)
    have hst : s1 = st := h9 hN0
    subst hst
    refine ⟨s1, ?_, hp, ha, ⟨hw1, hw2, hw3⟩, ⟨mc, hc, hk, hz⟩, ?_⟩
    · simp [flush_cycle, incr_swap_aggregate, h1,
        stats_swap_noop B s1 (Or.inr (Or.inr (Or.inr hu))), stats_aggregate, ha]
    · rw [hs, hN0]; simp
  · have hok1 : gen_ok B s1.shadow = true := by rw [h4]; exact hw3
    have hswap := stats_swap_eq B s1 hen h6 (by rw [h7, ha]; decide) hu hok1
    have hokc : gen_ok B s1.current = true := by
      rw [gen_ok_congr B s1.current st.shadow (by rw [h3, hw1])]; exact hw3
    have hagg := stats_aggregate_eq B
      { s1 with current := zero_gen s1.shadow, shadow := s1.current, updated := 0,
                aggregate := 1 }
      (by simp) (by simp only; rw [h5, h3, hw1, hw2])
      (kinds_valid_of_gen_ok B _ hokc)
    simp only at hagg
    refine ⟨{ s1 with current := zero_gen s1.shadow, shadow := s1.current, updated := 0,
                      sum := List.zipWith fold_pool s1.sum s1.current, aggregate := 0 },
      ?_, ?_, rfl, ⟨?_, ?_, hokc⟩, ?_, ?_⟩
    · simp only [flush_cycle, incr_swap_aggregate, h1, hswap, hagg]
    · exact h6
    · simp only
      rw [gen_shape_zero_gen, h4, h3, hw1]
    · simp only
      rw [gen_shape_fold _ _ (by rw [h5, h3, hw1, hw2]), h5, h3, hw1, hw2]
    · simp only
      obtain ⟨m1, hm1, hm1t⟩ := kind_of_shape_eq st.current st.shadow hw1 t.pos mc hc
      refine ⟨{ m1 with value := 0 }, ?_, ?_, rfl⟩
      · rw [metric_at_zero_gen, h4, hm1]; rfl
      · simp only; rw [hm1t, hk]
    · simp only
      rw [metric_at_fold s1.sum s1.current t.pos _ ms h2 (by rw [h5]; exact hs)]
      simp only [fold_metric, hk, hz, zero_add, Option.some.injEq, stats_metric.mk.injEq,
        true_and]
      exact wrap64_of_ok hsum

theorem flush_cycles (B : Build) (t : incr_target) (N : Nat)
    (hen : B.stats_enabled = true) (hN : (N : Int) < 2 ^ 63) :
    ∀ (M : Nat) (st : stats) (mc ms : stats_metric),
      st.pause = 0 → st.aggregate = 0 → stats_wf B st →
      metric_at st.current t.pos = some mc → mc.type = STATS_COUNTER → mc.value = 0 →
      metric_at st.sum t.pos = some ms → int64_ok ms.value →
      int64_ok (ms.value + N * M) →
      ∃ stM, repeat_step (flush_cycle B t N) M st = some stM ∧
        metric_at stM.sum t.pos = some { ms with value := ms.value + N * M }
  | 0, st, _, ms, _, _, _, _, _, _, hs, _, _ => by
    refine ⟨st, rfl, ?_⟩
    simpa using hs
  | M + 1, st, mc, ms, hp, ha, hwf, hc, hk, hz, hs, hms, hsum => by
    have hnm : (0 : Int) ≤ N * M := by positivity
    have hsum1 : int64_ok (ms.value + N) := by
      unfold int64_ok at *
      push_cast at hsum
      rw [mul_add, mul_one] at hsum
      constructor <;> omega
    obtain ⟨st1, h1, hp1, ha1, hwf1, ⟨mc1, hc1, hk1, hz1⟩, hs1⟩ :=
      flush_cycle_step B t N st mc ms hen hp ha hwf hc hk hz hs hN hsum1
    obtain ⟨stM, h2, h3⟩ := flush_cycles B t N hen hN M st1 mc1 { ms with value := ms.value + N }
      hp1 ha1 hwf1 hc1 hk1 hz1 hs1 hsum1
      (by
        unfold int64_ok at *
        push_cast at hsum
        rw [mul_add, mul_one] at hsum
        simp only
        constructor <;> omega)
    refine ⟨stM, ?_, ?_⟩
    · simp only [repeat_step, h1, h2]
    · rw [h3]
      simp only [Option.some.injEq, stats_metric.mk.injEq, true_and]
      push_cast
      ring

/-- C1 (aggregation additivity). In an enabled, un-paused, well-formed engine
with `aggregate == 0`, take a counter field of a pool or of a server that is 0
in `current`. `N` calls of the increment entry point on it, then `stats_swap`,
then `stats_aggregate` return, and the field in `sum` is exactly `N` larger;
`M` such cycles in a row make it `N * M` larger (the sums are assumed to fit
an `int64_t`). -/
theorem aggregation_additivity (B : Build) (st : stats) (t : incr_target) (N M : Nat)
    (mc ms : stats_metric)
    (hen : B.stats_enabled = true) (hp : st.pause = 0) (ha : st.aggregate = 0)
    (hwf : stats_wf B st)
    (hc : metric_at st.current t.pos = some mc) (hk : mc.type = STATS_COUNTER)
    (hz : mc.value = 0) (hs : metric_at st.sum t.pos = some ms) (hms : int64_ok ms.value)
    (hN : (N : Int) < 2 ^ 63) :
    (int64_ok (ms.value + N) →
      ∃ st1, flush_cycle B t N st = some st1 ∧
        metric_at st1.sum t.pos = some { ms with value := ms.value + N }) ∧
    (int64_ok (ms.value + N * M) →
      ∃ stM, repeat_step (flush_cycle B t N) M st = some stM ∧
        metric_at stM.sum t.pos = some { ms with value := ms.value + N * M }) := by
  constructor
  · intro hsum
    obtain ⟨st1, h1, _, _, _, _, h2⟩ :=
      flush_cycle_step B t N st mc ms hen hp ha hwf hc hk hz hs hN hsum
    exact ⟨st1, h1, h2⟩
  · intro hsum
    exact flush_cycles B t N hen hN M st mc ms hp ha hwf hc hk hz hs hms hsum

/-- Witness of C1: on the sample engine, two cycles of three increments of the
pool counter `client_eof` take its value in `sum` from 10 to 16, and two
cycles of three increments of the server counter `requests` take it from 3 to 9. -/
theorem aggregation_additivity_witness :
    (∃ stM, repeat_step (flush_cycle demo_build (.pool demo_pool 0) 3) 2
        (demo_stats (demo_gen 0 2 0 4 5) (demo_gen 6 7 8 9 10) (demo_gen 10 2 3 4 77) 0 0 0)
          = some stM ∧
        metric_at stM.sum (.pool 0 0)
          = some ⟨STATS_COUNTER, string_set_text "client_eof", 16⟩) ∧
    (∃ stM, repeat_step (flush_cycle demo_build (.server demo_server 0) 3) 2
        (demo_stats (demo_gen 0 2 0 4 5) (demo_gen 6 7 8 9 10) (demo_gen 10 2 3 4 77) 0 0 0)
          = some stM ∧
        metric_at stM.sum (.server 0 0 0)
          = some ⟨STATS_COUNTER, string_set_text "requests", 9⟩) :=
  ⟨(aggregation_additivity demo_build
      (demo_stats (demo_gen 0 2 0 4 5) (demo_gen 6 7 8 9 10) (demo_gen 10 2 3 4 77) 0 0 0)
      (.pool demo_pool 0) 3 2 ⟨STATS_COUNTER, string_set_text "client_eof", 0⟩
      ⟨STATS_COUNTER, string_set_text "client_eof", 10⟩
      rfl rfl rfl (by decide) (by decide) rfl rfl (by decide) (by decide) (by decide)).2
      (by decide),
   (aggregation_additivity demo_build
      (demo_stats (demo_gen 0 2 0 4 5) (demo_gen 6 7 8 9 10) (demo_gen 10 2 3 4 77) 0 0 0)
      (.server demo_server 0) 3 2 ⟨STATS_COUNTER, string_set_text "requests", 0⟩
      ⟨STATS_COUNTER, string_set_text "requests", 3⟩
      rfl rfl rfl (by decide) (by decide) rfl rfl (by decide) (by decide) (by decide)).2
      (by decide)⟩

/-! ## Topology mapping -/

theorem codec_metric_init_ok (B : Build) (codec : List stats_metric) (a : Alloc)
    (hv : metric_valid codec = true) (m : List stats_metric) (a1 : Alloc)
    (h : stats_codec_metric_init B codec a = some (NC_OK, m, a1)) :
    m = zero_metric codec ∧ a1 = (alloc_next a).2 := by
  unfold stats_codec_metric_init at h
  rw [metric_reset_loop_eq B codec hv] at h
  rcases hh : alloc_next a with ⟨b, a2⟩
  rw [hh] at h
  cases b <;> simp at h
  exact ⟨h.1.symm, h.2.symm⟩

theorem server_map_loop_ok (B : Build) (hv : metric_valid B.stats_server_codec = true) :
    ∀ (l : List server) (a : Alloc) (r : List stats_server) (a1 : Alloc),
      stats_server_map_loop B l a = some (NC_OK, r, a1) →
      r = l.map (fun s => { name := s.name, metric := zero_metric B.stats_server_codec })
  | [], a, r, a1, h => by
    simp only [stats_server_map_loop, Option.some.injEq, Prod.mk.injEq, true_and] at h
    simp [← h.1]
  | s :: rest, a, r, a1, h => by
    simp only [stats_server_map_loop, stats_server_init, stats_server_metric_init] at h
    cases hc : stats_codec_metric_init B B.stats_server_codec a with
    | none => simp [hc] at h
    | some x =>
      rcases x with ⟨status, m, a2⟩
      cases status
      · obtain ⟨hm, _⟩ := codec_metric_init_ok B _ a hv m a2 hc
        simp only [hc] at h
        cases hr : stats_server_map_loop B rest a2 with
        | none => simp [hr] at h
        | some y =>
          rcases y with ⟨status2, more, a3⟩
          simp only [hr, Option.some.injEq, Prod.mk.injEq] at h
          obtain ⟨h1, h2, h3⟩ := h
          subst h1
          have ih := server_map_loop_ok B hv rest a2 more a3 hr
          rw [← h2, ih, hm]
          simp
      · simp [hc] at h
      · simp [hc] at h

theorem pool_map_loop_ok (B : Build) (hvp : metric_valid B.stats_pool_codec = true)
    (hvs : metric_valid B.stats_server_codec = true) :
    ∀ (l : List server_pool) (a : Alloc) (r : List stats_pool) (a1 : Alloc),
      stats_pool_map_loop B l a = some (NC_OK, r, a1) → r = mirror_gen B l
  | [], a, r, a1, h => by
    simp only [stats_pool_map_loop, Option.some.injEq, Prod.mk.injEq, true_and] at h
    simp [← h.1, mirror_gen]
  | sp :: rest, a, r, a1, h => by
    simp only [stats_pool_map_loop, stats_pool_init, stats_pool_metric_init] at h
    cases hc : stats_codec_metric_init B B.stats_pool_codec a with
    | none => simp [hc] at h
    | some x =>
      rcases x with ⟨status, m, a2⟩
      cases status
      · obtain ⟨hm, _⟩ := codec_metric_init_ok B _ a hvp m a2 hc
        simp only [hc] at h
        cases hs : stats_server_map B sp.server a2 with
        | none => simp [hs] at h
        | some y =>
          rcases y with ⟨status1, srv, a3⟩
          cases status1
          · simp only [hs] at h
            have hsrv : srv = sp.server.map
                (fun s => { name := s.name, metric := zero_metric B.stats_server_codec }) := by
              unfold stats_server_map at hs
              split at hs
              · simp at hs
              · rcases hh : alloc_next a2 with ⟨b, a4⟩
                rw [hh] at hs
                cases b
                · simp at hs
                · exact server_map_loop_ok B hvs sp.server a4 srv a3 hs
            cases hr : stats_pool_map_loop B rest a3 with
            | none => simp [hr] at h
            | some z =>
              rcases z with ⟨status2, more, a5⟩
              simp only [hr, Option.some.injEq, Prod.mk.injEq] at h
              obtain ⟨h1, h2, h3⟩ := h
              subst h1
              have ih := pool_map_loop_ok B hvp hvs rest a3 more a5 hr
              rw [← h2, ih, hm, hsrv]
              simp [mirror_gen]
          · simp [hs] at h
          · simp [hs] at h
      · simp [hc] at h
      · simp [hc] at h

theorem pool_map_ok (B : Build) (hvp : metric_valid B.stats_pool_codec = true)
    (hvs : metric_valid B.stats_server_codec = true)
    (l : List server_pool) (a : Alloc) (r : List stats_pool) (a1 : Alloc)
    (h : stats_pool_map B l a = some (NC_OK, r, a1)) : r = mirror_gen B l := by
  unfold stats_pool_map at h
  split at h
  · simp at h
  · rcases hh : alloc_next a with ⟨b, a4⟩
    rw [hh] at h
    cases b
    · simp at h
    · exact pool_map_loop_ok B hvp hvs l a4 r a1 h

theorem alloc_next_ok (a : Alloc) (h : a.all id = true) :
    ∃ a1, alloc_next a = (true, a1) ∧ a1.all id = true := by
  cases a with
  | nil => exact ⟨[], rfl, rfl⟩
  | cons b rest =>
    simp only [List.all_cons, id_eq, Bool.and_eq_true] at h
    refine ⟨rest, ?_, h.2⟩
    simp [alloc_next, h.1]

theorem codec_metric_init_live (B : Build) (codec : List stats_metric) (a : Alloc)
    (hv : metric_valid codec = true) (h : a.all id = true) :
    ∃ a1, stats_codec_metric_init B codec a = some (NC_OK, zero_metric codec, a1) ∧
      a1.all id = true := by
  obtain ⟨a1, h1, h2⟩ := alloc_next_ok a h
  exact ⟨a1, by simp [stats_codec_metric_init, h1, metric_reset_loop_eq B codec hv], h2⟩

theorem server_map_loop_live (B : Build) (hv : metric_valid B.stats_server_codec = true) :
    ∀ (l : List server) (a : Alloc), a.all id = true →
      ∃ a1, stats_server_map_loop B l a
          = some (NC_OK, l.map (fun s => { name := s.name,
                                           metric := zero_metric B.stats_server_codec }), a1) ∧
        a1.all id = true
  | [], a, h => ⟨a, rfl, h⟩
  | s :: rest, a, h => by
    obtain ⟨a1, h1, h2⟩ := codec_metric_init_live B _ a hv h
    obtain ⟨a2, h3, h4⟩ := server_map_loop_live B hv rest a1 h2
    exact ⟨a2, by simp [stats_server_map_loop, stats_server_init, stats_server_metric_init,
      h1, h3], h4⟩

theorem server_map_live (B : Build) (hv : metric_valid B.stats_server_codec = true)
    (l : List server) (a : Alloc) (h : a.all id = true)
    (hl : B.assert_panic = false ∨ l.length ≠ 0) :
    ∃ a1, stats_server_map B l a
        = some (NC_OK, l.map (fun s => { name := s.name,
                                         metric := zero_metric B.stats_server_codec }), a1) ∧
      a1.all id = true := by
  obtain ⟨a1, h1, h2⟩ := alloc_next_ok a h
  obtain ⟨a2, h3, h4⟩ := server_map_loop_live B hv l a1 h2
  refine ⟨a2, ?_, h4⟩
  have hna : assert_fails B (l.length != 0) = false := by
    rcases hl with hl | hl <;> simp [assert_fails, hl]
  simp [stats_server_map, hna, h1, h3]

theorem pool_map_loop_live (B : Build) (hvp : metric_valid B.stats_pool_codec = true)
    (hvs : metric_valid B.stats_server_codec = true) :
    ∀ (l : List server_pool) (a : Alloc), a.all id = true →
      (B.assert_panic = false ∨ l.all (fun sp => sp.server.length != 0) = true) →
      ∃ a1, stats_pool_map_loop B l a = some (NC_OK, mirror_gen B l, a1) ∧ a1.all id = true
  | [], a, h, _ => ⟨a, rfl, h⟩
  | sp :: rest, a, h, hl => by
    obtain ⟨a1, h1, h2⟩ := codec_metric_init_live B _ a hvp h
    have hsp : B.assert_panic = false ∨ sp.server.length ≠ 0 := by
      rcases hl with hl | hl
      · exact Or.inl hl
      · simp only [List.all_cons, Bool.and_eq_true, bne_iff_ne, ne_eq] at hl
        exact Or.inr hl.1
    have hrest : B.assert_panic = false ∨ rest.all (fun sp => sp.server.length != 0) = true := by
      rcases hl with hl | hl
      · exact Or.inl hl
      · simp only [List.all_cons, Bool.and_eq_true] at hl
        exact Or.inr hl.2
    obtain ⟨a2, h3, h4⟩ := server_map_live B hvs sp.server a1 h2 hsp
    obtain ⟨a3, h5, h6⟩ := pool_map_loop_live B hvp hvs rest a2 h4 hrest
    exact ⟨a3, by simp [stats_pool_map_loop, stats_pool_init, stats_pool_metric_init, h1, h3, h5,
      mirror_gen], h6⟩

theorem pool_map_live (B : Build) (hvp : metric_valid B.stats_pool_codec = true)
    (hvs : metric_valid B.stats_server_codec = true) (l : List server_pool) (a : Alloc)
    (h : a.all id = true) (hl : B.assert_panic = false ∨ topology_ok l = true) :
    ∃ a1, stats_pool_map B l a = some (NC_OK, mirror_gen B l, a1) ∧ a1.all id = true := by
  obtain ⟨a1, h1, h2⟩ := alloc_next_ok a h
  have hl1 : B.assert_panic = false ∨ l.all (fun sp => sp.server.length != 0) = true := by
    rcases hl with hl | hl
    · exact Or.inl hl
    · simp only [topology_ok, Bool.and_eq_true] at hl
      exact Or.inr hl.2
  obtain ⟨a2, h3, h4⟩ := pool_map_loop_live B hvp hvs l a1 h2 hl1
  refine ⟨a2, ?_, h4⟩
  have hna : assert_fails B (l.length != 0) = false := by
    rcases hl with hl | hl
    · simp [assert_fails, hl]
    · simp only [topology_ok, Bool.and_eq_true] at hl
      simp [assert_fails, hl.1]
  simp [stats_pool_map, hna, h1, h3]

theorem create_buf_gens (B : Build) (st : stats) (a : Alloc) (r : rstatus_t × stats × Alloc)
    (h : stats_create_buf B st a = some r) :
    r.2.1.current = st.current ∧ r.2.1.shadow = st.shadow ∧ r.2.1.sum = st.sum ∧
      (r.1 = NC_OK → r.2.1.buf.size = stats_buf_size B st ∧
        r.2.1.buf.data.length = stats_buf_size B st ∧ r.2.1.buf.len = st.buf.len) := by
  unfold stats_create_buf at h
  split at h
  · simp at h
  · rcases hb : alloc_next a with ⟨b, a1⟩
    simp only [hb] at h
    cases b
    · simp only [Option.some.injEq] at h
      subst h
      simp
    · simp only [Option.some.injEq] at h
      subst h
      simp

theorem stats_create_ok (B : Build) (hvp : metric_valid B.stats_pool_codec = true)
    (hvs : metric_valid B.stats_server_codec = true) (env : Env) (source : string)
    (l : List server_pool) (a : Alloc) (st : stats) (a1 : Alloc)
    (h : stats_create B env source l a = some (some st, a1)) :
    st.current = mirror_gen B l ∧ st.shadow = mirror_gen B l ∧ st.sum = mirror_gen B l := by
  unfold stats_create at h
  rcases hh : alloc_next a with ⟨b, a0⟩
  rw [hh] at h
  cases b
  · simp at h
  simp only at h
  cases h1 : stats_pool_map B l a0 with
  | none => simp [h1] at h
  | some x1 =>
    rcases x1 with ⟨s1, cur, a2⟩
    cases s1 <;> simp only [h1] at h <;> try (simp at h)
    cases h2 : stats_pool_map B l a2 with
    | none => simp [h2] at h
    | some x2 =>
      rcases x2 with ⟨s2, shd, a3⟩
      cases s2 <;> simp only [h2] at h <;> try (simp at h)
      cases h3 : stats_pool_map B l a3 with
      | none => simp [h3] at h
      | some x3 =>
        rcases x3 with ⟨s3, sm, a4⟩
        cases s3 <;> simp only [h3] at h <;> try (simp at h)
        have e1 := pool_map_ok B hvp hvs l a0 cur a2 h1
        have e2 := pool_map_ok B hvp hvs l a2 shd a3 h2
        have e3 := pool_map_ok B hvp hvs l a3 sm a4 h3
        cases hcb : stats_create_buf B
            { stats_create_init B env source with current := cur, shadow := shd, sum := sm }
            a4 with
        | none => simp [hcb] at h
        | some x4 =>
          rcases x4 with ⟨s4, st1, a5⟩
          obtain ⟨g1, g2, g3, _⟩ := create_buf_gens B _ a4 _ hcb
          simp only at g1 g2 g3
          cases s4 <;> simp only [hcb] at h <;> try (simp at h)
          by_cases hagg : stats_start_aggregator B env = NC_OK
          · simp only [hagg, if_true, Option.some.injEq, Prod.mk.injEq] at h
            rw [← h.1]
            simp only
            rw [g1, g2, g3]
            exact ⟨e1, e2, e3⟩
          · simp [hagg] at h

theorem stats_create_live (B : Build) (hvp : metric_valid B.stats_pool_codec = true)
    (hvs : metric_valid B.stats_server_codec = true) (env : Env) (source : string)
    (l : List server_pool) (a : Alloc) (h : a.all id = true)
    (hl : B.assert_panic = false ∨ topology_ok l = true)
    (hagg : B.stats_enabled = false ∨ env.aggregator_ok = true) :
    ∃ st a1, stats_create B env source l a = some (some st, a1) := by
  obtain ⟨a0, h0, g0⟩ := alloc_next_ok a h
  obtain ⟨a1, h1, g1⟩ := pool_map_live B hvp hvs l a0 g0 hl
  obtain ⟨a2, h2, g2⟩ := pool_map_live B hvp hvs l a1 g1 hl
  obtain ⟨a3, h3, g3⟩ := pool_map_live B hvp hvs l a2 g2 hl
  obtain ⟨a4, h4, _⟩ := alloc_next_ok a3 g3
  have hs : stats_start_aggregator B env = NC_OK := by
    rcases hagg with hagg | hagg <;> simp [stats_start_aggregator, hagg]
  simp only [stats_create, h0, h1, h2, h3, stats_create_buf, assert_fails, stats_create_init,
    List.isEmpty_nil, beq_self_eq_true, Bool.and_self, Bool.not_true, Bool.and_false,
    Bool.false_eq_true, if_false, h4, hs, if_true]
  exact ⟨_, _, rfl⟩

/-- C6 (shape invariant at build time). With codecs that hold valid kinds:
whenever `stats_pool_map` returns `NC_OK` its generation is `mirror_gen`, one
pool entry per input pool in input order with the pool's name and the
zero-valued pool codec, and one server entry per input server in input order
with the server's name and the zero-valued server codec; it does return
`NC_OK` when every allocation succeeds (for a topology without empty lists, or
when assertions do not panic); and the `current`, `shadow` and `sum` of an
engine returned by `stats_create` are all that generation, so their shapes
and names coincide, and `stats_create` does return an engine under the same
conditions. -/
theorem shape_invariant_at_build (B : Build) (server_pool : List server_pool)
    (hvp : metric_valid B.stats_pool_codec = true)
    (hvs : metric_valid B.stats_server_codec = true) :
    (∀ a gen a1, stats_pool_map B server_pool a = some (NC_OK, gen, a1) →
        gen = mirror_gen B server_pool) ∧
    (∀ a, a.all id = true → (B.assert_panic = false ∨ topology_ok server_pool = true) →
        ∃ a1, stats_pool_map B server_pool a = some (NC_OK, mirror_gen B server_pool, a1)) ∧
    (∀ stp ∈ mirror_gen B server_pool,
        stp.metric.length = STATS_POOL_NFIELD B ∧
        metric_kinds stp.metric = metric_kinds B.stats_pool_codec ∧
        ∀ sts ∈ stp.server, sts.metric.length = STATS_SERVER_NFIELD B ∧
          metric_kinds sts.metric = metric_kinds B.stats_server_codec) ∧
    (∀ env source a st a1, stats_create B env source server_pool a = some (some st, a1) →
        st.current = mirror_gen B server_pool ∧ st.shadow = mirror_gen B server_pool ∧
        st.sum = mirror_gen B server_pool ∧
        gen_shape st.current = gen_shape st.shadow ∧ gen_shape st.shadow = gen_shape st.sum ∧
        gen_names st.current = gen_names st.shadow ∧ gen_names st.shadow = gen_names st.sum) ∧
    (∀ env source a, a.all id = true →
        (B.assert_panic = false ∨ topology_ok server_pool = true) →
        (B.stats_enabled = false ∨ env.aggregator_ok = true) →
        ∃ st a1, stats_create B env source server_pool a = some (some st, a1)) := by
  refine ⟨fun a gen a1 h => pool_map_ok B hvp hvs server_pool a gen a1 h, ?_, ?_, ?_, ?_⟩
  · intro a ha hl
    obtain ⟨a1, h1, _⟩ := pool_map_live B hvp hvs server_pool a ha hl
    exact ⟨a1, h1⟩
  · intro stp hstp
    simp only [mirror_gen, List.mem_map] at hstp
    obtain ⟨sp, _, rfl⟩ := hstp
    refine ⟨by simp [zero_metric, STATS_POOL_NFIELD],
      by simp [zero_metric, metric_kinds, Function.comp_def], ?_⟩
    intro sts hsts
    simp only [List.mem_map] at hsts
    obtain ⟨s, _, rfl⟩ := hsts
    exact ⟨by simp [zero_metric, STATS_SERVER_NFIELD],
      by simp [zero_metric, metric_kinds, Function.comp_def]⟩
  · intro env source a st a1 h
    obtain ⟨e1, e2, e3⟩ := stats_create_ok B hvp hvs env source server_pool a st a1 h
    rw [e1, e2, e3]
    exact ⟨rfl, rfl, rfl, rfl, rfl, rfl, rfl⟩
  · intro env source a ha hl hagg
    exact stats_create_live B hvp hvs env source server_pool a ha hl hagg

/-- Witness of C6: the sample topology of one pool with one server is mapped
to the sample generation with all values zero. -/
theorem shape_invariant_at_build_witness :
    ∃ a1, stats_pool_map demo_build [demo_pool] [] = some (NC_OK, demo_gen 0 0 0 0 0, a1) :=
  (shape_invariant_at_build demo_build [demo_pool] (by decide) (by decide)).2.1 []
    (by decide) (Or.inr (by decide))

/-! ## Writes into the buffer -/

theorem size_t_wrap_of_nat (n : Nat) (h : n < 2 ^ 64) : size_t_wrap (n : Int) = n := by
  unfold size_t_wrap
  have h1 : ((n : Int) % 2 ^ 64) = n := by
    apply Int.emod_eq_of_lt
    · omega
    · exact_mod_cast h
  rw [h1]
  simp

theorem int_of_size_t_small (n : Nat) (h : n < 2 ^ 31) : int_of_size_t n = n := by
  unfold int_of_size_t
  omega

theorem mem_write_length (data : List Nat) (pos : Nat) (bs : List Nat)
    (h : pos + bs.length ≤ data.length) : (mem_write data pos bs).length = data.length := by
  unfold mem_write
  simp only [List.length_append, List.length_take, List.length_replicate, List.length_drop]
  omega

theorem mem_write_take (data : List Nat) (pos k : Nat) (bs : List Nat)
    (h : pos ≤ data.length) (hk : k ≤ bs.length) :
    (mem_write data pos bs).take (pos + k) = data.take pos ++ bs.take k := by
  unfold mem_write
  have h0 : pos - data.length = 0 := by omega
  rw [h0]
  simp only [List.replicate_zero, List.append_nil, List.append_assoc]
  rw [List.take_append_eq_append_take]
  simp only [List.length_take, Nat.min_eq_left h]
  have e1 : List.take (pos + k) (List.take pos data) = List.take pos data := by
    rw [List.take_take]
    congr 1
    omega
  rw [e1]
  congr 1
  have e2 : pos + k - pos = k := by omega
  rw [e2, List.take_append_eq_append_take]
  have e3 : k - bs.length = 0 := by omega
  simp [e3]

theorem add_text_ok (st : stats) (S : Nat) (doc text : List Nat)
    (hb : buf_holds st.buf S doc) (hcap : doc.length + text.length + 2 ≤ S)
    (hS : S ≤ 2 ^ 31) :
    ∃ b, stats_add_text st text = (NC_OK, { st with buf := b }) ∧
      buf_holds b S (doc ++ text) := by
  obtain ⟨h1, h2, h3, h4⟩ := hb
  have hroom : size_t_wrap ((st.buf.size : Int) - st.buf.len - 1) = S - doc.length - 1 := by
    rw [h1, h3]
    have e : ((S : Int) - doc.length - 1) = ((S - doc.length - 1 : Nat) : Int) := by omega
    rw [e, size_t_wrap_of_nat]
    omega
  have hr0 : S - doc.length - 1 ≠ 0 := by omega
  have htake : List.take (S - doc.length - 1 - 1) text = text :=
    List.take_of_length_le (by omega)
  have hn : text.length ≤ 2147483647 := by omega
  have hint : int_of_size_t (S - doc.length - 1) = ((S - doc.length - 1 : Nat) : Int) :=
    int_of_size_t_small _ (by omega)
  have hlen : size_t_wrap ((st.buf.len : Int) + (text.length : Int)) = doc.length + text.length := by
    rw [h3]
    have e : ((doc.length : Int) + (text.length : Int)) = ((doc.length + text.length : Nat) : Int) := by
      omega
    rw [e, size_t_wrap_of_nat]
    omega
  have hcond : ¬ ((text.length : Int) < 0 ∨ (text.length : Int) ≥ ((S - doc.length - 1 : Nat) : Int)) := by
    omega
  refine ⟨{ st.buf with data := mem_write st.buf.data st.buf.len (text ++ [0]),
                        len := doc.length + text.length }, ?_, ?_⟩
  · unfold stats_add_text nc_snprintf
    simp only [hroom, hr0, if_false, htake, hn, if_true, hint, hcond, hlen]
  · refine ⟨h1, ?_, by simp, ?_⟩
    · simp only
      rw [mem_write_length _ _ _ (by simp only [List.length_append, List.length_singleton]; omega)]
      exact h2
    · simp only
      rw [h3, mem_write_take _ _ _ _ (by omega) (by simp)]
      rw [← h3, h4]
      simp

theorem getElem?_append_off (doc l : List Nat) (k : Nat) :
    (doc ++ l)[doc.length + k]? = l[k]? := by
  rw [List.getElem?_append_right (by omega)]
  congr 1
  omega

theorem holds_get (b : stats_buffer) (S : Nat) (doc : List Nat) (hb : buf_holds b S doc)
    (i : Nat) (hi : i < doc.length) : b.data[i]? = doc[i]? := by
  obtain ⟨_, _, h3, h4⟩ := hb
  rw [← h4, List.getElem?_take]
  simp [h3, hi]

theorem holds_overwrite (b : stats_buffer) (S : Nat) (pre old new : List Nat)
    (hb : buf_holds b S (pre ++ old)) (hcap : pre.length + new.length ≤ S) :
    buf_holds { b with data := mem_write b.data pre.length new,
                       len := pre.length + new.length } S (pre ++ new) := by
  obtain ⟨h1, h2, h3, h4⟩ := hb
  have hle : b.len ≤ b.data.length := by
    have := congrArg List.length h4
    simp only [List.length_take] at this
    omega
  have hpre : pre.length ≤ b.data.length := by
    simp only [List.length_append] at h3
    omega
  have htk : b.data.take pre.length = pre := by
    have := congrArg (List.take pre.length) h4
    rw [List.take_take] at this
    simp only [List.length_append] at h3
    rw [Nat.min_eq_left (by omega)] at this
    rw [this]
    simp
  refine ⟨h1, ?_, by simp, ?_⟩
  · simp only
    rw [mem_write_length _ _ _ (by omega)]
    exact h2
  · simp only
    rw [mem_write_take _ _ _ _ hpre (le_refl _), htk]
    simp

theorem end_nesting_comma (B : Build) (st : stats) (S : Nat) (doc : List Nat)
    (hb : buf_holds st.buf S (doc ++ [44, 32])) :
    ∃ b, stats_end_nesting B st = some (NC_OK, { st with buf := b }) ∧
      buf_holds b S (doc ++ [125, 44]) := by
  have hlen : st.buf.len = doc.length + 2 := by simpa using hb.2.2.1
  have hS : doc.length + 2 ≤ S := by
    have := congrArg List.length hb.2.2.2
    have h2 := hb.2.1
    simp only [List.length_take, List.length_append, List.length_cons, List.length_nil] at this
    omega
  have g0 : st.buf.data[doc.length]? = some 44 := by
    rw [holds_get _ _ _ hb doc.length (by simp)]
    exact getElem?_append_off doc _ 0
  have g1 : st.buf.data[doc.length + 1]? = some 32 := by
    rw [holds_get _ _ _ hb (doc.length + 1) (by simp)]
    exact getElem?_append_off doc _ 1
  have hw := holds_overwrite st.buf S doc [44, 32] [125, 44] hb (by simpa using hS)
  refine ⟨_, ?_, hw⟩
  unfold stats_end_nesting
  have e1 : ¬ (st.buf.len < 2) := by omega
  have e2 : st.buf.len - 2 = doc.length := by omega
  have e3 : st.buf.len - 1 = doc.length + 1 := by omega
  simp only [e1, if_false, e2, g0, e3, g1, assert_fails, beq_self_eq_true, Bool.not_true,
    Bool.and_false, Bool.false_eq_true, if_true]
  simp [hlen]

theorem end_nesting_brace (B : Build) (st : stats) (S : Nat) (doc : List Nat)
    (hb : buf_holds st.buf S (doc ++ [125, 44])) (hcap : doc.length + 3 ≤ S)
    (hS : S < 2 ^ 64) :
    ∃ b, stats_end_nesting B st = some (NC_OK, { st with buf := b }) ∧
      buf_holds b S (doc ++ [125, 125, 44]) := by
  have hlen : st.buf.len = doc.length + 2 := by simpa using hb.2.2.1
  have g0 : st.buf.data[doc.length]? = some 125 := by
    rw [holds_get _ _ _ hb doc.length (by simp)]
    exact getElem?_append_off doc _ 0
  have g1 : st.buf.data[doc.length + 1]? = some 44 := by
    rw [holds_get _ _ _ hb (doc.length + 1) (by simp)]
    exact getElem?_append_off doc _ 1
  have hb1 : buf_holds st.buf S ((doc ++ [125]) ++ [44]) := by simpa using hb
  have hw := holds_overwrite st.buf S (doc ++ [125]) [44] [125, 44] hb1 (by simpa using hcap)
  have hw1 : buf_holds { st.buf with data := mem_write st.buf.data (doc.length + 1) [125, 44],
                                     len := doc.length + 3 } S (doc ++ [125, 125, 44]) := by
    simpa using hw
  refine ⟨_, ?_, hw1⟩
  unfold stats_end_nesting
  have e1 : ¬ (st.buf.len < 2) := by omega
  have e2 : st.buf.len - 2 = doc.length := by omega
  have e3 : st.buf.len - 1 = doc.length + 1 := by omega
  have e4 : st.buf.len ≠ st.buf.size := by rw [hb.1]; omega
  have e5 : size_t_wrap ((st.buf.len : Int) + 1) = doc.length + 3 := by
    rw [hlen]
    have e : (((doc.length + 2 : Nat) : Int) + 1) = ((doc.length + 3 : Nat) : Int) := by omega
    rw [e, size_t_wrap_of_nat]
    omega
  simp only [e1, if_false, e2, g0, e3, g1, assert_fails, beq_self_eq_true, Bool.not_true,
    Bool.and_false, Bool.false_eq_true, e4, e5]
  simp

theorem add_footer_ok (st : stats) (S : Nat) (doc : List Nat) (x : Nat)
    (hb : buf_holds st.buf S (doc ++ [x])) (hcap : doc.length + 2 ≤ S) (hS : S < 2 ^ 64) :
    ∃ b, stats_add_footer st = some (NC_OK, { st with buf := b }) ∧
      buf_holds b S (doc ++ [125, 10]) := by
  have hlen : st.buf.len = doc.length + 1 := by simpa using hb.2.2.1
  have hw := holds_overwrite st.buf S doc [x] [125, 10] hb (by simpa using hcap)
  refine ⟨_, ?_, hw⟩
  unfold stats_add_footer
  have e1 : st.buf.len ≠ st.buf.size := by rw [hb.1]; omega
  have e2 : st.buf.len ≠ 0 := by omega
  have e3 : st.buf.len - 1 = doc.length := by omega
  have e5 : size_t_wrap ((st.buf.len : Int) + 1) = doc.length + 2 := by
    rw [hlen]
    have e : (((doc.length + 1 : Nat) : Int) + 1) = ((doc.length + 2 : Nat) : Int) := by omega
    rw [e, size_t_wrap_of_nat]
    omega
  simp only [e1, e2, if_false, e3, e5]
  simp

/-! ## Lengths of the formatted texts -/

theorem cstr_length_le (s : string) : (cstr s).length ≤ s.length := by
  unfold cstr
  induction s with
  | nil => simp
  | cons a s ih =>
    simp only [List.takeWhile_cons]
    split
    · simp only [List.length_cons]; omega
    · simp

theorem dec_rev_length : ∀ (fuel n k : Nat), 1 ≤ k → n < 10 ^ k → (dec_rev fuel n).length ≤ k
  | 0, _, _, hk, _ => by simp [dec_rev]
  | fuel + 1, n, k, hk, hn => by
    unfold dec_rev
    by_cases h : n < 10
    · simp [h]; omega
    · simp only [h, if_false, List.length_cons]
      obtain ⟨j, rfl⟩ : ∃ j, k = j + 1 := ⟨k - 1, by omega⟩
      have hj : 1 ≤ j := by
        rcases Nat.eq_zero_or_pos j with h0 | h0
        · subst h0; simp at hn; omega
        · exact h0
      have hdiv : n / 10 < 10 ^ j := by
        rw [Nat.div_lt_iff_lt_mul (by decide)]
        rw [pow_succ] at hn
        exact hn
      have := dec_rev_length fuel (n / 10) j hj hdiv
      omega

theorem fmt_int64_length (v : Int) (h : int64_ok v) : (fmt_int64 v).length ≤ 20 := by
  unfold int64_ok at h
  have hn : v.natAbs < 10 ^ 19 := by omega
  have hd : (fmt_nat v.natAbs).length ≤ 19 := by
    unfold fmt_nat
    rw [List.length_reverse]
    exact dec_rev_length 20 _ 19 (by decide) hn
  unfold fmt_int64
  split
  · simp only [List.length_cons]; omega
  · omega

theorem num_pair_length (key : string) (v : Int) (h : int64_ok v) :
    (num_pair key v).length ≤ key.length + 20 + 8 := by
  have h1 := cstr_length_le key
  have h2 := fmt_int64_length v h
  simp only [num_pair, List.length_append, List.length_cons, List.length_nil]
  omega

theorem string_pair_length (key val : string) :
    (string_pair key val).length ≤ key.length + val.length + 8 := by
  have h1 := cstr_length_le key
  have h2 := cstr_length_le val
  simp only [string_pair, List.length_append, List.length_cons, List.length_nil]
  omega

theorem nest_open_length (key : string) : (nest_open key).length ≤ key.length + 5 := by
  have h1 := cstr_length_le key
  simp only [nest_open, List.length_append, List.length_cons, List.length_nil]
  omega

theorem metrics_text_length :
    ∀ (m : List stats_metric), metric_values_ok m → (metrics_text m).length ≤ metric_need m
  | [], _ => by simp [metrics_text, metric_need]
  | stm :: rest, h => by
    have h1 := num_pair_length stm.name stm.value (h stm (by simp))
    have h2 := metrics_text_length rest (fun x hx => h x (by simp [hx]))
    simp only [metric_need] at h2 ⊢
    simp only [metrics_text, List.length_append, List.map_cons, List.sum_cons]
    omega

/-! ## Rendering the metrics, the servers and the pools -/

theorem copy_metric_ok (S : Nat) (hS : S ≤ 2 ^ 31) :
    ∀ (m : List stats_metric) (st : stats) (doc : List Nat),
      buf_holds st.buf S doc → metric_values_ok m → doc.length + metric_need m + 2 ≤ S →
      ∃ b, stats_copy_metric st m = (NC_OK, { st with buf := b }) ∧
        buf_holds b S (doc ++ metrics_text m)
  | [], st, doc, hb, _, _ => ⟨st.buf, by simp [stats_copy_metric], by simpa [metrics_text] using hb⟩
  | stm :: rest, st, doc, hb, hv, hcap => by
    have h1 := num_pair_length stm.name stm.value (hv stm (by simp))
    have hneed : metric_need (stm :: rest) = stm.name.length + 20 + 8 + metric_need rest := by
      simp [metric_need]
    obtain ⟨b, e1, hb1⟩ := add_text_ok st S doc (num_pair stm.name stm.value) hb
      (by omega) hS
    obtain ⟨b2, e2, hb2⟩ := copy_metric_ok S hS rest { st with buf := b }
      (doc ++ num_pair stm.name stm.value) hb1 (fun x hx => hv x (by simp [hx]))
      (by simp only [List.length_append]; omega)
    refine ⟨b2, ?_, ?_⟩
    · simp only [stats_copy_metric, stats_add_num, e1, and_then, e2]
    · simpa [metrics_text] using hb2

theorem num_pair_eq_item (key : string) (v : Int) : num_pair key v = num_item key v ++ [44, 32] := by
  simp [num_pair, num_item]

theorem string_pair_eq_item (key val : string) :
    string_pair key val = string_item key val ++ [44, 32] := by
  simp [string_pair, string_item]

theorem metrics_text_eq_body :
    ∀ (m : List stats_metric), m ≠ [] → metrics_text m = metrics_body m ++ [44, 32]
  | [], h => absurd rfl h
  | [stm], _ => by simp [metrics_text, metrics_body, num_pair_eq_item]
  | stm :: x :: rest, _ => by
    have ih := metrics_text_eq_body (x :: rest) (by simp)
    simp only [metrics_text, metrics_body, num_pair_eq_item] at ih ⊢
    rw [ih]
    simp

theorem servers_text_eq_body :
    ∀ (l : List stats_server), l ≠ [] → servers_text l = servers_body l ++ [44]
  | [], h => absurd rfl h
  | [sts], _ => by simp [servers_text, servers_body]
  | sts :: x :: rest, _ => by
    have ih := servers_text_eq_body (x :: rest) (by simp)
    simp only [servers_text, servers_body] at ih ⊢
    rw [ih]
    simp

theorem pools_text_eq_body :
    ∀ (g : List stats_pool), g ≠ [] → pools_text g = pools_body g ++ [44]
  | [], h => absurd rfl h
  | [stp], _ => by simp [pools_text, pools_body]
  | stp :: x :: rest, _ => by
    have ih := pools_text_eq_body (x :: rest) (by simp)
    simp only [pools_text, pools_body] at ih ⊢
    rw [ih]
    simp

theorem servers_body_ends :
    ∀ (l : List stats_server), l ≠ [] → ∃ W, servers_body l = W ++ [125]
  | [], h => absurd rfl h
  | [sts], _ => ⟨nest_open sts.name ++ metrics_body sts.metric, by simp [servers_body, server_obj]⟩
  | sts :: x :: rest, _ => by
    obtain ⟨W, hW⟩ := servers_body_ends (x :: rest) (by simp)
    refine ⟨server_obj sts ++ [44] ++ W, ?_⟩
    simp only [servers_body] at hW ⊢
    rw [hW]
    simp

theorem server_item_length (sts : stats_server) (hne : sts.metric ≠ [])
    (hv : metric_values_ok sts.metric) :
    (server_obj sts ++ [44]).length ≤ sts.name.length + 8 + metric_need sts.metric := by
  have h1 := nest_open_length sts.name
  have h2 := metrics_text_length sts.metric hv
  rw [metrics_text_eq_body _ hne] at h2
  simp only [server_obj, List.length_append, List.length_cons, List.length_nil] at h2 ⊢
  omega

theorem servers_text_length :
    ∀ (l : List stats_server), l.all (fun sts => sts.metric.length != 0) = true →
      (∀ sts ∈ l, metric_values_ok sts.metric) → (servers_text l).length ≤ server_need l
  | [], _, _ => by simp [servers_text, server_need]
  | sts :: rest, hne, hv => by
    simp only [List.all_cons, Bool.and_eq_true, bne_iff_ne, ne_eq] at hne
    have hne1 : sts.metric ≠ [] := fun h => hne.1 (by simp [h])
    have h1 := server_item_length sts hne1 (hv sts (by simp))
    have h2 := servers_text_length rest hne.2 (fun x hx => hv x (by simp [hx]))
    simp only [server_need] at h2 ⊢
    simp only [servers_text, List.length_append, List.map_cons, List.sum_cons] at h1 h2 ⊢
    omega

theorem server_ok (B : Build) (S : Nat) (hS : S ≤ 2 ^ 31) (sts : stats_server) (st : stats)
    (doc : List Nat) (hb : buf_holds st.buf S doc) (hne : sts.metric ≠ [])
    (hv : metric_values_ok sts.metric)
    (hcap : doc.length + (sts.name.length + 8 + metric_need sts.metric) + 2 ≤ S) :
    ∃ b, (and_then_opt (some (stats_begin_nesting st sts.name)) fun st1 =>
          and_then_opt (some (stats_copy_metric st1 sts.metric)) fun st2 =>
          stats_end_nesting B st2) = some (NC_OK, { st with buf := b }) ∧
      buf_holds b S (doc ++ server_obj sts ++ [44]) := by
  have h1 := nest_open_length sts.name
  obtain ⟨b1, e1, hb1⟩ := add_text_ok st S doc (nest_open sts.name) hb (by omega) hS
  obtain ⟨b2, e2, hb2⟩ := copy_metric_ok S hS sts.metric { st with buf := b1 }
    (doc ++ nest_open sts.name) hb1 hv (by simp only [List.length_append]; omega)
  rw [metrics_text_eq_body _ hne, ← List.append_assoc] at hb2
  obtain ⟨b3, e3, hb3⟩ := end_nesting_comma B { st with buf := b2 } S _ hb2
  refine ⟨b3, ?_, ?_⟩
  · simp only [stats_begin_nesting, e1, and_then_opt, e2, e3]
  · simpa [server_obj] using hb3

theorem servers_ok (B : Build) (S : Nat) (hS : S ≤ 2 ^ 31) :
    ∀ (l : List stats_server) (st : stats) (doc : List Nat),
      buf_holds st.buf S doc → l.all (fun sts => sts.metric.length != 0) = true →
      (∀ sts ∈ l, metric_values_ok sts.metric) → doc.length + server_need l + 2 ≤ S →
      ∃ b, stats_make_rsp_servers B st l = some (NC_OK, { st with buf := b }) ∧
        buf_holds b S (doc ++ servers_text l)
  | [], st, doc, hb, _, _, _ =>
    ⟨st.buf, by simp [stats_make_rsp_servers], by simpa [servers_text] using hb⟩
  | sts :: rest, st, doc, hb, hne, hv, hcap => by
    simp only [List.all_cons, Bool.and_eq_true, bne_iff_ne, ne_eq] at hne
    have hne1 : sts.metric ≠ [] := fun h => hne.1 (by simp [h])
    have hneed : server_need (sts :: rest)
        = sts.name.length + 8 + metric_need sts.metric + server_need rest := by
      simp [server_need]
    have hlen := server_item_length sts hne1 (hv sts (by simp))
    obtain ⟨b1, e1, hb1⟩ := server_ok B S hS sts st doc hb hne1 (hv sts (by simp)) (by omega)
    obtain ⟨b2, e2, hb2⟩ := servers_ok B S hS rest { st with buf := b1 }
      (doc ++ server_obj sts ++ [44]) hb1 hne.2 (fun x hx => hv x (by simp [hx]))
      (by simp only [List.length_append] at hlen ⊢; omega)
    refine ⟨b2, ?_, ?_⟩
    · simp only [stats_make_rsp_servers]
      simp only [and_then_opt] at e1 ⊢
      cases hbn : stats_begin_nesting st sts.name with
      | mk s1 st1 =>
        rw [hbn] at e1
        cases s1 <;> simp only at e1 ⊢
        · cases hcm : stats_copy_metric st1 sts.metric with
          | mk s2 st2 =>
            rw [hcm] at e1
            cases s2 <;> simp only at e1 ⊢
            · rw [e1]
              simpa using e2
            · simp at e1
            · simp at e1
        · simp at e1
        · simp at e1
    · simpa [servers_text] using hb2

theorem and_then_opt_ok (st : stats) (k : stats → Option (rstatus_t × stats)) :
    and_then_opt (some (NC_OK, st)) k = k st := rfl

theorem and_then_ok (st : stats) (k : stats → rstatus_t × stats) :
    and_then (NC_OK, st) k = k st := rfl

theorem pool_item_length (stp : stats_pool) (hne : stp.metric ≠ [])
    (hnes : stp.server.all (fun sts => sts.metric.length != 0) = true)
    (hv : metric_values_ok stp.metric) (hvs : ∀ sts ∈ stp.server, metric_values_ok sts.metric) :
    (pool_obj stp ++ [44]).length
      ≤ stp.name.length + 8 + metric_need stp.metric + server_need stp.server := by
  have h1 := nest_open_length stp.name
  have h2 := metrics_text_length stp.metric hv
  have h3 := servers_text_length stp.server hnes hvs
  cases hs : stp.server with
  | nil =>
    rw [metrics_text_eq_body _ hne] at h2
    simp only [pool_obj, pool_members, hs, List.length_append, List.length_cons,
      List.length_nil] at h2 ⊢
    omega
  | cons x rest =>
    rw [hs, servers_text_eq_body _ (by simp)] at h3
    simp only [pool_obj, pool_members, hs, List.length_append, List.length_cons,
      List.length_nil] at h3 ⊢
    omega

theorem pools_text_length :
    ∀ (g : List stats_pool), metrics_nonempty g = true → values_ok g →
      (pools_text g).length ≤ pool_need g
  | [], _, _ => by simp [pools_text, pool_need]
  | stp :: rest, hne, hv => by
    simp only [metrics_nonempty, List.all_cons, Bool.and_eq_true, bne_iff_ne, ne_eq] at hne
    have hne1 : stp.metric ≠ [] := fun h => hne.1.1 (by simp [h])
    have h1 := pool_item_length stp hne1 hne.1.2 (hv stp (by simp)).1 (hv stp (by simp)).2
    have h2 := pools_text_length rest (by simpa [metrics_nonempty] using hne.2)
      (fun x hx => hv x (by simp [hx]))
    simp only [pool_need] at h2 ⊢
    simp only [pools_text, List.length_append, List.map_cons, List.sum_cons] at h1 h2 ⊢
    omega

theorem pools_ok (B : Build) (S : Nat) (hS : S ≤ 2 ^ 31) :
    ∀ (g : List stats_pool) (st : stats) (doc : List Nat),
      buf_holds st.buf S doc → metrics_nonempty g = true → values_ok g →
      doc.length + pool_need g + 2 ≤ S →
      ∃ b, stats_make_rsp_pools B st g = some (NC_OK, { st with buf := b }) ∧
        buf_holds b S (doc ++ pools_text g)
  | [], st, doc, hb, _, _, _ =>
    ⟨st.buf, by simp [stats_make_rsp_pools], by simpa [pools_text] using hb⟩
  | stp :: rest, st, doc, hb, hne, hv, hcap => by
    simp only [metrics_nonempty, List.all_cons, Bool.and_eq_true, bne_iff_ne, ne_eq] at hne
    have hne1 : stp.metric ≠ [] := fun h => hne.1.1 (by simp [h])
    have hvm := (hv stp (by simp)).1
    have hvs := (hv stp (by simp)).2
    have hneed : pool_need (stp :: rest)
        = stp.name.length + 8 + metric_need stp.metric + server_need stp.server
          + pool_need rest := by
      simp [pool_need]
    have hl1 := nest_open_length stp.name
    have hl2 := metrics_text_length stp.metric hvm
    have hl3 := servers_text_length stp.server hne.1.2 hvs
    have hlen := pool_item_length stp hne1 hne.1.2 hvm hvs
    obtain ⟨b1, e1, hb1⟩ := add_text_ok st S doc (nest_open stp.name) hb (by omega) hS
    obtain ⟨b2, e2, hb2⟩ := copy_metric_ok S hS stp.metric { st with buf := b1 }
      (doc ++ nest_open stp.name) hb1 hvm (by simp only [List.length_append]; omega)
    obtain ⟨b3, e3, hb3⟩ := servers_ok B S hS stp.server { st with buf := b2 }
      (doc ++ nest_open stp.name ++ metrics_text stp.metric) hb2 hne.1.2 hvs
      (by simp only [List.length_append]; omega)
    have hend : ∃ b4, stats_end_nesting B { st with buf := b3 }
          = some (NC_OK, { st with buf := b4 }) ∧
        buf_holds b4 S (doc ++ pool_obj stp ++ [44]) := by
      cases hs : stp.server with
      | nil =>
        rw [hs] at hb3
        simp only [servers_text, List.append_nil] at hb3
        rw [metrics_text_eq_body _ hne1, ← List.append_assoc] at hb3
        obtain ⟨b4, e4, hb4⟩ := end_nesting_comma B { st with buf := b3 } S _ hb3
        exact ⟨b4, e4, by simpa [pool_obj, pool_members, hs] using hb4⟩
      | cons x more =>
        obtain ⟨W, hW⟩ := servers_body_ends stp.server (by simp [hs])
        have hst := servers_text_eq_body stp.server (by simp [hs])
        rw [hst, hW] at hb3 hl3
        have hb3' : buf_holds b3 S
            ((doc ++ nest_open stp.name ++ metrics_text stp.metric ++ W) ++ [125, 44]) := by
          simpa using hb3
        obtain ⟨b4, e4, hb4⟩ := end_nesting_brace B { st with buf := b3 } S _ hb3'
          (by simp only [List.length_append, List.length_cons, List.length_nil] at hl3 ⊢
              omega)
          (by omega)
        refine ⟨b4, e4, ?_⟩
        rw [hs] at hW
        simp only [pool_obj, pool_members, hs, hW]
        simpa using hb4
    obtain ⟨b4, e4, hb4⟩ := hend
    obtain ⟨b5, e5, hb5⟩ := pools_ok B S hS rest { st with buf := b4 }
      (doc ++ pool_obj stp ++ [44]) hb4 (by simpa [metrics_nonempty] using hne.2)
      (fun x hx => hv x (by simp [hx]))
      (by simp only [List.length_append] at hlen ⊢; omega)
    refine ⟨b5, ?_, ?_⟩
    · simp only [stats_make_rsp_pools, stats_begin_nesting, e1, and_then_opt_ok, e2, e3, e4, e5]
    · simpa [pools_text] using hb5

/-! ## Rendering the header and the whole document -/

theorem header_ok (S : Nat) (hS : S ≤ 2 ^ 31) (st : stats) (env : Env)
    (h1 : st.buf.size = S) (h2 : st.buf.data.length = S) (hcap : header_need st + 2 ≤ S) :
    ∃ b, stats_add_header st env = (NC_OK, { st with buf := b }) ∧
      buf_holds b S ([123] ++ header_body st env ++ [44, 32]) := by
  have l1 := string_pair_length st.service_str st.service
  have l2 := string_pair_length st.source_str st.source
  have l3 := string_pair_length st.version_str st.version
  have l4 := num_pair_length st.uptime_str _ (wrap64_ok (wrap64 env.now - st.start_ts))
  have l5 := num_pair_length st.timestamp_str _ (wrap64_ok env.now)
  have l6 := num_pair_length st.ntotal_conn_str _ (wrap64_ok env.ntotal_conn)
  have l7 := num_pair_length st.ncurr_conn_str _ (wrap64_ok env.ncurr_conn)
  have l8 := num_pair_length st.ncurr_conn_str_a _ (wrap64_ok env.ncurr_conn_a)
  unfold header_need at hcap
  have hb0 : buf_holds ({ st with buf := { st.buf with data := mem_write st.buf.data 0 [123],
                                                       len := 1 } } : stats).buf S [123] := by
    refine ⟨h1, ?_, rfl, ?_⟩
    · simp only
      rw [mem_write_length _ _ _ (by simp only [List.length_singleton]; omega)]
      exact h2
    · simp only
      have := mem_write_take st.buf.data 0 1 [123] (by omega) (by simp)
      simpa using this
  obtain ⟨b1, e1, hb1⟩ := add_text_ok _ S _ (string_pair st.service_str st.service) hb0
    (by simp only [List.length_singleton]; omega) hS
  obtain ⟨b2, e2, hb2⟩ := add_text_ok { st with buf := b1 } S _
    (string_pair st.source_str st.source) hb1
    (by simp only [List.length_append, List.length_singleton]; omega) hS
  obtain ⟨b3, e3, hb3⟩ := add_text_ok { st with buf := b2 } S _
    (string_pair st.version_str st.version) hb2
    (by simp only [List.length_append, List.length_singleton]; omega) hS
  obtain ⟨b4, e4, hb4⟩ := add_text_ok { st with buf := b3 } S _
    (num_pair st.uptime_str (wrap64 (wrap64 env.now - st.start_ts))) hb3
    (by simp only [List.length_append, List.length_singleton]; omega) hS
  obtain ⟨b5, e5, hb5⟩ := add_text_ok { st with buf := b4 } S _
    (num_pair st.timestamp_str (wrap64 env.now)) hb4
    (by simp only [List.length_append, List.length_singleton]; omega) hS
  obtain ⟨b6, e6, hb6⟩ := add_text_ok { st with buf := b5 } S _
    (num_pair st.ntotal_conn_str (wrap64 env.ntotal_conn)) hb5
    (by simp only [List.length_append, List.length_singleton]; omega) hS
  obtain ⟨b7, e7, hb7⟩ := add_text_ok { st with buf := b6 } S _
    (num_pair st.ncurr_conn_str (wrap64 env.ncurr_conn)) hb6
    (by simp only [List.length_append, List.length_singleton]; omega) hS
  obtain ⟨b8, e8, hb8⟩ := add_text_ok { st with buf := b7 } S _
    (num_pair st.ncurr_conn_str_a (wrap64 env.ncurr_conn_a)) hb7
    (by simp only [List.length_append, List.length_singleton]; omega) hS
  refine ⟨b8, ?_, ?_⟩
  · simp only [stats_add_header, stats_add_string, stats_add_num]
    simp only at e1 e2 e3 e4 e5 e6 e7 e8
    rw [e1, and_then_ok, e2, and_then_ok, e3, and_then_ok, e4, and_then_ok, e5, and_then_ok, e6,
      and_then_ok, e7, and_then_ok, e8]
  · simpa [header_body, string_pair_eq_item, num_pair_eq_item] using hb8

theorem header_text_length (st : stats) (env : Env) :
    ([123] ++ header_body st env ++ [44, 32]).length ≤ header_need st := by
  have l1 := string_pair_length st.service_str st.service
  have l2 := string_pair_length st.source_str st.source
  have l3 := string_pair_length st.version_str st.version
  have l4 := num_pair_length st.uptime_str _ (wrap64_ok (wrap64 env.now - st.start_ts))
  have l5 := num_pair_length st.timestamp_str _ (wrap64_ok env.now)
  have l6 := num_pair_length st.ntotal_conn_str _ (wrap64_ok env.ntotal_conn)
  have l7 := num_pair_length st.ncurr_conn_str _ (wrap64_ok env.ncurr_conn)
  have l8 := num_pair_length st.ncurr_conn_str_a _ (wrap64_ok env.ncurr_conn_a)
  simp only [string_pair_eq_item, num_pair_eq_item, List.length_append, List.length_cons,
    List.length_nil] at l1 l2 l3 l4 l5 l6 l7 l8
  simp only [header_body, header_need, List.length_append, List.length_cons, List.length_nil]
  omega

theorem document_split (st : stats) (env : Env) :
    ∃ D x, [123] ++ header_body st env ++ [44, 32] ++ pools_text st.sum = D ++ [x] ∧
      document st env = D ++ [125, 10] := by
  cases hs : st.sum with
  | nil =>
    refine ⟨[123] ++ header_body st env ++ [44], 32, ?_, ?_⟩
    · simp only [pools_text, List.append_nil, List.append_assoc, List.cons_append,
        List.nil_append]
    · simp only [document, hs, List.append_assoc, List.cons_append, List.nil_append]
  | cons x rest =>
    refine ⟨[123] ++ header_body st env ++ [44, 32] ++ pools_body (x :: rest), 44, ?_, ?_⟩
    · rw [pools_text_eq_body (x :: rest) (by simp), ← List.append_assoc]
    · simp only [document, hs]

theorem make_rsp_ok (B : Build) (env : Env) (S : Nat) (hS : S ≤ 2 ^ 31) (st : stats)
    (h1 : st.buf.size = S) (h2 : st.buf.data.length = S) (hcap : stats_buf_need st ≤ S)
    (hne : metrics_nonempty st.sum = true) (hv : values_ok st.sum) :
    ∃ b, stats_make_rsp B env st = some (NC_OK, { st with buf := b }) ∧
      buf_holds b S (document st env) := by
  unfold stats_buf_need at hcap
  have hp := pools_text_length st.sum hne hv
  have hh := header_text_length st env
  have hS64 : S < 2 ^ 64 := by omega
  obtain ⟨b1, e1, hb1⟩ := header_ok S hS st env h1 h2 (by omega)
  obtain ⟨b2, e2, hb2⟩ := pools_ok B S hS st.sum { st with buf := b1 } _ hb1 hne hv (by omega)
  obtain ⟨D, x, hD, hdoc⟩ := document_split st env
  have hlen : D.length + 2 ≤ S := by
    have := congrArg List.length hD
    simp only [List.length_append, List.length_cons, List.length_nil] at this hh
    omega
  rw [hD] at hb2
  obtain ⟨b3, e3, hb3⟩ := add_footer_ok { st with buf := b2 } S D x hb2 hlen hS64
  refine ⟨b3, ?_, by rw [hdoc]; exact hb3⟩
  simp only [stats_make_rsp, e1, and_then_opt_ok, e2, e3]

/-! ## The computed buffer size -/

theorem NC_ALIGN_bounds (d n : Nat) (hn : 0 < n) : d ≤ NC_ALIGN d n ∧ NC_ALIGN d n < d + n := by
  unfold NC_ALIGN
  have h1 := Nat.div_add_mod (d + (n - 1)) n
  have h2 := Nat.mod_lt (d + (n - 1)) hn
  rw [Nat.mul_comm] at h1
  constructor <;> omega

theorem buf_size_bounds (B : Build) (st : stats) (halign : 0 < B.NC_ALIGNMENT)
    (hsz : stats_buf_need st + B.NC_ALIGNMENT ≤ 2 ^ 31) :
    stats_buf_need st ≤ stats_buf_size B st ∧ stats_buf_size B st ≤ 2 ^ 31 := by
  have h := NC_ALIGN_bounds (stats_buf_need st) B.NC_ALIGNMENT halign
  unfold stats_buf_size
  have e1 : size_t_wrap (stats_buf_need st : Int) = stats_buf_need st :=
    size_t_wrap_of_nat _ (by omega)
  rw [e1, size_t_wrap_of_nat _ (by omega)]
  omega

theorem buf_need_buf (st : stats) (b : stats_buffer) :
    stats_buf_need { st with buf := b } = stats_buf_need st := rfl

theorem buf_size_buf (B : Build) (st : stats) (b : stats_buffer) :
    stats_buf_size B { st with buf := b } = stats_buf_size B st := rfl

theorem document_buf (st : stats) (env : Env) (b : stats_buffer) :
    document { st with buf := b } env = document st env := rfl

theorem make_rsp_sized (B : Build) (env : Env) (st : stats) (halign : 0 < B.NC_ALIGNMENT)
    (hsz : stats_buf_need st + B.NC_ALIGNMENT ≤ 2 ^ 31)
    (hne : metrics_nonempty st.sum = true) (hv : values_ok st.sum)
    (h1 : st.buf.size = stats_buf_size B st) (h2 : st.buf.data.length = st.buf.size) :
    ∃ b, stats_make_rsp B env st = some (NC_OK, { st with buf := b }) ∧
      buf_holds b (stats_buf_size B st) (document st env) := by
  obtain ⟨hb1, hb2⟩ := buf_size_bounds B st halign hsz
  exact make_rsp_ok B env (stats_buf_size B st) hb2 st h1 (by rw [h2, h1]) hb1 hne hv

theorem holds_len_le (b : stats_buffer) (S : Nat) (doc : List Nat) (h : buf_holds b S doc) :
    b.len ≤ b.size := by
  obtain ⟨h1, h2, _, h4⟩ := h
  have := congrArg List.length h4
  simp only [List.length_take] at this
  omega

theorem destroy_buf_eq (B : Build) (st st0 : stats) (h : stats_destroy_buf B st = some st0) :
    ∃ b0, st0 = { st with buf := b0 } := by
  unfold stats_destroy_buf at h
  split at h
  · split at h
    · simp at h
    · simp only [Option.some.injEq] at h
      exact ⟨_, h.symm⟩
  · simp only [Option.some.injEq] at h
    exact ⟨st.buf, by rw [← h]⟩

theorem recreate_buf_holds (B : Build) (env : Env) (st : stats) (a : Alloc) (st2 : stats)
    (a1 : Alloc) (halign : 0 < B.NC_ALIGNMENT)
    (hsz : stats_buf_need st + B.NC_ALIGNMENT ≤ 2 ^ 31)
    (hne : metrics_nonempty st.sum = true) (hv : values_ok st.sum)
    (h : stats_recreate_buf B env st a = some (NC_OK, st2, a1)) :
    ∃ b, st2 = { st with buf := b } ∧ buf_holds b (stats_buf_size B st) (document st env) := by
  unfold stats_recreate_buf at h
  split at h
  · simp at h
  · cases hd : stats_destroy_buf B st with
    | none => simp [hd] at h
    | some st0 =>
      obtain ⟨b0, rfl⟩ := destroy_buf_eq B st st0 hd
      simp only [hd] at h
      rcases hal : alloc_next a with ⟨ok, a2⟩
      rw [hal] at h
      cases ok
      · simp at h
      · simp only at h
        obtain ⟨b, e, hb⟩ := make_rsp_sized B env
          { st with buf := { b0 with data := List.replicate (stats_buf_size B st) 0,
                                     size := stats_buf_size B st } }
          halign hsz hne hv rfl (by simp)
        simp only [buf_size_buf] at h
        rw [e] at h
        simp only [Option.some.injEq, Prod.mk.injEq, true_and] at h
        exact ⟨b, h.1.symm, hb⟩

theorem add_text_int_room (st : stats) (text : List Nat)
    (h : int_of_size_t (size_t_wrap ((st.buf.size : Int) - st.buf.len - 1)) ≤ 0) :
    (stats_add_text st text).1 = NC_ERROR := by
  have hc : (nc_snprintf st.buf (size_t_wrap ((st.buf.size : Int) - st.buf.len - 1)) text).2 < 0 ∨
      (nc_snprintf st.buf (size_t_wrap ((st.buf.size : Int) - st.buf.len - 1)) text).2
        ≥ int_of_size_t (size_t_wrap ((st.buf.size : Int) - st.buf.len - 1)) := by
    unfold nc_snprintf
    simp only
    by_cases hl : text.length ≤ 2147483647
    · right
      rw [if_pos hl]
      omega
    · left
      rw [if_neg hl]
      decide
  unfold stats_add_text
  simp only
  rw [if_pos hc]

theorem make_rsp_int_room (B : Build) (env : Env) (st : stats)
    (h1 : 2 ^ 31 + 2 ≤ st.buf.size) (h2 : st.buf.size < 2 ^ 32) :
    ∃ st1, stats_make_rsp B env st = some (NC_ERROR, st1) := by
  have hroom : int_of_size_t (size_t_wrap ((st.buf.size : Int) - (1 : Nat) - 1)) ≤ 0 := by
    have e : ((st.buf.size : Int) - (1 : Nat) - 1) = ((st.buf.size - 2 : Nat) : Int) := by omega
    rw [e, size_t_wrap_of_nat _ (by omega)]
    unfold int_of_size_t
    omega
  have := add_text_int_room
    { st with buf := { st.buf with data := mem_write st.buf.data 0 [123], len := 1 } }
    (string_pair st.service_str st.service) hroom
  unfold stats_make_rsp stats_add_header stats_add_string
  simp only
  rcases hr : stats_add_text
    { st with buf := { st.buf with data := mem_write st.buf.data 0 [123], len := 1 } }
    (string_pair st.service_str st.service) with ⟨s, st1⟩
  rw [hr] at this
  simp only at this
  subst this
  exact ⟨st1, rfl⟩

theorem sized_stats_need (source pname : string) :
    stats_buf_need (sized_stats source pname) = source.length + pname.length + 314 := by
  have e1 : (string_set_text "service").length = 7 := by decide
  have e2 : (string_set_text "nutcracker").length = 10 := by decide
  have e3 : (string_set_text "source").length = 6 := by decide
  have e4 : (string_set_text "version").length = 7 := by decide
  have e5 : (string_set_text "0.4.1").length = 5 := by decide
  have e6 : (string_set_text "uptime").length = 6 := by decide
  have e7 : (string_set_text "timestamp").length = 9 := by decide
  have e8 : (string_set_text "total_connections").length = 17 := by decide
  have e9 : (string_set_text "curr_connections").length = 16 := by decide
  have e10 : (string_set_text "curr_connections_a").length = 18 := by decide
  have e11 : (string_set_text "client_eof").length = 10 := by decide
  simp only [stats_buf_need, header_need, pool_need, metric_need, server_need, sized_stats,
    demo_stats, List.map_cons, List.map_nil, List.sum_cons, List.sum_nil,
    e1, e2, e3, e4, e5, e6, e7, e8, e9, e10, e11]
  omega

theorem sized_stats_size (source pname : string)
    (h : source.length + pname.length + 314 + 8 ≤ 2 ^ 64) :
    source.length + pname.length + 314 ≤ (sized_stats source pname).buf.size ∧
      (sized_stats source pname).buf.size < source.length + pname.length + 314 + 8 ∧
      (sized_stats source pname).buf.size = stats_buf_size demo_build (sized_stats source pname) ∧
      (sized_stats source pname).buf.data.length = (sized_stats source pname).buf.size := by
  have hn := sized_stats_need source pname
  have hs : (sized_stats source pname).buf.size
      = stats_buf_size demo_build (sized_stats source pname) := rfl
  have h8 : demo_build.NC_ALIGNMENT = 8 := rfl
  have hb := NC_ALIGN_bounds (stats_buf_need (sized_stats source pname)) 8 (by decide)
  have hsz : stats_buf_size demo_build (sized_stats source pname)
      = NC_ALIGN (stats_buf_need (sized_stats source pname)) 8 := by
    unfold stats_buf_size
    rw [h8]
    have e1 : size_t_wrap (stats_buf_need (sized_stats source pname) : Int)
        = stats_buf_need (sized_stats source pname) := size_t_wrap_of_nat _ (by omega)
    rw [e1]
    exact size_t_wrap_of_nat _ (by omega)
  refine ⟨by omega, by omega, hs, ?_⟩
  simp [sized_stats]

/-- The render of `big_stats` into the buffer sized for it fails: the room
left, above 2^31 bytes, turns negative when converted to `int`. -/
theorem big_stats_render_fails :
    ∃ st1, stats_make_rsp demo_build demo_env big_stats = some (NC_ERROR, st1) := by
  have h := sized_stats_size (List.replicate (2 ^ 30) 97) (List.replicate (2 ^ 30) 97)
    (by simp only [List.length_replicate]; norm_num)
  simp only [List.length_replicate] at h
  exact make_rsp_int_room demo_build demo_env big_stats
    (by unfold big_stats; omega) (by unfold big_stats; omega)

theorem create_buf_eq (B : Build) (st : stats) (a : Alloc) (st0 : stats) (a1 : Alloc)
    (h : stats_create_buf B st a = some (NC_OK, st0, a1)) :
    st0 = { st with buf := { st.buf with data := List.replicate (stats_buf_size B st) 0,
                                         size := stats_buf_size B st } } := by
  unfold stats_create_buf at h
  split at h
  · simp at h
  · rcases hb : alloc_next a with ⟨ok, a2⟩
    simp only [hb] at h
    cases ok
    · simp at h
    · simp only [Option.some.injEq, Prod.mk.injEq, true_and] at h
      exact h.1.symm

theorem sized_stats_values (source pname : string) :
    metrics_nonempty (sized_stats source pname).sum = true ∧
      values_ok (sized_stats source pname).sum := by
  constructor
  · rfl
  · intro stp hstp
    simp only [sized_stats, demo_stats, List.mem_singleton] at hstp
    subst hstp
    constructor
    · intro stm hstm
      simp only [List.mem_singleton] at hstm
      subst hstm
      decide
    · intro sts hsts
      simp at hsts

/-- C7, as amended (buffer sufficiency). Let the alignment be positive, every
metric set of `sum` hold at least one field and every metric value be an
`int64_t`, and let the size summed by the sizing step plus the alignment be at
most 2^31 bytes. Then, whatever the names, the labels and the header values,
`stats_make_rsp` on a buffer of the computed capacity returns `NC_OK` with
`buf.len ≤ buf.size` and writes nothing outside the buffer; the buffers set up
by `stats_create_buf` and by `stats_recreate_buf` have that capacity, so the
same holds for them. -/
theorem buffer_sufficiency (B : Build) (env : Env) (st : stats)
    (halign : 0 < B.NC_ALIGNMENT)
    (hsz : stats_buf_need st + B.NC_ALIGNMENT ≤ 2 ^ 31)
    (hne : metrics_nonempty st.sum = true) (hv : values_ok st.sum) :
    (st.buf.size = stats_buf_size B st → st.buf.data.length = st.buf.size →
      ∃ st1, stats_make_rsp B env st = some (NC_OK, st1) ∧ st1.buf.len ≤ st1.buf.size ∧
        st1.buf.size = st.buf.size ∧ st1.buf.data.length = st1.buf.size) ∧
    (∀ a st0 a1, stats_create_buf B st a = some (NC_OK, st0, a1) →
      st0.buf.size = stats_buf_size B st ∧
      ∃ st1, stats_make_rsp B env st0 = some (NC_OK, st1) ∧ st1.buf.len ≤ st1.buf.size) ∧
    (∀ env0 a st0 a1, stats_recreate_buf B env0 st a = some (NC_OK, st0, a1) →
      st0.buf.size = stats_buf_size B st ∧ st0.buf.len ≤ st0.buf.size ∧
      ∃ st1, stats_make_rsp B env st0 = some (NC_OK, st1) ∧ st1.buf.len ≤ st1.buf.size) := by
  refine ⟨?_, ?_, ?_⟩
  · intro h1 h2
    obtain ⟨b, e, hb⟩ := make_rsp_sized B env st halign hsz hne hv h1 h2
    refine ⟨_, e, holds_len_le b _ _ hb, ?_, ?_⟩
    · simp only; rw [hb.1, h1]
    · simp only; rw [hb.2.1, hb.1]
  · intro a st0 a1 h
    have e0 := create_buf_eq B st a st0 a1 h
    subst e0
    refine ⟨rfl, ?_⟩
    obtain ⟨b, e, hb⟩ := make_rsp_sized B env
      { st with buf := { st.buf with data := List.replicate (stats_buf_size B st) 0,
                                     size := stats_buf_size B st } }
      halign hsz hne hv rfl (by simp)
    exact ⟨_, e, holds_len_le b _ _ hb⟩
  · intro env0 a st0 a1 h
    obtain ⟨b0, rfl, hb0⟩ := recreate_buf_holds B env0 st a st0 a1 halign hsz hne hv h
    refine ⟨hb0.1, holds_len_le b0 _ _ hb0, ?_⟩
    obtain ⟨b, e, hb⟩ := make_rsp_sized B env { st with buf := b0 } halign hsz hne hv hb0.1
      (by simp only; rw [hb0.2.1, hb0.1])
    exact ⟨_, e, holds_len_le b _ _ hb⟩

/-- Witness of C7: the sample engine, with a metric holding `INT64_MIN`,
renders into the buffer of the computed capacity. -/
theorem buffer_sufficiency_witness :
    ∃ st1, stats_make_rsp demo_build demo_env
        (demo_sized (demo_gen 5 (-3) 3 4 (-9223372036854775808))) = some (NC_OK, st1) ∧
      st1.buf.len ≤ st1.buf.size ∧
      st1.buf.size = (demo_sized (demo_gen 5 (-3) 3 4 (-9223372036854775808))).buf.size ∧
      st1.buf.data.length = st1.buf.size :=
  (buffer_sufficiency demo_build demo_env
    (demo_sized (demo_gen 5 (-3) 3 4 (-9223372036854775808)))
    (by decide) (by decide) (by decide)
    (by unfold values_ok metric_values_ok; decide)).1 rfl (List.length_replicate _ _)

/-- Counterexample to C7 as stated: an engine whose source label and pool name
are 2^30 bytes long each. Its buffer has the capacity the sizing step computes,
its only metric is 0, and yet `stats_make_rsp` returns `NC_ERROR`. -/
theorem buffer_sufficiency_counterexample :
    big_stats.buf.size = stats_buf_size demo_build big_stats ∧
    big_stats.buf.data.length = big_stats.buf.size ∧
    metrics_nonempty big_stats.sum = true ∧ values_ok big_stats.sum ∧
    ¬ ∃ st1, stats_make_rsp demo_build demo_env big_stats = some (NC_OK, st1) ∧
        st1.buf.len ≤ st1.buf.size := by
  have h := sized_stats_size (List.replicate (2 ^ 30) 97) (List.replicate (2 ^ 30) 97)
    (by simp only [List.length_replicate]; norm_num)
  have hv := sized_stats_values (List.replicate (2 ^ 30) 97) (List.replicate (2 ^ 30) 97)
  refine ⟨h.2.2.1, h.2.2.2, hv.1, hv.2, ?_⟩
  rintro ⟨st1, h1, _⟩
  obtain ⟨st2, h2⟩ := big_stats_render_fails
  rw [h2] at h1
  simp at h1

/-! ## The checker on the pieces of a document -/

theorem scan_run_append (s s1 : scan_state) (a b : List Nat) (h : scan_run s a = some s1) :
    scan_run s (a ++ b) = scan_run s1 b := by
  induction a generalizing s with
  | nil =>
    simp only [scan_run, Option.some.injEq] at h
    simp [h]
  | cons c a ih =>
    simp only [scan_run, List.cons_append] at h ⊢
    cases hs : scan_step s c with
    | none => simp [hs] at h
    | some s2 =>
      simp only [hs] at h ⊢
      exact ih s2 h

theorem scan_run_trans (s s1 s2 : scan_state) (a b : List Nat) (h1 : scan_run s a = some s1)
    (h2 : scan_run s1 b = some s2) : scan_run s (a ++ b) = some s2 := by
  rw [scan_run_append s s1 a b h1, h2]

theorem scan_key_bytes :
    ∀ (k acc : List Nat) (d : Nat) (o : List (Nat × List Nat)),
      k.all (fun c => c != 34 && !is_brace c) = true →
      scan_run ⟨.key acc, d, o⟩ (k ++ [34]) = some ⟨.after (acc ++ k), d, o⟩
  | [], acc, d, o, _ => by simp [scan_run, scan_step]
  | c :: k, acc, d, o, h => by
    simp only [List.all_cons, Bool.and_eq_true, bne_iff_ne, ne_eq, Bool.not_eq_true'] at h
    have ih := scan_key_bytes k (acc ++ [c]) d o h.2
    have e : acc ++ c :: k = acc ++ [c] ++ k := by simp
    rw [e, ← ih]
    simp only [List.cons_append, scan_run, scan_step, h.1.1, if_false, h.1.2,
      Bool.false_eq_true]
    rfl

theorem scan_val_bytes :
    ∀ (v : List Nat) (d : Nat) (o : List (Nat × List Nat)),
      v.all (fun c => c != 34 && !is_brace c) = true →
      scan_run ⟨.val, d, o⟩ (v ++ [34]) = some ⟨.out, d, o⟩
  | [], d, o, _ => by simp [scan_run, scan_step]
  | c :: v, d, o, h => by
    simp only [List.all_cons, Bool.and_eq_true, bne_iff_ne, ne_eq, Bool.not_eq_true'] at h
    have ih := scan_val_bytes v d o h.2
    rw [← ih]
    simp only [List.cons_append, scan_run, scan_step, h.1.1, if_false, h.1.2,
      Bool.false_eq_true]
    rfl

theorem num_byte_out (c d : Nat) (o : List (Nat × List Nat)) (h : is_num_byte c = true) :
    scan_step ⟨.out, d, o⟩ c = some ⟨.out, d, o⟩ := by
  simp only [is_num_byte, Bool.or_eq_true, beq_iff_eq, Bool.and_eq_true, decide_eq_true_eq] at h
  have h1 : c ≠ 34 := by omega
  have h2 : c ≠ 123 := by omega
  have h3 : c ≠ 125 := by omega
  have h4 : c ≠ 58 := by omega
  simp [scan_step, h1, h2, h3, h4]

theorem scan_num_bytes :
    ∀ (l : List Nat) (d : Nat) (o : List (Nat × List Nat)), l.all is_num_byte = true →
      scan_run ⟨.out, d, o⟩ l = some ⟨.out, d, o⟩
  | [], _, _, _ => rfl
  | c :: l, d, o, h => by
    simp only [List.all_cons, Bool.and_eq_true] at h
    simp only [scan_run, num_byte_out c d o h.1]
    exact scan_num_bytes l d o h.2

theorem dec_rev_bytes : ∀ (fuel n : Nat), (dec_rev fuel n).all is_num_byte = true
  | 0, _ => rfl
  | fuel + 1, n => by
    have h : is_num_byte (48 + n % 10) = true := by
      simp only [is_num_byte, Bool.or_eq_true, beq_iff_eq, Bool.and_eq_true, decide_eq_true_eq]
      omega
    unfold dec_rev
    split
    · simp [h]
    · simp only [List.all_cons, h, Bool.true_and]
      exact dec_rev_bytes fuel (n / 10)

theorem fmt_int64_bytes (v : Int) :
    ∃ c rest, fmt_int64 v = c :: rest ∧ is_num_byte c = true ∧ rest.all is_num_byte = true := by
  have hn : ∀ n, ∃ c rest, fmt_nat n = c :: rest ∧ (c :: rest).all is_num_byte = true := by
    intro n
    have hall : (fmt_nat n).all is_num_byte = true := by
      unfold fmt_nat
      rw [List.all_reverse]
      exact dec_rev_bytes 20 n
    cases hf : fmt_nat n with
    | nil =>
      have : (fmt_nat n).length = 0 := by rw [hf]; rfl
      unfold fmt_nat at this
      rw [List.length_reverse] at this
      unfold dec_rev at this
      simp at this
    | cons c rest =>
      rw [hf] at hall
      exact ⟨c, rest, rfl, hall⟩
  obtain ⟨c, rest, e, hall⟩ := hn v.natAbs
  simp only [List.all_cons, Bool.and_eq_true] at hall
  unfold fmt_int64
  split
  · refine ⟨45, fmt_nat v.natAbs, rfl, by decide, ?_⟩
    rw [e]
    simp [hall.1, hall.2]
  · exact ⟨c, rest, e, hall.1, hall.2⟩

theorem scan_quoted_key (key : string) (d : Nat) (o : List (Nat × List Nat))
    (h : clean key = true) :
    scan_run ⟨.out, d, o⟩ ([34] ++ cstr key ++ [34, 58]) = some ⟨.colon (cstr key), d, o⟩ := by
  have h1 := scan_key_bytes (cstr key) [] d o h
  have e : [34] ++ cstr key ++ [34, 58] = 34 :: ((cstr key ++ [34]) ++ [58]) := by simp
  rw [e]
  simp only [scan_run, scan_step, if_true]
  rw [scan_run_append _ _ _ _ h1]
  simp [scan_run, scan_step]

theorem scan_num_item (key : string) (v : Int) (d : Nat) (o : List (Nat × List Nat))
    (h : clean key = true) :
    scan_run ⟨.out, d, o⟩ (num_item key v) = some ⟨.out, d, o⟩ := by
  obtain ⟨c, rest, e, hc, hrest⟩ := fmt_int64_bytes v
  have h1 := scan_quoted_key key d o h
  unfold num_item
  rw [scan_run_append _ _ _ _ h1, e]
  simp only [is_num_byte, Bool.or_eq_true, beq_iff_eq, Bool.and_eq_true,
    decide_eq_true_eq] at hc
  have c1 : c ≠ 34 := by omega
  have c2 : c ≠ 32 := by omega
  have c3 : is_num_byte c = true := by
    simp only [is_num_byte, Bool.or_eq_true, beq_iff_eq, Bool.and_eq_true, decide_eq_true_eq]
    exact hc
  simp only [scan_run, scan_step, c1, c2, c3, if_false, if_true]
  exact scan_num_bytes rest d o hrest

theorem scan_string_item (key val : string) (d : Nat) (o : List (Nat × List Nat))
    (h : clean key = true) (hv : clean val = true) :
    scan_run ⟨.out, d, o⟩ (string_item key val) = some ⟨.out, d, o⟩ := by
  have h1 := scan_quoted_key key d o h
  have h2 := scan_val_bytes (cstr val) d o hv
  have e : string_item key val = ([34] ++ cstr key ++ [34, 58]) ++ (34 :: (cstr val ++ [34])) := by
    simp [string_item]
  rw [e, scan_run_append _ _ _ _ h1]
  simp only [scan_run, scan_step, if_true]
  exact h2

theorem scan_sep (d : Nat) (o : List (Nat × List Nat)) :
    scan_run ⟨.out, d, o⟩ [44, 32] = some ⟨.out, d, o⟩ := by
  simp [scan_run, scan_step]

theorem scan_comma (d : Nat) (o : List (Nat × List Nat)) :
    scan_run ⟨.out, d, o⟩ [44] = some ⟨.out, d, o⟩ := by
  simp [scan_run, scan_step]

theorem scan_close (d : Nat) (o : List (Nat × List Nat)) :
    scan_run ⟨.out, d + 1, o⟩ [125] = some ⟨.out, d, o⟩ := by
  simp [scan_run, scan_step]

theorem scan_nest_open (key : string) (d : Nat) (o : List (Nat × List Nat))
    (h : clean key = true) :
    scan_run ⟨.out, d, o⟩ (nest_open key) = some ⟨.out, d + 1, o ++ [(d, cstr key)]⟩ := by
  have h1 := scan_quoted_key key d o h
  have e : nest_open key = ([34] ++ cstr key ++ [34, 58]) ++ [32, 123] := by simp [nest_open]
  rw [e, scan_run_append _ _ _ _ h1]
  simp [scan_run, scan_step]

theorem scan_metrics_body :
    ∀ (m : List stats_metric) (d : Nat) (o : List (Nat × List Nat)), metric_clean m = true →
      scan_run ⟨.out, d, o⟩ (metrics_body m) = some ⟨.out, d, o⟩
  | [], _, _, _ => rfl
  | [stm], d, o, h => by
    simp only [metric_clean, List.all_cons, List.all_nil, Bool.and_true] at h
    exact scan_num_item stm.name stm.value d o h
  | stm :: x :: rest, d, o, h => by
    simp only [metric_clean, List.all_cons, Bool.and_eq_true] at h
    have h1 := scan_num_item stm.name stm.value d o h.1
    have h2 := scan_sep d o
    have h3 := scan_metrics_body (x :: rest) d o
      (by simp only [metric_clean, List.all_cons, Bool.and_eq_true]; exact h.2)
    simp only [metrics_body]
    exact scan_run_trans _ _ _ _ _ (scan_run_trans _ _ _ _ _ h1 h2) h3

theorem scan_metrics_text :
    ∀ (m : List stats_metric) (d : Nat) (o : List (Nat × List Nat)), metric_clean m = true →
      scan_run ⟨.out, d, o⟩ (metrics_text m) = some ⟨.out, d, o⟩
  | [], _, _, _ => rfl
  | stm :: rest, d, o, h => by
    simp only [metric_clean, List.all_cons, Bool.and_eq_true] at h
    have h1 := scan_num_item stm.name stm.value d o h.1
    have h2 := scan_sep d o
    have h3 := scan_metrics_text rest d o (by simp only [metric_clean]; exact h.2)
    simp only [metrics_text, num_pair_eq_item]
    exact scan_run_trans _ _ _ _ _ (scan_run_trans _ _ _ _ _ h1 h2) h3

theorem scan_server_obj (sts : stats_server) (d : Nat) (o : List (Nat × List Nat))
    (hn : clean sts.name = true) (hm : metric_clean sts.metric = true) :
    scan_run ⟨.out, d, o⟩ (server_obj sts) = some ⟨.out, d, o ++ [(d, cstr sts.name)]⟩ := by
  have h1 := scan_nest_open sts.name d o hn
  have h2 := scan_metrics_body sts.metric (d + 1) (o ++ [(d, cstr sts.name)]) hm
  have h3 := scan_close d (o ++ [(d, cstr sts.name)])
  unfold server_obj
  exact scan_run_trans _ _ _ _ _ (scan_run_trans _ _ _ _ _ h1 h2) h3

theorem scan_servers_body :
    ∀ (l : List stats_server) (d : Nat) (o : List (Nat × List Nat)),
      l.all (fun sts => clean sts.name && metric_clean sts.metric) = true →
      scan_run ⟨.out, d, o⟩ (servers_body l)
        = some ⟨.out, d, o ++ l.map (fun sts => (d, cstr sts.name))⟩
  | [], d, o, _ => by simp [servers_body, scan_run]
  | [sts], d, o, h => by
    simp only [List.all_cons, List.all_nil, Bool.and_true, Bool.and_eq_true] at h
    simpa [servers_body] using scan_server_obj sts d o h.1 h.2
  | sts :: x :: rest, d, o, h => by
    simp only [List.all_cons, Bool.and_eq_true] at h
    have h1 := scan_server_obj sts d o h.1.1 h.1.2
    have h2 := scan_comma d (o ++ [(d, cstr sts.name)])
    have h3 := scan_servers_body (x :: rest) d (o ++ [(d, cstr sts.name)])
      (by simp only [List.all_cons, Bool.and_eq_true]; exact h.2)
    simp only [servers_body]
    rw [scan_run_trans _ _ _ _ _ (scan_run_trans _ _ _ _ _ h1 h2) h3]
    simp

theorem scan_pool_obj (stp : stats_pool) (o : List (Nat × List Nat))
    (hn : clean stp.name = true) (hm : metric_clean stp.metric = true)
    (hs : stp.server.all (fun sts => clean sts.name && metric_clean sts.metric) = true) :
    scan_run ⟨.out, 1, o⟩ (pool_obj stp)
      = some ⟨.out, 1, o ++ (1, cstr stp.name)
                :: stp.server.map (fun sts => (2, cstr sts.name))⟩ := by
  have h1 := scan_nest_open stp.name 1 o hn
  have h3 := scan_close 1 (o ++ (1, cstr stp.name)
    :: stp.server.map (fun sts => (2, cstr sts.name)))
  have h2 : scan_run ⟨.out, 2, o ++ [(1, cstr stp.name)]⟩ (pool_members stp)
      = some ⟨.out, 2, o ++ (1, cstr stp.name)
                :: stp.server.map (fun sts => (2, cstr sts.name))⟩ := by
    unfold pool_members
    cases hsv : stp.server with
    | nil => simpa using scan_metrics_body stp.metric 2 (o ++ [(1, cstr stp.name)]) hm
    | cons x rest =>
      have a := scan_metrics_text stp.metric 2 (o ++ [(1, cstr stp.name)]) hm
      have b := scan_servers_body (x :: rest) 2 (o ++ [(1, cstr stp.name)])
        (by rw [← hsv]; exact hs)
      simp only
      rw [scan_run_trans _ _ _ _ _ a b]
      simp
  unfold pool_obj
  exact scan_run_trans _ _ _ _ _ (scan_run_trans _ _ _ _ _ h1 h2) h3

theorem scan_pools_body :
    ∀ (g : List stats_pool) (o : List (Nat × List Nat)), gen_clean g = true →
      scan_run ⟨.out, 1, o⟩ (pools_body g) = some ⟨.out, 1, o ++ pool_keys g⟩
  | [], o, _ => by simp [pools_body, scan_run, pool_keys]
  | [stp], o, h => by
    simp only [gen_clean, List.all_cons, List.all_nil, Bool.and_true, Bool.and_eq_true] at h
    simpa [pools_body, pool_keys] using scan_pool_obj stp o h.1.1 h.1.2 h.2
  | stp :: x :: rest, o, h => by
    simp only [gen_clean, List.all_cons, Bool.and_eq_true] at h
    have h1 := scan_pool_obj stp o h.1.1.1 h.1.1.2 h.1.2
    have h2 := scan_comma 1 (o ++ (1, cstr stp.name)
      :: stp.server.map (fun sts => (2, cstr sts.name)))
    have h3 := scan_pools_body (x :: rest) (o ++ (1, cstr stp.name)
      :: stp.server.map (fun sts => (2, cstr sts.name)))
      (by simp only [gen_clean, List.all_cons, Bool.and_eq_true]; exact h.2)
    simp only [pools_body]
    rw [scan_run_trans _ _ _ _ _ (scan_run_trans _ _ _ _ _ h1 h2) h3]
    simp [pool_keys]

theorem scan_header_body (st : stats) (env : Env) (h : stats_clean st = true) :
    scan_run ⟨.out, 1, []⟩ (header_body st env) = some ⟨.out, 1, []⟩ := by
  simp only [stats_clean, Bool.and_eq_true] at h
  obtain ⟨⟨⟨⟨⟨⟨⟨⟨⟨⟨⟨c1, c2⟩, c3⟩, c4⟩, c5⟩, c6⟩, c7⟩, c8⟩, c9⟩, c10⟩, c11⟩, _⟩ := h
  have s := scan_sep 1 []
  have a1 := scan_string_item st.service_str st.service 1 [] c1 c2
  have a2 := scan_string_item st.source_str st.source 1 [] c3 c4
  have a3 := scan_string_item st.version_str st.version 1 [] c5 c6
  have a4 := scan_num_item st.uptime_str (wrap64 (wrap64 env.now - st.start_ts)) 1 [] c7
  have a5 := scan_num_item st.timestamp_str (wrap64 env.now) 1 [] c8
  have a6 := scan_num_item st.ntotal_conn_str (wrap64 env.ntotal_conn) 1 [] c9
  have a7 := scan_num_item st.ncurr_conn_str (wrap64 env.ncurr_conn) 1 [] c10
  have a8 := scan_num_item st.ncurr_conn_str_a (wrap64 env.ncurr_conn_a) 1 [] c11
  unfold header_body
  have t := scan_run_trans
  exact t _ _ _ _ _ (t _ _ _ _ _ (t _ _ _ _ _ (t _ _ _ _ _ (t _ _ _ _ _ (t _ _ _ _ _
    (t _ _ _ _ _ (t _ _ _ _ _ (t _ _ _ _ _ (t _ _ _ _ _ (t _ _ _ _ _ (t _ _ _ _ _
    (t _ _ _ _ _ (t _ _ _ _ _ a1 s) a2) s) a3) s) a4) s) a5) s) a6) s) a7) s) a8

theorem doc_scan_document (st : stats) (env : Env) (h : stats_clean st = true) :
    doc_scan (document st env) = some (pool_keys st.sum) := by
  have hg : gen_clean st.sum = true := by
    simp only [stats_clean, Bool.and_eq_true] at h
    exact h.2
  have h0 : scan_run ⟨.out, 0, []⟩ [123] = some ⟨.out, 1, []⟩ := by simp [scan_run, scan_step]
  have h1 := scan_header_body st env h
  have hend : scan_run ⟨.out, 1, pool_keys st.sum⟩ [125, 10]
      = some ⟨.out, 0, pool_keys st.sum⟩ := by simp [scan_run, scan_step]
  have hrun : scan_run ⟨.out, 0, []⟩ (document st env) = some ⟨.out, 0, pool_keys st.sum⟩ := by
    unfold document
    cases hs : st.sum with
    | nil =>
      have hend0 : scan_run ⟨.out, 1, []⟩ [44, 125, 10] = some ⟨.out, 0, []⟩ := by
        simp [scan_run, scan_step]
      simp only [pool_keys]
      exact scan_run_trans _ _ _ _ _ (scan_run_trans _ _ _ _ _ h0 h1) hend0
    | cons x rest =>
      have h2 := scan_sep 1 []
      have h3 := scan_pools_body st.sum [] hg
      rw [hs] at h3 hend
      simp only [List.nil_append] at h3
      exact scan_run_trans _ _ _ _ _ (scan_run_trans _ _ _ _ _ (scan_run_trans _ _ _ _ _
        (scan_run_trans _ _ _ _ _ h0 h1) h2) h3) hend
  unfold doc_scan
  rw [hrun]

theorem holds_doc (b : stats_buffer) (S : Nat) (doc : List Nat) (h : buf_holds b S doc) :
    buf_doc b = doc := h.2.2.2

/-- C8, as amended (document validity). Let no header string and no name of
`sum` hold a double quote or a brace, let every metric set hold at least one
field and every value be an `int64_t`, and let the buffer be large enough for
the sizing sum and at most 2^31 bytes. Then for every number of pools and of
servers per pool (none included) `stats_make_rsp` returns `NC_OK`, the buffer
holds exactly `document`, and the checker accepts it: braces are balanced,
every colon follows a quoted key, and the nested objects are, in order, every
pool at depth 1 followed by its own servers at depth 2, each exactly once. -/
theorem document_validity (B : Build) (env : Env) (S : Nat) (st : stats)
    (hS : S ≤ 2 ^ 31) (h1 : st.buf.size = S) (h2 : st.buf.data.length = S)
    (hcap : stats_buf_need st ≤ S)
    (hne : metrics_nonempty st.sum = true) (hv : values_ok st.sum)
    (hclean : stats_clean st = true) :
    ∃ st1, stats_make_rsp B env st = some (NC_OK, st1) ∧
      buf_doc st1.buf = document st env ∧
      doc_scan (buf_doc st1.buf) = some (pool_keys st.sum) := by
  obtain ⟨b, e, hb⟩ := make_rsp_ok B env S hS st h1 h2 hcap hne hv
  refine ⟨_, e, holds_doc b S _ hb, ?_⟩
  simp only
  rw [holds_doc b S _ hb]
  exact doc_scan_document st env hclean

/-- Witness of C8: no pool, one pool with one server, and three pools of which
one has no server and one has two. -/
theorem document_validity_witness :
    (∃ st1, stats_make_rsp demo_build demo_env (demo_sized []) = some (NC_OK, st1) ∧
      buf_doc st1.buf = document (demo_sized []) demo_env ∧
      doc_scan (buf_doc st1.buf) = some []) ∧
    (∃ st1, stats_make_rsp demo_build demo_env (demo_sized (demo_gen 1 2 3 4 5))
        = some (NC_OK, st1) ∧
      buf_doc st1.buf = document (demo_sized (demo_gen 1 2 3 4 5)) demo_env ∧
      doc_scan (buf_doc st1.buf)
        = some [(1, string_set_text "p0"), (2, string_set_text "s0")]) ∧
    (∃ st1, stats_make_rsp demo_build demo_env (demo_sized demo_many) = some (NC_OK, st1) ∧
      buf_doc st1.buf = document (demo_sized demo_many) demo_env ∧
      doc_scan (buf_doc st1.buf)
        = some [(1, string_set_text "p0"), (2, string_set_text "s0"),
                (1, string_set_text "p1"), (1, string_set_text "p2"),
                (2, string_set_text "a"), (2, string_set_text "b")]) :=
  ⟨document_validity demo_build demo_env _ (demo_sized []) (by decide) rfl
      (List.length_replicate _ _) (by decide) (by decide)
      (by unfold values_ok metric_values_ok; decide) (by decide),
   document_validity demo_build demo_env _ (demo_sized (demo_gen 1 2 3 4 5)) (by decide) rfl
      (List.length_replicate _ _) (by decide) (by decide)
      (by unfold values_ok metric_values_ok; decide) (by decide),
   document_validity demo_build demo_env _ (demo_sized demo_many) (by decide) rfl
      (List.length_replicate _ _) (by decide) (by decide)
      (by unfold values_ok metric_values_ok; decide) (by decide)⟩

set_option maxRecDepth 100000 in
theorem demo_quote_doc :
    document (demo_sized demo_quote) demo_env
      = string_set_text ("\x7b\"service\":\"nutcracker\", \"source\":\"host\", " ++
          "\"version\":\"0.4.1\", \"uptime\":500, \"timestamp\":1500, " ++
          "\"total_connections\":7, \"curr_connections\":2, \"curr_connections_a\":1, " ++
          "\"p\"0\": \x7b\"client_eof\":0, \"client_connections\":0\x7d\x7d\n") := by
  decide

set_option maxRecDepth 100000 in
theorem demo_quote_scan : doc_scan (document (demo_sized demo_quote) demo_env) = none := by
  decide

/-- Counterexample to C8 as stated: a topology of one pool named `p"0` with no
server. The render succeeds and the document shows the key `"p"0"`: the quote
of the name ends the key early, and the checker rejects the document. -/
theorem document_validity_counterexample :
    ∃ st1, stats_make_rsp demo_build demo_env (demo_sized demo_quote) = some (NC_OK, st1) ∧
      buf_doc st1.buf
        = string_set_text ("\x7b\"service\":\"nutcracker\", \"source\":\"host\", " ++
            "\"version\":\"0.4.1\", \"uptime\":500, \"timestamp\":1500, " ++
            "\"total_connections\":7, \"curr_connections\":2, \"curr_connections_a\":1, " ++
            "\"p\"0\": \x7b\"client_eof\":0, \"client_connections\":0\x7d\x7d\n") ∧
      doc_scan (buf_doc st1.buf) = none := by
  obtain ⟨b, e, hb⟩ := make_rsp_ok demo_build demo_env _ (by decide) (demo_sized demo_quote) rfl
    (List.length_replicate _ _) (by decide) (by decide)
    (by unfold values_ok metric_values_ok; decide)
  refine ⟨_, e, ?_, ?_⟩
  · simp only
    rw [holds_doc b _ _ hb]
    exact demo_quote_doc
  · simp only
    rw [holds_doc b _ _ hb]
    exact demo_quote_scan

/-! ## The end-to-end scenario -/

theorem stats_create_eq (B : Build) (hvp : metric_valid B.stats_pool_codec = true)
    (hvs : metric_valid B.stats_server_codec = true) (env : Env) (source : string)
    (l : List server_pool) (a : Alloc) (h : a.all id = true)
    (hl : B.assert_panic = false ∨ topology_ok l = true)
    (hagg : B.stats_enabled = false ∨ env.aggregator_ok = true) :
    ∃ a1, stats_create B env source l a = some (some (stats_created B env source l), a1) := by
  obtain ⟨a0, h0, g0⟩ := alloc_next_ok a h
  obtain ⟨a1, h1, g1⟩ := pool_map_live B hvp hvs l a0 g0 hl
  obtain ⟨a2, h2, g2⟩ := pool_map_live B hvp hvs l a1 g1 hl
  obtain ⟨a3, h3, g3⟩ := pool_map_live B hvp hvs l a2 g2 hl
  obtain ⟨a4, h4, _⟩ := alloc_next_ok a3 g3
  have hs : stats_start_aggregator B env = NC_OK := by
    rcases hagg with hagg | hagg <;> simp [stats_start_aggregator, hagg]
  refine ⟨a4, ?_⟩
  simp only [stats_create, h0, h1, h2, h3, stats_create_buf, assert_fails, stats_create_init,
    List.isEmpty_nil, beq_self_eq_true, Bool.and_self, Bool.not_true, Bool.and_false,
    Bool.false_eq_true, if_false, h4, hs, if_true]
  rfl

theorem put_at_same (g : List stats_pool) (p : field_pos) (m : stats_metric)
    (h : metric_at g p = some m) : put_at g p m = g := by
  cases p with
  | pool pidx fidx =>
    simp only [metric_at, put_at] at *
    cases hg : g[pidx]? with
    | none => rfl
    | some stp =>
      simp only [hg] at h ⊢
      apply set_same
      rw [hg, set_same _ _ _ h]
  | server pidx sidx fidx =>
    simp only [metric_at, put_at] at *
    cases hg : g[pidx]? with
    | none => rfl
    | some stp =>
      simp only [hg] at h ⊢
      cases hs : stp.server[sidx]? with
      | none => rfl
      | some sts =>
        simp only [hs] at h ⊢
        apply set_same
        rw [hg, set_same _ _ _ h, set_same _ _ _ hs]

theorem put_at_put_at (g : List stats_pool) (p : field_pos) (m m1 m0 : stats_metric)
    (h : metric_at g p = some m0) : put_at (put_at g p m) p m1 = put_at g p m1 := by
  cases p with
  | pool pidx fidx =>
    simp only [metric_at, put_at] at *
    cases hg : g[pidx]? with
    | none => simp [hg]
    | some stp =>
      have hlt : pidx < g.length := (List.getElem?_eq_some.1 hg).1
      simp only [hg, List.getElem?_set_self hlt, List.set_set] at h ⊢
  | server pidx sidx fidx =>
    simp only [metric_at, put_at] at *
    cases hg : g[pidx]? with
    | none => simp [hg]
    | some stp =>
      have hlt : pidx < g.length := (List.getElem?_eq_some.1 hg).1
      simp only [hg] at h ⊢
      cases hs : stp.server[sidx]? with
      | none => simp [hs, hg]
      | some sts =>
        have hlt1 : sidx < stp.server.length := (List.getElem?_eq_some.1 hs).1
        simp only [hs, List.getElem?_set_self hlt, List.getElem?_set_self hlt1,
          List.set_set] at h ⊢

theorem repeat_incr_eq (B : Build) (t : incr_target) :
    ∀ (N : Nat) (st : stats) (mc : stats_metric), st.pause = 0 →
      metric_at st.current t.pos = some mc → is_counter_or_gauge mc = true →
      int64_ok mc.value → int64_ok (mc.value + (N + 1 : Nat)) →
      repeat_step (stats_incr B t) (N + 1) st
        = some { st with updated := 1, current := put_at st.current t.pos
                                        { mc with value := mc.value + (N + 1 : Nat) } }
  | 0, st, mc, hp, hm, hk, hv, hv1 => by
    have hstep := stats_incr_eq B t st mc hp hm hk
    have hok1 : int64_ok (mc.value + 1) := by
      unfold int64_ok at *
      push_cast at hv1
      omega
    rw [wrap64_of_ok hok1] at hstep
    simp only [repeat_step, hstep]
    simp
  | N + 1, st, mc, hp, hm, hk, hv, hv1 => by
    have hstep := stats_incr_eq B t st mc hp hm hk
    have hok1 : int64_ok (mc.value + 1) := by
      unfold int64_ok at *
      push_cast at hv1
      omega
    rw [wrap64_of_ok hok1] at hstep
    have hm1 := metric_at_put_at_self st.current t.pos { mc with value := mc.value + 1 } mc hm
    have ih := repeat_incr_eq B t N
      { st with updated := 1, current := put_at st.current t.pos
                                  { mc with value := mc.value + 1 } }
      { mc with value := mc.value + 1 } hp hm1 hk hok1
      (by unfold int64_ok at *; push_cast at hv1 ⊢; omega)
    rw [repeat_step, hstep]
    simp only
    rw [ih]
    simp only [put_at_put_at _ _ _ _ _ hm]
    have e : mc.value + 1 + ((N + 1 : Nat) : Int) = mc.value + ((N + 1 + 1 : Nat) : Int) := by
      push_cast; ring
    rw [e]

theorem bf_append (a b : List Nat) (ha : brace_free a = true) (hb : brace_free b = true) :
    brace_free (a ++ b) = true := by
  simp only [brace_free, List.all_append, Bool.and_eq_true] at *
  exact ⟨ha, hb⟩

theorem bf_cstr (s : string) (h : clean s = true) : brace_free (cstr s) = true := by
  simp only [clean, brace_free, List.all_eq_true, Bool.and_eq_true] at *
  intro c hc
  exact (h c hc).2

theorem bf_num_bytes (l : List Nat) (h : l.all is_num_byte = true) : brace_free l = true := by
  simp only [brace_free, List.all_eq_true] at *
  intro c hc
  have := h c hc
  simp only [is_num_byte, Bool.or_eq_true, beq_iff_eq, Bool.and_eq_true,
    decide_eq_true_eq] at this
  simp only [is_brace, Bool.not_eq_true', Bool.or_eq_false_iff, beq_eq_false_iff_ne, ne_eq]
  omega

theorem bf_num_item (key : string) (v : Int) (h : clean key = true) :
    brace_free (num_item key v) = true := by
  obtain ⟨c, rest, e, hc, hrest⟩ := fmt_int64_bytes v
  have h1 := bf_cstr key h
  have h2 : brace_free (fmt_int64 v) = true := by
    apply bf_num_bytes
    rw [e]
    simp [hc, hrest]
  unfold num_item
  exact bf_append _ _ (bf_append _ _ (bf_append _ _ (by decide) h1) (by decide)) h2

theorem bf_metrics_text :
    ∀ (m : List stats_metric), metric_clean m = true → brace_free (metrics_text m) = true
  | [], _ => rfl
  | stm :: rest, h => by
    simp only [metric_clean, List.all_cons, Bool.and_eq_true] at h
    simp only [metrics_text, num_pair_eq_item]
    exact bf_append _ _ (bf_append _ _ (bf_num_item _ _ h.1) (by decide))
      (bf_metrics_text rest (by simpa [metric_clean] using h.2))

theorem metrics_body_cons (x : stats_metric) (l : List stats_metric) (h : l ≠ []) :
    metrics_body (x :: l) = num_item x.name x.value ++ [44, 32] ++ metrics_body l := by
  cases l with
  | nil => exact absurd rfl h
  | cons y r => rfl

theorem bf_metrics_body :
    ∀ (m : List stats_metric), metric_clean m = true → brace_free (metrics_body m) = true
  | [], _ => rfl
  | [stm], h => by
    simp only [metric_clean, List.all_cons, List.all_nil, Bool.and_true] at h
    exact bf_num_item _ _ h
  | stm :: y :: rest, h => by
    simp only [metric_clean, List.all_cons, Bool.and_eq_true] at h
    simp only [metrics_body]
    exact bf_append _ _ (bf_append _ _ (bf_num_item _ _ h.1) (by decide))
      (bf_metrics_body (y :: rest)
        (by simp only [metric_clean, List.all_cons, Bool.and_eq_true]; exact h.2))

theorem metrics_text_split :
    ∀ (z : List stats_metric) (i : Nat) (m0 m : stats_metric), z[i]? = some m0 →
      metric_clean z = true →
      ∃ A B, metrics_text (z.set i m) = A ++ num_item m.name m.value ++ B ∧
        brace_free A = true ∧ brace_free B = true
  | [], _, _, _, h, _ => by simp at h
  | x :: r, 0, m0, m, _, hc => by
    simp only [metric_clean, List.all_cons, Bool.and_eq_true] at hc
    refine ⟨[], [44, 32] ++ metrics_text r, ?_, rfl, ?_⟩
    · simp [metrics_text, num_pair_eq_item]
    · exact bf_append _ _ (by decide) (bf_metrics_text r (by simpa [metric_clean] using hc.2))
  | x :: r, i + 1, m0, m, h, hc => by
    simp only [metric_clean, List.all_cons, Bool.and_eq_true] at hc
    simp only [List.getElem?_cons_succ] at h
    obtain ⟨A, B, e, hA, hB⟩ := metrics_text_split r i m0 m h
      (by simpa [metric_clean] using hc.2)
    refine ⟨num_pair x.name x.value ++ A, B, ?_, ?_, hB⟩
    · simp [metrics_text, e]
    · rw [num_pair_eq_item]
      exact bf_append _ _ (bf_append _ _ (bf_num_item _ _ hc.1) (by decide)) hA

theorem metrics_body_split :
    ∀ (z : List stats_metric) (i : Nat) (m0 m : stats_metric), z[i]? = some m0 →
      metric_clean z = true →
      ∃ A B, metrics_body (z.set i m) = A ++ num_item m.name m.value ++ B ∧
        brace_free A = true ∧ brace_free B = true
  | [], _, _, _, h, _ => by simp at h
  | [x], 0, m0, m, _, _ => ⟨[], [], by simp [metrics_body], rfl, rfl⟩
  | x :: y :: r, 0, m0, m, _, hc => by
    simp only [metric_clean, List.all_cons, Bool.and_eq_true] at hc
    refine ⟨[], [44, 32] ++ metrics_body (y :: r), ?_, rfl, ?_⟩
    · simp [metrics_body]
    · exact bf_append _ _ (by decide) (bf_metrics_body (y :: r)
        (by simp only [metric_clean, List.all_cons, Bool.and_eq_true]; exact hc.2))
  | x :: r, i + 1, m0, m, h, hc => by
    simp only [metric_clean, List.all_cons, Bool.and_eq_true] at hc
    simp only [List.getElem?_cons_succ] at h
    obtain ⟨A, B, e, hA, hB⟩ := metrics_body_split r i m0 m h
      (by simpa [metric_clean] using hc.2)
    have hne : r.set i m ≠ [] := by
      intro hnil
      have := congrArg List.length hnil
      simp only [List.length_set, List.length_nil] at this
      have hlt := (List.getElem?_eq_some.1 h).1
      omega
    refine ⟨num_item x.name x.value ++ [44, 32] ++ A, B, ?_, ?_, hB⟩
    · simp only [List.set_cons_succ]
      rw [metrics_body_cons x _ hne, e]
      simp
    · exact bf_append _ _ (bf_append _ _ (bf_num_item _ _ hc.1) (by decide)) hA

theorem fold_zero_set :
    ∀ (z : List stats_metric) (i : Nat) (m0 m : stats_metric), z[i]? = some m0 →
      (∀ x ∈ z, fold_metric x x = x) → fold_metric m0 m = m →
      List.zipWith fold_metric z (z.set i m) = z.set i m
  | [], _, _, _, h, _, _ => by simp at h
  | x :: r, 0, m0, m, h, hz, hm => by
    simp only [List.getElem?_cons_zero, Option.some.injEq] at h
    subst h
    have hr : List.zipWith fold_metric r r = r := by
      clear hm
      induction r with
      | nil => rfl
      | cons y r ih =>
        simp only [List.zipWith_cons_cons, List.cons.injEq]
        exact ⟨hz y (by simp), ih (fun a ha => hz a (by
          simp only [List.mem_cons] at ha ⊢
          rcases ha with ha | ha
          · exact Or.inl ha
          · exact Or.inr (Or.inr ha)))⟩
    simp only [List.set_cons_zero, List.zipWith_cons_cons, hm, hr]
  | x :: r, i + 1, m0, m, h, hz, hm => by
    simp only [List.getElem?_cons_succ] at h
    have ih := fold_zero_set r i m0 m h (fun a ha => hz a (by simp [ha])) hm
    simp only [List.set_cons_succ, List.zipWith_cons_cons, hz x (by simp), ih]

theorem zero_metric_fold (c : List stats_metric) :
    ∀ x ∈ zero_metric c, fold_metric x x = x := by
  intro x hx
  simp only [zero_metric, List.mem_map] at hx
  obtain ⟨y, _, rfl⟩ := hx
  rcases y with ⟨t, n, v⟩
  cases t <;> simp [fold_metric, wrap64]

theorem fold_onto_zero (m0 : stats_metric) (v : Int) (h0 : m0.value = 0)
    (hk : is_counter_or_gauge m0 = true) (hv : 0 ≤ v) (hok : int64_ok v) :
    fold_metric m0 { m0 with value := v } = { m0 with value := v } := by
  rcases m0 with ⟨t, n, v0⟩
  simp only at h0
  subst h0
  cases t
  · simp [is_counter_or_gauge] at hk
  · simp [fold_metric, wrap64_of_ok hok]
  · simp [fold_metric, wrap64_of_ok hok, hv]
  · simp [is_counter_or_gauge] at hk

theorem metric_kinds_set (z : List stats_metric) (i : Nat) (m0 m : stats_metric)
    (h : z[i]? = some m0) (ht : m.type = m0.type) : metric_kinds (z.set i m) = metric_kinds z := by
  simp only [metric_kinds, List.map_set]
  apply set_same
  simp [h, ht]

theorem metric_need_set (z : List stats_metric) (i : Nat) (m0 m : stats_metric)
    (h : z[i]? = some m0) (hn : m.name = m0.name) : metric_need (z.set i m) = metric_need z := by
  simp only [metric_need, List.map_set]
  rw [set_same]
  simp [h, hn]

theorem metric_valid_congr (a b : List stats_metric) (h : metric_kinds a = metric_kinds b) :
    metric_valid a = metric_valid b := by
  have e : ∀ m : List stats_metric,
      metric_valid m = (metric_kinds m).all (fun t => t != STATS_INVALID) := by
    intro m
    induction m with
    | nil => rfl
    | cons x m ih =>
      simp only [metric_valid, metric_kinds, List.all_cons, List.map_cons] at ih ⊢
      rw [ih]
  rw [e a, e b, h]

theorem metric_kinds_zero (c : List stats_metric) : metric_kinds (zero_metric c) = metric_kinds c := by
  simp [metric_kinds, zero_metric, Function.comp_def]

theorem metric_clean_zero (c : List stats_metric) : metric_clean (zero_metric c) = metric_clean c := by
  simp [metric_clean, zero_metric, List.all_map, Function.comp_def]

theorem metric_need_zero (c : List stats_metric) : metric_need (zero_metric c) = metric_need c := by
  simp [metric_need, zero_metric, Function.comp_def]

theorem zero_metric_get (codec : List stats_metric) (i : Nat) (x : stats_metric)
    (h : codec[i]? = some x) : (zero_metric codec)[i]? = some { x with value := 0 } := by
  simp [zero_metric, h]

theorem values_ok_set (z : List stats_metric) (i : Nat) (m : stats_metric)
    (hz : metric_values_ok z) (hm : int64_ok m.value) : metric_values_ok (z.set i m) := by
  intro x hx
  rcases List.mem_or_eq_of_mem_set hx with h | h
  · exact hz x h
  · rw [h]; exact hm

theorem values_ok_zero (c : List stats_metric) : metric_values_ok (zero_metric c) := by
  intro x hx
  simp only [zero_metric, List.mem_map] at hx
  obtain ⟨y, _, rfl⟩ := hx
  show int64_ok 0
  decide

theorem metric_valid_zero (codec : List stats_metric) :
    metric_valid (zero_metric codec) = metric_valid codec :=
  metric_valid_congr _ _ (metric_kinds_zero codec)

theorem metric_valid_set (z : List stats_metric) (i : Nat) (m0 m : stats_metric)
    (h : z[i]? = some m0) (ht : m.type = m0.type) :
    metric_valid (z.set i m) = metric_valid z :=
  metric_valid_congr _ _ (metric_kinds_set z i m0 m h ht)

theorem mirror_demo_ok (B : Build) (hvp : metric_valid B.stats_pool_codec = true)
    (hvs : metric_valid B.stats_server_codec = true) :
    gen_ok B (mirror_gen B [demo_pool]) = true := by
  have e1 : (zero_metric B.stats_pool_codec).length = STATS_POOL_NFIELD B := by
    simp [zero_metric, STATS_POOL_NFIELD]
  have e2 : (zero_metric B.stats_server_codec).length = STATS_SERVER_NFIELD B := by
    simp [zero_metric, STATS_SERVER_NFIELD]
  simp [gen_ok, mirror_gen, demo_pool, metric_ok, e1, e2, metric_valid_zero, hvp, hvs]

/-- The state of the scenario just before the render: `sum` holds 5 in the
pool field and 3 in the server field, everything else is zero. -/
theorem end_to_end_state (B : Build) (env0 : Env) (source : string) (a : Alloc) (fp fs : Nat)
    (cp cs : stats_metric)
    (hen : B.stats_enabled = true) (hagg : env0.aggregator_ok = true) (ha : a.all id = true)
    (hvp : metric_valid B.stats_pool_codec = true)
    (hvs : metric_valid B.stats_server_codec = true)
    (hp : B.stats_pool_codec[fp]? = some cp) (hpk : is_counter_or_gauge cp = true)
    (hs : B.stats_server_codec[fs]? = some cs) (hsk : is_counter_or_gauge cs = true) :
    ∃ st4 a1, stats_create B env0 source [demo_pool] a
        = some (some (stats_created B env0 source [demo_pool]), a1) ∧
      (∃ st1 st2 st3,
        repeat_step (stats_incr B (.pool demo_pool fp)) 5
          (stats_created B env0 source [demo_pool]) = some st1 ∧
        repeat_step (stats_incr B (.server demo_server fs)) 3 st1 = some st2 ∧
        stats_swap B st2 = some st3 ∧ stats_aggregate B st3 = some st4) ∧
      st4.sum = [⟨string_set_text "p0", (zero_metric B.stats_pool_codec).set fp
                    { cp with value := 5 },
                  [⟨string_set_text "s0", (zero_metric B.stats_server_codec).set fs
                    { cs with value := 3 }⟩]⟩] ∧
      st4.buf = (stats_created B env0 source [demo_pool]).buf ∧
      header_need st4 = header_need (stats_created B env0 source [demo_pool]) ∧
      (∀ env, header_body st4 env = header_body (stats_created B env0 source [demo_pool]) env) := by
  obtain ⟨a1, hcreate⟩ := stats_create_eq B hvp hvs env0 source [demo_pool] a ha
    (Or.inr (by decide)) (Or.inr hagg)
  have hmir : mirror_gen B [demo_pool]
      = [⟨string_set_text "p0", zero_metric B.stats_pool_codec,
          [⟨string_set_text "s0", zero_metric B.stats_server_codec⟩]⟩] := rfl
  have hzp := zero_metric_get _ fp cp hp
  have hzs := zero_metric_get _ fs cs hs
  -- five increments of the pool field
  have hm0 : metric_at (stats_created B env0 source [demo_pool]).current
      (incr_target.pool demo_pool fp).pos = some { cp with value := 0 } := by
    simp only [stats_created, hmir, incr_target.pos, metric_at]
    exact hzp
  have h1 : repeat_step (stats_incr B (.pool demo_pool fp)) 5
      (stats_created B env0 source [demo_pool]) = _ :=
    repeat_incr_eq B (.pool demo_pool fp) 4 _ _ rfl hm0 hpk (by show int64_ok 0; decide)
      (by show int64_ok (0 + ((4 + 1 : Nat) : Int)); decide)
  have hcur1 : put_at (stats_created B env0 source [demo_pool]).current
      (incr_target.pool demo_pool fp).pos { cp with value := 5 }
      = [⟨string_set_text "p0", (zero_metric B.stats_pool_codec).set fp { cp with value := 5 },
          [⟨string_set_text "s0", zero_metric B.stats_server_codec⟩]⟩] := by
    simp only [stats_created, hmir, incr_target.pos, put_at]
    rfl
  have h1' : repeat_step (stats_incr B (.pool demo_pool fp)) 5
      (stats_created B env0 source [demo_pool])
      = some { stats_created B env0 source [demo_pool] with
          updated := 1
          current := [⟨string_set_text "p0",
            (zero_metric B.stats_pool_codec).set fp { cp with value := 5 },
            [⟨string_set_text "s0", zero_metric B.stats_server_codec⟩]⟩] } := by
    rw [h1]
    exact congrArg (fun g => some { stats_created B env0 source [demo_pool] with
      updated := 1, current := g }) hcur1
  -- three increments of the server field
  have h2 := repeat_incr_eq B (.server demo_server fs) 2
    { stats_created B env0 source [demo_pool] with
          updated := 1
          current := [⟨string_set_text "p0",
            (zero_metric B.stats_pool_codec).set fp { cp with value := 5 },
            [⟨string_set_text "s0", zero_metric B.stats_server_codec⟩]⟩] }
    { cs with value := 0 } rfl hzs hsk (by show int64_ok 0; decide)
      (by show int64_ok (0 + ((2 + 1 : Nat) : Int)); decide)
  have h2' : repeat_step (stats_incr B (.server demo_server fs)) 3
      { stats_created B env0 source [demo_pool] with
          updated := 1
          current := [⟨string_set_text "p0",
            (zero_metric B.stats_pool_codec).set fp { cp with value := 5 },
            [⟨string_set_text "s0", zero_metric B.stats_server_codec⟩]⟩] }
      = some { stats_created B env0 source [demo_pool] with
          updated := 1
          current := [⟨string_set_text "p0",
            (zero_metric B.stats_pool_codec).set fp { cp with value := 5 },
            [⟨string_set_text "s0",
              (zero_metric B.stats_server_codec).set fs { cs with value := 3 }⟩]⟩] } := by
    rw [h2]
    rfl
  -- swap
  have h3 := stats_swap_eq B
    { stats_created B env0 source [demo_pool] with
          updated := 1
          current := [⟨string_set_text "p0",
            (zero_metric B.stats_pool_codec).set fp { cp with value := 5 },
            [⟨string_set_text "s0",
              (zero_metric B.stats_server_codec).set fs { cs with value := 3 }⟩]⟩] }
    hen rfl (by simp [stats_created, stats_create_init]) (by simp) (mirror_demo_ok B hvp hvs)
  -- aggregate
  have hshape : gen_shape (mirror_gen B [demo_pool])
      = gen_shape [(⟨string_set_text "p0",
            (zero_metric B.stats_pool_codec).set fp { cp with value := 5 },
            [⟨string_set_text "s0",
              (zero_metric B.stats_server_codec).set fs { cs with value := 3 }⟩]⟩ : stats_pool)] := by
    simp only [hmir, gen_shape, List.map_cons, List.map_nil,
      metric_kinds_set _ fp _ { cp with value := 5 } hzp rfl,
      metric_kinds_set _ fs _ { cs with value := 3 } hzs rfl]
  have hkv : kinds_valid [(⟨string_set_text "p0",
            (zero_metric B.stats_pool_codec).set fp { cp with value := 5 },
            [⟨string_set_text "s0",
              (zero_metric B.stats_server_codec).set fs { cs with value := 3 }⟩]⟩ : stats_pool)]
      = true := by
    simp [kinds_valid, metric_valid_set _ fp _ { cp with value := 5 } hzp rfl,
      metric_valid_set _ fs _ { cs with value := 3 } hzs rfl, metric_valid_zero, hvp, hvs]
  have h4 := stats_aggregate_eq B
    { stats_created B env0 source [demo_pool] with
          current := zero_gen (mirror_gen B [demo_pool])
          shadow := [⟨string_set_text "p0",
            (zero_metric B.stats_pool_codec).set fp { cp with value := 5 },
            [⟨string_set_text "s0",
              (zero_metric B.stats_server_codec).set fs { cs with value := 3 }⟩]⟩]
          updated := 0
          aggregate := 1 } (by simp) hshape hkv
  have hfold : List.zipWith fold_pool (mirror_gen B [demo_pool])
      [(⟨string_set_text "p0",
            (zero_metric B.stats_pool_codec).set fp { cp with value := 5 },
            [⟨string_set_text "s0",
              (zero_metric B.stats_server_codec).set fs { cs with value := 3 }⟩]⟩ : stats_pool)]
      = [⟨string_set_text "p0",
            (zero_metric B.stats_pool_codec).set fp { cp with value := 5 },
            [⟨string_set_text "s0",
              (zero_metric B.stats_server_codec).set fs { cs with value := 3 }⟩]⟩] := by
    have f1 := fold_zero_set (zero_metric B.stats_pool_codec) fp _ { cp with value := 5 } hzp
      (zero_metric_fold _) (fold_onto_zero { cp with value := 0 } 5 rfl hpk (by decide) (by decide))
    have f2 := fold_zero_set (zero_metric B.stats_server_codec) fs _ { cs with value := 3 } hzs
      (zero_metric_fold _) (fold_onto_zero { cs with value := 0 } 3 rfl hsk (by decide) (by decide))
    simp only [hmir, List.zipWith_cons_cons, List.zipWith_nil_right, fold_pool, fold_server, f1, f2]
  refine ⟨_, a1, hcreate, ⟨_, _, _, h1', h2', h3, h4⟩, ?_, rfl, rfl, fun _ => rfl⟩
  exact hfold

theorem length_of_get {α : Type} (l : List α) (i : Nat) (x : α) (h : l[i]? = some x) :
    l.length ≠ 0 := by
  intro h0
  have : l = [] := List.length_eq_zero.mp h0
  subst this
  simp at h

/-- C9 (end-to-end scenario). Over the topology of one pool `p0` with one
server `s0`, with a pool field named `client_connections` and a server field
named `server_connections` (each a counter or a gauge) in a codec of clean
names: creating the engine, incrementing the pool field five times and the
server field three times, swapping, aggregating and rendering returns `NC_OK`,
and the rendered document is the header followed by the object `p0`, which
holds `"client_connections":5` at its own level and then the object `s0`,
which holds `"server_connections":3`; the texts in between hold no brace, so
each pair sits directly inside the named object. -/
theorem end_to_end_scenario (B : Build) (env0 env : Env) (source : string) (a : Alloc)
    (fp fs : Nat) (cp cs : stats_metric)
    (hen : B.stats_enabled = true) (hagg : env0.aggregator_ok = true) (ha : a.all id = true)
    (halign : 0 < B.NC_ALIGNMENT)
    (hvp : metric_valid B.stats_pool_codec = true)
    (hvs : metric_valid B.stats_server_codec = true)
    (hcp : metric_clean B.stats_pool_codec = true)
    (hcs : metric_clean B.stats_server_codec = true)
    (hp : B.stats_pool_codec[fp]? = some cp)
    (hpn : cp.name = string_set_text "client_connections")
    (hpk : is_counter_or_gauge cp = true)
    (hs : B.stats_server_codec[fs]? = some cs)
    (hsn : cs.name = string_set_text "server_connections")
    (hsk : is_counter_or_gauge cs = true)
    (hsz : stats_buf_need (stats_created B env0 source [demo_pool]) + B.NC_ALIGNMENT ≤ 2 ^ 31) :
    ∃ st A A1 C D, end_to_end B env0 env source a fp fs = some (NC_OK, st) ∧
      buf_doc st.buf = [123] ++ header_body st env ++ [44, 32]
        ++ string_set_text "\"p0\": \x7b" ++ A
        ++ string_set_text "\"client_connections\":5" ++ A1
        ++ string_set_text "\"s0\": \x7b" ++ C
        ++ string_set_text "\"server_connections\":3" ++ D ++ [125, 125, 125, 10] ∧
      brace_free A = true ∧ brace_free A1 = true ∧ brace_free C = true ∧
      brace_free D = true := by
  obtain ⟨st4, a1, hcreate, ⟨st1, st2, st3, h1, h2, h3, h4⟩, hsum, hbuf, hhn, hhb⟩ :=
    end_to_end_state B env0 source a fp fs cp cs hen hagg ha hvp hvs hp hpk hs hsk
  have hzp := zero_metric_get _ fp cp hp
  have hzs := zero_metric_get _ fs cs hs
  have hneed : stats_buf_need st4 = stats_buf_need (stats_created B env0 source [demo_pool]) := by
    simp only [stats_buf_need, hhn, hsum, pool_need, server_need, List.map_cons, List.map_nil,
      metric_need_set _ fp _ { cp with value := 5 } hzp rfl,
      metric_need_set _ fs _ { cs with value := 3 } hzs rfl]
    rfl
  have hne : metrics_nonempty st4.sum = true := by
    have l1 := length_of_get _ _ _ hzp
    have l2 := length_of_get _ _ _ hzs
    simp [hsum, metrics_nonempty, l1, l2]
  have hv : values_ok st4.sum := by
    intro stp hstp
    rw [hsum] at hstp
    simp only [List.mem_singleton] at hstp
    subst hstp
    refine ⟨values_ok_set _ _ _ (values_ok_zero _) (by show int64_ok 5; decide), ?_⟩
    intro sts hsts
    simp only [List.mem_singleton] at hsts
    subst hsts
    exact values_ok_set _ _ _ (values_ok_zero _) (by show int64_ok 3; decide)
  have hsize : st4.buf.size = stats_buf_size B st4 := by
    rw [hbuf]
    simp only [stats_buf_size, hneed]
    rfl
  have hlen : st4.buf.data.length = st4.buf.size := by
    rw [hbuf]
    exact List.length_replicate _ _
  obtain ⟨b, hrsp, hholds⟩ := make_rsp_sized B env st4 halign (by rw [hneed]; exact hsz)
    hne hv hsize hlen
  obtain ⟨A, A1, e1, hA, hA1⟩ := metrics_text_split (zero_metric B.stats_pool_codec) fp _
    { cp with value := 5 } hzp (by rw [metric_clean_zero]; exact hcp)
  obtain ⟨C, D, e2, hC, hD⟩ := metrics_body_split (zero_metric B.stats_server_codec) fs _
    { cs with value := 3 } hzs (by rw [metric_clean_zero]; exact hcs)
  have i1 : num_item (string_set_text "client_connections") 5
      = string_set_text "\"client_connections\":5" := by decide
  have i2 : num_item (string_set_text "server_connections") 3
      = string_set_text "\"server_connections\":3" := by decide
  have i3 : nest_open (string_set_text "p0") = string_set_text "\"p0\": \x7b" := by decide
  have i4 : nest_open (string_set_text "s0") = string_set_text "\"s0\": \x7b" := by decide
  refine ⟨{ st4 with buf := b }, A, A1, C, D, ?_, ?_, hA, hA1, hC, hD⟩
  · simp only [end_to_end, hcreate, h1, h2, h3, h4, hrsp]
  · rw [holds_doc _ _ _ hholds]
    simp only [hpn, i1] at e1
    simp only [hsn, i2] at e2
    simp only [document, hsum, pools_body, pool_obj, pool_members, servers_body, server_obj,
      hpn, hsn, e1, e2, i3, i4, List.append_assoc, List.cons_append, List.nil_append]
    rfl

set_option maxRecDepth 100000 in
theorem end_to_end_scenario_witness :
    ∃ st A A1 C D, end_to_end demo_build demo_env demo_env [104] [true, true, true, true, true, true, true, true] 1 1
        = some (NC_OK, st) ∧
      buf_doc st.buf = [123] ++ header_body st demo_env ++ [44, 32]
        ++ string_set_text "\"p0\": \x7b" ++ A
        ++ string_set_text "\"client_connections\":5" ++ A1
        ++ string_set_text "\"s0\": \x7b" ++ C
        ++ string_set_text "\"server_connections\":3" ++ D ++ [125, 125, 125, 10] ∧
      brace_free A = true ∧ brace_free A1 = true ∧ brace_free C = true ∧
      brace_free D = true :=
  end_to_end_scenario demo_build demo_env demo_env [104] [true, true, true, true, true, true, true, true] 1 1
    _ _ rfl rfl (by decide) (by decide) (by decide) (by decide) (by decide) (by decide)
    rfl (by decide) (by decide) rfl (by decide) (by decide) (by decide)

/-! ## The instrumentation interface -/

theorem pool_to_metric_eq (st : stats) (pool : server_pool) (fidx : Nat) (mc : stats_metric)
    (hm : metric_at st.current (.pool pool.idx fidx) = some mc) :
    stats_pool_to_metric st pool fidx = some ({ st with updated := 1 }, mc) := by
  simp only [metric_at] at hm
  cases hg : st.current[pool.idx]? with
  | none => simp [hg] at hm
  | some stp =>
    simp only [hg] at hm
    simp [stats_pool_to_metric, hg, hm]

theorem server_to_metric_eq (st : stats) (server : server) (fidx : Nat) (mc : stats_metric)
    (hm : metric_at st.current (.server server.owner_idx server.idx fidx) = some mc) :
    stats_server_to_metric st server fidx = some ({ st with updated := 1 }, mc) := by
  simp only [metric_at] at hm
  cases hg : st.current[server.owner_idx]? with
  | none => simp [hg] at hm
  | some stp =>
    simp only [hg] at hm
    cases hs : stp.server[server.idx]? with
    | none => simp [hs] at hm
    | some sts =>
      simp only [hs] at hm
      simp [stats_server_to_metric, hg, hs, hm]

/-- Every entry point that tests `pause`, on an un-paused engine and a metric
that its assertion lets through: the store into the addressed metric. -/
theorem stats_apply_eq (B : Build) (op : stats_op) (t : incr_target) (st : stats)
    (mc : stats_metric) (hp : st.pause = 0) (hm : metric_at st.current t.pos = some mc)
    (hk : assert_fails B (op.assertion mc) = false) :
    stats_apply B op t st
      = some { st with updated := 1, current := put_at st.current t.pos
                                      { mc with value := op.stored mc.value } } := by
  cases t with
  | pool p fidx =>
    have h1 := pool_to_metric_eq st p fidx mc hm
    cases op <;>
      simp only [stats_op.assertion] at hk <;>
      simp [stats_apply, _stats_pool_incr, _stats_pool_decr, _stats_pool_incr_by,
        _stats_pool_decr_by, _stats_pool_set_ts, hp, h1, hk, pool_store_eq, stats_op.stored,
        incr_target.pos]
  | server s fidx =>
    have h1 := server_to_metric_eq st s fidx mc hm
    cases op <;>
      simp only [stats_op.assertion] at hk <;>
      simp [stats_apply, _stats_server_incr, _stats_server_decr, _stats_server_incr_by,
        _stats_server_decr_by, _stats_server_set_ts, hp, h1, hk, server_store_eq,
        stats_op.stored, incr_target.pos]

theorem stats_apply_abort (B : Build) (op : stats_op) (t : incr_target) (st : stats)
    (mc : stats_metric) (hp : st.pause = 0) (hm : metric_at st.current t.pos = some mc)
    (hk : assert_fails B (op.assertion mc) = true) :
    stats_apply B op t st = none := by
  cases t with
  | pool p fidx =>
    have h1 := pool_to_metric_eq st p fidx mc hm
    cases op <;>
      simp only [stats_op.assertion] at hk <;>
      simp [stats_apply, _stats_pool_incr, _stats_pool_decr, _stats_pool_incr_by,
        _stats_pool_decr_by, _stats_pool_set_ts, hp, h1, hk]
  | server s fidx =>
    have h1 := server_to_metric_eq st s fidx mc hm
    cases op <;>
      simp only [stats_op.assertion] at hk <;>
      simp [stats_apply, _stats_server_incr, _stats_server_decr, _stats_server_incr_by,
        _stats_server_decr_by, _stats_server_set_ts, hp, h1, hk]

theorem incr_by_anyway_eq (B : Build) (t : incr_target) (val : Int) (st : stats)
    (mc : stats_metric) (hm : metric_at st.current t.pos = some mc)
    (hk : assert_fails B (is_counter_or_gauge mc) = false) :
    stats_incr_by_anyway B t val st
      = some { st with updated := 1, current := put_at st.current t.pos
                                      { mc with value := wrap64 (mc.value + val) } } := by
  cases t with
  | pool p fidx =>
    have h1 := pool_to_metric_eq st p fidx mc hm
    simp [stats_incr_by_anyway, _stats_pool_incr_by_anyway, h1, hk, pool_store_eq,
      incr_target.pos]
  | server s fidx =>
    have h1 := server_to_metric_eq st s fidx mc hm
    simp [stats_incr_by_anyway, _stats_server_incr_by_anyway, h1, hk, server_store_eq,
      incr_target.pos]

theorem getElem?_set_other {α : Type} (l : List α) (i j : Nat) (x : α) (h : i ≠ j) :
    (l.set i x)[j]? = l[j]? := by
  simp [List.getElem?_set, h]

theorem metric_at_put_at_other (g : List stats_pool) (p q : field_pos) (m : stats_metric)
    (h : p ≠ q) : metric_at (put_at g p m) q = metric_at g q := by
  cases p with
  | pool pi fi =>
    simp only [put_at]
    cases hg : g[pi]? with
    | none => rfl
    | some stp =>
      have hlt : pi < g.length := by
        rcases List.getElem?_eq_some.mp hg with ⟨hl, _⟩
        exact hl
      cases q with
      | pool qi qf =>
        simp only [metric_at]
        by_cases e : pi = qi
        · subst e
          have hf : fi ≠ qf := fun e2 => h (by rw [e2])
          simp [List.getElem?_set, hlt, hg, hf]
        · simp [List.getElem?_set, e]
      | server qi si qf =>
        simp only [metric_at]
        by_cases e : pi = qi
        · subst e
          simp [List.getElem?_set, hlt, hg]
        · simp [List.getElem?_set, e]
  | server pi psi fi =>
    simp only [put_at]
    cases hg : g[pi]? with
    | none => rfl
    | some stp =>
      have hlt : pi < g.length := by
        rcases List.getElem?_eq_some.mp hg with ⟨hl, _⟩
        exact hl
      cases hs : stp.server[psi]? with
      | none => simp only [hs]
      | some sts =>
        simp only [hs]
        have hlt2 : psi < stp.server.length := by
          rcases List.getElem?_eq_some.mp hs with ⟨hl, _⟩
          exact hl
        cases q with
        | pool qi qf =>
          simp only [metric_at]
          by_cases e : pi = qi
          · subst e
            simp [List.getElem?_set, hlt, hg]
          · simp [List.getElem?_set, e]
        | server qi si qf =>
          simp only [metric_at]
          by_cases e : pi = qi
          · subst e
            by_cases e2 : psi = si
            · subst e2
              have hf : fi ≠ qf := fun e3 => h (by rw [e3])
              simp [List.getElem?_set, hlt, hg, hlt2, hs, hf]
            · simp [List.getElem?_set, hlt, hg, e2]
          · simp [List.getElem?_set, e]

theorem pool_to_metric_some (st : stats) (pool : server_pool) (fidx : Nat) (st1 : stats)
    (stm : stats_metric) (h : stats_pool_to_metric st pool fidx = some (st1, stm)) :
    st1 = { st with updated := 1 } := by
  unfold stats_pool_to_metric at h
  split at h
  · simp at h
  · split at h
    · simp at h
    · simp only [Option.some.injEq, Prod.mk.injEq] at h
      exact h.1.symm

theorem server_to_metric_some (st : stats) (server : server) (fidx : Nat) (st1 : stats)
    (stm : stats_metric) (h : stats_server_to_metric st server fidx = some (st1, stm)) :
    st1 = { st with updated := 1 } := by
  unfold stats_server_to_metric at h
  split at h
  · simp at h
  · split at h
    · simp at h
    · split at h
      · simp at h
      · simp only [Option.some.injEq, Prod.mk.injEq] at h
        exact h.1.symm

/-- The shape of every entry point that tests `pause`: return, or look the
metric up, check the assertion and store a value. -/
theorem pool_entry_frame (B : Build) (st : stats) (pool : server_pool) (fidx : Nat)
    (k : stats_metric → Bool) (f : stats_metric → stats_metric) (st2 : stats)
    (h : (if st.pause ≠ 0 then some st
          else match stats_pool_to_metric st pool fidx with
            | none => none
            | some (st1, stm) =>
              if assert_fails B (k stm) then none
              else some (stats_pool_store st1 pool fidx (f stm))) = some st2) :
    ∃ cur u, st2 = { st with current := cur, updated := u } := by
  split at h
  · simp only [Option.some.injEq] at h
    exact ⟨st.current, st.updated, h.symm⟩
  · cases hto : stats_pool_to_metric st pool fidx with
    | none => simp [hto] at h
    | some x =>
      rcases x with ⟨st1, stm⟩
      have e := pool_to_metric_some st pool fidx st1 stm hto
      simp only [hto] at h
      split at h
      · simp at h
      · simp only [Option.some.injEq] at h
        rw [← h, pool_store_eq, e]
        exact ⟨_, _, rfl⟩

theorem server_entry_frame (B : Build) (st : stats) (server : server) (fidx : Nat)
    (k : stats_metric → Bool) (f : stats_metric → stats_metric) (st2 : stats)
    (h : (if st.pause ≠ 0 then some st
          else match stats_server_to_metric st server fidx with
            | none => none
            | some (st1, stm) =>
              if assert_fails B (k stm) then none
              else some (stats_server_store st1 server fidx (f stm))) = some st2) :
    ∃ cur u, st2 = { st with current := cur, updated := u } := by
  split at h
  · simp only [Option.some.injEq] at h
    exact ⟨st.current, st.updated, h.symm⟩
  · cases hto : stats_server_to_metric st server fidx with
    | none => simp [hto] at h
    | some x =>
      rcases x with ⟨st1, stm⟩
      have e := server_to_metric_some st server fidx st1 stm hto
      simp only [hto] at h
      split at h
      · simp at h
      · simp only [Option.some.injEq] at h
        rw [← h, server_store_eq, e]
        exact ⟨_, _, rfl⟩

/-- An entry point changes `current` and `updated` and nothing else. -/
theorem stats_apply_frame (B : Build) (op : stats_op) (t : incr_target) (st st2 : stats)
    (h : stats_apply B op t st = some st2) :
    ∃ cur u, st2 = { st with current := cur, updated := u } := by
  cases t with
  | pool p fidx =>
    cases op with
    | incr => exact pool_entry_frame B st p fidx _ (fun stm => { stm with value := wrap64 (stm.value + 1) }) st2 h
    | decr => exact pool_entry_frame B st p fidx _ (fun stm => { stm with value := wrap64 (stm.value - 1) }) st2 h
    | incr_by val => exact pool_entry_frame B st p fidx _ (fun stm => { stm with value := wrap64 (stm.value + val) }) st2 h
    | decr_by val => exact pool_entry_frame B st p fidx _ (fun stm => { stm with value := wrap64 (stm.value - val) }) st2 h
    | set_ts val => exact pool_entry_frame B st p fidx _ (fun stm => { stm with value := val }) st2 h
  | server s fidx =>
    cases op with
    | incr => exact server_entry_frame B st s fidx _ (fun stm => { stm with value := wrap64 (stm.value + 1) }) st2 h
    | decr => exact server_entry_frame B st s fidx _ (fun stm => { stm with value := wrap64 (stm.value - 1) }) st2 h
    | incr_by val => exact server_entry_frame B st s fidx _ (fun stm => { stm with value := wrap64 (stm.value + val) }) st2 h
    | decr_by val => exact server_entry_frame B st s fidx _ (fun stm => { stm with value := wrap64 (stm.value - val) }) st2 h
    | set_ts val => exact server_entry_frame B st s fidx _ (fun stm => { stm with value := val }) st2 h

/-- No entry point reads the switch `stats_enabled`. -/
theorem stats_apply_enabled (B : Build) (e : Bool) (op : stats_op) (t : incr_target)
    (st : stats) :
    stats_apply { B with stats_enabled := e } op t st = stats_apply B op t st := by
  cases t <;> cases op <;> rfl

/-- C19 (the "anyway" variants). For every engine, paused or not, and every
target whose position exists in `current` and holds a counter or a gauge,
`_stats_pool_incr_by_anyway` and `_stats_server_incr_by_anyway` return the
engine with `updated` set to 1 and the delta added to the addressed metric
(the sum being an `int64_t`); nothing else changes. -/
theorem anyway_bypasses_pause (B : Build) (t : incr_target) (val : Int) (st : stats)
    (mc : stats_metric) (hm : metric_at st.current t.pos = some mc)
    (hk : is_counter_or_gauge mc = true) (hv : int64_ok (mc.value + val)) :
    stats_incr_by_anyway B t val st
      = some { st with updated := 1, current := put_at st.current t.pos
                                      { mc with value := mc.value + val } } ∧
    metric_at (put_at st.current t.pos { mc with value := mc.value + val }) t.pos
      = some { mc with value := mc.value + val } := by
  have h := incr_by_anyway_eq B t val st mc hm (by simp [assert_fails, hk])
  rw [wrap64_of_ok hv] at h
  exact ⟨h, metric_at_put_at_self _ _ _ _ hm⟩

/-- Witness of C19: the pool gauge of the paused sample engine gets 7 more. -/
theorem anyway_bypasses_pause_witness :
    stats_incr_by_anyway demo_build (.pool demo_pool 1) 7
        (demo_stats (demo_gen 1 2 3 4 5) (demo_gen 0 0 0 0 0) (demo_gen 0 0 0 0 0) 0 0 1)
      = some { demo_stats (demo_gen 1 2 3 4 5) (demo_gen 0 0 0 0 0) (demo_gen 0 0 0 0 0) 0 0 1
               with updated := 1
                    current := put_at (demo_gen 1 2 3 4 5) (.pool 0 1)
                      ⟨STATS_GAUGE, string_set_text "client_connections", 2 + 7⟩ } ∧
    metric_at (put_at (demo_gen 1 2 3 4 5) (.pool 0 1)
        ⟨STATS_GAUGE, string_set_text "client_connections", 2 + 7⟩) (.pool 0 1)
      = some ⟨STATS_GAUGE, string_set_text "client_connections", 2 + 7⟩ :=
  anyway_bypasses_pause demo_build (.pool demo_pool 1) 7
    (demo_stats (demo_gen 1 2 3 4 5) (demo_gen 0 0 0 0 0) (demo_gen 0 0 0 0 0) 0 0 1)
    ⟨STATS_GAUGE, string_set_text "client_connections", 2⟩ rfl rfl (by decide)

/-- C20, as amended (kind discipline). Take a target whose position exists in
`current` and a mismatched operation: `incr` or `incr_by` aimed at a
timestamp, or `set_ts` aimed at a counter or a gauge. The condition of the
`ASSERT` of the entry point is false. In a build whose assertions panic, on an
un-paused engine, the assertion stops the process: no state is returned,
neither a changed nor an unchanged one. In a build whose assertions do not
panic the entry point stores its value as for a matching kind, and on a paused
engine it returns the engine unchanged before the kind is looked at. -/
theorem kind_discipline (B : Build) (op : stats_op) (t : incr_target) (st : stats)
    (mc : stats_metric) (hm : metric_at st.current t.pos = some mc)
    (hmis : ((op = .incr ∨ ∃ val, op = .incr_by val) ∧ mc.type = STATS_TIMESTAMP) ∨
            ((∃ val, op = .set_ts val) ∧ is_counter_or_gauge mc = true)) :
    op.assertion mc = false ∧
    (B.assert_panic = true → st.pause = 0 →
      assert_fails B (op.assertion mc) = true ∧ stats_apply B op t st = none) ∧
    (B.assert_panic = false → st.pause = 0 →
      stats_apply B op t st
        = some { st with updated := 1, current := put_at st.current t.pos
                                        { mc with value := op.stored mc.value } }) ∧
    (st.pause ≠ 0 → stats_apply B op t st = some st) := by
  have ha : op.assertion mc = false := by
    rcases hmis with ⟨hop, hty⟩ | ⟨⟨val, hop⟩, hcg⟩
    · rcases hop with hop | ⟨val, hop⟩ <;> subst hop <;>
        simp [stats_op.assertion, is_counter_or_gauge, hty]
    · subst hop
      cases hty : mc.type <;>
        simp [stats_op.assertion, is_counter_or_gauge, hty] at hcg ⊢
  refine ⟨ha, ?_, ?_, ?_⟩
  · intro hB hp
    have hk : assert_fails B (op.assertion mc) = true := by simp [assert_fails, hB, ha]
    exact ⟨hk, stats_apply_abort B op t st mc hp hm hk⟩
  · intro hB hp
    have hk : assert_fails B (op.assertion mc) = false := by simp [assert_fails, hB]
    exact stats_apply_eq B op t st mc hp hm hk
  · intro hp
    cases t <;> cases op <;>
      simp [stats_apply, _stats_pool_incr, _stats_pool_decr, _stats_pool_incr_by,
        _stats_pool_decr_by, _stats_pool_set_ts, _stats_server_incr, _stats_server_decr,
        _stats_server_incr_by, _stats_server_decr_by, _stats_server_set_ts, hp]

/-- Witness of C20 as amended: in the sample build an increment of the
timestamp of the sample server and a timestamp store into the counter of the
sample pool return no state; with assertions that do not panic the timestamp
store is made. -/
theorem kind_discipline_witness :
    (assert_fails demo_build (stats_op.incr.assertion
        ⟨STATS_TIMESTAMP, string_set_text "server_ejected_at", 5⟩) = true ∧
      stats_apply demo_build .incr (.server demo_server 2)
        (demo_stats (demo_gen 1 2 3 4 5) (demo_gen 0 0 0 0 0) (demo_gen 0 0 0 0 0) 0 0 0)
        = none) ∧
    (assert_fails demo_build ((stats_op.set_ts 9).assertion
        ⟨STATS_COUNTER, string_set_text "client_eof", 1⟩) = true ∧
      stats_apply demo_build (.set_ts 9) (.pool demo_pool 0)
        (demo_stats (demo_gen 1 2 3 4 5) (demo_gen 0 0 0 0 0) (demo_gen 0 0 0 0 0) 0 0 0)
        = none) ∧
    stats_apply demo_no_panic (.set_ts 9) (.pool demo_pool 0)
        (demo_stats (demo_gen 1 2 3 4 5) (demo_gen 0 0 0 0 0) (demo_gen 0 0 0 0 0) 0 0 0)
      = some { demo_stats (demo_gen 1 2 3 4 5) (demo_gen 0 0 0 0 0) (demo_gen 0 0 0 0 0) 0 0 0
               with updated := 1,
                    current := put_at (demo_gen 1 2 3 4 5) (.pool 0 0)
                      ⟨STATS_COUNTER, string_set_text "client_eof", 9⟩ } :=
  ⟨(kind_discipline demo_build .incr (.server demo_server 2)
      (demo_stats (demo_gen 1 2 3 4 5) (demo_gen 0 0 0 0 0) (demo_gen 0 0 0 0 0) 0 0 0)
      ⟨STATS_TIMESTAMP, string_set_text "server_ejected_at", 5⟩ rfl
      (Or.inl ⟨Or.inl rfl, rfl⟩)).2.1 rfl rfl,
   (kind_discipline demo_build (.set_ts 9) (.pool demo_pool 0)
      (demo_stats (demo_gen 1 2 3 4 5) (demo_gen 0 0 0 0 0) (demo_gen 0 0 0 0 0) 0 0 0)
      ⟨STATS_COUNTER, string_set_text "client_eof", 1⟩ rfl
      (Or.inr ⟨⟨9, rfl⟩, rfl⟩)).2.1 rfl rfl,
   (kind_discipline demo_no_panic (.set_ts 9) (.pool demo_pool 0)
      (demo_stats (demo_gen 1 2 3 4 5) (demo_gen 0 0 0 0 0) (demo_gen 0 0 0 0 0) 0 0 0)
      ⟨STATS_COUNTER, string_set_text "client_eof", 1⟩ rfl
      (Or.inr ⟨⟨9, rfl⟩, rfl⟩)).2.2.1 rfl rfl⟩

/-- Counterexample to C20 as stated. In the sample build with assertions
compiled not to panic, on the un-paused sample engine, an increment of the
timestamp `server_ejected_at` is stored (5 becomes 6) and a timestamp store
into the counter `client_eof` is stored (1 becomes 9): value changes accepted
without a word. In the sample build itself, on the paused sample engine, the
same increment returns the engine unchanged: a no-op. -/
theorem kind_discipline_counterexample :
    metric_at (demo_gen 1 2 3 4 5) (.server 0 0 2)
      = some ⟨STATS_TIMESTAMP, string_set_text "server_ejected_at", 5⟩ ∧
    metric_at (demo_gen 1 2 3 4 5) (.pool 0 0)
      = some ⟨STATS_COUNTER, string_set_text "client_eof", 1⟩ ∧
    _stats_server_incr demo_no_panic
        (demo_stats (demo_gen 1 2 3 4 5) (demo_gen 0 0 0 0 0) (demo_gen 0 0 0 0 0) 0 0 0)
        demo_server 2
      = some (demo_stats (demo_gen 1 2 3 4 6) (demo_gen 0 0 0 0 0) (demo_gen 0 0 0 0 0) 1 0 0) ∧
    _stats_pool_set_ts demo_no_panic
        (demo_stats (demo_gen 1 2 3 4 5) (demo_gen 0 0 0 0 0) (demo_gen 0 0 0 0 0) 0 0 0)
        demo_pool 0 9
      = some (demo_stats (demo_gen 9 2 3 4 5) (demo_gen 0 0 0 0 0) (demo_gen 0 0 0 0 0) 1 0 0) ∧
    _stats_server_incr demo_build
        (demo_stats (demo_gen 1 2 3 4 5) (demo_gen 0 0 0 0 0) (demo_gen 0 0 0 0 0) 0 0 1)
        demo_server 2
      = some (demo_stats (demo_gen 1 2 3 4 5) (demo_gen 0 0 0 0 0) (demo_gen 0 0 0 0 0) 0 0 1) := by
  decide

/-- C18, as amended (disabled engine). With statistics switched off,
`stats_swap` returns the engine unchanged and `stats_start_aggregator` starts
nothing, so a written value never leaves `current`; the entry points
themselves do not read the switch: each returns what it returns with
statistics switched on, and what it changes is `current` and `updated` only. -/
theorem disabled_engine_writers (B : Build) (env : Env) (op : stats_op) (t : incr_target)
    (st : stats) (hB : B.stats_enabled = false) :
    stats_swap B st = some st ∧ stats_start_aggregator B env = NC_OK ∧
    stats_apply B op t st = stats_apply { B with stats_enabled := true } op t st ∧
    ∀ st1, stats_apply B op t st = some st1 →
      ∃ cur u, st1 = { st with current := cur, updated := u } := by
  refine ⟨by simp [stats_swap, hB], by simp [stats_start_aggregator, hB],
    (stats_apply_enabled B true op t st).symm, fun st1 h => stats_apply_frame B op t st st1 h⟩

/-- Witness of C18 as amended, on the sample build with statistics off. -/
theorem disabled_engine_writers_witness :
    stats_swap demo_disabled
        (demo_stats (demo_gen 1 2 3 4 5) (demo_gen 0 0 0 0 0) (demo_gen 0 0 0 0 0) 1 0 0)
      = some (demo_stats (demo_gen 1 2 3 4 5) (demo_gen 0 0 0 0 0) (demo_gen 0 0 0 0 0) 1 0 0) ∧
    stats_start_aggregator demo_disabled demo_env = NC_OK ∧
    stats_apply demo_disabled .incr (.pool demo_pool 0)
        (demo_stats (demo_gen 1 2 3 4 5) (demo_gen 0 0 0 0 0) (demo_gen 0 0 0 0 0) 1 0 0)
      = stats_apply { demo_disabled with stats_enabled := true } .incr (.pool demo_pool 0)
        (demo_stats (demo_gen 1 2 3 4 5) (demo_gen 0 0 0 0 0) (demo_gen 0 0 0 0 0) 1 0 0) ∧
    ∀ st1, stats_apply demo_disabled .incr (.pool demo_pool 0)
        (demo_stats (demo_gen 1 2 3 4 5) (demo_gen 0 0 0 0 0) (demo_gen 0 0 0 0 0) 1 0 0)
        = some st1 →
      ∃ cur u, st1 = { demo_stats (demo_gen 1 2 3 4 5) (demo_gen 0 0 0 0 0)
                         (demo_gen 0 0 0 0 0) 1 0 0 with current := cur, updated := u } :=
  disabled_engine_writers demo_disabled demo_env .incr (.pool demo_pool 0) _ rfl

/-- Counterexample to C18 as stated: with statistics switched off, an
increment of the counter of the sample pool does not return the engine
unchanged: the counter goes from 1 to 2 and `updated` from 0 to 1. -/
theorem disabled_engine_writers_counterexample :
    demo_disabled.stats_enabled = false ∧
    _stats_pool_incr demo_disabled
        (demo_stats (demo_gen 1 2 3 4 5) (demo_gen 0 0 0 0 0) (demo_gen 0 0 0 0 0) 0 0 0)
        demo_pool 0
      = some (demo_stats (demo_gen 2 2 3 4 5) (demo_gen 0 0 0 0 0) (demo_gen 0 0 0 0 0) 1 0 0) ∧
    _stats_pool_incr demo_disabled
        (demo_stats (demo_gen 1 2 3 4 5) (demo_gen 0 0 0 0 0) (demo_gen 0 0 0 0 0) 0 0 0)
        demo_pool 0
      ≠ some (demo_stats (demo_gen 1 2 3 4 5) (demo_gen 0 0 0 0 0) (demo_gen 0 0 0 0 0) 0 0 0) := by
  decide

/-! ## The serializer writes into the buffer only -/

theorem buf_only_refl (st : stats) : buf_only st st := ⟨rfl, rfl⟩

theorem buf_only_trans (a b d : stats) (h1 : buf_only a b) (h2 : buf_only b d) :
    buf_only a d := by
  obtain ⟨e1, s1⟩ := h1
  obtain ⟨e2, s2⟩ := h2
  refine ⟨?_, s2.trans s1⟩
  rw [e2, e1]

theorem buf_only_mk (st : stats) (b : stats_buffer) (h : b.size = st.buf.size) :
    buf_only st { st with buf := b } := ⟨rfl, h⟩

theorem add_text_buf_only (st : stats) (text : List Nat) :
    buf_only st (stats_add_text st text).2 := by
  unfold stats_add_text
  simp only []
  split
  · exact buf_only_mk st _ rfl
  · exact buf_only_mk st _ rfl

theorem and_then_buf_only (st : stats) (r : rstatus_t × stats)
    (k : stats → rstatus_t × stats) (h1 : buf_only st r.2)
    (h2 : ∀ st1, buf_only st st1 → buf_only st (k st1).2) :
    buf_only st (and_then r k).2 := by
  rcases r with ⟨status, st1⟩
  cases status
  · exact h2 st1 h1
  · exact h1
  · exact h1

theorem add_text_chain (st st1 : stats) (text : List Nat) (h : buf_only st st1) :
    buf_only st (stats_add_text st1 text).2 :=
  buf_only_trans _ _ _ h (add_text_buf_only st1 text)

theorem add_header_buf_only (st : stats) (env : Env) :
    buf_only st (stats_add_header st env).2 := by
  unfold stats_add_header
  simp only [stats_add_string, stats_add_num]
  refine and_then_buf_only st _ _ (add_text_chain st _ _ (buf_only_mk st _ rfl)) ?_
  intro st1 h1
  refine and_then_buf_only st _ _ (add_text_chain st _ _ h1) ?_
  intro st2 h2
  refine and_then_buf_only st _ _ (add_text_chain st _ _ h2) ?_
  intro st3 h3
  refine and_then_buf_only st _ _ (add_text_chain st _ _ h3) ?_
  intro st4 h4
  refine and_then_buf_only st _ _ (add_text_chain st _ _ h4) ?_
  intro st5 h5
  refine and_then_buf_only st _ _ (add_text_chain st _ _ h5) ?_
  intro st6 h6
  refine and_then_buf_only st _ _ (add_text_chain st _ _ h6) ?_
  intro st7 h7
  exact add_text_chain st _ _ h7

theorem add_footer_buf_only (st : stats) (s : rstatus_t) (st1 : stats)
    (h : stats_add_footer st = some (s, st1)) : buf_only st st1 := by
  unfold stats_add_footer at h
  split at h
  · simp only [Option.some.injEq, Prod.mk.injEq] at h
    rw [← h.2]
    exact buf_only_refl st
  · split at h
    · simp at h
    · simp only [Option.some.injEq, Prod.mk.injEq] at h
      rw [← h.2]
      exact buf_only_mk st _ rfl

theorem end_nesting_buf_only (B : Build) (st : stats) (s : rstatus_t) (st1 : stats)
    (h : stats_end_nesting B st = some (s, st1)) : buf_only st st1 := by
  unfold stats_end_nesting at h
  split at h
  · simp at h
  · split at h
    · simp at h
    · split at h
      · split at h
        · simp at h
        · simp only [Option.some.injEq, Prod.mk.injEq] at h
          rw [← h.2]
          exact buf_only_mk st _ rfl
      · split at h
        · split at h
          · simp only [Option.some.injEq, Prod.mk.injEq] at h
            rw [← h.2]
            exact buf_only_refl st
          · split at h
            · simp at h
            · simp only [Option.some.injEq, Prod.mk.injEq] at h
              rw [← h.2]
              exact buf_only_mk st _ rfl
        · split at h
          · simp at h
          · simp only [Option.some.injEq, Prod.mk.injEq] at h
            rw [← h.2]
            exact buf_only_refl st

theorem copy_metric_buf_only :
    ∀ (m : List stats_metric) (st0 st : stats), buf_only st0 st →
      buf_only st0 (stats_copy_metric st m).2
  | [], _, _, h => h
  | stm :: rest, st0, st, h => by
    simp only [stats_copy_metric, stats_add_num]
    exact and_then_buf_only st0 _ _ (add_text_chain st0 _ _ h)
      (fun st1 h1 => copy_metric_buf_only rest st0 st1 h1)

theorem and_then_opt_buf_only (st : stats) (r : Option (rstatus_t × stats))
    (k : stats → Option (rstatus_t × stats)) (s : rstatus_t) (st2 : stats)
    (h1 : ∀ s1 st1, r = some (s1, st1) → buf_only st st1)
    (h2 : ∀ st1 s1 st3, buf_only st st1 → k st1 = some (s1, st3) → buf_only st st3)
    (h : and_then_opt r k = some (s, st2)) : buf_only st st2 := by
  cases r with
  | none => simp [and_then_opt] at h
  | some x =>
    rcases x with ⟨status, st1⟩
    have hb := h1 status st1 rfl
    cases status
    · exact h2 st1 s st2 hb h
    · simp only [and_then_opt, Option.some.injEq, Prod.mk.injEq] at h
      rw [← h.2]
      exact hb
    · simp only [and_then_opt, Option.some.injEq, Prod.mk.injEq] at h
      rw [← h.2]
      exact hb

theorem make_rsp_servers_buf_only (B : Build) :
    ∀ (l : List stats_server) (st0 st : stats) (s : rstatus_t) (st2 : stats),
      buf_only st0 st → stats_make_rsp_servers B st l = some (s, st2) → buf_only st0 st2
  | [], st0, st, s, st2, hb, h => by
    simp only [stats_make_rsp_servers, Option.some.injEq, Prod.mk.injEq] at h
    rw [← h.2]
    exact hb
  | sts :: rest, st0, st, s, st2, hb, h => by
    simp only [stats_make_rsp_servers, stats_begin_nesting] at h
    refine and_then_opt_buf_only st0 _ _ s st2 ?_ ?_ h
    · intro s1 st1 e
      simp only [Option.some.injEq] at e
      have := add_text_chain st0 st (nest_open sts.name) hb
      rw [e] at this
      exact this
    · intro st1 s1 st3 hb1 h1
      refine and_then_opt_buf_only st0 _ _ s1 st3 ?_ ?_ h1
      · intro s2 st4 e
        simp only [Option.some.injEq] at e
        have := copy_metric_buf_only sts.metric st0 st1 hb1
        rw [e] at this
        exact this
      · intro st4 s2 st5 hb4 h4
        refine and_then_opt_buf_only st0 _ _ s2 st5 ?_ ?_ h4
        · intro s3 st6 e
          exact buf_only_trans _ _ _ hb4 (end_nesting_buf_only B st4 s3 st6 e)
        · intro st6 s3 st7 hb6 h6
          exact make_rsp_servers_buf_only B rest st0 st6 s3 st7 hb6 h6

theorem make_rsp_pools_buf_only (B : Build) :
    ∀ (l : List stats_pool) (st0 st : stats) (s : rstatus_t) (st2 : stats),
      buf_only st0 st → stats_make_rsp_pools B st l = some (s, st2) → buf_only st0 st2
  | [], st0, st, s, st2, hb, h => by
    simp only [stats_make_rsp_pools, Option.some.injEq, Prod.mk.injEq] at h
    rw [← h.2]
    exact hb
  | stp :: rest, st0, st, s, st2, hb, h => by
    simp only [stats_make_rsp_pools, stats_begin_nesting] at h
    refine and_then_opt_buf_only st0 _ _ s st2 ?_ ?_ h
    · intro s1 st1 e
      simp only [Option.some.injEq] at e
      have := add_text_chain st0 st (nest_open stp.name) hb
      rw [e] at this
      exact this
    · intro st1 s1 st3 hb1 h1
      refine and_then_opt_buf_only st0 _ _ s1 st3 ?_ ?_ h1
      · intro s2 st4 e
        simp only [Option.some.injEq] at e
        have := copy_metric_buf_only stp.metric st0 st1 hb1
        rw [e] at this
        exact this
      · intro st4 s2 st5 hb4 h4
        refine and_then_opt_buf_only st0 _ _ s2 st5 ?_ ?_ h4
        · intro s3 st6 e
          exact make_rsp_servers_buf_only B stp.server st0 st4 s3 st6 hb4 e
        · intro st6 s3 st7 hb6 h6
          refine and_then_opt_buf_only st0 _ _ s3 st7 ?_ ?_ h6
          · intro s4 st8 e
            exact buf_only_trans _ _ _ hb6 (end_nesting_buf_only B st6 s4 st8 e)
          · intro st8 s4 st9 hb8 h8
            exact make_rsp_pools_buf_only B rest st0 st8 s4 st9 hb8 h8

/-- Whatever its status, `stats_make_rsp` changes the content of the buffer
and nothing else: not the generations, not the flags, not the capacity. -/
theorem make_rsp_buf_only (B : Build) (env : Env) (st : stats) (s : rstatus_t) (st1 : stats)
    (h : stats_make_rsp B env st = some (s, st1)) : buf_only st st1 := by
  unfold stats_make_rsp at h
  refine and_then_opt_buf_only st _ _ s st1 ?_ ?_ h
  · intro s1 st2 e
    simp only [Option.some.injEq] at e
    have := add_header_buf_only st env
    rw [e] at this
    exact this
  · intro st2 s1 st3 hb h1
    refine and_then_opt_buf_only st _ _ s1 st3 ?_ ?_ h1
    · intro s2 st4 e
      exact make_rsp_pools_buf_only B st2.sum st st2 s2 st4 hb e
    · intro st4 s2 st5 hb4 h4
      exact buf_only_trans _ _ _ hb4 (add_footer_buf_only st4 s2 st5 h4)

/-! ## The rebuild -/

theorem pool_unmap_eq : ∀ (g : List stats_pool), stats_pool_unmap g = []
  | [] => rfl
  | _ :: rest => by
    simp only [stats_pool_unmap]
    exact pool_unmap_eq rest

theorem gen_names_put_at (g : List stats_pool) (p : field_pos) (m : stats_metric) :
    gen_names (put_at g p m) = gen_names g := by
  cases p with
  | pool pi fi =>
    simp only [put_at]
    cases hg : g[pi]? with
    | none => rfl
    | some stp =>
      simp only [gen_names, List.map_set]
      apply set_same
      simp [hg]
  | server pi psi fi =>
    simp only [put_at]
    cases hg : g[pi]? with
    | none => rfl
    | some stp =>
      cases hs : stp.server[psi]? with
      | none => simp only [hs]
      | some sts =>
        simp only [hs, gen_names, List.map_set]
        apply set_same
        simp only [List.getElem?_map, hg, Option.map_some', Option.some.injEq, Prod.mk.injEq,
          true_and]
        symm
        apply set_same
        simp [hs]

theorem pool_to_metric_at (st : stats) (pool : server_pool) (fidx : Nat) (st1 : stats)
    (stm : stats_metric) (h : stats_pool_to_metric st pool fidx = some (st1, stm)) :
    metric_at st.current (.pool pool.idx fidx) = some stm := by
  unfold stats_pool_to_metric at h
  simp only [metric_at]
  cases hg : st.current[pool.idx]? with
  | none => simp [hg] at h
  | some stp =>
    simp only [hg] at h ⊢
    cases hm : stp.metric[fidx]? with
    | none => simp [hm] at h
    | some x =>
      simp only [hm, Option.some.injEq, Prod.mk.injEq] at h
      rw [h.2]

theorem server_to_metric_at (st : stats) (server : server) (fidx : Nat) (st1 : stats)
    (stm : stats_metric) (h : stats_server_to_metric st server fidx = some (st1, stm)) :
    metric_at st.current (.server server.owner_idx server.idx fidx) = some stm := by
  unfold stats_server_to_metric at h
  simp only [metric_at]
  cases hg : st.current[server.owner_idx]? with
  | none => simp [hg] at h
  | some stp =>
    simp only [hg] at h ⊢
    cases hs : stp.server[server.idx]? with
    | none => simp [hs] at h
    | some sts =>
      simp only [hs] at h ⊢
      cases hm : sts.metric[fidx]? with
      | none => simp [hm] at h
      | some x =>
        simp only [hm, Option.some.injEq, Prod.mk.injEq] at h
        rw [h.2]

/-- An "anyway" increment that returns changes `current` and `updated` only,
and keeps the names and the shape of `current`. -/
theorem anyway_frame (B : Build) (t : incr_target) (val : Int) (st st1 : stats)
    (h : stats_incr_by_anyway B t val st = some st1) :
    ∃ cur, st1 = { st with current := cur, updated := 1 } ∧
      gen_shape cur = gen_shape st.current ∧ gen_names cur = gen_names st.current := by
  cases t with
  | pool p fidx =>
    simp only [stats_incr_by_anyway, _stats_pool_incr_by_anyway] at h
    cases hto : stats_pool_to_metric st p fidx with
    | none => simp [hto] at h
    | some x =>
      rcases x with ⟨st0, stm⟩
      have e := pool_to_metric_some st p fidx st0 stm hto
      have hm := pool_to_metric_at st p fidx st0 stm hto
      simp only [hto] at h
      split at h
      · simp at h
      · simp only [Option.some.injEq] at h
        rw [← h, pool_store_eq, e]
        exact ⟨_, rfl, gen_shape_put_at _ _ _ _ hm rfl, gen_names_put_at _ _ _⟩
  | server s fidx =>
    simp only [stats_incr_by_anyway, _stats_server_incr_by_anyway] at h
    cases hto : stats_server_to_metric st s fidx with
    | none => simp [hto] at h
    | some x =>
      rcases x with ⟨st0, stm⟩
      have e := server_to_metric_some st s fidx st0 stm hto
      have hm := server_to_metric_at st s fidx st0 stm hto
      simp only [hto] at h
      split at h
      · simp at h
      · simp only [Option.some.injEq] at h
        rw [← h, server_store_eq, e]
        exact ⟨_, rfl, gen_shape_put_at _ _ _ _ hm rfl, gen_names_put_at _ _ _⟩

theorem seed_servers_frame (B : Build) (F : Fields) :
    ∀ (l : List server) (st st1 : stats), stats_recreate_seed_servers B F l st = some st1 →
      ∃ cur u, st1 = { st with current := cur, updated := u } ∧
        gen_shape cur = gen_shape st.current ∧ gen_names cur = gen_names st.current
  | [], st, st1, h => by
    simp only [stats_recreate_seed_servers, Option.some.injEq] at h
    exact ⟨st.current, st.updated, h.symm, rfl, rfl⟩
  | ser :: rest, st, st1, h => by
    simp only [stats_recreate_seed_servers] at h
    cases h1 : _stats_server_incr_by_anyway B st ser F.server_connections
        (count_connected ser.s_conn_q) with
    | none => simp [h1] at h
    | some st0 =>
      simp only [h1] at h
      obtain ⟨cur0, e0, s0, n0⟩ :=
        anyway_frame B (.server ser F.server_connections) _ st st0 h1
      obtain ⟨cur, u, e, s1, n1⟩ := seed_servers_frame B F rest st0 st1 h
      refine ⟨cur, u, ?_, ?_, ?_⟩
      · rw [e, e0]
      · rw [s1, e0]; exact s0
      · rw [n1, e0]; exact n0

theorem seed_frame (B : Build) (F : Fields) :
    ∀ (l : List server_pool) (st st1 : stats), stats_recreate_seed B F l st = some st1 →
      ∃ cur u, st1 = { st with current := cur, updated := u } ∧
        gen_shape cur = gen_shape st.current ∧ gen_names cur = gen_names st.current
  | [], st, st1, h => by
    simp only [stats_recreate_seed, Option.some.injEq] at h
    exact ⟨st.current, st.updated, h.symm, rfl, rfl⟩
  | sp :: rest, st, st1, h => by
    simp only [stats_recreate_seed] at h
    cases h1 : _stats_pool_incr_by_anyway B st sp F.client_connections sp.nc_conn_q with
    | none => simp [h1] at h
    | some st0 =>
      simp only [h1] at h
      cases h2 : stats_recreate_seed_servers B F sp.server st0 with
      | none => simp [h2] at h
      | some st2 =>
        simp only [h2] at h
        obtain ⟨cur0, e0, s0, n0⟩ :=
          anyway_frame B (.pool sp F.client_connections) _ st st0 h1
        obtain ⟨cur2, u2, e2, s2, n2⟩ := seed_servers_frame B F sp.server st0 st2 h2
        obtain ⟨cur, u, e, s1, n1⟩ := seed_frame B F rest st2 st1 h
        refine ⟨cur, u, ?_, ?_, ?_⟩
        · rw [e, e2, e0]
        · rw [s1, e2, s2, e0]; exact s0
        · rw [n1, e2, n2, e0]; exact n0

/-- A successful `stats_recreate`: `shadow` and `sum` mirror the topology,
`current` has the names and the shape of the mirror (its connection gauges are
seeded), the start time is reset, `aggregate` is cleared; the buffer, `pause`
and `reload_thread` are untouched. -/
theorem recreate_ok (B : Build) (F : Fields) (env : Env) (st : stats)
    (pools : List server_pool) (a : Alloc) (st1 : stats) (a1 : Alloc)
    (hvp : metric_valid B.stats_pool_codec = true)
    (hvs : metric_valid B.stats_server_codec = true)
    (h : stats_recreate B F env st pools a = some (NC_OK, st1, a1)) :
    ∃ cur u, st1 = { st with start_ts := env.now, aggregate := 0,
                             sum := mirror_gen B pools, shadow := mirror_gen B pools,
                             current := cur, updated := u } ∧
      gen_shape cur = gen_shape (mirror_gen B pools) ∧
      gen_names cur = gen_names (mirror_gen B pools) := by
  unfold stats_recreate at h
  simp only [pool_unmap_eq] at h
  cases hc : stats_pool_map B pools a with
  | none => simp [hc] at h
  | some x =>
    rcases x with ⟨s1, cur, a2⟩
    cases s1 <;> simp only [hc, Option.some.injEq, Prod.mk.injEq, false_and, reduceCtorEq] at h
    have ecur := pool_map_ok B hvp hvs pools a cur a2 hc
    cases hd : stats_pool_map B pools a2 with
    | none => simp [hd] at h
    | some y =>
      rcases y with ⟨s2, shd, a3⟩
      cases s2 <;> simp only [hd, Option.some.injEq, Prod.mk.injEq, false_and, reduceCtorEq] at h
      have eshd := pool_map_ok B hvp hvs pools a2 shd a3 hd
      cases he : stats_pool_map B pools a3 with
      | none => simp [he] at h
      | some z =>
        rcases z with ⟨s3, sm, a4⟩
        cases s3 <;>
          simp only [he, Option.some.injEq, Prod.mk.injEq, false_and, reduceCtorEq] at h
        have esm := pool_map_ok B hvp hvs pools a3 sm a4 he
        subst ecur eshd esm
        cases hseed : stats_recreate_seed B F pools
            { st with start_ts := env.now, updated := 0, aggregate := 0, sum := mirror_gen B pools,
                      shadow := mirror_gen B pools, current := mirror_gen B pools } with
        | none => simp [hseed] at h
        | some st2 =>
          simp only [hseed, Option.some.injEq, Prod.mk.injEq, true_and] at h
          obtain ⟨cur, u, e, sh, nm⟩ := seed_frame B F pools _ st2 hseed
          refine ⟨cur, u, ?_, sh, nm⟩
          rw [← h.1, e]

/-- A failed `stats_recreate`: the start time is reset and `updated` and
`aggregate` are cleared; the buffer, `pause` and `reload_thread` are
untouched; of the generations, those the mapping did not reach are empty, the
one it failed in holds what that mapping left, those before it mirror the
topology. -/
theorem recreate_fail (B : Build) (F : Fields) (env : Env) (st : stats)
    (pools : List server_pool) (a : Alloc) (s : rstatus_t) (st1 : stats) (a1 : Alloc)
    (hvp : metric_valid B.stats_pool_codec = true)
    (hvs : metric_valid B.stats_server_codec = true)
    (h : stats_recreate B F env st pools a = some (s, st1, a1)) (hs : s ≠ NC_OK) :
    ∃ cur shd sm, st1 = { st with start_ts := env.now, updated := 0, aggregate := 0,
                                  current := cur, shadow := shd, sum := sm } ∧
      ((shd = [] ∧ sm = []) ∨ (cur = mirror_gen B pools ∧ sm = []) ∨
       (cur = mirror_gen B pools ∧ shd = mirror_gen B pools)) := by
  unfold stats_recreate at h
  simp only [pool_unmap_eq] at h
  cases hc : stats_pool_map B pools a with
  | none => simp [hc] at h
  | some x =>
    rcases x with ⟨s1, cur, a2⟩
    cases s1
    case NC_OK =>
      simp only [hc] at h
      have ecur := pool_map_ok B hvp hvs pools a cur a2 hc
      cases hd : stats_pool_map B pools a2 with
      | none => simp [hd] at h
      | some y =>
        rcases y with ⟨s2, shd, a3⟩
        cases s2
        case NC_OK =>
          simp only [hd] at h
          have eshd := pool_map_ok B hvp hvs pools a2 shd a3 hd
          cases he : stats_pool_map B pools a3 with
          | none => simp [he] at h
          | some z =>
            rcases z with ⟨s3, sm, a4⟩
            cases s3
            case NC_OK =>
              simp only [he] at h
              split at h
              · simp at h
              · simp only [Option.some.injEq, Prod.mk.injEq] at h
                exact absurd h.1.symm hs
            all_goals
              simp only [he, Option.some.injEq, Prod.mk.injEq] at h
              exact ⟨cur, shd, sm, h.2.1.symm, Or.inr (Or.inr ⟨ecur, eshd⟩)⟩
        all_goals
          simp only [hd, Option.some.injEq, Prod.mk.injEq] at h
          exact ⟨cur, shd, [], h.2.1.symm, Or.inr (Or.inl ⟨ecur, rfl⟩)⟩
    all_goals
      simp only [hc, Option.some.injEq, Prod.mk.injEq] at h
      exact ⟨cur, [], [], h.2.1.symm, Or.inl ⟨rfl, rfl⟩⟩

/-- What `stats_recreate` returns does not depend on the generations the
engine held: they are released before the mapping starts. -/
theorem recreate_forgets (B : Build) (F : Fields) (env : Env) (st : stats)
    (pools : List server_pool) (a : Alloc) :
    stats_recreate B F env st pools a
      = stats_recreate B F env { st with current := [], shadow := [], sum := [] } pools a := by
  simp only [stats_recreate, pool_unmap_eq]

/-- Whatever its status, `stats_recreate_buf` changes the buffer and nothing
else; with `NC_OK` the capacity is the computed size, with another status the
allocation failed and the capacity is 0. -/
theorem recreate_buf_frame (B : Build) (env : Env) (st : stats) (a : Alloc) (s : rstatus_t)
    (st2 : stats) (a1 : Alloc) (h : stats_recreate_buf B env st a = some (s, st2, a1)) :
    ∃ b, st2 = { st with buf := b } ∧ (s = NC_OK → b.size = stats_buf_size B st) ∧
      (s ≠ NC_OK → b.size = 0 ∧ b.data = [] ∧ b.len = st.buf.len) := by
  unfold stats_recreate_buf at h
  split at h
  · simp at h
  · cases hd : stats_destroy_buf B st with
    | none => simp [hd] at h
    | some st0 =>
      have hsize0 : st0.buf.size = 0 ∧ st0.buf.len = st.buf.len := by
        unfold stats_destroy_buf at hd
        split at hd
        · split at hd
          · simp at hd
          · simp only [Option.some.injEq] at hd
            rw [← hd]
            exact ⟨rfl, rfl⟩
        · rename_i hz
          simp only [Option.some.injEq] at hd
          rw [← hd]
          exact ⟨by simpa using hz, rfl⟩
      obtain ⟨b0, e0⟩ := destroy_buf_eq B st st0 hd
      have eb0 : st0.buf = b0 := by rw [e0]
      rw [eb0] at hsize0
      subst e0
      simp only [hd] at h
      rcases hal : alloc_next a with ⟨ok, a2⟩
      rw [hal] at h
      cases ok
      · simp only [Option.some.injEq, Prod.mk.injEq] at h
        obtain ⟨h1, h2, _⟩ := h
        subst h1
        refine ⟨{ b0 with data := [] }, h2.symm, ?_, ?_⟩
        · intro e
          cases e
        · intro _
          exact ⟨hsize0.1, rfl, hsize0.2⟩
      · simp only [buf_size_buf] at h
        cases hr : stats_make_rsp B env
            { st with buf := { b0 with data := List.replicate (stats_buf_size B st) 0,
                                       size := stats_buf_size B st } } with
        | none => simp [hr] at h
        | some x =>
          rcases x with ⟨s1, st3⟩
          simp only [hr, Option.some.injEq, Prod.mk.injEq] at h
          obtain ⟨h1, h2, _⟩ := h
          subst h1 h2
          obtain ⟨e, hs⟩ := make_rsp_buf_only B env _ s1 st3 hr
          refine ⟨st3.buf, ?_, fun _ => hs, fun hne => absurd rfl hne⟩
          rw [e]

/-- With an existing buffer, a successful allocation and a size within the
`int` range, `stats_recreate_buf` returns `NC_OK` and the new buffer holds the
document of the engine. -/
theorem recreate_buf_live (B : Build) (env : Env) (st : stats) (a : Alloc)
    (halign : 0 < B.NC_ALIGNMENT) (hsz : stats_buf_need st + B.NC_ALIGNMENT ≤ 2 ^ 31)
    (hne : metrics_nonempty st.sum = true) (hv : values_ok st.sum)
    (hbuf : B.assert_panic = false ∨ (st.buf.data ≠ [] ∧ st.buf.size ≠ 0))
    (hal : (alloc_next a).1 = true) :
    ∃ b, stats_recreate_buf B env st a = some (NC_OK, { st with buf := b }, (alloc_next a).2) ∧
      buf_holds b (stats_buf_size B st) (document st env) := by
  have hassert : assert_fails B (!st.buf.data.isEmpty && st.buf.size != 0) = false := by
    rcases hbuf with hb | ⟨h1, h2⟩
    · simp [assert_fails, hb]
    · simp [assert_fails, h1, h2]
  have hd : ∃ b0, stats_destroy_buf B st = some { st with buf := b0 } := by
    unfold stats_destroy_buf
    by_cases hz : st.buf.size ≠ 0
    · have hdata : assert_fails B (!st.buf.data.isEmpty) = false := by
        rcases hbuf with hb | ⟨h1, _⟩
        · simp [assert_fails, hb]
        · simp [assert_fails, h1]
      rw [if_pos hz, hdata]
      exact ⟨_, rfl⟩
    · rw [if_neg hz]
      exact ⟨st.buf, rfl⟩
  obtain ⟨b0, hd⟩ := hd
  obtain ⟨b, e, hb⟩ := make_rsp_sized B env
    { st with buf := { b0 with data := List.replicate (stats_buf_size B st) 0,
                               size := stats_buf_size B st } }
    halign hsz hne hv rfl (by simp)
  refine ⟨b, ?_, hb⟩
  rcases hx : alloc_next a with ⟨ok, a2⟩
  rw [hx] at hal
  simp only at hal
  subst hal
  unfold stats_recreate_buf
  simp only [hassert, hd, hx, buf_size_buf]
  rw [e]
  rfl

/-! ## The aggregator callback on a paused engine -/

theorem callback_paused_idle (B : Build) (F : Fields) (env0 env : Env) (net : Net)
    (ctx : context) (st : stats) (n : Int) (a : Alloc)
    (hp : st.pause ≠ 0) (hr : st.reload_thread = 0) :
    stats_loop_callback B F env0 env net ctx st n a
      = some (st, if n = 0 then none else if net.accept_ok then some (buf_doc st.buf) else none,
              a) := by
  unfold stats_loop_callback
  rw [if_pos hp]
  simp only [hr, ne_eq, not_true_eq_false, if_false]
  by_cases hn : n = 0
  · simp [hn]
  · cases hacc : net.accept_ok <;> simp [hn]

theorem callback_rebuild_ok (B : Build) (F : Fields) (env0 env : Env) (net : Net)
    (ctx : context) (st : stats) (n : Int) (a : Alloc) (st1 : stats) (a1 : Alloc)
    (s : rstatus_t) (st2 : stats) (a2 : Alloc)
    (hp : st.pause ≠ 0) (hr : st.reload_thread ≠ 0)
    (hrec : stats_recreate B F env0 st (if ctx.which_pool ≠ 0 then ctx.pool_swap else ctx.pool) a
              = some (NC_OK, st1, a1))
    (hbuf : stats_recreate_buf B env st1 a1 = some (s, st2, a2)) :
    stats_loop_callback B F env0 env net ctx st n a
      = some ({ st2 with reload_thread := 0, pause := 0 },
              if n = 0 then none else if net.accept_ok then some (buf_doc st2.buf) else none,
              a2) := by
  unfold stats_loop_callback
  rw [if_pos hp]
  simp only
  rw [if_pos hr, hrec]
  simp only [hbuf]
  by_cases hn : n = 0
  · simp [hn]
  · cases hacc : net.accept_ok <;> simp [hn]

theorem callback_rebuild_fail (B : Build) (F : Fields) (env0 env : Env) (net : Net)
    (ctx : context) (st : stats) (n : Int) (a : Alloc) (s : rstatus_t) (st1 : stats)
    (a1 : Alloc) (hp : st.pause ≠ 0) (hr : st.reload_thread ≠ 0)
    (hrec : stats_recreate B F env0 st (if ctx.which_pool ≠ 0 then ctx.pool_swap else ctx.pool) a
              = some (s, st1, a1))
    (hs : s ≠ NC_OK) :
    stats_loop_callback B F env0 env net ctx st n a = some (st1, none, a1) := by
  unfold stats_loop_callback
  rw [if_pos hp]
  simp only
  rw [if_pos hr, hrec]
  cases s
  · exact absurd rfl hs
  · rfl
  · rfl

theorem zero_metric_set (m : List stats_metric) (i : Nat) (mc : stats_metric) (v : Int)
    (h : m[i]? = some mc) : zero_metric (m.set i { mc with value := v }) = zero_metric m := by
  simp only [zero_metric, List.map_set]
  apply set_same
  simp [h]

/-- A store of a new value leaves the layout of the generation (its names,
kinds and structure, values set aside) as it was. -/
theorem zero_gen_put_at (g : List stats_pool) (p : field_pos) (mc : stats_metric) (v : Int)
    (h : metric_at g p = some mc) :
    zero_gen (put_at g p { mc with value := v }) = zero_gen g := by
  cases p with
  | pool pi fi =>
    simp only [metric_at] at h
    simp only [put_at]
    cases hg : g[pi]? with
    | none => rfl
    | some stp =>
      simp only [hg] at h
      simp only [zero_gen, List.map_set]
      apply set_same
      simp only [List.getElem?_map, hg, Option.map_some', zero_metric_set _ _ _ _ h]
  | server pi psi fi =>
    simp only [metric_at] at h
    simp only [put_at]
    cases hg : g[pi]? with
    | none => rfl
    | some stp =>
      simp only [hg] at h
      cases hs : stp.server[psi]? with
      | none => simp only [hs]
      | some sts =>
        simp only [hs] at h ⊢
        simp only [zero_gen, List.map_set]
        apply set_same
        simp only [List.getElem?_map, hg, Option.map_some', Option.some.injEq]
        congr 1
        symm
        apply set_same
        simp only [List.getElem?_map, hs, Option.map_some', zero_metric_set _ _ _ _ h]

theorem anyway_layout (B : Build) (t : incr_target) (val : Int) (st st1 : stats)
    (h : stats_incr_by_anyway B t val st = some st1) :
    zero_gen st1.current = zero_gen st.current := by
  cases t with
  | pool p fidx =>
    simp only [stats_incr_by_anyway, _stats_pool_incr_by_anyway] at h
    cases hto : stats_pool_to_metric st p fidx with
    | none => simp [hto] at h
    | some x =>
      rcases x with ⟨st0, stm⟩
      have e := pool_to_metric_some st p fidx st0 stm hto
      have hm := pool_to_metric_at st p fidx st0 stm hto
      simp only [hto] at h
      split at h
      · simp at h
      · simp only [Option.some.injEq] at h
        rw [← h, pool_store_eq, e]
        exact zero_gen_put_at _ _ _ _ hm
  | server s fidx =>
    simp only [stats_incr_by_anyway, _stats_server_incr_by_anyway] at h
    cases hto : stats_server_to_metric st s fidx with
    | none => simp [hto] at h
    | some x =>
      rcases x with ⟨st0, stm⟩
      have e := server_to_metric_some st s fidx st0 stm hto
      have hm := server_to_metric_at st s fidx st0 stm hto
      simp only [hto] at h
      split at h
      · simp at h
      · simp only [Option.some.injEq] at h
        rw [← h, server_store_eq, e]
        exact zero_gen_put_at _ _ _ _ hm

theorem seed_servers_layout (B : Build) (F : Fields) :
    ∀ (l : List server) (st st1 : stats), stats_recreate_seed_servers B F l st = some st1 →
      zero_gen st1.current = zero_gen st.current
  | [], st, st1, h => by
    simp only [stats_recreate_seed_servers, Option.some.injEq] at h
    rw [h]
  | ser :: rest, st, st1, h => by
    simp only [stats_recreate_seed_servers] at h
    cases h1 : _stats_server_incr_by_anyway B st ser F.server_connections
        (count_connected ser.s_conn_q) with
    | none => simp [h1] at h
    | some st0 =>
      simp only [h1] at h
      rw [seed_servers_layout B F rest st0 st1 h]
      exact anyway_layout B (.server ser F.server_connections) _ st st0 h1

theorem seed_layout (B : Build) (F : Fields) :
    ∀ (l : List server_pool) (st st1 : stats), stats_recreate_seed B F l st = some st1 →
      zero_gen st1.current = zero_gen st.current
  | [], st, st1, h => by
    simp only [stats_recreate_seed, Option.some.injEq] at h
    rw [h]
  | sp :: rest, st, st1, h => by
    simp only [stats_recreate_seed] at h
    cases h1 : _stats_pool_incr_by_anyway B st sp F.client_connections sp.nc_conn_q with
    | none => simp [h1] at h
    | some st0 =>
      simp only [h1] at h
      cases h2 : stats_recreate_seed_servers B F sp.server st0 with
      | none => simp [h2] at h
      | some st2 =>
        simp only [h2] at h
        rw [seed_layout B F rest st2 st1 h, seed_servers_layout B F sp.server st0 st2 h2]
        exact anyway_layout B (.pool sp F.client_connections) _ st st0 h1

theorem zero_metric_idem (m : List stats_metric) : zero_metric (zero_metric m) = zero_metric m := by
  simp [zero_metric, Function.comp_def]

theorem zero_gen_mirror (B : Build) (pools : List server_pool) :
    zero_gen (mirror_gen B pools) = mirror_gen B pools := by
  simp [zero_gen, mirror_gen, Function.comp_def, zero_metric_idem]

/-- After a successful `stats_recreate` the layout of `current` is the mirror
of the topology. -/
theorem recreate_layout (B : Build) (F : Fields) (env : Env) (st : stats)
    (pools : List server_pool) (a : Alloc) (st1 : stats) (a1 : Alloc)
    (hvp : metric_valid B.stats_pool_codec = true)
    (hvs : metric_valid B.stats_server_codec = true)
    (h : stats_recreate B F env st pools a = some (NC_OK, st1, a1)) :
    zero_gen st1.current = mirror_gen B pools := by
  unfold stats_recreate at h
  simp only [pool_unmap_eq] at h
  cases hc : stats_pool_map B pools a with
  | none => simp [hc] at h
  | some x =>
    rcases x with ⟨s1, cur, a2⟩
    cases s1 <;> simp only [hc, Option.some.injEq, Prod.mk.injEq, false_and, reduceCtorEq] at h
    have ecur := pool_map_ok B hvp hvs pools a cur a2 hc
    cases hd : stats_pool_map B pools a2 with
    | none => simp [hd] at h
    | some y =>
      rcases y with ⟨s2, shd, a3⟩
      cases s2 <;> simp only [hd, Option.some.injEq, Prod.mk.injEq, false_and, reduceCtorEq] at h
      cases he : stats_pool_map B pools a3 with
      | none => simp [he] at h
      | some z =>
        rcases z with ⟨s3, sm, a4⟩
        cases s3 <;>
          simp only [he, Option.some.injEq, Prod.mk.injEq, false_and, reduceCtorEq] at h
        split at h
        · simp at h
        · rename_i st2 hseed
          simp only [Option.some.injEq, Prod.mk.injEq, true_and] at h
          rw [← h.1, seed_layout B F pools _ st2 hseed, ecur]
          exact zero_gen_mirror B pools

/-! ## Sample runs of the callback -/

set_option maxRecDepth 100000 in
theorem demo_served_doc : buf_doc (demo_served (demo_gen 1 2 3 4 5) 1 1).buf
    = string_set_text ("\x7b\"service\":\"nutcracker\", \"source\":\"host\", " ++
          "\"version\":\"0.4.1\", \"uptime\":500, \"timestamp\":1500, " ++
          "\"total_connections\":7, \"curr_connections\":2, \"curr_connections_a\":1, " ++
          "\"p0\": \x7b\"client_eof\":1, \"client_connections\":2, " ++
          "\"s0\": \x7b\"requests\":3, \"server_connections\":4, " ++
          "\"server_ejected_at\":5\x7d\x7d\x7d\n") := by
  decide

set_option maxRecDepth 100000 in
/-- The sample engine after `stats_recreate` over the sample topology. -/
theorem demo_recreate :
    stats_recreate demo_build demo_fields demo_env (demo_served (demo_gen 1 2 3 4 5) 1 1)
        [demo_pool] []
      = some (NC_OK, { demo_served (demo_gen 1 2 3 4 5) 1 1 with
                         start_ts := 1500, updated := 1,
                         current := demo_gen 0 0 0 0 0, shadow := demo_gen 0 0 0 0 0,
                         sum := demo_gen 0 0 0 0 0 }, []) := by
  decide

set_option maxRecDepth 100000 in
theorem demo_rebuilt_doc :
    document { demo_served (demo_gen 1 2 3 4 5) 1 1 with
                 start_ts := 1500, updated := 1,
                 current := demo_gen 0 0 0 0 0, shadow := demo_gen 0 0 0 0 0,
                 sum := demo_gen 0 0 0 0 0 } demo_env
    = string_set_text ("\x7b\"service\":\"nutcracker\", \"source\":\"host\", " ++
          "\"version\":\"0.4.1\", \"uptime\":0, \"timestamp\":1500, " ++
          "\"total_connections\":7, \"curr_connections\":2, \"curr_connections_a\":1, " ++
          "\"p0\": \x7b\"client_eof\":0, \"client_connections\":0, " ++
          "\"s0\": \x7b\"requests\":0, \"server_connections\":0, " ++
          "\"server_ejected_at\":0\x7d\x7d\x7d\n") := by
  decide

set_option maxRecDepth 100000 in
/-- The buffer of the sample engine can be made anew after the rebuild. -/
theorem demo_recreate_buf :
    ∃ b, stats_recreate_buf demo_build demo_env
        { demo_served (demo_gen 1 2 3 4 5) 1 1 with
            start_ts := 1500, updated := 1,
            current := demo_gen 0 0 0 0 0, shadow := demo_gen 0 0 0 0 0,
            sum := demo_gen 0 0 0 0 0 } []
      = some (NC_OK, { demo_served (demo_gen 1 2 3 4 5) 1 1 with
            start_ts := 1500, updated := 1,
            current := demo_gen 0 0 0 0 0, shadow := demo_gen 0 0 0 0 0,
            sum := demo_gen 0 0 0 0 0, buf := b }, []) ∧
      buf_doc b = document { demo_served (demo_gen 1 2 3 4 5) 1 1 with
            start_ts := 1500, updated := 1,
            current := demo_gen 0 0 0 0 0, shadow := demo_gen 0 0 0 0 0,
            sum := demo_gen 0 0 0 0 0 } demo_env := by
  obtain ⟨b, h, hb⟩ := recreate_buf_live demo_build demo_env
    { demo_served (demo_gen 1 2 3 4 5) 1 1 with
        start_ts := 1500, updated := 1,
        current := demo_gen 0 0 0 0 0, shadow := demo_gen 0 0 0 0 0,
        sum := demo_gen 0 0 0 0 0 } [] (by decide) (by decide) (by decide)
    (by unfold values_ok metric_values_ok; decide) (Or.inr (by decide)) rfl
  exact ⟨b, h, holds_doc _ _ _ hb⟩

/-- C11 (paused serving). With `pause` set and no rebuild pending, the
callback for an inbound connection returns the engine exactly as it was (the
three generations, the flags, the buffer: no aggregation, no render) and the
allocator untouched; when `accept` gives a connection the bytes handed to
`nc_sendn` are `buf.data[0 .. buf.len)` of that unchanged buffer, and when
`accept` fails nothing is sent. -/
theorem paused_serving (B : Build) (F : Fields) (env0 env : Env) (net : Net) (ctx : context)
    (st : stats) (n : Int) (a : Alloc)
    (hp : st.pause ≠ 0) (hr : st.reload_thread = 0) (hn : n ≠ 0) :
    stats_loop_callback B F env0 env net ctx st n a
      = some (st, if net.accept_ok then some (buf_doc st.buf) else none, a) := by
  rw [callback_paused_idle B F env0 env net ctx st n a hp hr, if_neg hn]

/-- Witness of C11: the paused sample engine serves the document it holds. -/
theorem paused_serving_witness :
    stats_loop_callback demo_build demo_fields demo_env demo_env demo_net demo_ctx
        (demo_served (demo_gen 1 2 3 4 5) 0 1) 1 []
      = some (demo_served (demo_gen 1 2 3 4 5) 0 1,
              if demo_net.accept_ok then some (buf_doc (demo_served (demo_gen 1 2 3 4 5) 0 1).buf)
              else none, []) :=
  paused_serving demo_build demo_fields demo_env demo_env demo_net demo_ctx
    (demo_served (demo_gen 1 2 3 4 5) 0 1) 1 [] (by decide) rfl (by decide)

/-- C13, as amended (rebuild success). Let the callback run with `pause` and
`reload_thread` set, let `stats_recreate` over the live pool array return
`NC_OK` and let `stats_recreate_buf` return `NC_OK` (the new buffer is
allocated). Then the callback returns an engine whose `shadow` and `sum` are
the mirror of the new topology, whose `current` has the layout of that mirror
(same pools, servers, names and kinds in order; its connection gauges are
seeded), whose buffer capacity is the sizing formula evaluated on that engine,
and whose `pause` and `reload_thread` are 0. -/
theorem rebuild_success (B : Build) (F : Fields) (env0 env : Env) (net : Net) (ctx : context)
    (st : stats) (n : Int) (a : Alloc) (st1 : stats) (a1 : Alloc) (st2 : stats) (a2 : Alloc)
    (hvp : metric_valid B.stats_pool_codec = true)
    (hvs : metric_valid B.stats_server_codec = true)
    (hp : st.pause ≠ 0) (hr : st.reload_thread ≠ 0)
    (hrec : stats_recreate B F env0 st (if ctx.which_pool ≠ 0 then ctx.pool_swap else ctx.pool) a
              = some (NC_OK, st1, a1))
    (hbuf : stats_recreate_buf B env st1 a1 = some (NC_OK, st2, a2)) :
    ∃ st3 sent, stats_loop_callback B F env0 env net ctx st n a = some (st3, sent, a2) ∧
      st3.sum = mirror_gen B (if ctx.which_pool ≠ 0 then ctx.pool_swap else ctx.pool) ∧
      st3.shadow = mirror_gen B (if ctx.which_pool ≠ 0 then ctx.pool_swap else ctx.pool) ∧
      zero_gen st3.current
        = mirror_gen B (if ctx.which_pool ≠ 0 then ctx.pool_swap else ctx.pool) ∧
      st3.buf.size = stats_buf_size B st3 ∧ st3.pause = 0 ∧ st3.reload_thread = 0 := by
  have hcb := callback_rebuild_ok B F env0 env net ctx st n a st1 a1 NC_OK st2 a2 hp hr hrec hbuf
  have hlay := recreate_layout B F env0 st _ a st1 a1 hvp hvs hrec
  obtain ⟨cur, u, e1, _, _⟩ := recreate_ok B F env0 st _ a st1 a1 hvp hvs hrec
  obtain ⟨b, e2, hsz, _⟩ := recreate_buf_frame B env st1 a1 NC_OK st2 a2 hbuf
  refine ⟨_, _, hcb, ?_, ?_, ?_, ?_, rfl, rfl⟩
  · rw [e2, e1]
  · rw [e2, e1]
  · rw [e2]
    exact hlay
  · rw [e2]
    exact hsz rfl

/-- Witness of C13: the rebuild of the paused sample engine over the sample
topology. -/
theorem rebuild_success_witness :
    ∃ st3 sent, stats_loop_callback demo_build demo_fields demo_env demo_env demo_net demo_ctx
        (demo_served (demo_gen 1 2 3 4 5) 1 1) 1 [] = some (st3, sent, []) ∧
      st3.sum = mirror_gen demo_build [demo_pool] ∧
      st3.shadow = mirror_gen demo_build [demo_pool] ∧
      zero_gen st3.current = mirror_gen demo_build [demo_pool] ∧
      st3.buf.size = stats_buf_size demo_build st3 ∧ st3.pause = 0 ∧ st3.reload_thread = 0 := by
  obtain ⟨b, hb, _⟩ := demo_recreate_buf
  exact rebuild_success demo_build demo_fields demo_env demo_env demo_net demo_ctx
    (demo_served (demo_gen 1 2 3 4 5) 1 1) 1 [] _ [] _ [] (by decide) (by decide)
    (by decide) (by decide) demo_recreate hb

set_option maxRecDepth 100000 in
/-- Counterexample to C13 as stated. The callback runs on the sample engine
with `pause` and `reload_thread` set; `stats_recreate` over the sample topology
returns `NC_OK`, then the allocation of the new buffer in `stats_recreate_buf`
fails. The callback does not look at that status: `pause` and `reload_thread`
are cleared, and the buffer capacity is 0 where the sizing formula evaluated on
the returned engine gives 504. -/
theorem rebuild_success_counterexample :
    (stats_recreate demo_build demo_fields demo_env (demo_served (demo_gen 1 2 3 4 5) 1 1)
        [demo_pool] demo_alloc_buf_fails).map (fun r => (r.1, r.2.2)) = some (NC_OK, [false]) ∧
    (stats_loop_callback demo_build demo_fields demo_env demo_env demo_net demo_ctx
        (demo_served (demo_gen 1 2 3 4 5) 1 1) 0 demo_alloc_buf_fails).map
      (fun r => (r.1.pause, r.1.reload_thread, r.1.buf.size, stats_buf_size demo_build r.1,
                 r.1.sum))
      = some (0, 0, 0, 504, mirror_gen demo_build [demo_pool]) := by
  decide

/-- C14, as amended (rebuild failure). Let the callback run with `pause` and
`reload_thread` set and let `stats_recreate` return another status than
`NC_OK`. Then the callback returns the engine `stats_recreate` left, sends
nothing, and in that engine `pause`, `reload_thread` and the buffer with its
length are as before; the generations are not kept: the start time is reset,
`updated` and `aggregate` are cleared, the generations the mapping did not
reach are empty, the one it failed in holds what the failed mapping left and
those before it mirror the new topology; the outcome is the same as from an
engine with no generations at all. -/
theorem rebuild_failure_state (B : Build) (F : Fields) (env0 env : Env) (net : Net)
    (ctx : context) (st : stats) (n : Int) (a : Alloc) (s : rstatus_t) (st1 : stats)
    (a1 : Alloc)
    (hvp : metric_valid B.stats_pool_codec = true)
    (hvs : metric_valid B.stats_server_codec = true)
    (hp : st.pause ≠ 0) (hr : st.reload_thread ≠ 0)
    (hrec : stats_recreate B F env0 st (if ctx.which_pool ≠ 0 then ctx.pool_swap else ctx.pool) a
              = some (s, st1, a1))
    (hs : s ≠ NC_OK) :
    stats_loop_callback B F env0 env net ctx st n a = some (st1, none, a1) ∧
    st1.pause = st.pause ∧ st1.reload_thread = st.reload_thread ∧ st1.buf = st.buf ∧
    (∃ cur shd sm, st1 = { st with start_ts := env0.now, updated := 0, aggregate := 0,
                                   current := cur, shadow := shd, sum := sm } ∧
      ((shd = [] ∧ sm = []) ∨
       (cur = mirror_gen B (if ctx.which_pool ≠ 0 then ctx.pool_swap else ctx.pool) ∧ sm = []) ∨
       (cur = mirror_gen B (if ctx.which_pool ≠ 0 then ctx.pool_swap else ctx.pool) ∧
        shd = mirror_gen B (if ctx.which_pool ≠ 0 then ctx.pool_swap else ctx.pool)))) ∧
    stats_recreate B F env0 { st with current := [], shadow := [], sum := [] }
        (if ctx.which_pool ≠ 0 then ctx.pool_swap else ctx.pool) a = some (s, st1, a1) := by
  obtain ⟨cur, shd, sm, e, h3⟩ := recreate_fail B F env0 st _ a s st1 a1 hvp hvs hrec hs
  refine ⟨callback_rebuild_fail B F env0 env net ctx st n a s st1 a1 hp hr hrec hs, ?_, ?_, ?_,
    ⟨cur, shd, sm, e, h3⟩, ?_⟩
  · rw [e]
  · rw [e]
  · rw [e]
  · rw [← recreate_forgets]
    exact hrec

set_option maxRecDepth 100000 in
/-- The rebuild of the sample engine when the first allocation fails. -/
theorem demo_recreate_fails :
    stats_recreate demo_build demo_fields demo_env (demo_served (demo_gen 1 2 3 4 5) 1 1)
        [demo_pool] [false]
      = some (NC_ENOMEM, { demo_served (demo_gen 1 2 3 4 5) 1 1 with
                             start_ts := 1500, updated := 0, aggregate := 0,
                             current := [], shadow := [], sum := [] }, []) := by
  decide

/-- Witness of C14 as amended: the first allocation of the rebuild fails. -/
theorem rebuild_failure_state_witness :
    stats_loop_callback demo_build demo_fields demo_env demo_env demo_net demo_ctx
        (demo_served (demo_gen 1 2 3 4 5) 1 1) 1 [false]
      = some ({ demo_served (demo_gen 1 2 3 4 5) 1 1 with
                  start_ts := 1500, updated := 0, aggregate := 0,
                  current := [], shadow := [], sum := [] }, none, []) :=
  (rebuild_failure_state demo_build demo_fields demo_env demo_env demo_net demo_ctx
    (demo_served (demo_gen 1 2 3 4 5) 1 1) 1 [false] NC_ENOMEM _ [] (by decide) (by decide)
    (by decide) (by decide) demo_recreate_fails (by decide)).1

/-- Counterexample to C14 as stated: when the first allocation of the rebuild
fails, the paused sample engine, whose `sum` held the values 1 to 5 over one
pool and one server, comes back with `current`, `shadow` and `sum` all empty. -/
theorem rebuild_failure_state_counterexample :
    (demo_served (demo_gen 1 2 3 4 5) 1 1).sum = demo_gen 1 2 3 4 5 ∧
    (stats_loop_callback demo_build demo_fields demo_env demo_env demo_net demo_ctx
        (demo_served (demo_gen 1 2 3 4 5) 1 1) 1 [false]).map
        (fun r => (r.1.current, r.1.shadow, r.1.sum, r.1.pause))
      = some ([], [], [], 1) := by
  refine ⟨rfl, ?_⟩
  rw [callback_rebuild_fail demo_build demo_fields demo_env demo_env demo_net demo_ctx
    (demo_served (demo_gen 1 2 3 4 5) 1 1) 1 [false] NC_ENOMEM _ [] (by decide) (by decide)
    demo_recreate_fails (by decide)]
  rfl

theorem values_ok_mirror (B : Build) (pools : List server_pool) :
    values_ok (mirror_gen B pools) := by
  intro stp hstp
  simp only [mirror_gen, List.mem_map] at hstp
  obtain ⟨sp, _, rfl⟩ := hstp
  refine ⟨values_ok_zero _, ?_⟩
  intro sts hsts
  simp only [List.mem_map] at hsts
  obtain ⟨s, _, rfl⟩ := hsts
  exact values_ok_zero _

/-- C12, as amended (what a client of a paused engine receives). Let `pause`
be set and let the callback handle a connection that `accept` gives. With no
rebuild pending the client receives the bytes the buffer held before the
event. With a rebuild pending that succeeds (and a buffer within the `int`
range) the callback renders the freshly rebuilt `sum`, the mirror of the new
topology with every value 0, into the new buffer and the same client receives
that document. With a rebuild pending that fails nothing is sent. -/
theorem paused_client_document (B : Build) (F : Fields) (env0 env : Env) (net : Net)
    (ctx : context) (st : stats) (n : Int) (a : Alloc)
    (halign : 0 < B.NC_ALIGNMENT)
    (hvp : metric_valid B.stats_pool_codec = true)
    (hvs : metric_valid B.stats_server_codec = true)
    (hne : metrics_nonempty
      (mirror_gen B (if ctx.which_pool ≠ 0 then ctx.pool_swap else ctx.pool)) = true)
    (hp : st.pause ≠ 0) (hn : n ≠ 0) (hacc : net.accept_ok = true) :
    (st.reload_thread = 0 →
      stats_loop_callback B F env0 env net ctx st n a = some (st, some (buf_doc st.buf), a)) ∧
    (st.reload_thread ≠ 0 → ∀ st1 a1 st2 a2,
      stats_recreate B F env0 st (if ctx.which_pool ≠ 0 then ctx.pool_swap else ctx.pool) a
        = some (NC_OK, st1, a1) →
      stats_recreate_buf B env st1 a1 = some (NC_OK, st2, a2) →
      stats_buf_need st1 + B.NC_ALIGNMENT ≤ 2 ^ 31 →
      stats_loop_callback B F env0 env net ctx st n a
        = some ({ st2 with reload_thread := 0, pause := 0 }, some (document st1 env), a2) ∧
      st1.sum = mirror_gen B (if ctx.which_pool ≠ 0 then ctx.pool_swap else ctx.pool)) ∧
    (st.reload_thread ≠ 0 → ∀ s st1 a1,
      stats_recreate B F env0 st (if ctx.which_pool ≠ 0 then ctx.pool_swap else ctx.pool) a
        = some (s, st1, a1) → s ≠ NC_OK →
      stats_loop_callback B F env0 env net ctx st n a = some (st1, none, a1)) := by
  refine ⟨?_, ?_, ?_⟩
  · intro hr
    rw [callback_paused_idle B F env0 env net ctx st n a hp hr, if_neg hn, if_pos hacc]
  · intro hr st1 a1 st2 a2 hrec hbuf hsz
    obtain ⟨cur, u, e1, _, _⟩ := recreate_ok B F env0 st _ a st1 a1 hvp hvs hrec
    have hsum : st1.sum
        = mirror_gen B (if ctx.which_pool ≠ 0 then ctx.pool_swap else ctx.pool) := by rw [e1]
    obtain ⟨b, e2, hb⟩ := recreate_buf_holds B env st1 a1 st2 a2 halign hsz
      (by rw [hsum]; exact hne) (by rw [hsum]; exact values_ok_mirror B _) hbuf
    refine ⟨?_, hsum⟩
    rw [callback_rebuild_ok B F env0 env net ctx st n a st1 a1 NC_OK st2 a2 hp hr hrec hbuf,
      if_neg hn, if_pos hacc, e2]
    simp only [holds_doc _ _ _ hb]
  · intro hr s st1 a1 hrec hs
    exact callback_rebuild_fail B F env0 env net ctx st n a s st1 a1 hp hr hrec hs

/-- Witness of C12 as amended: the paused sample engine with no rebuild
pending serves the document it holds. -/
theorem paused_client_document_witness :
    stats_loop_callback demo_build demo_fields demo_env demo_env demo_net demo_ctx
        (demo_served (demo_gen 1 2 3 4 5) 0 1) 1 []
      = some (demo_served (demo_gen 1 2 3 4 5) 0 1,
              some (buf_doc (demo_served (demo_gen 1 2 3 4 5) 0 1).buf), []) :=
  (paused_client_document demo_build demo_fields demo_env demo_env demo_net demo_ctx
    (demo_served (demo_gen 1 2 3 4 5) 0 1) 1 [] (by decide) (by decide) (by decide)
    (by decide) (by decide) (by decide) rfl).1 rfl

set_option maxRecDepth 100000 in
/-- Counterexample to C12 as stated: the paused sample engine with a rebuild
pending held a document with the values 1 to 5; the client that connects
receives another document, rendered from the rebuilt `sum`, with every value
0 and an uptime of 0. -/
theorem paused_client_document_counterexample :
    (demo_served (demo_gen 1 2 3 4 5) 1 1).pause = 1 ∧
    buf_doc (demo_served (demo_gen 1 2 3 4 5) 1 1).buf
      = string_set_text ("\x7b\"service\":\"nutcracker\", \"source\":\"host\", " ++
          "\"version\":\"0.4.1\", \"uptime\":500, \"timestamp\":1500, " ++
          "\"total_connections\":7, \"curr_connections\":2, \"curr_connections_a\":1, " ++
          "\"p0\": \x7b\"client_eof\":1, \"client_connections\":2, " ++
          "\"s0\": \x7b\"requests\":3, \"server_connections\":4, " ++
          "\"server_ejected_at\":5\x7d\x7d\x7d\n") ∧
    (stats_loop_callback demo_build demo_fields demo_env demo_env demo_net demo_ctx
        (demo_served (demo_gen 1 2 3 4 5) 1 1) 1 []).map (fun r => r.2.1)
      = some (some (string_set_text ("\x7b\"service\":\"nutcracker\", \"source\":\"host\", " ++
          "\"version\":\"0.4.1\", \"uptime\":0, \"timestamp\":1500, " ++
          "\"total_connections\":7, \"curr_connections\":2, \"curr_connections_a\":1, " ++
          "\"p0\": \x7b\"client_eof\":0, \"client_connections\":0, " ++
          "\"s0\": \x7b\"requests\":0, \"server_connections\":0, " ++
          "\"server_ejected_at\":0\x7d\x7d\x7d\n"))) ∧
    (stats_loop_callback demo_build demo_fields demo_env demo_env demo_net demo_ctx
        (demo_served (demo_gen 1 2 3 4 5) 1 1) 1 []).map (fun r => r.2.1)
      ≠ some (some (buf_doc (demo_served (demo_gen 1 2 3 4 5) 1 1).buf)) := by
  have h3 : (stats_loop_callback demo_build demo_fields demo_env demo_env demo_net demo_ctx
        (demo_served (demo_gen 1 2 3 4 5) 1 1) 1 []).map (fun r => r.2.1)
      = some (some (string_set_text ("\x7b\"service\":\"nutcracker\", \"source\":\"host\", " ++
          "\"version\":\"0.4.1\", \"uptime\":0, \"timestamp\":1500, " ++
          "\"total_connections\":7, \"curr_connections\":2, \"curr_connections_a\":1, " ++
          "\"p0\": \x7b\"client_eof\":0, \"client_connections\":0, " ++
          "\"s0\": \x7b\"requests\":0, \"server_connections\":0, " ++
          "\"server_ejected_at\":0\x7d\x7d\x7d\n"))) := by
    obtain ⟨b, hb, hdoc⟩ := demo_recreate_buf
    rw [callback_rebuild_ok demo_build demo_fields demo_env demo_env demo_net demo_ctx
      (demo_served (demo_gen 1 2 3 4 5) 1 1) 1 [] _ [] NC_OK _ [] (by decide) (by decide)
      demo_recreate hb]
    simp only [Option.map_some']
    rw [← demo_rebuilt_doc, ← hdoc]
    rfl
  refine ⟨rfl, demo_served_doc, h3, ?_⟩
  rw [h3, demo_served_doc]
  decide

/-! ## The header of the document -/

theorem document_starts (st : stats) (env : Env) (stp : stats_pool) (rest : List stats_pool)
    (hk : header_keys st) (hsum : st.sum = stp :: rest) :
    ∃ tail, document st env = eight_pair_start st env stp.name ++ tail := by
  obtain ⟨k1, k2, k3, k4, k5, k6, k7, k8⟩ := hk
  have hp : ∃ t, pools_body (stp :: rest) = nest_open stp.name ++ t := by
    cases rest with
    | nil => exact ⟨pool_members stp ++ [125], by simp [pools_body, pool_obj]⟩
    | cons y r =>
      exact ⟨pool_members stp ++ [125] ++ [44] ++ pools_body (y :: r),
        by simp [pools_body, pool_obj]⟩
  obtain ⟨t, ht⟩ := hp
  refine ⟨t ++ [125, 10], ?_⟩
  simp only [document, hsum, ht, header_body, eight_pair_start, k1, k2, k3, k4, k5, k6, k7, k8,
    List.append_assoc]

set_option maxRecDepth 100000 in
theorem demo_doc_text :
    document (demo_sized (demo_gen 1 2 3 4 5)) demo_env
      = string_set_text ("\x7b\"service\":\"nutcracker\", \"source\":\"host\", " ++
          "\"version\":\"0.4.1\", \"uptime\":500, \"timestamp\":1500, " ++
          "\"total_connections\":7, \"curr_connections\":2, \"curr_connections_a\":1, " ++
          "\"p0\": \x7b\"client_eof\":1, \"client_connections\":2, " ++
          "\"s0\": \x7b\"requests\":3, \"server_connections\":4, " ++
          "\"server_ejected_at\":5\x7d\x7d\x7d\n") := by
  decide

set_option maxRecDepth 100000 in
theorem demo_seven_text :
    seven_pair_start (demo_sized (demo_gen 1 2 3 4 5)) demo_env (string_set_text "p0")
      = string_set_text ("\x7b\"service\":\"nutcracker\", \"source\":\"host\", " ++
          "\"version\":\"0.4.1\", \"uptime\":500, \"timestamp\":1500, " ++
          "\"total_connections\":7, \"curr_connections\":2, \"p0\": \x7b") := by
  decide

theorem allocs_ok_add (a : Alloc) (n m : Nat) :
    allocs_ok a (n + m) = (allocs_ok a n && allocs_ok (a.drop n) m) := by
  simp [allocs_ok, List.take_add]

theorem alloc_next_eq (a : Alloc) : alloc_next a = (allocs_ok a 1, a.drop 1) := by
  cases a <;> simp [alloc_next, allocs_ok]

theorem codec_init_total (B : Build) (codec : List stats_metric) (a : Alloc)
    (hv : metric_valid codec = true) :
    stats_codec_metric_init B codec a
      = some (if allocs_ok a 1 then NC_OK else NC_ENOMEM,
              if allocs_ok a 1 then zero_metric codec else [], a.drop 1) := by
  unfold stats_codec_metric_init
  rw [alloc_next_eq]
  cases h : allocs_ok a 1
  · simp
  · simp [metric_reset_loop_eq B codec hv]

/-- The loop of `stats_server_map` returns for every allocator; the status is
`NC_OK` exactly when the allocations of all servers succeed, and
`NC_ENOMEM` otherwise. -/
theorem server_loop_total (B : Build) (hv : metric_valid B.stats_server_codec = true) :
    ∀ (l : List server) (a : Alloc), ∃ s r a1,
      stats_server_map_loop B l a = some (s, r, a1) ∧
      (allocs_ok a l.length = true → s = NC_OK ∧ a1 = a.drop l.length) ∧
      (allocs_ok a l.length = false → s = NC_ENOMEM)
  | [], a => ⟨NC_OK, [], a, rfl, fun _ => ⟨rfl, rfl⟩, fun h => by simp [allocs_ok] at h⟩
  | x :: rest, a => by
    have hc := codec_init_total B B.stats_server_codec a hv
    have hadd := allocs_ok_add a 1 rest.length
    obtain ⟨s, r, a1, hr, h1, h2⟩ := server_loop_total B hv rest (a.drop 1)
    have hlen : (x :: rest).length = 1 + rest.length := by simp [Nat.add_comm]
    cases h : allocs_ok a 1
    · refine ⟨NC_ENOMEM, [{ name := x.name, metric := [] }], a.drop 1, ?_, ?_, fun _ => rfl⟩
      · simp [stats_server_map_loop, stats_server_init, stats_server_metric_init, hc, h]
      · intro hall
        rw [hlen, hadd, h] at hall
        simp at hall
    · refine ⟨s, { name := x.name, metric := zero_metric B.stats_server_codec } :: r, a1, ?_, ?_, ?_⟩
      · have hr1 := hr
        rw [List.drop_one] at hr1
        simp [stats_server_map_loop, stats_server_init, stats_server_metric_init, hc, h, hr1]
      · intro hall
        rw [hlen, hadd, h] at hall
        simp only [Bool.true_and] at hall
        obtain ⟨e1, e2⟩ := h1 hall
        refine ⟨e1, ?_⟩
        rw [e2, List.drop_drop, hlen]
      · intro hall
        rw [hlen, hadd, h] at hall
        simp only [Bool.true_and] at hall
        exact h2 hall

theorem server_map_total (B : Build) (hv : metric_valid B.stats_server_codec = true)
    (l : List server) (a : Alloc) (hl : B.assert_panic = false ∨ l.length ≠ 0) :
    ∃ s r a1, stats_server_map B l a = some (s, r, a1) ∧
      (allocs_ok a (1 + l.length) = true →
        s = NC_OK ∧ a1 = a.drop (1 + l.length) ∧
        r = l.map (fun x => { name := x.name, metric := zero_metric B.stats_server_codec })) ∧
      (allocs_ok a (1 + l.length) = false → s = NC_ENOMEM) := by
  have hassert : assert_fails B (l.length != 0) = false := by
    rcases hl with h | h
    · simp [assert_fails, h]
    · simp [assert_fails, h]
  have hadd := allocs_ok_add a 1 l.length
  obtain ⟨s, r, a1, hr, h1, h2⟩ := server_loop_total B hv l (a.drop 1)
  cases h : allocs_ok a 1
  · refine ⟨NC_ENOMEM, [], a.drop 1, ?_, ?_, fun _ => rfl⟩
    · simp [stats_server_map, hassert, alloc_next_eq, h]
    · intro hall
      rw [hadd, h] at hall
      simp at hall
  · refine ⟨s, r, a1, ?_, ?_, ?_⟩
    · have hr1 := hr
      rw [List.drop_one] at hr1
      simp [stats_server_map, hassert, alloc_next_eq, h, hr1]
    · intro hall
      rw [hadd, h] at hall
      simp only [Bool.true_and] at hall
      obtain ⟨e1, e2⟩ := h1 hall
      subst e1
      refine ⟨rfl, ?_, server_map_loop_ok B hv l _ r a1 hr⟩
      rw [e2, List.drop_drop]
    · intro hall
      rw [hadd, h] at hall
      simp only [Bool.true_and] at hall
      exact h2 hall

theorem pool_init_total (B : Build) (hvp : metric_valid B.stats_pool_codec = true)
    (hvs : metric_valid B.stats_server_codec = true) (sp : server_pool) (a : Alloc)
    (hl : B.assert_panic = false ∨ sp.server.length ≠ 0) :
    ∃ s stp a1, stats_pool_init B sp a = some (s, stp, a1) ∧
      (allocs_ok a (pool_allocs sp) = true →
        s = NC_OK ∧ a1 = a.drop (pool_allocs sp) ∧
        stp = { name := sp.name, metric := zero_metric B.stats_pool_codec,
                server := sp.server.map (fun x =>
                  { name := x.name, metric := zero_metric B.stats_server_codec }) }) ∧
      (allocs_ok a (pool_allocs sp) = false →
        s = NC_ENOMEM ∧ stp.name = sp.name ∧ stp.metric = []) := by
  have hc := codec_init_total B B.stats_pool_codec a hvp
  have hpa : pool_allocs sp = 1 + (1 + sp.server.length) := by
    simp [pool_allocs]; omega
  have hadd := allocs_ok_add a 1 (1 + sp.server.length)
  obtain ⟨s, r, a1, hr, h1, h2⟩ := server_map_total B hvs sp.server (a.drop 1) hl
  cases h : allocs_ok a 1
  · refine ⟨NC_ENOMEM, { name := sp.name, metric := [], server := [] }, a.drop 1, ?_, ?_,
      fun _ => ⟨rfl, rfl, rfl⟩⟩
    · simp [stats_pool_init, stats_pool_metric_init, hc, h]
    · intro hall
      rw [hpa, hadd, h] at hall
      simp at hall
  · cases hrest : allocs_ok (a.drop 1) (1 + sp.server.length)
    · have es := h2 hrest
      subst es
      refine ⟨NC_ENOMEM, { name := sp.name, metric := [], server := r }, a1, ?_, ?_,
        fun _ => ⟨rfl, rfl, rfl⟩⟩
      · have hr1 := hr
        rw [List.drop_one] at hr1
        simp [stats_pool_init, stats_pool_metric_init, hc, h, hr1]
      · intro hall
        rw [hpa, hadd, h, hrest] at hall
        simp at hall
    · obtain ⟨es, ea, er⟩ := h1 hrest
      subst es
      refine ⟨NC_OK, { name := sp.name, metric := zero_metric B.stats_pool_codec, server := r },
        a1, ?_, ?_, ?_⟩
      · have hr1 := hr
        rw [List.drop_one] at hr1
        simp [stats_pool_init, stats_pool_metric_init, hc, h, hr1]
      · intro _
        refine ⟨rfl, ?_, by rw [er]⟩
        rw [ea, List.drop_drop, hpa]
      · intro hall
        rw [hpa, hadd, h, hrest] at hall
        simp at hall

theorem pool_loop_total (B : Build) (hvp : metric_valid B.stats_pool_codec = true)
    (hvs : metric_valid B.stats_server_codec = true) :
    ∀ (l : List server_pool) (a : Alloc),
      (B.assert_panic = false ∨ l.all (fun sp => sp.server.length != 0) = true) →
      ∃ s g a1, stats_pool_map_loop B l a = some (s, g, a1) ∧
        (allocs_ok a (l.map pool_allocs).sum = true →
          s = NC_OK ∧ a1 = a.drop (l.map pool_allocs).sum ∧ g = mirror_gen B l) ∧
        (allocs_ok a (l.map pool_allocs).sum = false → s = NC_ENOMEM ∧ partial_gen B l g)
  | [], a, _ =>
    ⟨NC_OK, [], a, rfl, fun _ => ⟨rfl, rfl, rfl⟩, fun h => by simp [allocs_ok] at h⟩
  | sp :: rest, a, hl => by
    have hsp : B.assert_panic = false ∨ sp.server.length ≠ 0 := by
      rcases hl with h | h
      · exact Or.inl h
      · simp only [List.all_cons, Bool.and_eq_true, bne_iff_ne, ne_eq] at h
        exact Or.inr h.1
    have hrest : B.assert_panic = false ∨ rest.all (fun sp => sp.server.length != 0) = true := by
      rcases hl with h | h
      · exact Or.inl h
      · simp only [List.all_cons, Bool.and_eq_true] at h
        exact Or.inr h.2
    have hsum : ((sp :: rest).map pool_allocs).sum
        = pool_allocs sp + (rest.map pool_allocs).sum := by simp
    have hadd := allocs_ok_add a (pool_allocs sp) (rest.map pool_allocs).sum
    obtain ⟨s0, stp, a0, h0, hok0, hfail0⟩ := pool_init_total B hvp hvs sp a hsp
    cases hfirst : allocs_ok a (pool_allocs sp)
    · obtain ⟨es, en, em⟩ := hfail0 hfirst
      subst es
      refine ⟨NC_ENOMEM, [stp], a0, ?_, ?_, ?_⟩
      · simp [stats_pool_map_loop, h0]
      · intro hall
        rw [hsum, hadd, hfirst] at hall
        simp at hall
      · intro _
        refine ⟨rfl, 0, stp, by simp, by simp [mirror_gen], by simp [en], em⟩
    · obtain ⟨es, ea, estp⟩ := hok0 hfirst
      subst es
      obtain ⟨s, g, a1, hr, h1, h2⟩ := pool_loop_total B hvp hvs rest a0 hrest
      refine ⟨s, stp :: g, a1, ?_, ?_, ?_⟩
      · simp [stats_pool_map_loop, h0, hr]
      · intro hall
        rw [hsum, hadd, hfirst, ← ea] at hall
        simp only [Bool.true_and] at hall
        obtain ⟨e1, e2, e3⟩ := h1 hall
        refine ⟨e1, ?_, ?_⟩
        · rw [e2, ea, List.drop_drop, hsum]
        · rw [e3, estp]
          simp [mirror_gen]
      · intro hall
        rw [hsum, hadd, hfirst, ← ea] at hall
        simp only [Bool.true_and] at hall
        obtain ⟨e1, k, last, hk, hg, hn, hm⟩ := h2 hall
        refine ⟨e1, k + 1, last, by simpa using hk, ?_, by simpa using hn, hm⟩
        rw [hg, estp]
        simp [mirror_gen]

/-- `stats_pool_map` returns for every allocator. The status is `NC_OK`, with
the mirror of the topology as the generation, exactly when all its
allocations succeed; when one fails the status is `NC_ENOMEM` and the
destination is empty (the pool array itself could not be allocated) or holds
the pools mapped so far and the entry of the failing pool. -/
theorem pool_map_total (B : Build) (hvp : metric_valid B.stats_pool_codec = true)
    (hvs : metric_valid B.stats_server_codec = true) (l : List server_pool) (a : Alloc)
    (hl : B.assert_panic = false ∨ topology_ok l = true) :
    ∃ s g a1, stats_pool_map B l a = some (s, g, a1) ∧
      (allocs_ok a (map_allocs l) = true → s = NC_OK ∧ g = mirror_gen B l) ∧
      (allocs_ok a (map_allocs l) = false →
        s = NC_ENOMEM ∧ ((allocs_ok a 1 = false ∧ g = []) ∨
                         (allocs_ok a 1 = true ∧ partial_gen B l g))) := by
  have hassert : assert_fails B (l.length != 0) = false := by
    rcases hl with h | h
    · simp [assert_fails, h]
    · simp only [topology_ok, Bool.and_eq_true] at h
      simp [assert_fails, h.1]
  have hloop : B.assert_panic = false ∨ l.all (fun sp => sp.server.length != 0) = true := by
    rcases hl with h | h
    · exact Or.inl h
    · simp only [topology_ok, Bool.and_eq_true] at h
      exact Or.inr h.2
  have hadd := allocs_ok_add a 1 (l.map pool_allocs).sum
  obtain ⟨s, g, a1, hr, h1, h2⟩ := pool_loop_total B hvp hvs l (a.drop 1) hloop
  cases h : allocs_ok a 1
  · refine ⟨NC_ENOMEM, [], a.drop 1, ?_, ?_, fun _ => ⟨rfl, Or.inl ⟨rfl, rfl⟩⟩⟩
    · simp [stats_pool_map, hassert, alloc_next_eq, h]
    · intro hall
      rw [map_allocs, hadd, h] at hall
      simp at hall
  · refine ⟨s, g, a1, ?_, ?_, ?_⟩
    · have hr1 := hr
      rw [List.drop_one] at hr1
      simp [stats_pool_map, hassert, alloc_next_eq, h, hr1]
    · intro hall
      rw [map_allocs, hadd, h] at hall
      simp only [Bool.true_and] at hall
      obtain ⟨e1, _, e3⟩ := h1 hall
      exact ⟨e1, e3⟩
    · intro hall
      rw [map_allocs, hadd, h] at hall
      simp only [Bool.true_and] at hall
      obtain ⟨e1, hp⟩ := h2 hall
      exact ⟨e1, Or.inr ⟨rfl, hp⟩⟩

theorem partial_gen_ne_nil (B : Build) (l : List server_pool) (g : List stats_pool)
    (h : partial_gen B l g) : g ≠ [] := by
  obtain ⟨k, last, _, hg, _, _⟩ := h
  rw [hg]
  simp

/-- C15, as amended (build failure). For a topology that passes the
assertions and an allocator that fails one of the allocations of the mapping,
`stats_pool_map` returns `NC_ENOMEM`. It does not empty the destination: when
the pool array itself could not be allocated the destination has no pool, and
in every other case it still holds the complete entries of the pools mapped
before the failure followed by the entry of the failing pool (its own metric
set released). The caller releases them: `stats_create` destroys the engine
and returns no engine. -/
theorem pool_map_failure (B : Build) (env : Env) (source : string)
    (hvp : metric_valid B.stats_pool_codec = true)
    (hvs : metric_valid B.stats_server_codec = true) (l : List server_pool) (a : Alloc)
    (hl : B.assert_panic = false ∨ topology_ok l = true)
    (hfail : allocs_ok a (map_allocs l) = false) :
    ∃ g a1, stats_pool_map B l a = some (NC_ENOMEM, g, a1) ∧
      ((allocs_ok a 1 = false ∧ g = []) ∨
       (allocs_ok a 1 = true ∧ partial_gen B l g ∧ g ≠ [])) ∧
      stats_create B env source l (true :: a) = some (none, a1) := by
  obtain ⟨s, g, a1, hr, _, h2⟩ := pool_map_total B hvp hvs l a hl
  obtain ⟨es, hg⟩ := h2 hfail
  subst es
  refine ⟨g, a1, hr, ?_, ?_⟩
  · rcases hg with h | ⟨h, hp⟩
    · exact Or.inl h
    · exact Or.inr ⟨h, hp, partial_gen_ne_nil B l g hp⟩
  · simp [stats_create, alloc_next, hr]

/-- Witness of C15 as amended: the sample topology when the third allocation,
the server array of `p0`, fails. -/
theorem pool_map_failure_witness :
    ∃ g a1, stats_pool_map demo_build [demo_pool] [true, true, false]
        = some (NC_ENOMEM, g, a1) ∧
      ((allocs_ok [true, true, false] 1 = false ∧ g = []) ∨
       (allocs_ok [true, true, false] 1 = true ∧ partial_gen demo_build [demo_pool] g ∧
        g ≠ [])) ∧
      stats_create demo_build demo_env [104] [demo_pool] (true :: [true, true, false])
        = some (none, a1) :=
  pool_map_failure demo_build demo_env [104] (by decide) (by decide) [demo_pool]
    [true, true, false] (Or.inr (by decide)) (by decide)

/-- Counterexample to C15 as stated: when the allocation of the server array
of the sample pool fails, `stats_pool_map` returns `NC_ENOMEM` and the
destination holds one pool, the entry of `p0` without metrics and servers. -/
theorem pool_map_failure_counterexample :
    stats_pool_map demo_build [demo_pool] [true, true, false]
      = some (NC_ENOMEM, [⟨string_set_text "p0", [], []⟩], []) ∧
    [(⟨string_set_text "p0", [], []⟩ : stats_pool)] ≠ [] := by
  decide

/-! ## Decrements, ownership, and the aggregate flag -/

/-- C21, as amended (decrements). On an un-paused engine and a target whose
position exists in `current`, `decr` and `decr_by` are accepted for a gauge:
the value goes down by 1 or by the delta. For a counter they fail the
assertion `stm->type == STATS_GAUGE`: with panicking assertions the process
stops and no state is returned; only in a build whose assertions do not panic
is the counter decremented. -/
theorem decr_gauge_only (B : Build) (op : stats_op) (t : incr_target) (st : stats)
    (mc : stats_metric) (hp : st.pause = 0) (hm : metric_at st.current t.pos = some mc)
    (hop : op = .decr ∨ ∃ val, op = .decr_by val)
    (hv : int64_ok (op.described mc.value)) :
    (mc.type = STATS_GAUGE ∨ (mc.type = STATS_COUNTER ∧ B.assert_panic = false) →
      stats_apply B op t st
        = some { st with updated := 1, current := put_at st.current t.pos
                                        { mc with value := op.described mc.value } }) ∧
    (mc.type = STATS_COUNTER ∧ B.assert_panic = true → stats_apply B op t st = none) := by
  have hs : op.stored mc.value = op.described mc.value := by
    cases op <;> first | rfl | exact wrap64_of_ok hv
  have hassert : op.assertion mc = (mc.type == STATS_GAUGE) := by
    rcases hop with h | ⟨val, h⟩ <;> subst h <;> rfl
  constructor
  · intro hty
    have hk : assert_fails B (op.assertion mc) = false := by
      rw [hassert]
      rcases hty with h | ⟨h, hB⟩
      · simp [assert_fails, h]
      · simp [assert_fails, hB]
    rw [stats_apply_eq B op t st mc hp hm hk, hs]
  · intro hty
    have hk : assert_fails B (op.assertion mc) = true := by
      rw [hassert]
      simp [assert_fails, hty.1, hty.2]
    exact stats_apply_abort B op t st mc hp hm hk

/-- Witness of C21 as amended: a decrement of the gauge of the sample pool is
accepted, a decrement-by of its counter is not. -/
theorem decr_gauge_only_witness :
    stats_apply demo_build .decr (.pool demo_pool 1)
        (demo_stats (demo_gen 1 2 3 4 5) (demo_gen 0 0 0 0 0) (demo_gen 0 0 0 0 0) 0 0 0)
      = some (demo_stats (demo_gen 1 1 3 4 5) (demo_gen 0 0 0 0 0) (demo_gen 0 0 0 0 0) 1 0 0) ∧
    stats_apply demo_build (.decr_by 1) (.pool demo_pool 0)
        (demo_stats (demo_gen 1 2 3 4 5) (demo_gen 0 0 0 0 0) (demo_gen 0 0 0 0 0) 0 0 0)
      = none :=
  ⟨(decr_gauge_only demo_build .decr (.pool demo_pool 1)
      (demo_stats (demo_gen 1 2 3 4 5) (demo_gen 0 0 0 0 0) (demo_gen 0 0 0 0 0) 0 0 0)
      ⟨STATS_GAUGE, string_set_text "client_connections", 2⟩ rfl rfl (Or.inl rfl)
      (by decide)).1 (Or.inl rfl),
   (decr_gauge_only demo_build (.decr_by 1) (.pool demo_pool 0)
      (demo_stats (demo_gen 1 2 3 4 5) (demo_gen 0 0 0 0 0) (demo_gen 0 0 0 0 0) 0 0 0)
      ⟨STATS_COUNTER, string_set_text "client_eof", 1⟩ rfl rfl (Or.inr ⟨1, rfl⟩)
      (by decide)).2 ⟨rfl, rfl⟩⟩

/-- Counterexample to C21 as stated: in the sample build, whose assertions
panic, `decr` and `decr_by` on the counter `client_eof` of the un-paused sample
engine return no state: the assertion stops the process; the counter is not
decremented. -/
theorem decr_gauge_only_counterexample :
    metric_at (demo_gen 1 2 3 4 5) (.pool 0 0)
      = some ⟨STATS_COUNTER, string_set_text "client_eof", 1⟩ ∧
    _stats_pool_decr demo_build
        (demo_stats (demo_gen 1 2 3 4 5) (demo_gen 0 0 0 0 0) (demo_gen 0 0 0 0 0) 0 0 0)
        demo_pool 0 = none ∧
    _stats_pool_decr_by demo_build
        (demo_stats (demo_gen 1 2 3 4 5) (demo_gen 0 0 0 0 0) (demo_gen 0 0 0 0 0) 0 0 0)
        demo_pool 0 1 = none ∧
    _stats_server_decr_by demo_build
        (demo_stats (demo_gen 1 2 3 4 5) (demo_gen 0 0 0 0 0) (demo_gen 0 0 0 0 0) 0 0 0)
        demo_server 0 1 = none := by
  decide

theorem aggregate_frame (B : Build) (st st1 : stats) (h : stats_aggregate B st = some st1) :
    ∃ sm, st1 = { st with sum := sm, aggregate := 0 } := by
  unfold stats_aggregate at h
  split at h
  · rename_i h0
    simp only [Option.some.injEq] at h
    refine ⟨st.sum, ?_⟩
    rw [← h, ← h0]
  · split at h
    · simp at h
    · simp only [Option.some.injEq] at h
      exact ⟨_, h.symm⟩

/-- C30 (aggregate runs once per swap). With `aggregate == 0`
`stats_aggregate` returns the engine unchanged. With `aggregate == 1`, on
generations of one shape, it returns the engine with `shadow` folded into
`sum` position by position and `aggregate` cleared. Whatever it returns, a
second call right after returns the same engine: `shadow` is not added twice. -/
theorem aggregate_once (B : Build) (st : stats) :
    (st.aggregate = 0 → stats_aggregate B st = some st) ∧
    (st.aggregate = 1 → gen_shape st.sum = gen_shape st.shadow →
      kinds_valid st.shadow = true →
      stats_aggregate B st
        = some { st with sum := List.zipWith fold_pool st.sum st.shadow, aggregate := 0 }) ∧
    (∀ st1, stats_aggregate B st = some st1 →
      st1.aggregate = 0 ∧ stats_aggregate B st1 = some st1) := by
  refine ⟨?_, ?_, ?_⟩
  · intro h
    simp [stats_aggregate, h]
  · intro h hs hk
    exact stats_aggregate_eq B st (by rw [h]; decide) hs hk
  · intro st1 h
    obtain ⟨sm, e⟩ := aggregate_frame B st st1 h
    have h0 : st1.aggregate = 0 := by rw [e]
    exact ⟨h0, by simp [stats_aggregate, h0]⟩

/-- Witness of C30: the sample engine with `aggregate == 1`; the second call
changes nothing. -/
theorem aggregate_once_witness :
    stats_aggregate demo_build
        (demo_stats (demo_gen 0 0 0 0 0) (demo_gen 1 2 3 4 5) (demo_gen 10 20 30 40 50) 0 1 0)
      = some (demo_stats (demo_gen 0 0 0 0 0) (demo_gen 1 2 3 4 5) (demo_gen 11 22 33 44 5)
               0 0 0) ∧
    stats_aggregate demo_build
        (demo_stats (demo_gen 0 0 0 0 0) (demo_gen 1 2 3 4 5) (demo_gen 11 22 33 44 5) 0 0 0)
      = some (demo_stats (demo_gen 0 0 0 0 0) (demo_gen 1 2 3 4 5) (demo_gen 11 22 33 44 5)
               0 0 0) :=
  ⟨(aggregate_once demo_build
      (demo_stats (demo_gen 0 0 0 0 0) (demo_gen 1 2 3 4 5) (demo_gen 10 20 30 40 50) 0 1 0)).2.1
      rfl rfl rfl,
   ((aggregate_once demo_build
      (demo_stats (demo_gen 0 0 0 0 0) (demo_gen 1 2 3 4 5) (demo_gen 10 20 30 40 50) 0 1 0)).2.2
      _ (by decide)).2⟩

theorem send_rsp_buf_only (B : Build) (env : Env) (net : Net) (st : stats) (s : rstatus_t)
    (st1 : stats) (sent : Option (List Nat))
    (h : stats_send_rsp B env net st = some (s, st1, sent)) : buf_only st st1 := by
  unfold stats_send_rsp at h
  cases hr : stats_make_rsp B env st with
  | none => simp [hr] at h
  | some x =>
    rcases x with ⟨s1, st2⟩
    have hb := make_rsp_buf_only B env st s1 st2 hr
    cases s1
    · simp only [hr] at h
      split at h
      · simp only [Option.some.injEq, Prod.mk.injEq] at h
        rw [← h.2.1]
        exact hb
      · split at h <;>
        · simp only [Option.some.injEq, Prod.mk.injEq] at h
          rw [← h.2.1]
          exact hb
    · simp only [hr, Option.some.injEq, Prod.mk.injEq] at h
      rw [← h.2.1]
      exact hb
    · simp only [hr, Option.some.injEq, Prod.mk.injEq] at h
      rw [← h.2.1]
      exact hb

theorem buf_only_gens (st st1 : stats) (h : buf_only st st1) :
    st1.current = st.current ∧ st1.shadow = st.shadow ∧ st1.sum = st.sum := by
  obtain ⟨e, _⟩ := h
  rw [e]
  exact ⟨rfl, rfl, rfl⟩

/-- C29 (ownership frame). Whatever an instrumentation entry point returns
(the "anyway" variants included) differs from the engine it got in `current`
and `updated` only; whatever `stats_aggregate` returns differs in `sum` and
`aggregate` only; whatever `stats_make_rsp` and `stats_send_rsp` return, with
any status, differs in the content of the buffer only, so none of the three
generations changes. -/
theorem ownership_frame (B : Build) (env : Env) (net : Net) (st : stats) :
    (∀ op t st1, stats_apply B op t st = some st1 →
      st1.shadow = st.shadow ∧ st1.sum = st.sum ∧
      ∃ cur u, st1 = { st with current := cur, updated := u }) ∧
    (∀ t val st1, stats_incr_by_anyway B t val st = some st1 →
      st1.shadow = st.shadow ∧ st1.sum = st.sum ∧
      ∃ cur u, st1 = { st with current := cur, updated := u }) ∧
    (∀ st1, stats_aggregate B st = some st1 →
      st1.current = st.current ∧ st1.shadow = st.shadow ∧
      ∃ sm ag, st1 = { st with sum := sm, aggregate := ag }) ∧
    (∀ s st1, stats_make_rsp B env st = some (s, st1) →
      st1.current = st.current ∧ st1.shadow = st.shadow ∧ st1.sum = st.sum ∧
      buf_only st st1) ∧
    (∀ s st1 sent, stats_send_rsp B env net st = some (s, st1, sent) →
      st1.current = st.current ∧ st1.shadow = st.shadow ∧ st1.sum = st.sum ∧
      buf_only st st1) := by
  refine ⟨?_, ?_, ?_, ?_, ?_⟩
  · intro op t st1 h
    obtain ⟨cur, u, e⟩ := stats_apply_frame B op t st st1 h
    exact ⟨by rw [e], by rw [e], cur, u, e⟩
  · intro t val st1 h
    obtain ⟨cur, e, _, _⟩ := anyway_frame B t val st st1 h
    exact ⟨by rw [e], by rw [e], cur, 1, e⟩
  · intro st1 h
    obtain ⟨sm, e⟩ := aggregate_frame B st st1 h
    exact ⟨by rw [e], by rw [e], sm, 0, e⟩
  · intro s st1 h
    have hb := make_rsp_buf_only B env st s st1 h
    obtain ⟨h1, h2, h3⟩ := buf_only_gens st st1 hb
    exact ⟨h1, h2, h3, hb⟩
  · intro s st1 sent h
    have hb := send_rsp_buf_only B env net st s st1 sent h
    obtain ⟨h1, h2, h3⟩ := buf_only_gens st st1 hb
    exact ⟨h1, h2, h3, hb⟩

/-- C23 (closing-brace handoff). Let the buffer memory be `S` bytes. When the
document in the buffer ends with the pair separator `, `, `stats_end_nesting`
returns `NC_OK`, the document is the same with those two bytes replaced by a
closing brace and a comma, and `buf.len` is unchanged. When it ends with a
closing brace and a comma and `buf.len < buf.size`, the call returns `NC_OK`,
the document ends with two closing braces and one comma, and `buf.len` is one
more. -/
theorem closing_brace_handoff (B : Build) (st : stats) (S : Nat) (doc : List Nat) :
    (buf_holds st.buf S (doc ++ [44, 32]) →
      ∃ b, stats_end_nesting B st = some (NC_OK, { st with buf := b }) ∧
        buf_holds b S (doc ++ [125, 44]) ∧ b.len = st.buf.len) ∧
    (buf_holds st.buf S (doc ++ [125, 44]) → st.buf.len < st.buf.size → S < 2 ^ 64 →
      ∃ b, stats_end_nesting B st = some (NC_OK, { st with buf := b }) ∧
        buf_holds b S (doc ++ [125, 125, 44]) ∧ b.len = st.buf.len + 1) := by
  constructor
  · intro hb
    obtain ⟨b, h1, h2⟩ := end_nesting_comma B st S doc hb
    refine ⟨b, h1, h2, ?_⟩
    rw [h2.2.2.1, hb.2.2.1]
    simp
  · intro hb hlt hS
    have hcap : doc.length + 3 ≤ S := by
      have h1 := hb.1
      have h3 := hb.2.2.1
      simp only [List.length_append, List.length_cons, List.length_nil] at h3
      omega
    obtain ⟨b, h1, h2⟩ := end_nesting_brace B st S doc hb hcap hS
    refine ⟨b, h1, h2, ?_⟩
    rw [h2.2.2.1, hb.2.2.1]
    simp

/-- Witness of C23: a buffer of 8 bytes that holds `{"a":1, ` up to the
separator is closed once, and closed once more. -/
theorem closing_brace_handoff_witness :
    (∃ b, stats_end_nesting demo_build
        { demo_stats [] [] [] 0 0 0 with buf := ⟨4, [123, 49, 44, 32, 0, 0, 0, 0], 8⟩ }
        = some (NC_OK, { demo_stats [] [] [] 0 0 0 with buf := b }) ∧
      buf_holds b 8 ([123, 49] ++ [125, 44]) ∧ b.len = 4) ∧
    (∃ b, stats_end_nesting demo_build
        { demo_stats [] [] [] 0 0 0 with buf := ⟨4, [123, 49, 125, 44, 0, 0, 0, 0], 8⟩ }
        = some (NC_OK, { demo_stats [] [] [] 0 0 0 with buf := b }) ∧
      buf_holds b 8 ([123, 49] ++ [125, 125, 44]) ∧ b.len = 4 + 1) :=
  ⟨(closing_brace_handoff demo_build
      { demo_stats [] [] [] 0 0 0 with buf := ⟨4, [123, 49, 44, 32, 0, 0, 0, 0], 8⟩ } 8
      [123, 49]).1 (by unfold buf_holds; decide),
   (closing_brace_handoff demo_build
      { demo_stats [] [] [] 0 0 0 with buf := ⟨4, [123, 49, 125, 44, 0, 0, 0, 0], 8⟩ } 8
      [123, 49]).2 (by unfold buf_holds; decide) (by decide) (by decide)⟩

/-! ## The format of a pair -/

theorem int_of_size_t_le (r : Nat) (n : Nat) (h : (n : Int) < int_of_size_t r) : n < r := by
  unfold int_of_size_t at h
  omega

/-- A text that passes the test of the writer is stored whole: the document
grows by exactly the text and `len` by its length. -/
theorem add_text_fits (st : stats) (text : List Nat)
    (hlen : st.buf.len ≤ st.buf.data.length) (hlt : st.buf.len < st.buf.size)
    (hS : st.buf.size < 2 ^ 64) (hfit : pair_fits st text) :
    ∃ b, stats_add_text st text = (NC_OK, { st with buf := b }) ∧
      buf_doc b = buf_doc st.buf ++ text ∧ b.len = st.buf.len + text.length ∧
      b.size = st.buf.size := by
  obtain ⟨hn, hint⟩ := hfit
  have hroom : size_t_wrap ((st.buf.size : Int) - st.buf.len - 1)
      = st.buf.size - st.buf.len - 1 := by
    have e : ((st.buf.size : Int) - st.buf.len - 1)
        = ((st.buf.size - st.buf.len - 1 : Nat) : Int) := by omega
    rw [e, size_t_wrap_of_nat]
    omega
  rw [hroom] at hint
  have hnr := int_of_size_t_le _ _ hint
  have hr0 : st.buf.size - st.buf.len - 1 ≠ 0 := by omega
  have htake : List.take (st.buf.size - st.buf.len - 1 - 1) text = text :=
    List.take_of_length_le (by omega)
  have hlen2 : size_t_wrap ((st.buf.len : Int) + (text.length : Int))
      = st.buf.len + text.length := by
    have e : ((st.buf.len : Int) + (text.length : Int))
        = ((st.buf.len + text.length : Nat) : Int) := by omega
    rw [e, size_t_wrap_of_nat]
    omega
  have hcond : ¬ ((text.length : Int) < 0 ∨
      (text.length : Int) ≥ int_of_size_t (st.buf.size - st.buf.len - 1)) := by omega
  refine ⟨{ st.buf with data := mem_write st.buf.data st.buf.len (text ++ [0]),
                        len := st.buf.len + text.length }, ?_, ?_, rfl, rfl⟩
  · unfold stats_add_text nc_snprintf
    simp only [hroom, hr0, if_false, htake, hn, if_true, hcond, hlen2]
  · simp only [buf_doc]
    rw [mem_write_take _ _ _ _ hlen (by simp)]
    simp

/-- A text that does not pass the test is refused: the status is `NC_ERROR`
and `len` stays. -/
theorem add_text_refused (st : stats) (text : List Nat) (hfit : ¬ pair_fits st text) :
    (stats_add_text st text).1 = NC_ERROR ∧
    (stats_add_text st text).2.buf.len = st.buf.len := by
  have hcond : (if text.length ≤ 2147483647 then (text.length : Int) else -1) < 0 ∨
      (if text.length ≤ 2147483647 then (text.length : Int) else -1)
        ≥ int_of_size_t (size_t_wrap ((st.buf.size : Int) - st.buf.len - 1)) := by
    unfold pair_fits at hfit
    by_cases hn : text.length ≤ 2147483647
    · simp only [hn, if_true]
      right
      by_contra hc
      exact hfit ⟨hn, by omega⟩
    · simp only [hn, if_false]
      left
      omega
  unfold stats_add_text nc_snprintf
  simp only [hcond, if_true]
  exact ⟨trivial, trivial⟩

/-- In a buffer of at most 2^31 bytes the test of the writer is the plain one:
the text and its terminating NUL fit into the room left before the last byte. -/
theorem pair_fits_iff (st : stats) (text : List Nat) (hlt : st.buf.len < st.buf.size)
    (hS : st.buf.size ≤ 2 ^ 31) :
    pair_fits st text ↔ st.buf.len + text.length + 1 < st.buf.size := by
  have hroom : size_t_wrap ((st.buf.size : Int) - st.buf.len - 1)
      = st.buf.size - st.buf.len - 1 := by
    have e : ((st.buf.size : Int) - st.buf.len - 1)
        = ((st.buf.size - st.buf.len - 1 : Nat) : Int) := by omega
    rw [e, size_t_wrap_of_nat]
    omega
  have hint : int_of_size_t (st.buf.size - st.buf.len - 1)
      = ((st.buf.size - st.buf.len - 1 : Nat) : Int) := int_of_size_t_small _ (by omega)
  unfold pair_fits
  rw [hroom, hint]
  constructor
  · intro h
    omega
  · intro h
    constructor <;> omega

theorem dec_rev_value : ∀ (fuel n : Nat), n < 10 ^ fuel →
    (dec_rev fuel n).foldr (fun d acc => 10 * acc + (d - 48)) 0 = n
  | 0, n, h => by
    simp only [Nat.pow_zero, Nat.lt_one_iff] at h
    simp [dec_rev, h]
  | fuel + 1, n, h => by
    by_cases h10 : n < 10
    · simp only [dec_rev, h10, if_true, List.foldr_cons, List.foldr_nil]
      omega
    · simp only [dec_rev, h10, if_false, List.foldr_cons]
      have hq : n / 10 < 10 ^ fuel := by
        rw [Nat.pow_succ] at h
        omega
      rw [dec_rev_value fuel (n / 10) hq]
      omega

theorem dec_rev_last : ∀ (fuel n : Nat), n < 10 ^ fuel →
    (dec_rev fuel n).getLast? = some 48 → n = 0
  | 0, n, h, _ => by
    simp only [Nat.pow_zero, Nat.lt_one_iff] at h
    exact h
  | fuel + 1, n, h, hl => by
    by_cases h10 : n < 10
    · simp only [dec_rev, h10, if_true, List.getLast?_singleton, Option.some.injEq] at hl
      omega
    · have hq : n / 10 < 10 ^ fuel := by
        rw [Nat.pow_succ] at h
        omega
      cases fuel with
      | zero =>
        simp only [Nat.pow_zero, Nat.lt_one_iff] at hq
        omega
      | succ f =>
        have hrec : dec_rev (f + 1) (n / 10)
            = (48 + n / 10 % 10) :: (if n / 10 < 10 then [] else dec_rev f (n / 10 / 10)) := rfl
        have hl2 : (dec_rev (f + 1) (n / 10)).getLast? = some 48 := by
          have e : dec_rev (f + 1 + 1) n = (48 + n % 10) :: dec_rev (f + 1) (n / 10) := by
            simp only [dec_rev, h10, if_false]
          rw [e, hrec, List.getLast?_cons_cons, ← hrec] at hl
          exact hl
        have := dec_rev_last (f + 1) (n / 10) hq hl2
        omega

/-- The digits that `fmt_nat` prints denote the number, and there is no
leading zero unless the number is 0. -/
theorem fmt_nat_value (n : Nat) (h : n < 10 ^ 20) :
    dec_value (fmt_nat n) = n ∧ ((fmt_nat n).head? = some 48 → n = 0) := by
  constructor
  · unfold dec_value fmt_nat
    rw [List.foldl_reverse]
    exact dec_rev_value 20 n h
  · intro hh
    unfold fmt_nat at hh
    rw [List.head?_reverse] at hh
    exact dec_rev_last 20 n h hh

/-- C25 (pair formatting). Let `buf.len` lie inside the buffer memory and
below `buf.size`. When the pair passes the test of the writer (in a buffer of
at most 2^31 bytes: when the pair and a NUL fit before the last byte),
`stats_add_num` returns `NC_OK` and appends exactly a double quote, the key,
a double quote and a colon, the digits of the value, a comma and a blank;
`stats_add_string` returns `NC_OK` and appends exactly a double quote, the
key, `":"`, the value, a double quote, a comma and a blank; each advances
`buf.len` by the number of bytes appended. When the pair does not pass, each
returns `NC_ERROR` and `buf.len` stays. The digits are a minus sign for a
negative value followed by the decimal digits of the magnitude, which denote
it and have no leading zero. -/
theorem pair_formatting (st : stats) (key sval : string) (val : Int)
    (hlen : st.buf.len ≤ st.buf.data.length) (hlt : st.buf.len < st.buf.size)
    (hS : st.buf.size < 2 ^ 64) (hval : int64_ok val) :
    (pair_fits st ([34] ++ cstr key ++ [34, 58] ++ fmt_int64 val ++ [44, 32]) →
      ∃ b, stats_add_num st key val = (NC_OK, { st with buf := b }) ∧
        buf_doc b = buf_doc st.buf ++ ([34] ++ cstr key ++ [34, 58] ++ fmt_int64 val ++ [44, 32]) ∧
        b.len = st.buf.len
          + ([34] ++ cstr key ++ [34, 58] ++ fmt_int64 val ++ [44, 32]).length) ∧
    (¬ pair_fits st ([34] ++ cstr key ++ [34, 58] ++ fmt_int64 val ++ [44, 32]) →
      (stats_add_num st key val).1 = NC_ERROR ∧
      (stats_add_num st key val).2.buf.len = st.buf.len) ∧
    (pair_fits st ([34] ++ cstr key ++ [34, 58, 34] ++ cstr sval ++ [34, 44, 32]) →
      ∃ b, stats_add_string st key sval = (NC_OK, { st with buf := b }) ∧
        buf_doc b
          = buf_doc st.buf ++ ([34] ++ cstr key ++ [34, 58, 34] ++ cstr sval ++ [34, 44, 32]) ∧
        b.len = st.buf.len
          + ([34] ++ cstr key ++ [34, 58, 34] ++ cstr sval ++ [34, 44, 32]).length) ∧
    (¬ pair_fits st ([34] ++ cstr key ++ [34, 58, 34] ++ cstr sval ++ [34, 44, 32]) →
      (stats_add_string st key sval).1 = NC_ERROR ∧
      (stats_add_string st key sval).2.buf.len = st.buf.len) ∧
    (st.buf.size ≤ 2 ^ 31 → ∀ text,
      (pair_fits st text ↔ st.buf.len + text.length + 1 < st.buf.size)) ∧
    fmt_int64 val = (if val < 0 then [45] else []) ++ fmt_nat val.natAbs ∧
    dec_value (fmt_nat val.natAbs) = val.natAbs ∧
    ((fmt_nat val.natAbs).head? = some 48 → val = 0) := by
  have hnat : val.natAbs < 10 ^ 20 := by
    unfold int64_ok at hval
    omega
  obtain ⟨hd1, hd2⟩ := fmt_nat_value val.natAbs hnat
  refine ⟨?_, ?_, ?_, ?_, ?_, ?_, hd1, ?_⟩
  · intro hfit
    obtain ⟨b, h1, h2, h3, _⟩ := add_text_fits st _ hlen hlt hS hfit
    exact ⟨b, h1, h2, h3⟩
  · intro hfit
    exact add_text_refused st _ hfit
  · intro hfit
    obtain ⟨b, h1, h2, h3, _⟩ := add_text_fits st _ hlen hlt hS hfit
    exact ⟨b, h1, h2, h3⟩
  · intro hfit
    exact add_text_refused st _ hfit
  · intro h31 text
    exact pair_fits_iff st text hlt h31
  · unfold fmt_int64
    split <;> simp
  · intro hh
    have := hd2 hh
    omega

/-- Witness of C25: in a buffer of 32 bytes that holds an opening brace, the
pair of the key `ab` and the value -7 fits and the pair of the key `ab` and a
string of 30 bytes does not. -/
theorem pair_formatting_witness :
    (∃ b, stats_add_num
        { demo_stats [] [] [] 0 0 0 with buf := ⟨1, 123 :: List.replicate 31 0, 32⟩ }
        [97, 98] (-7)
        = (NC_OK, { demo_stats [] [] [] 0 0 0 with buf := b }) ∧
      buf_doc b = [123] ++ ([34] ++ cstr [97, 98] ++ [34, 58] ++ fmt_int64 (-7) ++ [44, 32]) ∧
      b.len = 1 + ([34] ++ cstr [97, 98] ++ [34, 58] ++ fmt_int64 (-7) ++ [44, 32]).length) ∧
    ((stats_add_string
        { demo_stats [] [] [] 0 0 0 with buf := ⟨1, 123 :: List.replicate 31 0, 32⟩ }
        [97, 98] (List.replicate 30 99)).1 = NC_ERROR ∧
     (stats_add_string
        { demo_stats [] [] [] 0 0 0 with buf := ⟨1, 123 :: List.replicate 31 0, 32⟩ }
        [97, 98] (List.replicate 30 99)).2.buf.len = 1) :=
  ⟨(pair_formatting
      { demo_stats [] [] [] 0 0 0 with buf := ⟨1, 123 :: List.replicate 31 0, 32⟩ }
      [97, 98] (List.replicate 30 99) (-7) (by decide) (by decide) (by decide) (by decide)).1
      (by decide),
   (pair_formatting
      { demo_stats [] [] [] 0 0 0 with buf := ⟨1, 123 :: List.replicate 31 0, 32⟩ }
      [97, 98] (List.replicate 30 99) (-7) (by decide) (by decide) (by decide)
      (by decide)).2.2.2.1 (by decide)⟩

/-! ## The end of the document -/

theorem pools_body_ends :
    ∀ (l : List stats_pool), l ≠ [] → ∃ W, pools_body l = W ++ [125]
  | [], h => absurd rfl h
  | [stp], _ => ⟨nest_open stp.name ++ pool_members stp, by simp [pools_body, pool_obj]⟩
  | stp :: x :: rest, _ => by
    obtain ⟨W, hW⟩ := pools_body_ends (x :: rest) (by simp)
    refine ⟨pool_obj stp ++ [44] ++ W, ?_⟩
    simp only [pools_body] at hW ⊢
    rw [hW]
    simp

/-- C24, as amended (final separator conversion). For an engine with at
least one pool in `sum`, non-empty metric sets and a buffer that is large
enough and within the `int` range, `stats_make_rsp` returns `NC_OK` and the
document ends with a closing brace, a closing brace and a newline: the byte
before the final closing brace is the brace that closes the last pool, not a
comma and not a blank. -/
theorem final_separator (B : Build) (env : Env) (S : Nat) (st : stats)
    (hS : S ≤ 2 ^ 31) (h1 : st.buf.size = S) (h2 : st.buf.data.length = S)
    (hcap : stats_buf_need st ≤ S)
    (hne : metrics_nonempty st.sum = true) (hv : values_ok st.sum)
    (hsum : st.sum ≠ []) :
    ∃ b W, stats_make_rsp B env st = some (NC_OK, { st with buf := b }) ∧
      buf_doc b = W ++ [125, 125, 10] := by
  obtain ⟨b, hr, hb⟩ := make_rsp_ok B env S hS st h1 h2 hcap hne hv
  obtain ⟨W, hW⟩ := pools_body_ends st.sum hsum
  refine ⟨b, [123] ++ header_body st env ++ [44, 32] ++ W, hr, ?_⟩
  rw [holds_doc _ _ _ hb]
  cases hs : st.sum with
  | nil => exact absurd hs hsum
  | cons x r =>
    rw [hs] at hW
    simp only [document, hs, hW, List.append_assoc, List.cons_append, List.nil_append,
      List.singleton_append]

/-- Witness of C24 as amended: the sample engine. -/
theorem final_separator_witness :
    ∃ b W, stats_make_rsp demo_build demo_env (demo_sized (demo_gen 1 2 3 4 5))
        = some (NC_OK, { demo_sized (demo_gen 1 2 3 4 5) with buf := b }) ∧
      buf_doc b = W ++ [125, 125, 10] :=
  final_separator demo_build demo_env _ (demo_sized (demo_gen 1 2 3 4 5))
    (by decide) rfl (List.length_replicate _ _) (by decide) (by decide)
    (by unfold values_ok metric_values_ok; decide) (by decide)

set_option maxRecDepth 100000 in
theorem demo_empty_doc :
    document (demo_sized []) demo_env
      = string_set_text ("\x7b\"service\":\"nutcracker\", \"source\":\"host\", " ++
          "\"version\":\"0.4.1\", \"uptime\":500, \"timestamp\":1500, " ++
          "\"total_connections\":7, \"curr_connections\":2, " ++
          "\"curr_connections_a\":1,\x7d\n") := by
  decide

set_option maxRecDepth 100000 in
/-- Counterexample to C24 as stated: for the sample engine with no pool in
`sum`, `stats_make_rsp` returns `NC_OK` and the document ends with a comma, a
closing brace and a newline: the byte before the final closing brace is the
comma of the last header pair. -/
theorem final_separator_counterexample :
    ∃ st1, stats_make_rsp demo_build demo_env (demo_sized []) = some (NC_OK, st1) ∧
      buf_doc st1.buf
        = string_set_text ("\x7b\"service\":\"nutcracker\", \"source\":\"host\", " ++
          "\"version\":\"0.4.1\", \"uptime\":500, \"timestamp\":1500, " ++
          "\"total_connections\":7, \"curr_connections\":2, " ++
          "\"curr_connections_a\":1,\x7d\n") ∧
      (buf_doc st1.buf).reverse.take 3 = [10, 125, 44] := by
  obtain ⟨b, hr, hb⟩ := make_rsp_ok demo_build demo_env _ (by decide)
    (demo_sized []) rfl (List.length_replicate _ _) (by decide) (by decide)
    (by unfold values_ok metric_values_ok; decide)
  refine ⟨_, hr, ?_, ?_⟩
  · rw [holds_doc _ _ _ hb, demo_empty_doc]
  · rw [holds_doc _ _ _ hb, demo_empty_doc]
    decide

/-! ## The layout of the generations -/

theorem metric_init_layout (B : Build) (stm x : stats_metric)
    (h : stats_metric_init B stm = some x) :
    ({ x with value := 0 } : stats_metric) = { stm with value := 0 } := by
  unfold stats_metric_init at h
  split at h
  · simp only [Option.some.injEq] at h
    rw [← h]
  · simp only [Option.some.injEq] at h
    rw [← h]
  · simp only [Option.some.injEq] at h
    rw [← h]
  · split at h
    · simp at h
    · simp only [Option.some.injEq] at h
      rw [← h]

theorem metric_reset_loop_layout (B : Build) :
    ∀ (m r : List stats_metric), stats_metric_reset_loop B m = some r →
      zero_metric r = zero_metric m
  | [], r, h => by
    simp only [stats_metric_reset_loop, Option.some.injEq] at h
    rw [← h]
  | stm :: rest, r, h => by
    simp only [stats_metric_reset_loop] at h
    cases h1 : stats_metric_init B stm with
    | none => simp [h1] at h
    | some x =>
      cases h2 : stats_metric_reset_loop B rest with
      | none => simp [h1, h2] at h
      | some rest1 =>
        simp only [h1, h2, Option.some.injEq] at h
        rw [← h]
        simp only [zero_metric, List.map_cons, List.cons.injEq]
        exact ⟨metric_init_layout B stm x h1, metric_reset_loop_layout B rest rest1 h2⟩

theorem metric_reset_layout (B : Build) (m r : List stats_metric)
    (h : stats_metric_reset B m = some r) : zero_metric r = zero_metric m := by
  unfold stats_metric_reset at h
  split at h
  · simp at h
  · exact metric_reset_loop_layout B m r h

theorem server_reset_layout (B : Build) :
    ∀ (l r : List stats_server), stats_server_reset_loop B l = some r →
      r.map (fun sts => { sts with metric := zero_metric sts.metric })
        = l.map (fun sts => { sts with metric := zero_metric sts.metric })
  | [], r, h => by
    simp only [stats_server_reset_loop, Option.some.injEq] at h
    rw [← h]
  | sts :: rest, r, h => by
    simp only [stats_server_reset_loop] at h
    cases h1 : stats_metric_reset B sts.metric with
    | none => simp [h1] at h
    | some m =>
      cases h2 : stats_server_reset_loop B rest with
      | none => simp [h1, h2] at h
      | some rest1 =>
        simp only [h1, h2, Option.some.injEq] at h
        rw [← h]
        simp only [List.map_cons, List.cons.injEq]
        exact ⟨by rw [metric_reset_layout B _ m h1], server_reset_layout B rest rest1 h2⟩

theorem pool_reset_layout (B : Build) :
    ∀ (g r : List stats_pool), stats_pool_reset B g = some r → zero_gen r = zero_gen g
  | [], r, h => by
    simp only [stats_pool_reset, Option.some.injEq] at h
    rw [← h]
  | stp :: rest, r, h => by
    simp only [stats_pool_reset] at h
    cases h1 : stats_metric_reset B stp.metric with
    | none => simp [h1] at h
    | some m =>
      cases h2 : stats_server_reset_loop B stp.server with
      | none => simp [h1, h2] at h
      | some srv =>
        cases h3 : stats_pool_reset B rest with
        | none => simp [h1, h2, h3] at h
        | some rest1 =>
          simp only [h1, h2, h3, Option.some.injEq] at h
          rw [← h]
          have ih := pool_reset_layout B rest rest1 h3
          simp only [zero_gen] at ih ⊢
          simp only [List.map_cons, List.cons.injEq]
          refine ⟨?_, ih⟩
          rw [metric_reset_layout B _ m h1, server_reset_layout B _ srv h2]

theorem aggregate_one_layout (B : Build) (stm2 stm1 x : stats_metric)
    (h : stats_aggregate_one B stm2 stm1 = some x) :
    ({ x with value := 0 } : stats_metric) = { stm2 with value := 0 } := by
  unfold stats_aggregate_one at h
  split at h
  · simp at h
  · split at h
    · simp only [Option.some.injEq] at h
      rw [← h]
    · simp only [Option.some.injEq] at h
      rw [← h]
    · split at h <;>
      · simp only [Option.some.injEq] at h
        rw [← h]
    · split at h
      · simp at h
      · simp only [Option.some.injEq] at h
        rw [← h]

theorem aggregate_metric_layout (B : Build) :
    ∀ (dst src r : List stats_metric), stats_aggregate_metric B dst src = some r →
      zero_metric r = zero_metric dst
  | dst, [], r, h => by
    simp only [stats_aggregate_metric, Option.some.injEq] at h
    rw [← h]
  | [], _ :: _, r, h => by simp [stats_aggregate_metric] at h
  | stm2 :: dst, stm1 :: src, r, h => by
    simp only [stats_aggregate_metric] at h
    cases h1 : stats_aggregate_one B stm2 stm1 with
    | none => simp [h1] at h
    | some m =>
      cases h2 : stats_aggregate_metric B dst src with
      | none => simp [h1, h2] at h
      | some rest =>
        simp only [h1, h2, Option.some.injEq] at h
        rw [← h]
        simp only [zero_metric, List.map_cons, List.cons.injEq]
        exact ⟨aggregate_one_layout B stm2 stm1 m h1, aggregate_metric_layout B dst src rest h2⟩

theorem aggregate_server_layout (B : Build) :
    ∀ (dst src r : List stats_server), stats_aggregate_server B dst src = some r →
      r.map (fun sts => { sts with metric := zero_metric sts.metric })
        = dst.map (fun sts => { sts with metric := zero_metric sts.metric })
  | dst, [], r, h => by
    simp only [stats_aggregate_server, Option.some.injEq] at h
    rw [← h]
  | [], _ :: _, r, h => by simp [stats_aggregate_server] at h
  | sts2 :: dst, sts1 :: src, r, h => by
    simp only [stats_aggregate_server] at h
    cases h1 : stats_aggregate_metric B sts2.metric sts1.metric with
    | none => simp [h1] at h
    | some m =>
      cases h2 : stats_aggregate_server B dst src with
      | none => simp [h1, h2] at h
      | some rest =>
        simp only [h1, h2, Option.some.injEq] at h
        rw [← h]
        simp only [List.map_cons, List.cons.injEq]
        exact ⟨by rw [aggregate_metric_layout B _ _ m h1],
          aggregate_server_layout B dst src rest h2⟩

theorem aggregate_pool_layout (B : Build) :
    ∀ (dst src r : List stats_pool), stats_aggregate_pool B dst src = some r →
      zero_gen r = zero_gen dst
  | dst, [], r, h => by
    simp only [stats_aggregate_pool, Option.some.injEq] at h
    rw [← h]
  | [], _ :: _, r, h => by simp [stats_aggregate_pool] at h
  | stp2 :: dst, stp1 :: src, r, h => by
    simp only [stats_aggregate_pool] at h
    cases h1 : stats_aggregate_metric B stp2.metric stp1.metric with
    | none => simp [h1] at h
    | some m =>
      cases h2 : stats_aggregate_server B stp2.server stp1.server with
      | none => simp [h1, h2] at h
      | some srv =>
        cases h3 : stats_aggregate_pool B dst src with
        | none => simp [h1, h2, h3] at h
        | some rest =>
          simp only [h1, h2, h3, Option.some.injEq] at h
          rw [← h]
          have ih := aggregate_pool_layout B dst src rest h3
          simp only [zero_gen] at ih ⊢
          simp only [List.map_cons, List.cons.injEq]
          refine ⟨?_, ih⟩
          rw [aggregate_metric_layout B _ _ m h1, aggregate_server_layout B _ _ srv h2]

theorem pool_entry_layout (B : Build) (st : stats) (pool : server_pool) (fidx : Nat)
    (k : stats_metric → Bool) (v : stats_metric → Int) (st2 : stats)
    (h : (if st.pause ≠ 0 then some st
          else match stats_pool_to_metric st pool fidx with
            | none => none
            | some (st1, stm) =>
              if assert_fails B (k stm) then none
              else some (stats_pool_store st1 pool fidx { stm with value := v stm })) = some st2) :
    zero_gen st2.current = zero_gen st.current := by
  split at h
  · simp only [Option.some.injEq] at h
    rw [h]
  · cases hto : stats_pool_to_metric st pool fidx with
    | none => simp [hto] at h
    | some x =>
      rcases x with ⟨st1, stm⟩
      have e := pool_to_metric_some st pool fidx st1 stm hto
      have hm := pool_to_metric_at st pool fidx st1 stm hto
      simp only [hto] at h
      split at h
      · simp at h
      · simp only [Option.some.injEq] at h
        rw [← h, pool_store_eq, e]
        exact zero_gen_put_at _ _ _ _ hm

theorem server_entry_layout (B : Build) (st : stats) (server : server) (fidx : Nat)
    (k : stats_metric → Bool) (v : stats_metric → Int) (st2 : stats)
    (h : (if st.pause ≠ 0 then some st
          else match stats_server_to_metric st server fidx with
            | none => none
            | some (st1, stm) =>
              if assert_fails B (k stm) then none
              else some (stats_server_store st1 server fidx { stm with value := v stm }))
          = some st2) :
    zero_gen st2.current = zero_gen st.current := by
  split at h
  · simp only [Option.some.injEq] at h
    rw [h]
  · cases hto : stats_server_to_metric st server fidx with
    | none => simp [hto] at h
    | some x =>
      rcases x with ⟨st1, stm⟩
      have e := server_to_metric_some st server fidx st1 stm hto
      have hm := server_to_metric_at st server fidx st1 stm hto
      simp only [hto] at h
      split at h
      · simp at h
      · simp only [Option.some.injEq] at h
        rw [← h, server_store_eq, e]
        exact zero_gen_put_at _ _ _ _ hm

/-- An entry point keeps the layout of `current`. -/
theorem stats_apply_layout (B : Build) (op : stats_op) (t : incr_target) (st st2 : stats)
    (h : stats_apply B op t st = some st2) : zero_gen st2.current = zero_gen st.current := by
  cases t with
  | pool p fidx =>
    cases op with
    | incr => exact pool_entry_layout B st p fidx _ (fun stm => wrap64 (stm.value + 1)) st2 h
    | decr => exact pool_entry_layout B st p fidx _ (fun stm => wrap64 (stm.value - 1)) st2 h
    | incr_by val =>
      exact pool_entry_layout B st p fidx _ (fun stm => wrap64 (stm.value + val)) st2 h
    | decr_by val =>
      exact pool_entry_layout B st p fidx _ (fun stm => wrap64 (stm.value - val)) st2 h
    | set_ts val => exact pool_entry_layout B st p fidx _ (fun _ => val) st2 h
  | server s fidx =>
    cases op with
    | incr => exact server_entry_layout B st s fidx _ (fun stm => wrap64 (stm.value + 1)) st2 h
    | decr => exact server_entry_layout B st s fidx _ (fun stm => wrap64 (stm.value - 1)) st2 h
    | incr_by val =>
      exact server_entry_layout B st s fidx _ (fun stm => wrap64 (stm.value + val)) st2 h
    | decr_by val =>
      exact server_entry_layout B st s fidx _ (fun stm => wrap64 (stm.value - val)) st2 h
    | set_ts val => exact server_entry_layout B st s fidx _ (fun _ => val) st2 h

theorem zero_gen_idem (g : List stats_pool) : zero_gen (zero_gen g) = zero_gen g := by
  simp [zero_gen, Function.comp_def, zero_metric_idem]

theorem swap_layout (B : Build) (L : List stats_pool) (st st1 : stats)
    (h : stats_swap B st = some st1) (hl : same_layout L st) : same_layout L st1 := by
  unfold stats_swap at h
  split at h
  · simp only [Option.some.injEq] at h
    rw [← h]
    exact hl
  · split at h
    · simp only [Option.some.injEq] at h
      rw [← h]
      exact hl
    · split at h
      · simp only [Option.some.injEq] at h
        rw [← h]
        exact hl
      · split at h
        · simp only [Option.some.injEq] at h
          rw [← h]
          exact hl
        · split at h
          · simp at h
          · rename_i cur hcur
            simp only [Option.some.injEq] at h
            rw [← h]
            obtain ⟨h1, h2, h3⟩ := hl
            exact ⟨by rw [← h2]; exact pool_reset_layout B _ cur hcur, h1, h3⟩

theorem op_layout (B : Build) (L : List stats_pool) (o : engine_op) (st st1 : stats)
    (h : o.run B st = some st1) (hl : same_layout L st) : same_layout L st1 := by
  obtain ⟨h1, h2, h3⟩ := hl
  cases o with
  | apply op t =>
    simp only [engine_op.run] at h
    obtain ⟨cur, u, e⟩ := stats_apply_frame B op t st st1 h
    have hc := stats_apply_layout B op t st st1 h
    exact ⟨by rw [hc]; exact h1, by rw [e]; exact h2, by rw [e]; exact h3⟩
  | anyway t val =>
    simp only [engine_op.run] at h
    obtain ⟨cur, e, _, _⟩ := anyway_frame B t val st st1 h
    have hc := anyway_layout B t val st st1 h
    exact ⟨by rw [hc]; exact h1, by rw [e]; exact h2, by rw [e]; exact h3⟩
  | swap =>
    simp only [engine_op.run] at h
    exact swap_layout B L st st1 h ⟨h1, h2, h3⟩
  | aggregate =>
    simp only [engine_op.run] at h
    unfold stats_aggregate at h
    split at h
    · simp only [Option.some.injEq] at h
      rw [← h]
      exact ⟨h1, h2, h3⟩
    · split at h
      · simp at h
      · rename_i sum1 hsum
        simp only [Option.some.injEq] at h
        rw [← h]
        exact ⟨h1, h2, by rw [← h3]; exact aggregate_pool_layout B _ _ sum1 hsum⟩
  | make_rsp env =>
    simp only [engine_op.run] at h
    cases hr : stats_make_rsp B env st with
    | none => simp [hr] at h
    | some x =>
      rcases x with ⟨s, st2⟩
      simp only [hr, Option.map_some', Option.some.injEq] at h
      subst h
      obtain ⟨e1, e2, e3⟩ := buf_only_gens st st2 (make_rsp_buf_only B env st s st2 hr)
      exact ⟨by rw [e1]; exact h1, by rw [e2]; exact h2, by rw [e3]; exact h3⟩

theorem run_ops_layout (B : Build) (L : List stats_pool) :
    ∀ (ops : List engine_op) (st st1 : stats), run_ops B ops st = some st1 →
      same_layout L st → same_layout L st1
  | [], st, st1, h, hl => by
    simp only [run_ops, Option.some.injEq] at h
    rw [← h]
    exact hl
  | o :: rest, st, st1, h, hl => by
    simp only [run_ops] at h
    cases h1 : o.run B st with
    | none => simp [h1] at h
    | some st2 =>
      simp only [h1] at h
      exact run_ops_layout B L rest st2 st1 h (op_layout B L o st st2 h1 hl)

/-- C28 (layout invariant). Every engine reached from a built engine, whose
three generations are the mirror of its topology, by any sequence of
instrumentation entry points (the "anyway" variants included), `stats_swap`,
`stats_aggregate` and `stats_make_rsp` has three generations that, values set
aside, are still that mirror: the same pools, servers and metric sets with the
same names and kinds, in the same order; hence the pool count and the names
and kinds per position are the same in the three generations. -/
theorem layout_invariant (B : Build) (server_pool : List server_pool) (st0 : stats)
    (ops : List engine_op) (st : stats)
    (hc : st0.current = mirror_gen B server_pool) (hs : st0.shadow = mirror_gen B server_pool)
    (hm : st0.sum = mirror_gen B server_pool) (hrun : run_ops B ops st0 = some st) :
    same_layout (mirror_gen B server_pool) st ∧
    gen_shape st.current = gen_shape st.shadow ∧ gen_shape st.shadow = gen_shape st.sum ∧
    gen_names st.current = gen_names st.shadow ∧ gen_names st.shadow = gen_names st.sum ∧
    st.current.length = server_pool.length ∧ st.shadow.length = server_pool.length ∧
    st.sum.length = server_pool.length := by
  have h0 : same_layout (mirror_gen B server_pool) st0 :=
    ⟨by rw [hc]; exact zero_gen_mirror B _, by rw [hs]; exact zero_gen_mirror B _,
     by rw [hm]; exact zero_gen_mirror B _⟩
  have h := run_ops_layout B _ ops st0 st hrun h0
  obtain ⟨h1, h2, h3⟩ := h
  have len : ∀ g : List stats_pool, zero_gen g = mirror_gen B server_pool →
      g.length = server_pool.length := by
    intro g hg
    have := congrArg List.length hg
    simpa [zero_gen, mirror_gen] using this
  refine ⟨⟨h1, h2, h3⟩, ?_, ?_, ?_, ?_, len _ h1, len _ h2, len _ h3⟩
  · rw [← gen_shape_zero_gen st.current, ← gen_shape_zero_gen st.shadow, h1, h2]
  · rw [← gen_shape_zero_gen st.shadow, ← gen_shape_zero_gen st.sum, h2, h3]
  · rw [← gen_names_zero_gen st.current, ← gen_names_zero_gen st.shadow, h1, h2]
  · rw [← gen_names_zero_gen st.shadow, ← gen_names_zero_gen st.sum, h2, h3]

set_option maxRecDepth 100000 in
/-- Witness of C28: the built sample engine after an increment, a seeding
increment, a timestamp store, a swap, an aggregation and a render. -/
theorem layout_invariant_witness :
    ∃ st, run_ops demo_build
        [.apply .incr (.pool demo_pool 0), .anyway (.server demo_server 1) 4,
         .apply (.set_ts 99) (.server demo_server 2), .swap, .aggregate, .make_rsp demo_env]
        (stats_created demo_build demo_env [104] [demo_pool]) = some st ∧
      same_layout (mirror_gen demo_build [demo_pool]) st ∧
      gen_shape st.current = gen_shape st.shadow ∧ gen_shape st.shadow = gen_shape st.sum ∧
      gen_names st.current = gen_names st.shadow ∧ gen_names st.shadow = gen_names st.sum ∧
      st.current.length = [demo_pool].length ∧ st.shadow.length = [demo_pool].length ∧
      st.sum.length = [demo_pool].length := by
  cases h : run_ops demo_build
      [.apply .incr (.pool demo_pool 0), .anyway (.server demo_server 1) 4,
       .apply (.set_ts 99) (.server demo_server 2), .swap, .aggregate, .make_rsp demo_env]
      (stats_created demo_build demo_env [104] [demo_pool]) with
  | none => exact absurd h (by decide)
  | some st =>
    exact ⟨st, rfl, layout_invariant demo_build [demo_pool]
      (stats_created demo_build demo_env [104] [demo_pool]) _ st rfl rfl rfl h⟩

/-! ## The seeding of a rebuilt engine -/

theorem getElem?_append_length {α : Type} : ∀ (a : List α) (x : α) (r : List α),
    (a ++ x :: r)[a.length]? = some x
  | [], _, _ => by simp
  | _ :: a, x, r => by
    simp only [List.cons_append, List.length_cons, List.getElem?_cons_succ]
    exact getElem?_append_length a x r

theorem set_append_length {α : Type} : ∀ (a : List α) (x y : α) (r : List α),
    (a ++ x :: r).set a.length y = a ++ y :: r
  | [], _, _, _ => rfl
  | _ :: a, x, y, r => by
    simp only [List.cons_append, List.length_cons, List.set_cons_succ, List.cons.injEq, true_and]
    exact set_append_length a x y r

theorem set_set_same {α : Type} : ∀ (l : List α) (i : Nat) (x y : α),
    (l.set i x).set i y = l.set i y
  | [], _, _, _ => rfl
  | _ :: _, 0, _, _ => rfl
  | _ :: l, i + 1, x, y => by
    simp only [List.set_cons_succ, List.cons.injEq, true_and]
    exact set_set_same l i x y

theorem zero_metric_value (codec : List stats_metric) (k : Nat) (stm : stats_metric)
    (h : (zero_metric codec)[k]? = some stm) : stm.value = 0 := by
  simp only [zero_metric, List.getElem?_map] at h
  cases hc : codec[k]? with
  | none => simp [hc] at h
  | some x =>
    simp only [hc, Option.map_some', Option.some.injEq] at h
    rw [← h]

theorem pool_anyway_some (B : Build) (st : stats) (pool : server_pool) (fidx : Nat) (val : Int)
    (st1 : stats) (h : _stats_pool_incr_by_anyway B st pool fidx val = some st1) :
    ∃ stm, metric_at st.current (.pool pool.idx fidx) = some stm ∧
      st1 = { st with
                updated := 1
                current := put_at st.current (.pool pool.idx fidx)
                             { stm with value := wrap64 (stm.value + val) } } := by
  unfold _stats_pool_incr_by_anyway at h
  cases hto : stats_pool_to_metric st pool fidx with
  | none => simp [hto] at h
  | some x =>
    rcases x with ⟨st0, stm⟩
    have e := pool_to_metric_some st pool fidx st0 stm hto
    have hm := pool_to_metric_at st pool fidx st0 stm hto
    simp only [hto] at h
    split at h
    · simp at h
    · simp only [Option.some.injEq] at h
      refine ⟨stm, hm, ?_⟩
      rw [← h, pool_store_eq, e]

theorem server_anyway_some (B : Build) (st : stats) (server : server) (fidx : Nat) (val : Int)
    (st1 : stats) (h : _stats_server_incr_by_anyway B st server fidx val = some st1) :
    ∃ stm, metric_at st.current (.server server.owner_idx server.idx fidx) = some stm ∧
      st1 = { st with
                updated := 1
                current := put_at st.current (.server server.owner_idx server.idx fidx)
                             { stm with value := wrap64 (stm.value + val) } } := by
  unfold _stats_server_incr_by_anyway at h
  cases hto : stats_server_to_metric st server fidx with
  | none => simp [hto] at h
  | some x =>
    rcases x with ⟨st0, stm⟩
    have e := server_to_metric_some st server fidx st0 stm hto
    have hm := server_to_metric_at st server fidx st0 stm hto
    simp only [hto] at h
    split at h
    · simp at h
    · simp only [Option.some.injEq] at h
      refine ⟨stm, hm, ?_⟩
      rw [← h, server_store_eq, e]

theorem updated_same (st : stats) (g : List stats_pool) (h : st.updated = 1) :
    ({ st with updated := 1, current := g } : stats) = { st with current := g } := by
  cases st
  simp only at h
  subst h
  rfl

theorem getElem?_set_same {α : Type} (l : List α) (i : Nat) (x y : α) (h : l[i]? = some x) :
    (l.set i y)[i]? = some y := by
  have hlt : i < l.length := by
    rcases List.getElem?_eq_some.mp h with ⟨hl, _⟩
    exact hl
  simp [List.getElem?_set, hlt]

theorem seed_metric_eq (m : List stats_metric) (k : Nat) (stm : stats_metric) (v : Int)
    (h : m[k]? = some stm) : seed_metric m k v = m.set k { stm with value := v } := by
  simp [seed_metric, h]

/-- The inner seeding loop, started in the middle of a pool: the servers
already seeded stay, the mirrored ones that follow are seeded in turn. -/
theorem seed_servers_eq (B : Build) (F : Fields) (i : Nat) :
    ∀ (rest : List server) (pre : List stats_server) (st st1 : stats) (stp : stats_pool),
      st.current[i]? = some stp → stp.server = pre ++ mirror_servers B rest →
      servers_indexed i pre.length rest = true →
      (∀ s ∈ rest, int64_ok (count_connected s.s_conn_q)) →
      st.updated = 1 →
      stats_recreate_seed_servers B F rest st = some st1 →
      st1 =
        { st with
          current := st.current.set i { stp with server := pre ++ seeded_servers B F rest } }
  | [], pre, st, st1, stp, hcur, hsrv, _, _, _, h => by
    simp only [stats_recreate_seed_servers, Option.some.injEq] at h
    have e : ({ stp with server := pre ++ seeded_servers B F [] } : stats_pool) = stp := by
      simp only [mirror_servers, List.map_nil] at hsrv
      simp only [seeded_servers, List.map_nil, ← hsrv]
    rw [e, set_same _ _ _ hcur, ← h]
  | s :: rest, pre, st, st1, stp, hcur, hsrv, hidx, hv, hupd, h => by
    simp only [servers_indexed, Bool.and_eq_true, beq_iff_eq] at hidx
    obtain ⟨⟨hi1, hi2⟩, hi3⟩ := hidx
    simp only [stats_recreate_seed_servers] at h
    cases h1 : _stats_server_incr_by_anyway B st s F.server_connections
        (count_connected s.s_conn_q) with
    | none => simp [h1] at h
    | some st0 =>
      simp only [h1] at h
      obtain ⟨stm, hm, e0⟩ := server_anyway_some B st s _ _ st0 h1
      have hsts : stp.server[pre.length]?
          = some { name := s.name, metric := zero_metric B.stats_server_codec } := by
        rw [hsrv]
        simp only [mirror_servers, List.map_cons]
        exact getElem?_append_length _ _ _
      rw [hi1, hi2] at hm e0
      simp only [metric_at, hcur, hsts] at hm
      have hval := zero_metric_value _ _ _ hm
      have hw : wrap64 (stm.value + count_connected s.s_conn_q) = count_connected s.s_conn_q := by
        rw [hval, Int.zero_add]
        exact wrap64_of_ok (hv s (List.mem_cons_self _ _))
      rw [hw] at e0
      simp only [put_at, hcur, hsts] at e0
      obtain ⟨Y, hY⟩ : ∃ Y : stats_server, Y =
          { name := s.name,
            metric := seed_metric (zero_metric B.stats_server_codec) F.server_connections
                        (count_connected s.s_conn_q) } := ⟨_, rfl⟩
      have hset : stp.server.set pre.length
            { name := s.name,
              metric := (zero_metric B.stats_server_codec).set F.server_connections
                          { stm with value := count_connected s.s_conn_q } }
          = pre ++ Y :: mirror_servers B rest := by
        rw [hsrv, hY, seed_metric_eq _ _ _ _ hm]
        simp only [mirror_servers, List.map_cons]
        exact set_append_length _ _ _ _
      rw [hset] at e0
      obtain ⟨stp1, hstp1⟩ : ∃ x : stats_pool, x =
          { stp with server := pre ++ Y :: mirror_servers B rest } := ⟨_, rfl⟩
      rw [← hstp1] at e0
      have ih := seed_servers_eq B F i rest (pre ++ [Y]) st0 st1 stp1
        (by rw [e0]; exact getElem?_set_same _ _ _ _ hcur)
        (by rw [hstp1]; simp)
        (by simpa using hi3)
        (fun x hx => hv x (List.mem_cons_of_mem _ hx))
        (by rw [e0])
        h
      rw [ih, e0, hstp1]
      simp only [set_set_same, seeded_servers, List.map_cons, List.append_assoc,
        List.singleton_append, ← hY]
      exact updated_same st _ hupd

/-- The seeding loop, started in the middle of the topology: the pools
already seeded stay, the mirrored ones that follow are seeded in turn. -/
theorem seed_eq (B : Build) (F : Fields) :
    ∀ (rest : List server_pool) (pre : List stats_pool) (st st1 : stats),
      st.current = pre ++ mirror_gen B rest → pools_indexed pre.length rest = true →
      seeds_ok rest → stats_recreate_seed B F rest st = some st1 →
      st1 = { st with updated := (if rest.isEmpty then st.updated else 1),
                      current := pre ++ seeded_gen B F rest }
  | [], pre, st, st1, hcur, _, _, h => by
    simp only [stats_recreate_seed, Option.some.injEq] at h
    simp only [mirror_gen, List.map_nil] at hcur
    simp only [List.isEmpty_nil, if_true, seeded_gen, List.map_nil, ← hcur, ← h]
  | sp :: rest, pre, st, st1, hcur, hidx, hv, h => by
    simp only [pools_indexed, Bool.and_eq_true, beq_iff_eq] at hidx
    obtain ⟨⟨hi1, hi2⟩, hi3⟩ := hidx
    simp only [stats_recreate_seed] at h
    cases h1 : _stats_pool_incr_by_anyway B st sp F.client_connections sp.nc_conn_q with
    | none => simp [h1] at h
    | some st0 =>
      simp only [h1] at h
      cases h2 : stats_recreate_seed_servers B F sp.server st0 with
      | none => simp [h2] at h
      | some st2 =>
        simp only [h2] at h
        obtain ⟨stm, hm, e0⟩ := pool_anyway_some B st sp _ _ st0 h1
        obtain ⟨M, hM⟩ : ∃ M : stats_pool, M =
            { name := sp.name, metric := zero_metric B.stats_pool_codec,
              server := mirror_servers B sp.server } := ⟨_, rfl⟩
        have hcur2 : st.current = pre ++ M :: mirror_gen B rest := by
          rw [hcur, hM]
          simp only [mirror_gen, List.map_cons, mirror_servers]
        have hget : st.current[pre.length]? = some M := by
          rw [hcur2]
          exact getElem?_append_length _ _ _
        rw [hi1] at hm e0
        simp only [metric_at, hget] at hm
        have hmM : (zero_metric B.stats_pool_codec)[F.client_connections]? = some stm := by
          rw [hM] at hm
          exact hm
        have hval := zero_metric_value _ _ _ hmM
        have hw : wrap64 (stm.value + sp.nc_conn_q) = sp.nc_conn_q := by
          rw [hval, Int.zero_add]
          exact wrap64_of_ok (hv sp (List.mem_cons_self _ _)).1
        rw [hw] at e0
        simp only [put_at, hget] at e0
        obtain ⟨stp, hstp⟩ : ∃ x : stats_pool, x =
            { name := sp.name,
              metric := seed_metric (zero_metric B.stats_pool_codec) F.client_connections
                          sp.nc_conn_q,
              server := mirror_servers B sp.server } := ⟨_, rfl⟩
        have hset : st.current.set pre.length
              { M with metric := M.metric.set F.client_connections
                                   { stm with value := sp.nc_conn_q } }
            = pre ++ stp :: mirror_gen B rest := by
          rw [hcur2, set_append_length, hstp, seed_metric_eq _ _ _ _ hmM, hM]
        rw [hset] at e0
        have hs := seed_servers_eq B F pre.length sp.server [] st0 st2 stp
          (by rw [e0]; exact getElem?_append_length _ _ _)
          (by rw [hstp]; simp)
          (by simpa using hi2)
          (fun x hx => (hv sp (List.mem_cons_self _ _)).2 x hx)
          (by rw [e0])
          h2
        obtain ⟨Z, hZ⟩ : ∃ Z : stats_pool, Z =
            { stp with server := seeded_servers B F sp.server } := ⟨_, rfl⟩
        have hst2 : st2 = { st with updated := 1, current := pre ++ Z :: mirror_gen B rest } := by
          rw [hs, e0]
          simp only [List.nil_append, set_append_length, ← hZ]
        have ih := seed_eq B F rest (pre ++ [Z]) st2 st1
          (by rw [hst2]; simp)
          (by simpa using hi3)
          (fun x hx => hv x (List.mem_cons_of_mem _ hx))
          h
        rw [ih, hst2]
        have hZ2 : Z = { name := sp.name,
                         metric := seed_metric (zero_metric B.stats_pool_codec)
                                     F.client_connections sp.nc_conn_q,
                         server := seeded_servers B F sp.server } := by
          rw [hZ, hstp]
        simp only [List.isEmpty_cons, Bool.false_eq_true, if_false, ite_self, seeded_gen,
          List.map_cons, List.append_assoc, List.singleton_append, ← hZ2]

theorem seed_metric_zero_get (codec : List stats_metric) (k : Nat) (v : Int) (f : Nat) :
    (seed_metric (zero_metric codec) k v)[f]?
      = (codec[f]?).map (fun (c : stats_metric) => { c with value := if f = k then v else 0 }) := by
  have hz : ∀ j : Nat, (zero_metric codec)[j]? = (codec[j]?).map (fun (c : stats_metric) => { c with value := 0 }) := by
    intro j
    simp [zero_metric, List.getElem?_map]
  unfold seed_metric
  cases hk : (zero_metric codec)[k]? with
  | none =>
    simp only
    rw [hz f]
    by_cases e : f = k
    · subst e
      rw [hz f] at hk
      cases hc : codec[f]? with
      | none => rfl
      | some c => simp [hc] at hk
    · simp [e]
  | some stm =>
    simp only
    have hlt : k < (zero_metric codec).length := by
      rcases List.getElem?_eq_some.mp hk with ⟨hl, _⟩
      exact hl
    by_cases e : f = k
    · subst e
      rw [hz f] at hk
      cases hc : codec[f]? with
      | none => simp [hc] at hk
      | some c =>
        simp only [hc, Option.map_some', Option.some.injEq] at hk
        simp [List.getElem?_set, hlt, ← hk]
    · have e2 : k ≠ f := fun x => e x.symm
      simp [List.getElem?_set, e2, e, hz f]

/-- The engine a successful `stats_recreate` returns, in closed form. -/
theorem recreate_seeded (B : Build) (F : Fields) (env : Env) (st : stats)
    (pools : List server_pool) (a : Alloc) (st1 : stats) (a1 : Alloc)
    (hvp : metric_valid B.stats_pool_codec = true)
    (hvs : metric_valid B.stats_server_codec = true)
    (hidx : topology_indexed pools = true) (hv : seeds_ok pools)
    (h : stats_recreate B F env st pools a = some (NC_OK, st1, a1)) :
    st1 = { st with start_ts := env.now, aggregate := 0,
                    sum := mirror_gen B pools, shadow := mirror_gen B pools,
                    current := seeded_gen B F pools,
                    updated := (if pools.isEmpty then 0 else 1) } := by
  unfold stats_recreate at h
  simp only [pool_unmap_eq] at h
  cases hc : stats_pool_map B pools a with
  | none => simp [hc] at h
  | some x =>
    rcases x with ⟨s1, cur, a2⟩
    cases s1 <;> simp only [hc, Option.some.injEq, Prod.mk.injEq, false_and, reduceCtorEq] at h
    have ecur := pool_map_ok B hvp hvs pools a cur a2 hc
    cases hd : stats_pool_map B pools a2 with
    | none => simp [hd] at h
    | some y =>
      rcases y with ⟨s2, shd, a3⟩
      cases s2 <;> simp only [hd, Option.some.injEq, Prod.mk.injEq, false_and, reduceCtorEq] at h
      have eshd := pool_map_ok B hvp hvs pools a2 shd a3 hd
      cases he : stats_pool_map B pools a3 with
      | none => simp [he] at h
      | some z =>
        rcases z with ⟨s3, sm, a4⟩
        cases s3 <;>
          simp only [he, Option.some.injEq, Prod.mk.injEq, false_and, reduceCtorEq] at h
        have esm := pool_map_ok B hvp hvs pools a3 sm a4 he
        subst ecur eshd esm
        split at h
        · simp at h
        · rename_i st2 hseed
          simp only [Option.some.injEq, Prod.mk.injEq, true_and] at h
          have e := seed_eq B F pools [] _ st2 (by simp) (by simpa [topology_indexed] using hidx)
            hv hseed
          rw [← h.1, e]
          simp

theorem count_connected_from (q : List conn) : ∀ (c : Int),
    q.foldl (fun count conn_s => if conn_s.connected then count + 1 else count) c
      = c + ((q.filter (fun conn_s => conn_s.connected)).length : Int) := by
  induction q with
  | nil => intro c; simp
  | cons x r ih =>
    intro c
    simp only [List.foldl_cons]
    rw [ih]
    cases hx : x.connected
    · simp [List.filter_cons, hx]
    · simp [List.filter_cons, hx]
      omega

/-- The count of the seeding loop is the number of entries of the queue that
are marked connected. -/
theorem count_connected_eq (q : List conn) :
    count_connected q = ((q.filter (fun conn_s => conn_s.connected)).length : Int) := by
  unfold count_connected
  rw [count_connected_from]
  simp

/-- Every metric of a mirror generation has the value 0. -/
theorem mirror_value_zero (B : Build) (pools : List server_pool) (pos : field_pos)
    (m : stats_metric) (h : metric_at (mirror_gen B pools) pos = some m) : m.value = 0 := by
  have hz : ∀ (codec : List stats_metric) (f : Nat) (x : stats_metric),
      (zero_metric codec)[f]? = some x → x.value = 0 := by
    intro codec f x hx
    simp only [zero_metric, List.getElem?_map] at hx
    cases hc : codec[f]? with
    | none => simp [hc] at hx
    | some c =>
      simp only [hc, Option.map_some', Option.some.injEq] at hx
      rw [← hx]
  cases pos with
  | pool i f =>
    simp only [metric_at, mirror_gen, List.getElem?_map] at h
    cases hp : pools[i]? with
    | none => simp [hp] at h
    | some sp =>
      simp only [hp, Option.map_some'] at h
      exact hz _ _ _ h
  | server i j f =>
    simp only [metric_at, mirror_gen, List.getElem?_map] at h
    cases hp : pools[i]? with
    | none => simp [hp] at h
    | some sp =>
      simp only [hp, Option.map_some'] at h
      cases hs : sp.server[j]? with
      | none => simp [List.getElem?_map, hs] at h
      | some s =>
        simp only [List.getElem?_map, hs, Option.map_some'] at h
        exact hz _ _ _ h

/-- C27 (rebuild seeding). Let `stats_recreate` return `NC_OK` over a topology
with at least one pool whose pools and servers are numbered by position and
whose connection counts are `int64_t` values. Then in the engine it returns
`updated` is 1, `shadow` and `sum` are the mirror of the topology and every
metric of them has the value 0, and in `current` the field
`client_connections` of every pool holds that pool's `nc_conn_q`, the field
`server_connections` of every server holds the number of entries of its
connection queue that are marked connected, and every other field holds 0
(names and kinds are those of the codec tables). -/
theorem rebuild_seeding (B : Build) (F : Fields) (env : Env) (st : stats)
    (pools : List server_pool) (a : Alloc) (st1 : stats) (a1 : Alloc)
    (hvp : metric_valid B.stats_pool_codec = true)
    (hvs : metric_valid B.stats_server_codec = true)
    (hidx : topology_indexed pools = true) (hv : seeds_ok pools) (hne : pools ≠ [])
    (h : stats_recreate B F env st pools a = some (NC_OK, st1, a1)) :
    st1.updated = 1 ∧
    st1.shadow = mirror_gen B pools ∧ st1.sum = mirror_gen B pools ∧
    (∀ pos m, metric_at st1.shadow pos = some m → m.value = 0) ∧
    (∀ pos m, metric_at st1.sum pos = some m → m.value = 0) ∧
    (∀ (i : Nat) (sp : server_pool), pools[i]? = some sp → ∀ f : Nat,
      metric_at st1.current (.pool i f)
        = (B.stats_pool_codec[f]?).map (fun (c : stats_metric) =>
            { c with value := if f = F.client_connections then sp.nc_conn_q else 0 })) ∧
    (∀ (i : Nat) (sp : server_pool) (j : Nat) (s : server),
      pools[i]? = some sp → sp.server[j]? = some s → ∀ f : Nat,
      metric_at st1.current (.server i j f)
        = (B.stats_server_codec[f]?).map (fun (c : stats_metric) =>
            { c with value := if f = F.server_connections
                then ((s.s_conn_q.filter (fun conn_s => conn_s.connected)).length : Int)
                else 0 })) := by
  have e := recreate_seeded B F env st pools a st1 a1 hvp hvs hidx hv h
  have hemp : pools.isEmpty = false := by
    cases pools with
    | nil => exact absurd rfl hne
    | cons x r => rfl
  rw [hemp] at e
  subst e
  refine ⟨rfl, rfl, rfl, ?_, ?_, ?_, ?_⟩
  · intro pos m hm
    exact mirror_value_zero B pools pos m hm
  · intro pos m hm
    exact mirror_value_zero B pools pos m hm
  · intro i sp hp f
    simp only [metric_at, seeded_gen, List.getElem?_map, hp, Option.map_some']
    exact seed_metric_zero_get _ _ _ _
  · intro i sp j s hp hs f
    simp only [metric_at, seeded_gen, seeded_servers, List.getElem?_map, hp, hs,
      Option.map_some']
    rw [seed_metric_zero_get, count_connected_eq]

set_option maxRecDepth 100000 in
/-- The paused sample engine rebuilt over the sample pool with live
connections. -/
theorem demo_live_recreate :
    stats_recreate demo_build demo_fields demo_env (demo_served (demo_gen 1 2 3 4 5) 1 1)
        [demo_live_pool] []
      = some (NC_OK, { demo_served (demo_gen 1 2 3 4 5) 1 1 with
                         start_ts := 1500, updated := 1,
                         current := demo_gen 0 3 0 2 0, shadow := demo_gen 0 0 0 0 0,
                         sum := demo_gen 0 0 0 0 0 }, []) := by
  decide

/-- Witness of C27: the paused sample engine rebuilt over a pool with three
client connections and a server with two connected connections out of three. -/
theorem rebuild_seeding_witness :
    (demo_served (demo_gen 1 2 3 4 5) 1 1).pause ≠ 0 ∧
    ∃ st1, stats_recreate demo_build demo_fields demo_env
        (demo_served (demo_gen 1 2 3 4 5) 1 1) [demo_live_pool] [] = some (NC_OK, st1, []) ∧
      st1.updated = 1 ∧ st1.shadow = mirror_gen demo_build [demo_live_pool] ∧
      st1.sum = mirror_gen demo_build [demo_live_pool] ∧
      metric_at st1.current (.pool 0 1)
        = some ⟨STATS_GAUGE, string_set_text "client_connections", 3⟩ ∧
      metric_at st1.current (.pool 0 0) = some ⟨STATS_COUNTER, string_set_text "client_eof", 0⟩ ∧
      metric_at st1.current (.server 0 0 1)
        = some ⟨STATS_GAUGE, string_set_text "server_connections", 2⟩ ∧
      metric_at st1.current (.server 0 0 0)
        = some ⟨STATS_COUNTER, string_set_text "requests", 0⟩ := by
  have hv : seeds_ok [demo_live_pool] := by
    intro sp hsp
    simp only [List.mem_singleton] at hsp
    subst hsp
    refine ⟨by decide, ?_⟩
    intro s hs
    simp only [demo_live_pool, List.mem_singleton] at hs
    subst hs
    decide
  have hw := rebuild_seeding demo_build demo_fields demo_env
    (demo_served (demo_gen 1 2 3 4 5) 1 1) [demo_live_pool] [] _ [] (by decide) (by decide)
    (by decide) hv (by simp) demo_live_recreate
  obtain ⟨h1, h2, h3, _, _, h6, h7⟩ := hw
  refine ⟨by decide, _, demo_live_recreate, h1, h2, h3, ?_, ?_, ?_, ?_⟩
  · exact h6 0 demo_live_pool rfl 1
  · exact h6 0 demo_live_pool rfl 0
  · exact h7 0 demo_live_pool 0 _ rfl rfl 1
  · exact h7 0 demo_live_pool 0 _ rfl rfl 0

/-! ## Stores within the buffer -/

theorem mem_write_get (data : List Nat) (pos : Nat) (bs : List Nat) (i : Nat)
    (hpos : pos ≤ data.length) (hi : i < bs.length) :
    (mem_write data pos bs)[pos + i]? = bs[i]? := by
  unfold mem_write
  have h0 : pos - data.length = 0 := by omega
  rw [h0]
  simp only [List.replicate_zero, List.append_nil, List.append_assoc]
  rw [List.getElem?_append_right (by simp only [List.length_take]; omega)]
  simp only [List.length_take, Nat.min_eq_left hpos, Nat.add_sub_cancel_left]
  rw [List.getElem?_append_left hi]

theorem buf_within_mono (b : stats_buffer) (S k j : Nat) (h : buf_within b S k) (hj : j ≤ k) :
    buf_within b S j := by
  obtain ⟨h1, h2, h3⟩ := h
  exact ⟨h1, h2, by omega⟩

/-- A formatted write that starts with a free byte stays within the buffer;
when it succeeds two bytes stay free and the document ends with the last two
bytes of the text. -/
theorem add_text_within (st : stats) (S : Nat) (pre : List Nat) (x y : Nat)
    (hw : buf_within st.buf S 1) (hS : S < 2 ^ 64) :
    step_within S (fun st1 => buf_within st1.buf S 2 ∧ buf_ends st1.buf x y)
      (stats_add_text st (pre ++ [x, y])) := by
  obtain ⟨h1, h2, h3⟩ := hw
  have hroom : size_t_wrap ((st.buf.size : Int) - st.buf.len - 1) = S - st.buf.len - 1 := by
    rw [h1]
    have e : ((S : Int) - st.buf.len - 1) = ((S - st.buf.len - 1 : Nat) : Int) := by omega
    rw [e, size_t_wrap_of_nat]
    omega
  have hlenw : (if S - st.buf.len - 1 = 0 then st.buf.data
      else mem_write st.buf.data st.buf.len
        (List.take (S - st.buf.len - 1 - 1) (pre ++ [x, y]) ++ [0])).length = S := by
    split
    · exact h2
    · rw [mem_write_length, h2]
      simp only [List.length_append, List.length_take, List.length_cons, List.length_nil]
      omega
  by_cases hc : (if (pre ++ [x, y]).length ≤ 2147483647 then ((pre ++ [x, y]).length : Int)
        else -1) < 0 ∨
      (if (pre ++ [x, y]).length ≤ 2147483647 then ((pre ++ [x, y]).length : Int) else -1)
        ≥ int_of_size_t (S - st.buf.len - 1)
  · unfold stats_add_text nc_snprintf
    simp only [hroom, hc, if_true]
    exact ⟨⟨h1, hlenw, by dsimp only; omega⟩, fun e => by cases e⟩
  · have hn : (pre ++ [x, y]).length ≤ 2147483647 := by
      by_contra hx
      apply hc
      left
      simp only [hx, if_false]
      omega
    have hc2 : ¬ (((pre ++ [x, y]).length : Int) < 0 ∨
        ((pre ++ [x, y]).length : Int) ≥ int_of_size_t (S - st.buf.len - 1)) := by
      simpa only [hn, if_true] using hc
    have hlt : (pre ++ [x, y]).length < S - st.buf.len - 1 :=
      int_of_size_t_le _ _ (by omega)
    have hr0 : S - st.buf.len - 1 ≠ 0 := by omega
    have htake : List.take (S - st.buf.len - 1 - 1) (pre ++ [x, y]) = pre ++ [x, y] :=
      List.take_of_length_le (by omega)
    have hlen2 : size_t_wrap ((st.buf.len : Int) + ((pre ++ [x, y]).length : Int))
        = st.buf.len + (pre ++ [x, y]).length := by
      have e : ((st.buf.len : Int) + ((pre ++ [x, y]).length : Int))
          = ((st.buf.len + (pre ++ [x, y]).length : Nat) : Int) := by omega
      rw [e, size_t_wrap_of_nat]
      omega
    simp only [hr0, if_false, htake] at hlenw
    have hl : (pre ++ [x, y]).length = pre.length + 2 := by simp
    unfold stats_add_text nc_snprintf
    simp only [hroom, hr0, if_false, htake, hn, if_true, hc2, hlen2]
    refine ⟨⟨h1, hlenw, by dsimp only; omega⟩, fun _ => ⟨⟨h1, hlenw, by dsimp only; omega⟩, ?_⟩⟩
    refine ⟨by dsimp only; omega, ?_, ?_⟩
    · dsimp only
      have e : st.buf.len + (pre ++ [x, y]).length - 2 = st.buf.len + pre.length := by omega
      rw [e, mem_write_get _ _ _ _ (by omega) (by simp), List.append_assoc]
      exact getElem?_append_off pre _ 0
    · dsimp only
      have e : st.buf.len + (pre ++ [x, y]).length - 1 = st.buf.len + (pre.length + 1) := by
        omega
      rw [e, mem_write_get _ _ _ _ (by omega) (by simp), List.append_assoc]
      exact getElem?_append_off pre _ 1

/-- Closing a nested object with two free bytes stays within the buffer and
leaves one byte free; after a pair or an opening it leaves two. -/
theorem end_nesting_within (B : Build) (st : stats) (S : Nat) (s : rstatus_t) (st1 : stats)
    (hw : buf_within st.buf S 2) (hS : S < 2 ^ 64)
    (h : stats_end_nesting B st = some (s, st1)) :
    buf_within st1.buf S 1 ∧
    ((buf_ends st.buf 44 32 ∨ buf_ends st.buf 32 123) →
      buf_within st1.buf S 2 ∧ (buf_ends st1.buf 32 123 ∨ buf_ends st1.buf 125 44)) := by
  obtain ⟨h1, h2, h3⟩ := hw
  unfold stats_end_nesting at h
  by_cases hl : st.buf.len < 2
  · simp [hl] at h
  · simp only [hl, if_false] at h
    cases hg : st.buf.data[st.buf.len - 2]? with
    | none => simp [hg] at h
    | some c =>
      simp only [hg] at h
      by_cases hc : c = 44
      · subst hc
        simp only [if_true] at h
        by_cases ha : assert_fails B (st.buf.data[st.buf.len - 1]? == some 32) = true
        · simp [ha] at h
        · simp only [ha, Bool.false_eq_true, if_false, Option.some.injEq, Prod.mk.injEq] at h
          obtain ⟨_, rfl⟩ := h
          have hlen : (mem_write st.buf.data (st.buf.len - 2) [125, 44]).length = S := by
            rw [mem_write_length, h2]
            simp only [List.length_cons, List.length_nil]
            omega
          have g0 := mem_write_get st.buf.data (st.buf.len - 2) [125, 44] 0 (by omega) (by simp)
          have g1 := mem_write_get st.buf.data (st.buf.len - 2) [125, 44] 1 (by omega) (by simp)
          have e1 : st.buf.len - 2 + 1 = st.buf.len - 1 := by omega
          rw [e1] at g1
          refine ⟨⟨h1, hlen, by dsimp only; omega⟩, fun _ => ⟨⟨h1, hlen, h3⟩, Or.inr ?_⟩⟩
          exact ⟨by dsimp only; omega, by simpa using g0, by simpa using g1⟩
      · simp only [hc, if_false] at h
        by_cases hb : c = 125
        · subst hb
          simp only [if_true] at h
          have he : st.buf.len ≠ st.buf.size := by omega
          simp only [he, if_false] at h
          by_cases ha : assert_fails B (st.buf.data[st.buf.len - 1]? == some 44) = true
          · simp [ha] at h
          · simp only [ha, Bool.false_eq_true, if_false, Option.some.injEq, Prod.mk.injEq] at h
            obtain ⟨_, rfl⟩ := h
            have hlen : (mem_write st.buf.data (st.buf.len - 1) [125, 44]).length = S := by
              rw [mem_write_length, h2]
              simp only [List.length_cons, List.length_nil]
              omega
            have e5 : size_t_wrap ((st.buf.len : Int) + 1) = st.buf.len + 1 := by
              have e : ((st.buf.len : Int) + 1) = ((st.buf.len + 1 : Nat) : Int) := by omega
              rw [e, size_t_wrap_of_nat]
              omega
            refine ⟨⟨h1, hlen, by dsimp only; rw [e5]; omega⟩, fun ht => ?_⟩
            rcases ht with ht | ht
            · obtain ⟨_, hx, _⟩ := ht
              rw [hg] at hx
              simp at hx
            · obtain ⟨_, hx, _⟩ := ht
              rw [hg] at hx
              simp at hx
        · simp only [hb, if_false] at h
          by_cases ha : assert_fails B false = true
          · simp [ha] at h
          · simp only [ha, Bool.false_eq_true, if_false, Option.some.injEq, Prod.mk.injEq] at h
            obtain ⟨_, rfl⟩ := h
            refine ⟨⟨h1, h2, by omega⟩, fun ht => ⟨⟨h1, h2, h3⟩, ?_⟩⟩
            rcases ht with ht | ht
            · obtain ⟨_, hx, _⟩ := ht
              rw [hg] at hx
              simp only [Option.some.injEq] at hx
              exact absurd hx hc
            · exact Or.inl ht

/-- A step after a step: the outcome is within the buffer when both are. -/
theorem and_then_within (S : Nat) (Q R : stats → Prop) (r : rstatus_t × stats)
    (k : stats → rstatus_t × stats) (hr : step_within S Q r)
    (hk : ∀ st, Q st → step_within S R (k st)) : step_within S R (and_then r k) := by
  rcases r with ⟨s, st⟩
  cases s
  · exact hk st (hr.2 rfl)
  all_goals exact ⟨hr.1, fun e => by cases e⟩

/-- The same for steps that can stop the process. -/
theorem and_then_opt_within (S : Nat) (Q R : stats → Prop) (r : Option (rstatus_t × stats))
    (k : stats → Option (rstatus_t × stats))
    (hr : ∀ x, r = some x → step_within S Q x)
    (hk : ∀ st, Q st → ∀ y, k st = some y → step_within S R y) :
    ∀ y, and_then_opt r k = some y → step_within S R y := by
  intro y hy
  cases r with
  | none => cases hy
  | some x =>
    rcases x with ⟨s, st⟩
    have hx := hr _ rfl
    cases s
    · exact hk st (hx.2 rfl) y hy
    all_goals
      simp only [and_then_opt, Option.some.injEq] at hy
      subst hy
      exact ⟨hx.1, fun e => by cases e⟩

theorem string_pair_ends (key val : string) : ∃ pre, string_pair key val = pre ++ [44, 32] :=
  ⟨[34] ++ cstr key ++ [34, 58, 34] ++ cstr val ++ [34], by simp [string_pair]⟩

theorem num_pair_ends (key : string) (val : Int) : ∃ pre, num_pair key val = pre ++ [44, 32] :=
  ⟨[34] ++ cstr key ++ [34, 58] ++ fmt_int64 val, by simp [num_pair]⟩

theorem nest_open_ends (key : string) : ∃ pre, nest_open key = pre ++ [32, 123] :=
  ⟨[34] ++ cstr key ++ [34, 58], by simp [nest_open]⟩

theorem add_pair_within (st : stats) (S : Nat) (text : List Nat) (hS : S < 2 ^ 64)
    (hw : after_pool S st)
    (ht : (∃ pre, text = pre ++ [44, 32]) ∨ (∃ pre, text = pre ++ [32, 123])) :
    step_within S (after_add S) (stats_add_text st text) := by
  rcases ht with ⟨pre, rfl⟩ | ⟨pre, rfl⟩
  · have h := add_text_within st S pre 44 32 hw hS
    exact ⟨h.1, fun e => ⟨(h.2 e).1, Or.inl (h.2 e).2⟩⟩
  · have h := add_text_within st S pre 32 123 hw hS
    exact ⟨h.1, fun e => ⟨(h.2 e).1, Or.inr (h.2 e).2⟩⟩

theorem after_add_pool (S : Nat) (st : stats) (h : after_add S st) : after_pool S st :=
  buf_within_mono _ _ _ _ h.1 (by omega)

theorem after_add_server (S : Nat) (st : stats) (h : after_add S st) : after_server S st :=
  ⟨h.1, h.2.elim Or.inl (fun x => Or.inr (Or.inl x))⟩

theorem copy_metric_within (S : Nat) (hS : S < 2 ^ 64) :
    ∀ (m : List stats_metric) (st : stats), after_add S st →
      step_within S (after_add S) (stats_copy_metric st m)
  | [], st, h => ⟨buf_within_mono _ _ _ _ h.1 (by omega), fun _ => h⟩
  | stm :: rest, st, h => by
    unfold stats_copy_metric
    exact and_then_within S (after_add S) (after_add S) _ _
      (add_pair_within st S _ hS (after_add_pool S st h) (Or.inl (num_pair_ends _ _)))
      (fun st1 h1 => copy_metric_within S hS rest st1 h1)

theorem make_rsp_servers_within (B : Build) (S : Nat) (hS : S < 2 ^ 64) :
    ∀ (l : List stats_server) (st : stats), after_server S st →
      ∀ y, stats_make_rsp_servers B st l = some y → step_within S (after_server S) y
  | [], st, h, y, hy => by
    simp only [stats_make_rsp_servers, Option.some.injEq] at hy
    subst hy
    exact ⟨buf_within_mono _ _ _ _ h.1 (by omega), fun _ => h⟩
  | sts :: rest, st, h, y, hy => by
    unfold stats_make_rsp_servers at hy
    refine and_then_opt_within S (after_add S) (after_server S) _ _ ?_ ?_ y hy
    · intro x hx
      simp only [Option.some.injEq] at hx
      subst hx
      exact add_pair_within st S _ hS (buf_within_mono _ _ _ _ h.1 (by omega))
        (Or.inr (nest_open_ends _))
    · intro st1 h1
      refine and_then_opt_within S (after_add S) (after_server S) _ _ ?_ ?_
      · intro x hx
        simp only [Option.some.injEq] at hx
        subst hx
        exact copy_metric_within S hS _ st1 h1
      · intro st2 h2
        refine and_then_opt_within S (after_server S) (after_server S) _ _ ?_ ?_
        · intro x hx
          have he := end_nesting_within B st2 S x.1 x.2 h2.1 hS hx
          have ht := he.2 h2.2
          exact ⟨buf_within_mono _ _ _ _ he.1 (by omega),
            fun _ => ⟨ht.1, ht.2.elim (fun a => Or.inr (Or.inl a)) (fun a => Or.inr (Or.inr a))⟩⟩
        · intro st3 h3
          exact make_rsp_servers_within B S hS rest st3 h3

theorem make_rsp_pools_within (B : Build) (S : Nat) (hS : S < 2 ^ 64) :
    ∀ (g : List stats_pool) (st : stats), after_pool S st →
      ∀ y, stats_make_rsp_pools B st g = some y → step_within S (after_pool S) y
  | [], st, h, y, hy => by
    simp only [stats_make_rsp_pools, Option.some.injEq] at hy
    subst hy
    exact ⟨buf_within_mono _ _ _ _ h (by omega), fun _ => h⟩
  | stp :: rest, st, h, y, hy => by
    unfold stats_make_rsp_pools at hy
    refine and_then_opt_within S (after_add S) (after_pool S) _ _ ?_ ?_ y hy
    · intro x hx
      simp only [Option.some.injEq] at hx
      subst hx
      exact add_pair_within st S _ hS h (Or.inr (nest_open_ends _))
    · intro st1 h1
      refine and_then_opt_within S (after_add S) (after_pool S) _ _ ?_ ?_
      · intro x hx
        simp only [Option.some.injEq] at hx
        subst hx
        exact copy_metric_within S hS _ st1 h1
      · intro st2 h2
        refine and_then_opt_within S (after_server S) (after_pool S) _ _ ?_ ?_
        · intro x hx
          exact make_rsp_servers_within B S hS _ st2 (after_add_server S st2 h2) x hx
        · intro st3 h3
          refine and_then_opt_within S (after_pool S) (after_pool S) _ _ ?_ ?_
          · intro x hx
            have he := end_nesting_within B st3 S x.1 x.2 h3.1 hS hx
            exact ⟨buf_within_mono _ _ _ _ he.1 (by omega), fun _ => he.1⟩
          · intro st4 h4
            exact make_rsp_pools_within B S hS rest st4 h4

theorem add_header_within (st : stats) (env : Env) (S : Nat) (h2 : 2 ≤ S) (hS : S < 2 ^ 64)
    (hsz : st.buf.size = S) (hd : st.buf.data.length = S) :
    step_within S (after_add S) (stats_add_header st env) := by
  unfold stats_add_header
  have h0 : after_pool S { st with buf := { st.buf with data := mem_write st.buf.data 0 [123],
                                                         len := 1 } } := by
    refine ⟨hsz, ?_, by dsimp only; omega⟩
    dsimp only
    rw [mem_write_length, hd]
    simp only [List.length_cons, List.length_nil]
    omega
  refine and_then_within S (after_add S) _ _ _
    (add_pair_within _ S _ hS h0 (Or.inl (string_pair_ends _ _))) (fun st1 h1 => ?_)
  refine and_then_within S (after_add S) _ _ _
    (add_pair_within _ S _ hS (after_add_pool S _ h1) (Or.inl (string_pair_ends _ _)))
    (fun st2 h2 => ?_)
  refine and_then_within S (after_add S) _ _ _
    (add_pair_within _ S _ hS (after_add_pool S _ h2) (Or.inl (string_pair_ends _ _)))
    (fun st3 h3 => ?_)
  refine and_then_within S (after_add S) _ _ _
    (add_pair_within _ S _ hS (after_add_pool S _ h3) (Or.inl (num_pair_ends _ _)))
    (fun st4 h4 => ?_)
  refine and_then_within S (after_add S) _ _ _
    (add_pair_within _ S _ hS (after_add_pool S _ h4) (Or.inl (num_pair_ends _ _)))
    (fun st5 h5 => ?_)
  refine and_then_within S (after_add S) _ _ _
    (add_pair_within _ S _ hS (after_add_pool S _ h5) (Or.inl (num_pair_ends _ _)))
    (fun st6 h6 => ?_)
  refine and_then_within S (after_add S) _ _ _
    (add_pair_within _ S _ hS (after_add_pool S _ h6) (Or.inl (num_pair_ends _ _)))
    (fun st7 h7 => ?_)
  exact add_pair_within _ S _ hS (after_add_pool S _ h7) (Or.inl (num_pair_ends _ _))

theorem add_footer_within (st : stats) (S : Nat) (hS : S < 2 ^ 64) (hw : after_pool S st)
    (y : rstatus_t × stats) (hy : stats_add_footer st = some y) :
    step_within S (fun _ => True) y := by
  obtain ⟨h1, h2, h3⟩ := hw
  unfold stats_add_footer at hy
  by_cases he : st.buf.len = st.buf.size
  · simp only [he, if_true, Option.some.injEq] at hy
    subst hy
    exact ⟨⟨h1, h2, by omega⟩, fun _ => trivial⟩
  · simp only [he, if_false] at hy
    by_cases hz : st.buf.len = 0
    · simp [hz] at hy
    · simp only [hz, if_false, Option.some.injEq] at hy
      subst hy
      have e5 : size_t_wrap ((st.buf.len : Int) + 1) = st.buf.len + 1 := by
        have e : ((st.buf.len : Int) + 1) = ((st.buf.len + 1 : Nat) : Int) := by omega
        rw [e, size_t_wrap_of_nat]
        omega
      refine ⟨⟨h1, ?_, by dsimp only; rw [e5]; omega⟩, fun _ => trivial⟩
      dsimp only
      rw [mem_write_length, h2]
      simp only [List.length_cons, List.length_nil]
      omega

/-- In a buffer of at least two bytes `stats_make_rsp` stores nothing outside
the buffer: whatever it returns, the memory is the `size` bytes it was and
`len` is at most `size`; when the status is not `NC_OK`, `stats_send_rsp`
returns that status and hands nothing to `nc_sendn`. -/
theorem make_rsp_bounded (B : Build) (env : Env) (net : Net) (st : stats) (s : rstatus_t)
    (st1 : stats) (h2 : 2 ≤ st.buf.size) (hS : st.buf.size < 2 ^ 64)
    (hd : st.buf.data.length = st.buf.size)
    (h : stats_make_rsp B env st = some (s, st1)) :
    st1.buf.size = st.buf.size ∧ st1.buf.data.length = st.buf.size ∧
    st1.buf.len ≤ st.buf.size ∧
    (s ≠ NC_OK → stats_send_rsp B env net st = some (s, st1, none)) := by
  have hw : step_within st.buf.size (fun _ => True) (s, st1) := by
    unfold stats_make_rsp at h
    refine and_then_opt_within st.buf.size (after_add st.buf.size) (fun _ => True) _ _ ?_ ?_ _ h
    · intro x hx
      simp only [Option.some.injEq] at hx
      subst hx
      exact add_header_within st env _ h2 hS rfl hd
    · intro sta ha
      refine and_then_opt_within st.buf.size (after_pool st.buf.size) (fun _ => True) _ _ ?_ ?_
      · intro x hx
        exact make_rsp_pools_within B _ hS _ sta (after_add_pool _ _ ha) x hx
      · intro stb hb y hy
        exact add_footer_within stb _ hS hb y hy
  obtain ⟨⟨e1, e2, e3⟩, _⟩ := hw
  refine ⟨e1, e2, by simpa using e3, fun hs => ?_⟩
  unfold stats_send_rsp
  rw [h]
  cases s
  · exact absurd rfl hs
  all_goals rfl

set_option maxRecDepth 100000 in
/-- C26 (bounded rendering), evaluated where it fails. The paused sample engine
is rebuilt while the allocation of the new response buffer fails: the callback
ignores the status of `stats_recreate_buf`, clears `pause` and leaves a buffer
of capacity 0 with no memory. On the next request `stats_make_rsp` stores the
opening brace at offset 0 and, the room `size - len - 1` having wrapped around,
the whole first header pair behind it: 26 bytes are written although the
capacity is 0. The render returns `NC_ERROR` and nothing is sent. -/
theorem bounded_rendering_defect :
    demo_no_buf.map (fun st1 => (st1.pause, st1.buf.size, st1.buf.data)) = some (0, 0, []) ∧
    (demo_no_buf.bind (stats_make_rsp demo_build demo_env)).map
        (fun r => (r.1, r.2.buf.size, r.2.buf.data.length)) = some (NC_ERROR, 0, 26) ∧
    (demo_no_buf.bind (fun st1 =>
        stats_loop_callback demo_build demo_fields demo_env demo_env demo_net demo_ctx st1 1 [])).map
        (fun r => (r.1.buf.size, r.1.buf.data.length, r.2.1)) = some (0, 26, none) := by
  decide

/-! ## Gauges across two flush cycles -/

set_option maxRecDepth 100000 in
/-- C33 (gauge drift from clamping). On the engine `stats_create` builds for
the sample topology the gauge `server_connections` of the server is 0 in
`sum`. One decrement flushed by a first swap and aggregate leaves it at 0 (the
sum -1 is clamped), one increment flushed by a second swap and aggregate then
leaves it at 1: the net change of the two updates is zero, the gauge in `sum`
is strictly positive and differs from the clamped net sum, which is 0. -/
theorem gauge_drift :
    (stats_create demo_build demo_env (string_set_text "host") [demo_pool] []).map
        (fun r => r.1)
      = some (some (stats_created demo_build demo_env (string_set_text "host") [demo_pool])) ∧
    (metric_at (stats_created demo_build demo_env (string_set_text "host") [demo_pool]).sum
        (.server 0 0 1)).map (fun m => (m.type, m.value)) = some (STATS_GAUGE, 0) ∧
    ((run_ops demo_build (demo_drift_ops.take 3)
        (stats_created demo_build demo_env (string_set_text "host") [demo_pool])).bind
      (fun st => metric_at st.sum (.server 0 0 1))).map (fun m => m.value) = some 0 ∧
    ((run_ops demo_build demo_drift_ops
        (stats_created demo_build demo_env (string_set_text "host") [demo_pool])).bind
      (fun st => metric_at st.sum (.server 0 0 1))).map (fun m => m.value) = some 1 ∧
    stats_op.described .incr (stats_op.described .decr 0) = 0 ∧
    (1 : Int) ≠ max 0 (stats_op.described .incr (stats_op.described .decr 0)) := by
  decide

/-! ## The dirty flag -/

theorem kinds_valid_congr :
    ∀ (a b : List stats_pool), gen_shape a = gen_shape b → kinds_valid a = kinds_valid b
  | [], [], _ => rfl
  | [], _ :: _, h => by simp [gen_shape] at h
  | _ :: _, [], h => by simp [gen_shape] at h
  | x :: a, y :: b, h => by
    simp only [gen_shape, List.map_cons, List.cons.injEq, Prod.mk.injEq] at h
    have ih := kinds_valid_congr a b h.2
    simp only [kinds_valid] at ih ⊢
    have hsrv : ∀ (l r : List stats_server),
        l.map (fun sts => metric_kinds sts.metric) = r.map (fun sts => metric_kinds sts.metric) →
        l.all (fun sts => metric_valid sts.metric) = r.all (fun sts => metric_valid sts.metric) := by
      intro l
      induction l with
      | nil =>
        intro r hr
        cases r with
        | nil => rfl
        | cons _ _ => simp at hr
      | cons s l ihl =>
        intro r hr
        cases r with
        | nil => simp at hr
        | cons t r =>
          simp only [List.map_cons, List.cons.injEq] at hr
          simp only [List.all_cons, metric_valid_congr _ _ hr.1, ihl r hr.2]
    simp only [List.all_cons, metric_valid_congr _ _ h.1.1, hsrv _ _ h.1.2, ih]

theorem kinds_valid_zero_gen (g : List stats_pool) : kinds_valid (zero_gen g) = kinds_valid g :=
  kinds_valid_congr _ _ (gen_shape_zero_gen g)

theorem kinds_valid_mirror (B : Build) (hvp : metric_valid B.stats_pool_codec = true)
    (hvs : metric_valid B.stats_server_codec = true) (pools : List server_pool) :
    kinds_valid (mirror_gen B pools) = true := by
  simp [kinds_valid, mirror_gen, metric_valid_zero, hvp, hvs]

theorem metric_reset_valid (B : Build) (m r : List stats_metric)
    (h : stats_metric_reset B m = some r) (hv : metric_valid m = true) : r = zero_metric m := by
  unfold stats_metric_reset at h
  split at h
  · simp at h
  · rw [metric_reset_loop_eq B m hv] at h
    simpa using h.symm

theorem server_reset_valid (B : Build) :
    ∀ (l r : List stats_server), stats_server_reset_loop B l = some r →
      l.all (fun sts => metric_valid sts.metric) = true →
      r = l.map (fun sts => { sts with metric := zero_metric sts.metric })
  | [], r, h, _ => by
    simp only [stats_server_reset_loop, Option.some.injEq] at h
    rw [← h]
    rfl
  | sts :: rest, r, h, hv => by
    simp only [List.all_cons, Bool.and_eq_true] at hv
    simp only [stats_server_reset_loop] at h
    cases h1 : stats_metric_reset B sts.metric with
    | none => simp [h1] at h
    | some m =>
      cases h2 : stats_server_reset_loop B rest with
      | none => simp [h1, h2] at h
      | some rest1 =>
        simp only [h1, h2, Option.some.injEq] at h
        rw [← h, metric_reset_valid B _ m h1 hv.1, server_reset_valid B rest rest1 h2 hv.2]
        rfl

/-- A reset that returns leaves every value zero when the kinds are valid. -/
theorem pool_reset_valid (B : Build) :
    ∀ (g r : List stats_pool), stats_pool_reset B g = some r → kinds_valid g = true →
      r = zero_gen g
  | [], r, h, _ => by
    simp only [stats_pool_reset, Option.some.injEq] at h
    rw [← h]
    rfl
  | stp :: rest, r, h, hv => by
    simp only [kinds_valid, List.all_cons, Bool.and_eq_true] at hv
    simp only [stats_pool_reset] at h
    cases h1 : stats_metric_reset B stp.metric with
    | none => simp [h1] at h
    | some m =>
      cases h2 : stats_server_reset_loop B stp.server with
      | none => simp [h1, h2] at h
      | some srv =>
        cases h3 : stats_pool_reset B rest with
        | none => simp [h1, h2, h3] at h
        | some rest1 =>
          simp only [h1, h2, h3, Option.some.injEq] at h
          rw [← h, metric_reset_valid B _ m h1 hv.1.1, server_reset_valid B _ srv h2 hv.1.2,
            pool_reset_valid B rest rest1 h3 (by simpa [kinds_valid] using hv.2)]
          simp [zero_gen]

theorem zero_gen_values (g : List stats_pool) (h : zero_gen g = g) (p : field_pos)
    (m : stats_metric) (hm : metric_at g p = some m) : m.value = 0 := by
  have e := metric_at_zero_gen g p
  rw [h, hm] at e
  simp only [Option.map_some', Option.some.injEq] at e
  rw [e]

theorem pool_entry_dirty (B : Build) (st : stats) (pool : server_pool) (fidx : Nat)
    (k : stats_metric → Bool) (f : stats_metric → stats_metric) (st2 : stats)
    (h : (if st.pause ≠ 0 then some st
          else match stats_pool_to_metric st pool fidx with
            | none => none
            | some (st1, stm) =>
              if assert_fails B (k stm) then none
              else some (stats_pool_store st1 pool fidx (f stm))) = some st2) :
    st2 = st ∨ st2.updated = 1 := by
  split at h
  · simp only [Option.some.injEq] at h
    exact Or.inl h.symm
  · cases hto : stats_pool_to_metric st pool fidx with
    | none => simp [hto] at h
    | some x =>
      rcases x with ⟨st1, stm⟩
      have e := pool_to_metric_some st pool fidx st1 stm hto
      simp only [hto] at h
      split at h
      · simp at h
      · simp only [Option.some.injEq] at h
        right
        rw [← h, pool_store_eq, e]

theorem server_entry_dirty (B : Build) (st : stats) (server : server) (fidx : Nat)
    (k : stats_metric → Bool) (f : stats_metric → stats_metric) (st2 : stats)
    (h : (if st.pause ≠ 0 then some st
          else match stats_server_to_metric st server fidx with
            | none => none
            | some (st1, stm) =>
              if assert_fails B (k stm) then none
              else some (stats_server_store st1 server fidx (f stm))) = some st2) :
    st2 = st ∨ st2.updated = 1 := by
  split at h
  · simp only [Option.some.injEq] at h
    exact Or.inl h.symm
  · cases hto : stats_server_to_metric st server fidx with
    | none => simp [hto] at h
    | some x =>
      rcases x with ⟨st1, stm⟩
      have e := server_to_metric_some st server fidx st1 stm hto
      simp only [hto] at h
      split at h
      · simp at h
      · simp only [Option.some.injEq] at h
        right
        rw [← h, server_store_eq, e]

/-- An entry point either drops the write (paused) or sets `updated`. -/
theorem stats_apply_dirty (B : Build) (op : stats_op) (t : incr_target) (st st2 : stats)
    (h : stats_apply B op t st = some st2) : st2 = st ∨ st2.updated = 1 := by
  cases t with
  | pool p fidx =>
    cases op with
    | incr => exact pool_entry_dirty B st p fidx _ (fun stm => { stm with value := wrap64 (stm.value + 1) }) st2 h
    | decr => exact pool_entry_dirty B st p fidx _ (fun stm => { stm with value := wrap64 (stm.value - 1) }) st2 h
    | incr_by val => exact pool_entry_dirty B st p fidx _ (fun stm => { stm with value := wrap64 (stm.value + val) }) st2 h
    | decr_by val => exact pool_entry_dirty B st p fidx _ (fun stm => { stm with value := wrap64 (stm.value - val) }) st2 h
    | set_ts val => exact pool_entry_dirty B st p fidx _ (fun stm => { stm with value := val }) st2 h
  | server s fidx =>
    cases op with
    | incr => exact server_entry_dirty B st s fidx _ (fun stm => { stm with value := wrap64 (stm.value + 1) }) st2 h
    | decr => exact server_entry_dirty B st s fidx _ (fun stm => { stm with value := wrap64 (stm.value - 1) }) st2 h
    | incr_by val => exact server_entry_dirty B st s fidx _ (fun stm => { stm with value := wrap64 (stm.value + val) }) st2 h
    | decr_by val => exact server_entry_dirty B st s fidx _ (fun stm => { stm with value := wrap64 (stm.value - val) }) st2 h
    | set_ts val => exact server_entry_dirty B st s fidx _ (fun stm => { stm with value := val }) st2 h

theorem seed_servers_dirty (B : Build) (F : Fields) :
    ∀ (l : List server) (st st1 : stats), stats_recreate_seed_servers B F l st = some st1 →
      st.updated = 1 → st1.updated = 1
  | [], st, st1, h, hu => by
    simp only [stats_recreate_seed_servers, Option.some.injEq] at h
    rw [← h]
    exact hu
  | ser :: rest, st, st1, h, _ => by
    simp only [stats_recreate_seed_servers] at h
    cases h1 : _stats_server_incr_by_anyway B st ser F.server_connections
        (count_connected ser.s_conn_q) with
    | none => simp [h1] at h
    | some st0 =>
      simp only [h1] at h
      obtain ⟨cur0, e0, _, _⟩ := anyway_frame B (.server ser F.server_connections) _ st st0 h1
      exact seed_servers_dirty B F rest st0 st1 h (by rw [e0])

/-- The seeding either has nothing to seed or sets `updated`. -/
theorem seed_dirty (B : Build) (F : Fields) :
    ∀ (l : List server_pool) (st st1 : stats), stats_recreate_seed B F l st = some st1 →
      st1 = st ∨ st1.updated = 1
  | [], st, st1, h => by
    simp only [stats_recreate_seed, Option.some.injEq] at h
    exact Or.inl h.symm
  | sp :: rest, st, st1, h => by
    simp only [stats_recreate_seed] at h
    cases h1 : _stats_pool_incr_by_anyway B st sp F.client_connections sp.nc_conn_q with
    | none => simp [h1] at h
    | some st0 =>
      simp only [h1] at h
      cases h2 : stats_recreate_seed_servers B F sp.server st0 with
      | none => simp [h2] at h
      | some st2 =>
        simp only [h2] at h
        obtain ⟨cur0, e0, _, _⟩ := anyway_frame B (.pool sp F.client_connections) _ st st0 h1
        have u2 := seed_servers_dirty B F sp.server st0 st2 h2 (by rw [e0])
        right
        rcases seed_dirty B F rest st2 st1 h with e | e
        · rw [e]
          exact u2
        · exact e

/-- After a successful `stats_recreate`, `updated` is 0 only when nothing was
seeded, and then `current` is the mirror of the topology. -/
theorem recreate_dirty (B : Build) (F : Fields) (env : Env) (st : stats)
    (pools : List server_pool) (a : Alloc) (st1 : stats) (a1 : Alloc)
    (hvp : metric_valid B.stats_pool_codec = true)
    (hvs : metric_valid B.stats_server_codec = true)
    (h : stats_recreate B F env st pools a = some (NC_OK, st1, a1)) :
    st1.updated = 0 → st1.current = mirror_gen B pools := by
  unfold stats_recreate at h
  simp only [pool_unmap_eq] at h
  cases hc : stats_pool_map B pools a with
  | none => simp [hc] at h
  | some x =>
    rcases x with ⟨s1, cur, a2⟩
    cases s1 <;> simp only [hc, Option.some.injEq, Prod.mk.injEq, false_and, reduceCtorEq] at h
    have ecur := pool_map_ok B hvp hvs pools a cur a2 hc
    cases hd : stats_pool_map B pools a2 with
    | none => simp [hd] at h
    | some y =>
      rcases y with ⟨s2, shd, a3⟩
      cases s2 <;> simp only [hd, Option.some.injEq, Prod.mk.injEq, false_and, reduceCtorEq] at h
      cases he : stats_pool_map B pools a3 with
      | none => simp [he] at h
      | some z =>
        rcases z with ⟨s3, sm, a4⟩
        cases s3 <;>
          simp only [he, Option.some.injEq, Prod.mk.injEq, false_and, reduceCtorEq] at h
        split at h
        · simp at h
        · rename_i st2 hseed
          simp only [Option.some.injEq, Prod.mk.injEq, true_and] at h
          intro hu
          rcases seed_dirty B F pools _ st2 hseed with e | e
          · rw [← h.1, e]
            exact ecur
          · rw [← h.1, e] at hu
            exact absurd hu (by decide)

theorem kinds_valid_of_layout (a b : List stats_pool) (h : zero_gen a = zero_gen b) :
    kinds_valid a = kinds_valid b := by
  apply kinds_valid_congr
  rw [← gen_shape_zero_gen a, ← gen_shape_zero_gen b, h]

theorem swap_dirty (B : Build) (st st1 : stats) (h : stats_swap B st = some st1)
    (hi : dirty_flag_ok st) : dirty_flag_ok st1 := by
  unfold stats_swap at h
  split at h
  · simp only [Option.some.injEq] at h
    rw [← h]
    exact hi
  · split at h
    · simp only [Option.some.injEq] at h
      rw [← h]
      exact hi
    · split at h
      · simp only [Option.some.injEq] at h
        rw [← h]
        exact hi
      · split at h
        · simp only [Option.some.injEq] at h
          rw [← h]
          exact hi
        · split at h
          · simp at h
          · rename_i cur hcur
            simp only [Option.some.injEq] at h
            rw [← h]
            obtain ⟨h1, h2, _⟩ := hi
            have e := pool_reset_valid B _ cur hcur h2
            refine ⟨?_, h1, fun _ => ?_⟩
            · show kinds_valid cur = true
              rw [e, kinds_valid_zero_gen]
              exact h2
            · show zero_gen cur = cur
              rw [e, zero_gen_idem]

/-- An operation on the running engine keeps the dirty flag truthful. -/
theorem op_dirty (B : Build) (o : engine_op) (st st1 : stats)
    (h : o.run B st = some st1) (hi : dirty_flag_ok st) : dirty_flag_ok st1 := by
  cases o with
  | apply op t =>
    simp only [engine_op.run] at h
    obtain ⟨cur, u, e⟩ := stats_apply_frame B op t st st1 h
    have hl := stats_apply_layout B op t st st1 h
    have hd := stats_apply_dirty B op t st st1 h
    obtain ⟨h1, h2, h3⟩ := hi
    refine ⟨by rw [kinds_valid_of_layout _ _ hl]; exact h1, by rw [e]; exact h2, fun hu => ?_⟩
    rcases hd with hd | hd
    · rw [hd] at hu ⊢
      exact h3 hu
    · rw [hd] at hu
      exact absurd hu (by decide)
  | anyway t val =>
    simp only [engine_op.run] at h
    obtain ⟨cur, e, hs, _⟩ := anyway_frame B t val st st1 h
    obtain ⟨h1, h2, _⟩ := hi
    rw [e]
    refine ⟨?_, h2, fun hu => absurd hu (by show ¬ ((1 : Int) = 0); decide)⟩
    show kinds_valid cur = true
    rw [kinds_valid_congr _ _ hs]
    exact h1
  | swap =>
    simp only [engine_op.run] at h
    exact swap_dirty B st st1 h hi
  | aggregate =>
    simp only [engine_op.run] at h
    obtain ⟨sm, e⟩ := aggregate_frame B st st1 h
    rw [e]
    exact hi
  | make_rsp env =>
    simp only [engine_op.run] at h
    cases hr : stats_make_rsp B env st with
    | none => simp [hr] at h
    | some x =>
      rcases x with ⟨s, st2⟩
      simp only [hr, Option.map_some', Option.some.injEq] at h
      subst h
      obtain ⟨e, _⟩ := make_rsp_buf_only B env st s st2 hr
      rw [e]
      exact hi

/-- A step of the life of an engine keeps the dirty flag truthful. -/
theorem step_dirty (B : Build) (hvp : metric_valid B.stats_pool_codec = true)
    (hvs : metric_valid B.stats_server_codec = true) (o : life_op) (st st1 : stats)
    (h : o.step B st = some st1) (hi : dirty_flag_ok st) : dirty_flag_ok st1 := by
  cases o with
  | run o =>
    simp only [life_op.step] at h
    exact op_dirty B o st st1 h hi
  | recreate F env pools a =>
    simp only [life_op.step] at h
    cases hr : stats_recreate B F env st pools a with
    | none => simp [hr] at h
    | some x =>
      rcases x with ⟨s, st2, a2⟩
      cases s <;> simp only [hr, Option.some.injEq, reduceCtorEq] at h
      subst h
      obtain ⟨cur, u, e, hs, _⟩ := recreate_ok B F env st pools a st2 a2 hvp hvs hr
      have hd := recreate_dirty B F env st pools a st2 a2 hvp hvs hr
      have hk := kinds_valid_mirror B hvp hvs pools
      refine ⟨?_, ?_, fun hu => ?_⟩
      · rw [e]
        show kinds_valid cur = true
        rw [kinds_valid_congr _ _ hs]
        exact hk
      · rw [e]
        exact hk
      · rw [hd hu]
        exact zero_gen_mirror B pools

theorem run_life_dirty (B : Build) (hvp : metric_valid B.stats_pool_codec = true)
    (hvs : metric_valid B.stats_server_codec = true) :
    ∀ (ops : List life_op) (st st1 : stats), run_life B ops st = some st1 →
      dirty_flag_ok st → dirty_flag_ok st1
  | [], st, st1, h, hi => by
    simp only [run_life, Option.some.injEq] at h
    rw [← h]
    exact hi
  | o :: rest, st, st1, h, hi => by
    simp only [run_life] at h
    cases h1 : o.step B st with
    | none => simp [h1] at h
    | some st2 =>
      simp only [h1] at h
      exact run_life_dirty B hvp hvs rest st2 st1 h (step_dirty B hvp hvs o st st2 h1 hi)

/-- C32 (dirty-flag invariant). In every engine reached from the one
`stats_create` returns by instrumentation entry points (the "anyway" variants
included), `stats_swap`, `stats_aggregate`, `stats_make_rsp` and successful
`stats_recreate`, in any order: when `updated` is 0, every metric value of
`current` is zero, and `stats_swap`, which then returns the engine as it is,
leaves no write behind. The codec tables list valid kinds only. -/
theorem dirty_flag_invariant (B : Build) (hvp : metric_valid B.stats_pool_codec = true)
    (hvs : metric_valid B.stats_server_codec = true) (env : Env) (source : string)
    (server_pool : List server_pool) (a : Alloc) (st0 : stats) (a1 : Alloc)
    (hc : stats_create B env source server_pool a = some (some st0, a1))
    (ops : List life_op) (st : stats) (hrun : run_life B ops st0 = some st)
    (hu : st.updated = 0) :
    (∀ p m, metric_at st.current p = some m → m.value = 0) ∧
    zero_gen st.current = st.current ∧ stats_swap B st = some st := by
  obtain ⟨e1, e2, _⟩ := stats_create_ok B hvp hvs env source server_pool a st0 a1 hc
  have hk := kinds_valid_mirror B hvp hvs server_pool
  have h0 : dirty_flag_ok st0 :=
    ⟨by rw [e1]; exact hk, by rw [e2]; exact hk, fun _ => by rw [e1]; exact zero_gen_mirror B _⟩
  obtain ⟨_, _, h3⟩ := run_life_dirty B hvp hvs ops st0 st hrun h0
  refine ⟨fun p m hm => zero_gen_values _ (h3 hu) p m hm, h3 hu, ?_⟩
  unfold stats_swap
  simp [hu]

set_option maxRecDepth 100000 in
theorem demo_life_created :
    stats_create demo_build demo_env (string_set_text "host") [demo_pool] []
      = some (some (stats_created demo_build demo_env (string_set_text "host") [demo_pool]), [])
    := by
  decide

set_option maxRecDepth 100000 in
theorem demo_life_updated :
    (run_life demo_build demo_life
        (stats_created demo_build demo_env (string_set_text "host") [demo_pool])).map
      (fun st => (st.updated, st.aggregate, st.current)) = some (0, 1, demo_gen 0 0 0 0 0) := by
  decide

/-- Witness of C32: the sample engine after an increment, a swap, an
aggregation, a rebuild over a pool with live connections and a swap. -/
theorem dirty_flag_invariant_witness :
    ∃ st, run_life demo_build demo_life
        (stats_created demo_build demo_env (string_set_text "host") [demo_pool]) = some st ∧
      st.updated = 0 ∧ (∀ p m, metric_at st.current p = some m → m.value = 0) ∧
      zero_gen st.current = st.current ∧ stats_swap demo_build st = some st := by
  have hm := demo_life_updated
  cases hr : run_life demo_build demo_life
      (stats_created demo_build demo_env (string_set_text "host") [demo_pool]) with
  | none => simp [hr] at hm
  | some st =>
    simp only [hr, Option.map_some', Option.some.injEq, Prod.mk.injEq] at hm
    exact ⟨st, rfl, hm.1, dirty_flag_invariant demo_build (by decide) (by decide) demo_env
      (string_set_text "host") [demo_pool] [] _ [] demo_life_created demo_life st hr hm.1⟩

/-! ## Conservation of counters -/

theorem layout_at (g L : List stats_pool) (p : field_pos) (m0 : stats_metric)
    (h : zero_gen g = L) (hm : metric_at L p = some m0) :
    ∃ m, metric_at g p = some m ∧ m.type = m0.type := by
  have e := metric_at_zero_gen g p
  rw [h, hm] at e
  cases hg : metric_at g p with
  | none => simp [hg] at e
  | some m =>
    simp only [hg, Option.map_some', Option.some.injEq] at e
    exact ⟨m, rfl, by rw [e]⟩

theorem val_at_some (g : List stats_pool) (p : field_pos) (m : stats_metric)
    (h : metric_at g p = some m) : val_at g p = m.value := by
  simp [val_at, h]

theorem val_at_put_at (g : List stats_pool) (q p : field_pos) (m mc : stats_metric)
    (h : metric_at g q = some mc) :
    val_at (put_at g q m) p = if q = p then m.value else val_at g p := by
  by_cases e : q = p
  · subst e
    simp [val_at, metric_at_put_at_self g q m mc h]
  · simp [val_at, metric_at_put_at_other g q p m e, e]

theorem val_at_zero_gen (g : List stats_pool) (p : field_pos) : val_at (zero_gen g) p = 0 := by
  unfold val_at
  rw [metric_at_zero_gen]
  cases metric_at g p <;> rfl

theorem val_at_fold (dst src : List stats_pool) (p : field_pos) (m1 m2 : stats_metric)
    (h1 : metric_at src p = some m1) (h2 : metric_at dst p = some m2)
    (hk : m1.type = STATS_COUNTER) :
    val_at (List.zipWith fold_pool dst src) p = wrap64 (m2.value + m1.value) := by
  simp [val_at, metric_at_fold dst src p m1 m2 h1 h2, fold_metric, hk]

theorem pool_to_metric_none (st : stats) (pool : server_pool) (fidx : Nat)
    (hm : metric_at st.current (.pool pool.idx fidx) = none) :
    stats_pool_to_metric st pool fidx = none := by
  cases h : stats_pool_to_metric st pool fidx with
  | none => rfl
  | some x =>
    rcases x with ⟨st1, stm⟩
    rw [pool_to_metric_at st pool fidx st1 stm h] at hm
    cases hm

theorem server_to_metric_none (st : stats) (server : server) (fidx : Nat)
    (hm : metric_at st.current (.server server.owner_idx server.idx fidx) = none) :
    stats_server_to_metric st server fidx = none := by
  cases h : stats_server_to_metric st server fidx with
  | none => rfl
  | some x =>
    rcases x with ⟨st1, stm⟩
    rw [server_to_metric_at st server fidx st1 stm h] at hm
    cases hm

theorem stats_apply_missing (B : Build) (op : stats_op) (t : incr_target) (st : stats)
    (hp : st.pause = 0) (hm : metric_at st.current t.pos = none) :
    stats_apply B op t st = none := by
  cases t with
  | pool p fidx =>
    have h1 := pool_to_metric_none st p fidx hm
    cases op <;>
      simp [stats_apply, _stats_pool_incr, _stats_pool_decr, _stats_pool_incr_by,
        _stats_pool_decr_by, _stats_pool_set_ts, hp, h1]
  | server s fidx =>
    have h1 := server_to_metric_none st s fidx hm
    cases op <;>
      simp [stats_apply, _stats_server_incr, _stats_server_decr, _stats_server_incr_by,
        _stats_server_decr_by, _stats_server_set_ts, hp, h1]

/-- What an entry point that returns on an un-paused engine has done. -/
theorem stats_apply_inv (B : Build) (op : stats_op) (t : incr_target) (st st1 : stats)
    (hp : st.pause = 0) (h : stats_apply B op t st = some st1) :
    ∃ mc, metric_at st.current t.pos = some mc ∧ assert_fails B (op.assertion mc) = false ∧
      st1 = { st with updated := 1, current := put_at st.current t.pos
                                      { mc with value := op.stored mc.value } } := by
  cases hm : metric_at st.current t.pos with
  | none =>
    rw [stats_apply_missing B op t st hp hm] at h
    cases h
  | some mc =>
    cases hk : assert_fails B (op.assertion mc) with
    | true =>
      rw [stats_apply_abort B op t st mc hp hm hk] at h
      cases h
    | false =>
      rw [stats_apply_eq B op t st mc hp hm hk] at h
      simp only [Option.some.injEq] at h
      exact ⟨mc, rfl, hk, h.symm⟩

theorem anyway_inv (B : Build) (t : incr_target) (val : Int) (st st1 : stats)
    (h : stats_incr_by_anyway B t val st = some st1) :
    ∃ mc, metric_at st.current t.pos = some mc ∧
      st1 = { st with updated := 1, current := put_at st.current t.pos
                                      { mc with value := wrap64 (mc.value + val) } } := by
  cases t with
  | pool p fidx =>
    simp only [stats_incr_by_anyway, _stats_pool_incr_by_anyway] at h
    cases hto : stats_pool_to_metric st p fidx with
    | none => simp [hto] at h
    | some x =>
      rcases x with ⟨st0, stm⟩
      have e := pool_to_metric_some st p fidx st0 stm hto
      have hm := pool_to_metric_at st p fidx st0 stm hto
      simp only [hto] at h
      split at h
      · simp at h
      · simp only [Option.some.injEq] at h
        refine ⟨stm, hm, ?_⟩
        rw [← h, pool_store_eq, e]
        rfl
  | server s fidx =>
    simp only [stats_incr_by_anyway, _stats_server_incr_by_anyway] at h
    cases hto : stats_server_to_metric st s fidx with
    | none => simp [hto] at h
    | some x =>
      rcases x with ⟨st0, stm⟩
      have e := server_to_metric_some st s fidx st0 stm hto
      have hm := server_to_metric_at st s fidx st0 stm hto
      simp only [hto] at h
      split at h
      · simp at h
      · simp only [Option.some.injEq] at h
        refine ⟨stm, hm, ?_⟩
        rw [← h, server_store_eq, e]
        rfl

theorem wrap64_small (x : Int) (h : x.natAbs < 2 ^ 63) : wrap64 x = x :=
  wrap64_of_ok (by unfold int64_ok; omega)

theorem conserved_mk (p : field_pos) (A : Int) (N : Nat) (st : stats) (vs vh vc : Int)
    (hp : st.pause = 0) (ha : st.aggregate = 0 ∨ st.aggregate = 1)
    (es : val_at st.sum p = vs) (eh : st.aggregate = 1 → val_at st.shadow p = vh)
    (ec : val_at st.current p = vc)
    (h1 : vs + (if st.aggregate = 1 then vh else 0) + vc = A)
    (h2 : vs.natAbs + (if st.aggregate = 1 then vh.natAbs else 0) + vc.natAbs ≤ N) :
    conserved p A N st := by
  refine ⟨hp, ha, ?_, ?_⟩
  · rw [es, ec]
    by_cases e : st.aggregate = 1
    · rw [if_pos e, eh e]
      rw [if_pos e] at h1
      exact h1
    · rw [if_neg e]
      rw [if_neg e] at h1
      exact h1
  · rw [es, ec]
    by_cases e : st.aggregate = 1
    · rw [if_pos e, eh e]
      rw [if_pos e] at h2
      exact h2
    · rw [if_neg e]
      rw [if_neg e] at h2
      exact h2

/-- One operation keeps the conservation at a counter position, as long as
the amounts added so far cannot overflow. -/
theorem op_conserved (B : Build) (L : List stats_pool) (p : field_pos) (m0 : stats_metric)
    (hkL : kinds_valid L = true) (hp0 : metric_at L p = some m0)
    (hk0 : m0.type = STATS_COUNTER) (o : engine_op) (st st1 : stats) (A : Int) (N : Nat)
    (hL : same_layout L st) (huse : B.assert_panic = true ∨ o.counter_use p = true)
    (hN : N + (o.added p).natAbs < 2 ^ 63)
    (hi : conserved p A N st) (h : o.run B st = some st1) :
    conserved p (A + o.added p) (N + (o.added p).natAbs) st1 := by
  obtain ⟨hc, hs, hm⟩ := hL
  obtain ⟨hpz, hagg, hsum, hbnd⟩ := hi
  obtain ⟨mc, gmc, tmc⟩ := layout_at st.current L p m0 hc hp0
  obtain ⟨mh, gmh, tmh⟩ := layout_at st.shadow L p m0 hs hp0
  obtain ⟨ms, gms, tms⟩ := layout_at st.sum L p m0 hm hp0
  have vc := val_at_some _ _ _ gmc
  have vh := val_at_some _ _ _ gmh
  have vs := val_at_some _ _ _ gms
  rw [vc, vh, vs] at hsum hbnd
  cases o with
  | apply op t =>
    simp only [engine_op.run] at h
    obtain ⟨mt, gmt, hk, e⟩ := stats_apply_inv B op t st st1 hpz h
    rw [e]
    by_cases ep : t.pos = p
    · have emt : mt = mc := by
        rw [ep, gmc] at gmt
        exact (Option.some.inj gmt).symm
      subst emt
      have tk : mt.type = STATS_COUNTER := by rw [tmc]; exact hk0
      cases op with
      | incr =>
        have ea : (engine_op.apply .incr t).added p = 1 := by simp [engine_op.added, ep]
        rw [ea] at hN ⊢
        refine conserved_mk p _ _ _ ms.value mh.value (mt.value + 1) hpz hagg vs (fun _ => vh)
          ?_ ?_ ?_
        · show val_at (put_at st.current t.pos _) p = _
          rw [val_at_put_at _ _ _ _ _ gmt, if_pos ep]
          show stats_op.stored .incr mt.value = _
          simp only [stats_op.stored]
          apply wrap64_small
          split at hbnd <;> omega
        · show ms.value + (if st.aggregate = 1 then mh.value else 0) + (mt.value + 1) = A + 1
          omega
        · show ms.value.natAbs + (if st.aggregate = 1 then mh.value.natAbs else 0)
            + (mt.value + 1).natAbs ≤ N + (1 : Int).natAbs
          split at hbnd <;> simp only [*, if_true, if_false] <;> omega
      | incr_by val =>
        have ea : (engine_op.apply (.incr_by val) t).added p = val := by
          simp [engine_op.added, ep]
        rw [ea] at hN ⊢
        refine conserved_mk p _ _ _ ms.value mh.value (mt.value + val) hpz hagg vs (fun _ => vh)
          ?_ ?_ ?_
        · show val_at (put_at st.current t.pos _) p = _
          rw [val_at_put_at _ _ _ _ _ gmt, if_pos ep]
          show stats_op.stored (.incr_by val) mt.value = _
          simp only [stats_op.stored]
          apply wrap64_small
          split at hbnd <;> omega
        · show ms.value + (if st.aggregate = 1 then mh.value else 0) + (mt.value + val) = A + val
          omega
        · show ms.value.natAbs + (if st.aggregate = 1 then mh.value.natAbs else 0)
            + (mt.value + val).natAbs ≤ N + val.natAbs
          split at hbnd <;> simp only [*, if_true, if_false] <;> omega
      | decr =>
        exfalso
        simp only [stats_op.assertion, tk, assert_fails] at hk
        rcases huse with hu | hu
        · simp [hu] at hk
        · simp [engine_op.counter_use, ep] at hu
      | decr_by val =>
        exfalso
        simp only [stats_op.assertion, tk, assert_fails] at hk
        rcases huse with hu | hu
        · simp [hu] at hk
        · simp [engine_op.counter_use, ep] at hu
      | set_ts val =>
        exfalso
        simp only [stats_op.assertion, tk, assert_fails] at hk
        rcases huse with hu | hu
        · simp [hu] at hk
        · simp [engine_op.counter_use, ep] at hu
    · have ea : (engine_op.apply op t).added p = 0 := by
        cases op <;> simp [engine_op.added, ep]
      rw [ea]
      refine conserved_mk p _ _ _ ms.value mh.value mc.value hpz hagg vs (fun _ => vh) ?_ ?_ ?_
      · show val_at (put_at st.current t.pos _) p = _
        rw [val_at_put_at _ _ _ _ _ gmt, if_neg ep]
        exact vc
      · simpa using hsum
      · simpa using hbnd
  | anyway t val =>
    simp only [engine_op.run] at h
    obtain ⟨mt, gmt, e⟩ := anyway_inv B t val st st1 h
    rw [e]
    by_cases ep : t.pos = p
    · have emt : mt = mc := by
        rw [ep, gmc] at gmt
        exact (Option.some.inj gmt).symm
      subst emt
      have ea : (engine_op.anyway t val).added p = val := by simp [engine_op.added, ep]
      rw [ea] at hN ⊢
      refine conserved_mk p _ _ _ ms.value mh.value (mt.value + val) hpz hagg vs (fun _ => vh)
        ?_ ?_ ?_
      · show val_at (put_at st.current t.pos _) p = _
        rw [val_at_put_at _ _ _ _ _ gmt, if_pos ep]
        show wrap64 (mt.value + val) = _
        apply wrap64_small
        split at hbnd <;> omega
      · show ms.value + (if st.aggregate = 1 then mh.value else 0) + (mt.value + val) = A + val
        omega
      · show ms.value.natAbs + (if st.aggregate = 1 then mh.value.natAbs else 0)
          + (mt.value + val).natAbs ≤ N + val.natAbs
        split at hbnd <;> simp only [*, if_true, if_false] <;> omega
    · have ea : (engine_op.anyway t val).added p = 0 := by simp [engine_op.added, ep]
      rw [ea]
      refine conserved_mk p _ _ _ ms.value mh.value mc.value hpz hagg vs (fun _ => vh) ?_ ?_ ?_
      · show val_at (put_at st.current t.pos _) p = _
        rw [val_at_put_at _ _ _ _ _ gmt, if_neg ep]
        exact vc
      · simpa using hsum
      · simpa using hbnd
  | swap =>
    simp only [engine_op.run] at h
    have ea : (engine_op.swap).added p = 0 := rfl
    rw [ea]
    have keep : conserved p (A + 0) (N + (0 : Int).natAbs) st :=
      conserved_mk p _ _ _ ms.value mh.value mc.value hpz hagg vs (fun _ => vh) vc
        (by simpa using hsum) (by simpa using hbnd)
    unfold stats_swap at h
    split at h
    · simp only [Option.some.injEq] at h
      rw [← h]
      exact keep
    · split at h
      · simp only [Option.some.injEq] at h
        rw [← h]
        exact keep
      · split at h
        · simp only [Option.some.injEq] at h
          rw [← h]
          exact keep
        · rename_i hbusy
          split at h
          · simp only [Option.some.injEq] at h
            rw [← h]
            exact keep
          · split at h
            · simp at h
            · rename_i cur hcur
              simp only [Option.some.injEq] at h
              rw [← h]
              have kvs : kinds_valid st.shadow = true := by
                rw [← kinds_valid_zero_gen, hs]
                exact hkL
              have e := pool_reset_valid B _ cur hcur kvs
              have h0 : st.aggregate = 0 := by
                rcases hagg with x | x
                · exact x
                · exact absurd x hbusy
              rw [if_neg hbusy] at hsum hbnd
              refine conserved_mk p _ _ _ ms.value mc.value 0 hpz (Or.inr rfl) vs (fun _ => vc)
                ?_ ?_ ?_
              · show val_at cur p = 0
                rw [e]
                exact val_at_zero_gen _ _
              · show ms.value + (if (1 : Int) = 1 then mc.value else 0) + 0 = A + 0
                simp only [if_true]
                omega
              · show ms.value.natAbs + (if (1 : Int) = 1 then mc.value.natAbs else 0)
                  + (0 : Int).natAbs ≤ N + (0 : Int).natAbs
                simp only [if_true]
                omega
  | aggregate =>
    simp only [engine_op.run] at h
    have ea : (engine_op.aggregate).added p = 0 := rfl
    rw [ea]
    by_cases hz : st.aggregate = 0
    · simp only [stats_aggregate, hz, if_true, Option.some.injEq] at h
      rw [← h]
      exact conserved_mk p _ _ _ ms.value mh.value mc.value hpz hagg vs (fun _ => vh) vc
        (by simpa using hsum) (by simpa using hbnd)
    · have h1 : st.aggregate = 1 := by
        rcases hagg with x | x
        · exact absurd x hz
        · exact x
      have hshape : gen_shape st.sum = gen_shape st.shadow := by
        rw [← gen_shape_zero_gen st.sum, ← gen_shape_zero_gen st.shadow, hm, hs]
      have kvs : kinds_valid st.shadow = true := by
        rw [← kinds_valid_zero_gen, hs]
        exact hkL
      rw [stats_aggregate_eq B st hz hshape kvs] at h
      simp only [Option.some.injEq] at h
      rw [← h]
      rw [if_pos h1] at hsum hbnd
      have tk : mh.type = STATS_COUNTER := by rw [tmh]; exact hk0
      refine conserved_mk p _ _ _ (ms.value + mh.value) 0 mc.value hpz (Or.inl rfl) ?_
        (fun x => absurd x (by show ¬ ((0 : Int) = 1); decide)) vc ?_ ?_
      · show val_at (List.zipWith fold_pool st.sum st.shadow) p = _
        rw [val_at_fold _ _ p mh ms gmh gms tk]
        apply wrap64_small
        omega
      · show ms.value + mh.value + (if (0 : Int) = 1 then (0 : Int) else 0) + mc.value = A + 0
        simp only [if_false, show ¬ ((0 : Int) = 1) by decide]
        omega
      · show (ms.value + mh.value).natAbs + (if (0 : Int) = 1 then (0 : Int).natAbs else 0)
          + mc.value.natAbs ≤ N + (0 : Int).natAbs
        simp only [if_false, show ¬ ((0 : Int) = 1) by decide]
        omega
  | make_rsp env =>
    simp only [engine_op.run] at h
    have ea : (engine_op.make_rsp env).added p = 0 := rfl
    rw [ea]
    cases hr : stats_make_rsp B env st with
    | none => simp [hr] at h
    | some x =>
      rcases x with ⟨s, st2⟩
      simp only [hr, Option.map_some', Option.some.injEq] at h
      subst h
      obtain ⟨e, _⟩ := make_rsp_buf_only B env st s st2 hr
      rw [e]
      exact conserved_mk p _ _ _ ms.value mh.value mc.value hpz hagg vs (fun _ => vh) vc
        (by simpa using hsum) (by simpa using hbnd)

theorem run_ops_conserved (B : Build) (L : List stats_pool) (p : field_pos) (m0 : stats_metric)
    (hkL : kinds_valid L = true) (hp0 : metric_at L p = some m0)
    (hk0 : m0.type = STATS_COUNTER) :
    ∀ (ops : List engine_op) (st st1 : stats) (A : Int) (N : Nat),
      run_ops B ops st = some st1 → same_layout L st →
      (B.assert_panic = true ∨ ops.all (engine_op.counter_use p) = true) →
      N + total_weight p ops < 2 ^ 63 → conserved p A N st →
      conserved p (A + total_added p ops) (N + total_weight p ops) st1
  | [], st, st1, A, N, h, _, _, _, hi => by
    simp only [run_ops, Option.some.injEq] at h
    rw [← h]
    simpa [total_added, total_weight] using hi
  | o :: rest, st, st1, A, N, h, hL, huse, hN, hi => by
    simp only [run_ops] at h
    cases h1 : o.run B st with
    | none => simp [h1] at h
    | some st2 =>
      simp only [h1] at h
      have ew : total_weight p (o :: rest) = (o.added p).natAbs + total_weight p rest := by
        simp [total_weight]
      have et : total_added p (o :: rest) = o.added p + total_added p rest := by
        simp [total_added]
      have huse1 : B.assert_panic = true ∨ o.counter_use p = true := by
        rcases huse with x | x
        · exact Or.inl x
        · simp only [List.all_cons, Bool.and_eq_true] at x
          exact Or.inr x.1
      have huse2 : B.assert_panic = true ∨ rest.all (engine_op.counter_use p) = true := by
        rcases huse with x | x
        · exact Or.inl x
        · simp only [List.all_cons, Bool.and_eq_true] at x
          exact Or.inr x.2
      have s1 := op_conserved B L p m0 hkL hp0 hk0 o st st2 A N hL huse1 (by omega) hi h1
      have s2 := run_ops_conserved B L p m0 hkL hp0 hk0 rest st2 st1 _ _ h
        (op_layout B L o st st2 h1 hL) huse2 (by omega) s1
      rw [et, ew, ← add_assoc, ← Nat.add_assoc]
      exact s2

theorem create_buf_flags (B : Build) (st : stats) (a : Alloc) (r : rstatus_t × stats × Alloc)
    (h : stats_create_buf B st a = some r) : r.2.1.aggregate = st.aggregate := by
  unfold stats_create_buf at h
  split at h
  · simp at h
  · rcases hb : alloc_next a with ⟨b, a1⟩
    simp only [hb] at h
    cases b
    · simp only [Option.some.injEq] at h
      subst h
      rfl
    · simp only [Option.some.injEq] at h
      subst h
      rfl

/-- The engine `stats_create` returns is running and waits for no
aggregation. -/
theorem stats_create_flags (B : Build) (env : Env) (source : string)
    (l : List server_pool) (a : Alloc) (st : stats) (a1 : Alloc)
    (h : stats_create B env source l a = some (some st, a1)) :
    st.pause = 0 ∧ st.aggregate = 0 := by
  unfold stats_create at h
  rcases hh : alloc_next a with ⟨b, a0⟩
  rw [hh] at h
  cases b
  · simp at h
  simp only at h
  cases h1 : stats_pool_map B l a0 with
  | none => simp [h1] at h
  | some x1 =>
    rcases x1 with ⟨s1, cur, a2⟩
    cases s1 <;> simp only [h1] at h <;> try (simp at h)
    cases h2 : stats_pool_map B l a2 with
    | none => simp [h2] at h
    | some x2 =>
      rcases x2 with ⟨s2, shd, a3⟩
      cases s2 <;> simp only [h2] at h <;> try (simp at h)
      cases h3 : stats_pool_map B l a3 with
      | none => simp [h3] at h
      | some x3 =>
        rcases x3 with ⟨s3, sm, a4⟩
        cases s3 <;> simp only [h3] at h <;> try (simp at h)
        cases hcb : stats_create_buf B
            { stats_create_init B env source with current := cur, shadow := shd, sum := sm }
            a4 with
        | none => simp [hcb] at h
        | some x4 =>
          rcases x4 with ⟨s4, st1, a5⟩
          have g := create_buf_flags B _ a4 _ hcb
          simp only at g
          cases s4 <;> simp only [hcb] at h <;> try (simp at h)
          by_cases hagg : stats_start_aggregator B env = NC_OK
          · simp only [hagg, if_true, Option.some.injEq, Prod.mk.injEq] at h
            rw [← h.1]
            exact ⟨rfl, g⟩
          · simp [hagg] at h

/-- C31 (counter conservation). Take the engine `stats_create` returns and
any sequence of instrumentation entry points (the "anyway" variants
included), `stats_swap`, `stats_aggregate` and `stats_make_rsp` after which
the engine is there, and a position `p` that holds a counter. Let the amounts
added to `p` not overflow (their magnitudes sum to less than 2^63) and let `p`
be used as a counter (failed assertions stop the process, or no decrement
and no timestamp store is aimed at `p`). Then the value at `p` in `sum`, plus
the one in `shadow` when `aggregate` is 1, plus the one in `current` is the
total amount added to `p`; and while `aggregate` is 1 a `stats_swap` returns
the engine unchanged, so a swap skipped because the aggregator is busy loses
nothing. -/
theorem counter_conservation (B : Build) (hvp : metric_valid B.stats_pool_codec = true)
    (hvs : metric_valid B.stats_server_codec = true) (env : Env) (source : string)
    (server_pool : List server_pool) (a : Alloc) (st0 : stats) (a1 : Alloc)
    (hc : stats_create B env source server_pool a = some (some st0, a1))
    (ops : List engine_op) (st : stats) (hrun : run_ops B ops st0 = some st)
    (p : field_pos) (m0 : stats_metric) (hp : metric_at st0.sum p = some m0)
    (hk : m0.type = STATS_COUNTER)
    (huse : B.assert_panic = true ∨ ops.all (engine_op.counter_use p) = true)
    (hno : total_weight p ops < 2 ^ 63) :
    (∃ ms mh mc, metric_at st.sum p = some ms ∧ metric_at st.shadow p = some mh ∧
      metric_at st.current p = some mc ∧
      ms.value + (if st.aggregate = 1 then mh.value else 0) + mc.value = total_added p ops) ∧
    (st.aggregate = 1 → stats_swap B st = some st) := by
  obtain ⟨e1, e2, e3⟩ := stats_create_ok B hvp hvs env source server_pool a st0 a1 hc
  obtain ⟨f1, f2⟩ := stats_create_flags B env source server_pool a st0 a1 hc
  have hkL := kinds_valid_mirror B hvp hvs server_pool
  have hL0 : same_layout (mirror_gen B server_pool) st0 :=
    ⟨by rw [e1]; exact zero_gen_mirror B _, by rw [e2]; exact zero_gen_mirror B _,
     by rw [e3]; exact zero_gen_mirror B _⟩
  rw [e3] at hp
  have z : ∀ g : List stats_pool, g = mirror_gen B server_pool → val_at g p = 0 := by
    intro g hg
    rw [hg, ← zero_gen_mirror B server_pool]
    exact val_at_zero_gen _ _
  have h0 : conserved p 0 0 st0 := by
    refine conserved_mk p _ _ _ 0 0 0 f1 (Or.inl f2) (z _ e3) (fun _ => z _ e2) (z _ e1) ?_ ?_
    · simp
    · simp
  have hi := run_ops_conserved B _ p m0 hkL hp hk ops st0 st 0 0 hrun hL0 huse (by omega) h0
  have hL := run_ops_layout B _ ops st0 st hrun hL0
  obtain ⟨hc1, hs1, hm1⟩ := hL
  obtain ⟨mc, gmc, _⟩ := layout_at st.current _ p m0 hc1 hp
  obtain ⟨mh, gmh, _⟩ := layout_at st.shadow _ p m0 hs1 hp
  obtain ⟨ms, gms, _⟩ := layout_at st.sum _ p m0 hm1 hp
  obtain ⟨_, _, hsum, _⟩ := hi
  rw [val_at_some _ _ _ gmc, val_at_some _ _ _ gmh, val_at_some _ _ _ gms] at hsum
  refine ⟨⟨ms, mh, mc, gms, gmh, gmc, by simpa using hsum⟩, fun ha => ?_⟩
  unfold stats_swap
  simp [ha]

set_option maxRecDepth 100000 in
theorem demo_counter_run :
    (run_ops demo_build demo_counter_ops
        (stats_created demo_build demo_env (string_set_text "host") [demo_pool])).map
      (fun st => (st.aggregate, val_at st.sum (.pool 0 0), val_at st.shadow (.pool 0 0),
                  val_at st.current (.pool 0 0))) = some (0, 2, 2, 6) := by
  decide

/-- Witness of C31: on the sample engine the counter `client_eof` is
incremented twice, swapped, incremented, a swap is skipped as the aggregator is
busy, the shadow is aggregated and 5 is added: 2 in `sum` and 6 in `current`
make the 8 that were added. -/
theorem counter_conservation_witness :
    total_added (.pool 0 0) demo_counter_ops = 8 ∧
    ∃ st, run_ops demo_build demo_counter_ops
        (stats_created demo_build demo_env (string_set_text "host") [demo_pool]) = some st ∧
      (∃ ms mh mc, metric_at st.sum (.pool 0 0) = some ms ∧
        metric_at st.shadow (.pool 0 0) = some mh ∧ metric_at st.current (.pool 0 0) = some mc ∧
        ms.value + (if st.aggregate = 1 then mh.value else 0) + mc.value
          = total_added (.pool 0 0) demo_counter_ops) ∧
      (st.aggregate = 1 → stats_swap demo_build st = some st) := by
  refine ⟨by decide, ?_⟩
  have hm := demo_counter_run
  cases hr : run_ops demo_build demo_counter_ops
      (stats_created demo_build demo_env (string_set_text "host") [demo_pool]) with
  | none => simp [hr] at hm
  | some st =>
    exact ⟨st, rfl, counter_conservation demo_build (by decide) (by decide) demo_env
      (string_set_text "host") [demo_pool] [] _ [] demo_life_created demo_counter_ops st hr
      (.pool 0 0) ⟨STATS_COUNTER, string_set_text "client_eof", 0⟩ (by decide) rfl
      (Or.inl rfl) (by decide)⟩

end NcStats
